import Mathlib

/-! WeAct Display FS driver: shallow embedding of `weact_display.c` and `weactterm.c`

The display handle of `weact_display.h` becomes the record `weact_display_t`; every
library function becomes a function from handle to handle.  Conventions:

* a C `int` is a Lean `Int`; the result of each arithmetic operation is reduced to the
  32-bit two's-complement range by `wrap32`;
* `uint8_t` / `uint16_t` values are `Nat`; a store into a byte cell reduces modulo 256;
* a heap buffer is a `List Nat` of byte values, a NULL pointer is `none`;
* the value returned by each `write(2)` call is an argument of the function that issues it,
  and the function reports the byte blocks it handed to `write`;
* the `usleep` delays have no effect on the state and are left out;
* a loop whose counter can wrap takes a `fuel : Nat` and returns `none` when it runs out.
-/

namespace WeAct

/-! ## Machine arithmetic -/

/-- Reduction of an integer to the range of a 32-bit C `int`. -/
def wrap32 (v : Int) : Int := (v + 2147483648) % 4294967296 - 2147483648

/-- Conversion of an `int` or `ssize_t` to `size_t` (64-bit). -/
def to_size_t (v : Int) : Nat := (v % 18446744073709551616).toNat

/-- C library `abs` on `int`. -/
def c_abs (v : Int) : Int := wrap32 (if v < 0 then -v else v)

/-- Values taken by an `int` counter in `for (v = lo; v < hi; v++)`; the counter stays below
`hi`, so its increment never wraps. -/
def int_range (lo hi : Int) : List Int :=
  (List.range (hi - lo).toNat).map (fun (i : Nat) => lo + (i : Int))

/-! ## Constants of `weact_display.h` -/

def WEACT_DISPLAY_WIDTH : Int := 160
def WEACT_DISPLAY_HEIGHT : Int := 80
def WEACT_MAX_BUFFER_SIZE : Nat := 160 * 80 * 2

def WEACT_PORTRAIT : Nat := 0
def WEACT_REVERSE_PORTRAIT : Nat := 1
def WEACT_LANDSCAPE : Nat := 2
def WEACT_REVERSE_LANDSCAPE : Nat := 3
def WEACT_ROTATE : Nat := 5

/-! ## The display handle -/

/-- Contents of the `last_error` text field, one constructor per format string. -/
inductive error_text
  | empty
  | not_connected
  | write_error
  | incomplete_write (written : Int) (length : Nat)
  | image_error
  | incomplete_image (written : Int) (length : Nat)
  | invalid_orientation
  | open_failed
  | tcgetattr_failed
  | tcsetattr_failed
  | alloc_failed
  deriving DecidableEq, Repr

/-- The struct `weact_display_t` (the `port_name` text is not modelled). -/
structure weact_display_t where
  fd : Int
  is_connected : Bool
  orientation : Nat
  brightness : Nat
  display_width : Int
  display_height : Int
  frame_buffer : Option (List Nat)
  back_buffer : Option (List Nat)
  last_error : error_text
  deriving DecidableEq, Repr

/-- What a transport operation yields: its `bool` result, the handle afterwards and the
byte blocks passed to `write`, in call order. -/
structure io_result where
  ok : Bool
  display : weact_display_t
  writes : List (List Nat)
  deriving DecidableEq, Repr

/-- Assignment `buf[off] = v` of a byte cell.  A store outside the allocation is undefined
in C; the model leaves the buffer as it is there. -/
def store (buf : List Nat) (off : Int) (v : Nat) : List Nat :=
  if 0 ≤ off then buf.set off.toNat (v % 256) else buf

/-- Library `memset(buf, v, n)` on an allocation of at least `n` bytes. -/
def memset (buf : List Nat) (v : Nat) (n : Nat) : List Nat :=
  List.replicate n (v % 256) ++ buf.drop n

/-! ## `send_command` and colour conversion -/

/-- The helper `send_command`; `written` is what `write` returns if it is called. -/
def send_command (display : weact_display_t) (data : List Nat) (length : Nat)
    (written : Int) : io_result :=
  if !display.is_connected then
    ⟨false, { display with last_error := error_text.not_connected }, []⟩
  else if written < 0 then
    ⟨false, { display with last_error := error_text.write_error }, [data.take length]⟩
  else if to_size_t written ≠ length then
    ⟨false, { display with last_error := error_text.incomplete_write written length },
      [data.take length]⟩
  else
    ⟨true, display, [data.take length]⟩

/-- The function `weact_rgb_to_brg565` on `uint8_t` arguments. -/
def weact_rgb_to_brg565 (r g b : Nat) : Nat :=
  let r5 := ((r >>> 3) &&& 0x1F) % 256
  let g6 := ((g >>> 2) &&& 0x3F) % 256
  let b5 := ((b >>> 3) &&& 0x1F) % 256
  (((b5 <<< 11) ||| (r5 <<< 6)) ||| g6) % 65536

/-! ## Buffer operations -/

/-- One round of the loop of `weact_clear_buffer`. -/
def clear_step (color_l color_h : Nat) (buf : List Nat) (i : Int) : List Nat :=
  store (store buf (wrap32 (i * 2)) color_l) (wrap32 (wrap32 (i * 2) + 1)) color_h

/-- The function `weact_clear_buffer`. -/
def weact_clear_buffer (display : weact_display_t) (color : Nat) : weact_display_t :=
  match display.back_buffer with
  | none => display
  | some buf =>
    let color_l := (color >>> 8) % 256
    let color_h := (color &&& 0xFF) % 256
    let pixel_count := wrap32 (display.display_width * display.display_height)
    { display with
      back_buffer := some ((int_range 0 pixel_count).foldl (clear_step color_l color_h) buf) }

/-- The function `weact_swap_buffers`. -/
def weact_swap_buffers (display : weact_display_t) : weact_display_t :=
  { display with frame_buffer := display.back_buffer, back_buffer := display.frame_buffer }

/-- The ten bytes of the SET_BITMAP command built by `weact_flush_buffer`. -/
def flush_cmd (display : weact_display_t) : List Nat :=
  let x_end := wrap32 (display.display_width - 1)
  let y_end := wrap32 (display.display_height - 1)
  [0x05, 0, 0, 0, 0,
    (x_end % 256).toNat, ((x_end / 256) % 256).toNat,
    (y_end % 256).toNat, ((y_end / 256) % 256).toNat, 0x0A]

/-- The function `weact_flush_buffer`; `written1` is the result of the command write and
`written2` of the image write. -/
def weact_flush_buffer (display : weact_display_t) (written1 written2 : Int) : io_result :=
  match display.back_buffer with
  | none => ⟨false, display, []⟩
  | some buf =>
    if !display.is_connected then ⟨false, display, []⟩
    else
      let r := send_command display (flush_cmd display) 10 written1
      if !r.ok then ⟨false, r.display, r.writes⟩
      else
        let bytes_to_send :=
          to_size_t (wrap32 (wrap32 (display.display_width * display.display_height) * 2))
        let ws := r.writes ++ [buf.take bytes_to_send]
        if written2 < 0 then
          ⟨false, { r.display with last_error := error_text.image_error }, ws⟩
        else if to_size_t written2 ≠ bytes_to_send then
          ⟨false, { r.display with
            last_error := error_text.incomplete_image written2 bytes_to_send }, ws⟩
        else ⟨true, r.display, ws⟩

/-- The function `weact_update_display`. -/
def weact_update_display (display : weact_display_t) (written1 written2 : Int) : io_result :=
  let r := weact_flush_buffer display written1 written2
  if r.ok then ⟨true, weact_swap_buffers r.display, r.writes⟩
  else ⟨false, r.display, r.writes⟩

/-! ## Drawing -/

/-- The function `weact_draw_pixel`. -/
def weact_draw_pixel (display : weact_display_t) (x y : Int) (color : Nat) : weact_display_t :=
  match display.back_buffer with
  | none => display
  | some buf =>
    if x < 0 ∨ x ≥ display.display_width ∨ y < 0 ∨ y ≥ display.display_height then display
    else
      let offset := wrap32 (wrap32 (wrap32 (y * display.display_width) + x) * 2)
      { display with
        back_buffer := some
          (store (store buf offset (color >>> 8)) (wrap32 (offset + 1)) (color &&& 0xFF)) }

/-- The loop of `weact_draw_line`, started at `(x1, y1)` with error term `err`. -/
def draw_line_loop (dx dy sx sy x2 y2 : Int) (color : Nat) :
    Nat → weact_display_t → Int → Int → Int → Option weact_display_t
  | 0, _, _, _, _ => none
  | fuel + 1, display, x1, y1, err =>
    let display := weact_draw_pixel display x1 y1 color
    if x1 = x2 ∧ y1 = y2 then some display
    else
      let e2 := wrap32 (err * 2)
      let err1 := if e2 > wrap32 (-dy) then wrap32 (err - dy) else err
      let x1 := if e2 > wrap32 (-dy) then wrap32 (x1 + sx) else x1
      let err2 := if e2 < dx then wrap32 (err1 + dx) else err1
      let y1 := if e2 < dx then wrap32 (y1 + sy) else y1
      draw_line_loop dx dy sx sy x2 y2 color fuel display x1 y1 err2

/-- The function `weact_draw_line`. -/
def weact_draw_line (fuel : Nat) (display : weact_display_t) (x1 y1 x2 y2 : Int)
    (color : Nat) : Option weact_display_t :=
  let dx := c_abs (wrap32 (x2 - x1))
  let dy := c_abs (wrap32 (y2 - y1))
  let sx : Int := if x1 < x2 then 1 else -1
  let sy : Int := if y1 < y2 then 1 else -1
  let err := wrap32 (dx - dy)
  draw_line_loop dx dy sx sy x2 y2 color fuel display x1 y1 err

/-- The control skeleton of the loop of `weact_draw_line`: the points handed to
`weact_draw_pixel`, in call order. -/
def draw_line_points (dx dy sx sy x2 y2 : Int) : Nat → Int → Int → Int → Option (List (Int × Int))
  | 0, _, _, _ => none
  | fuel + 1, x1, y1, err =>
    if x1 = x2 ∧ y1 = y2 then some [(x1, y1)]
    else
      let e2 := wrap32 (err * 2)
      let err1 := if e2 > wrap32 (-dy) then wrap32 (err - dy) else err
      let nx := if e2 > wrap32 (-dy) then wrap32 (x1 + sx) else x1
      let err2 := if e2 < dx then wrap32 (err1 + dx) else err1
      let ny := if e2 < dx then wrap32 (y1 + sy) else y1
      (draw_line_points dx dy sx sy x2 y2 fuel nx ny err2).map (fun ps => (x1, y1) :: ps)

/-- The filled branch of `weact_draw_rect`. -/
def draw_rect_filled (display : weact_display_t) (x y width height : Int) (color : Nat) :
    weact_display_t :=
  (int_range y (wrap32 (y + height))).foldl
    (fun d yy =>
      if yy ≥ 0 ∧ yy < d.display_height then
        (int_range x (wrap32 (x + width))).foldl
          (fun d xx =>
            if xx ≥ 0 ∧ xx < d.display_width then weact_draw_pixel d xx yy color else d) d
      else d) display

/-- The outline branch of `weact_draw_rect`. -/
def draw_rect_outline (display : weact_display_t) (x y width height : Int) (color : Nat) :
    weact_display_t :=
  let d1 := (int_range x (wrap32 (x + width))).foldl
    (fun d xx =>
      weact_draw_pixel (weact_draw_pixel d xx y color) xx (wrap32 (wrap32 (y + height) - 1)) color)
    display
  (int_range y (wrap32 (y + height))).foldl
    (fun d yy =>
      weact_draw_pixel (weact_draw_pixel d x yy color) (wrap32 (wrap32 (x + width) - 1)) yy color)
    d1

/-- The function `weact_draw_rect`. -/
def weact_draw_rect (display : weact_display_t) (x y width height : Int) (color : Nat)
    (filled : Bool) : weact_display_t :=
  if filled then draw_rect_filled display x y width height color
  else draw_rect_outline display x y width height color

/-- The test `x * x + y * y <= radius * radius` of the filled circle, in `int` arithmetic. -/
def in_disc (radius x y : Int) : Bool :=
  decide (wrap32 (wrap32 (x * x) + wrap32 (y * y)) ≤ wrap32 (radius * radius))

/-- Inner loop of the filled branch of `weact_draw_circle`: row `y`, counter at `x`. -/
def circle_row (cx cy radius : Int) (color : Nat) (y : Int) :
    Nat → weact_display_t → Int → Option weact_display_t
  | 0, _, _ => none
  | fuel + 1, display, x =>
    if x ≤ radius then
      let display :=
        if in_disc radius x y then
          weact_draw_pixel display (wrap32 (cx + x)) (wrap32 (cy + y)) color
        else display
      circle_row cx cy radius color y fuel display (wrap32 (x + 1))
    else some display

/-- Outer loop of the filled branch of `weact_draw_circle`, counter at `y`. -/
def circle_rows (cx cy radius : Int) (color : Nat) :
    Nat → weact_display_t → Int → Option weact_display_t
  | 0, _, _ => none
  | fuel + 1, display, y =>
    if y ≤ radius then
      match circle_row cx cy radius color y fuel display (wrap32 (-radius)) with
      | none => none
      | some display => circle_rows cx cy radius color fuel display (wrap32 (y + 1))
    else some display

/-- The eight symmetric writes of one round of the outline circle. -/
def circle_octants (display : weact_display_t) (cx cy x y : Int) (color : Nat) :
    weact_display_t :=
  let d := weact_draw_pixel display (wrap32 (cx + x)) (wrap32 (cy + y)) color
  let d := weact_draw_pixel d (wrap32 (cx - x)) (wrap32 (cy + y)) color
  let d := weact_draw_pixel d (wrap32 (cx + x)) (wrap32 (cy - y)) color
  let d := weact_draw_pixel d (wrap32 (cx - x)) (wrap32 (cy - y)) color
  let d := weact_draw_pixel d (wrap32 (cx + y)) (wrap32 (cy + x)) color
  let d := weact_draw_pixel d (wrap32 (cx - y)) (wrap32 (cy + x)) color
  let d := weact_draw_pixel d (wrap32 (cx + y)) (wrap32 (cy - x)) color
  weact_draw_pixel d (wrap32 (cx - y)) (wrap32 (cy - x)) color

/-- The loop of the outline branch of `weact_draw_circle`. -/
def circle_outline (cx cy : Int) (color : Nat) :
    Nat → weact_display_t → Int → Int → Int → Option weact_display_t
  | 0, _, _, _, _ => none
  | fuel + 1, display, x, y, d =>
    if x ≤ y then
      let display := circle_octants display cx cy x y color
      let d1 :=
        if d < 0 then wrap32 (wrap32 (d + wrap32 (4 * x)) + 6)
        else wrap32 (wrap32 (d + wrap32 (4 * wrap32 (x - y))) + 10)
      let y1 := if d < 0 then y else wrap32 (y - 1)
      circle_outline cx cy color fuel display (wrap32 (x + 1)) y1 d1
    else some display

/-- The function `weact_draw_circle`. -/
def weact_draw_circle (fuel : Nat) (display : weact_display_t) (cx cy radius : Int)
    (color : Nat) (filled : Bool) : Option weact_display_t :=
  if filled then circle_rows cx cy radius color fuel display (wrap32 (-radius))
  else circle_outline cx cy color fuel display 0 radius (wrap32 (3 - wrap32 (2 * radius)))

/-! ## Display control -/

/-- The dimensions chosen by the `switch` of `weact_set_orientation`. -/
def orientation_dims (display : weact_display_t) (orientation : Nat) : Option (Int × Int) :=
  match orientation with
  | 0 => some (80, 160)
  | 1 => some (80, 160)
  | 2 => some (160, 80)
  | 3 => some (160, 80)
  | 5 => some (display.display_width, display.display_height)
  | _ => none

/-- The function `weact_set_orientation`. -/
def weact_set_orientation (display : weact_display_t) (orientation : Nat) (written : Int) :
    io_result :=
  if orientation > 3 ∧ orientation ≠ 5 then
    ⟨false, { display with last_error := error_text.invalid_orientation }, []⟩
  else
    match orientation_dims display orientation with
    | none => ⟨false, display, []⟩
    | some (new_width, new_height) =>
      let r := send_command display [0x02, orientation % 256, 0x0A] 3 written
      if !r.ok then ⟨false, r.display, r.writes⟩
      else
        let d1 := { r.display with
          orientation := orientation, display_width := new_width, display_height := new_height }
        match d1.frame_buffer, d1.back_buffer with
        | some fb, some bb =>
          ⟨true, { d1 with
            frame_buffer := some (memset fb 0 WEACT_MAX_BUFFER_SIZE),
            back_buffer := some (memset bb 0 WEACT_MAX_BUFFER_SIZE) }, r.writes⟩
        | _, _ => ⟨true, d1, r.writes⟩

/-- The five bytes of the brightness command built by `weact_set_brightness`, the time
clamped to 5000 first. -/
def brightness_cmd (brightness time_ms : Nat) : List Nat :=
  let time_ms := if time_ms > 5000 then 5000 else time_ms
  [0x03, brightness, (time_ms &&& 0xFF) % 256, ((time_ms >>> 8) &&& 0xFF) % 256, 0x0A]

/-- The function `weact_set_brightness` on a `uint8_t` level and a `uint16_t` time. -/
def weact_set_brightness (display : weact_display_t) (brightness time_ms : Nat)
    (written : Int) : io_result :=
  let r := send_command display (brightness_cmd brightness time_ms) 5 written
  if r.ok then ⟨true, { r.display with brightness := brightness }, r.writes⟩
  else ⟨false, r.display, r.writes⟩

/-- The twelve bytes of the FULL command built by `weact_fill_screen`. -/
def fill_cmd (display : weact_display_t) (color : Nat) : List Nat :=
  let x_end := wrap32 (display.display_width - 1)
  let y_end := wrap32 (display.display_height - 1)
  [0x04, 0, 0, 0, 0,
    (x_end % 256).toNat, ((x_end / 256) % 256).toNat,
    (y_end % 256).toNat, ((y_end / 256) % 256).toNat,
    (color &&& 0xFF) % 256, ((color >>> 8) &&& 0xFF) % 256, 0x0A]

/-- The function `weact_fill_screen`. -/
def weact_fill_screen (display : weact_display_t) (color : Nat) (written : Int) : io_result :=
  if !display.is_connected then
    ⟨false, { display with last_error := error_text.not_connected }, []⟩
  else
    let r := send_command display (fill_cmd display color) 12 written
    if r.ok then ⟨true, r.display, r.writes⟩ else ⟨false, r.display, r.writes⟩

/-- The function `weact_system_reset`. -/
def weact_system_reset (display : weact_display_t) (written : Int) : io_result :=
  let r := send_command display [0x40, 0x0A] 2 written
  if r.ok then ⟨true, r.display, r.writes⟩ else ⟨false, r.display, r.writes⟩

/-! ## Initialisation -/

/-- What the operating system answers during `weact_init`. -/
structure init_env where
  fd : Int
  tcgetattr_ret : Int
  tcsetattr_ret : Int
  frame_alloc : Bool
  back_alloc : Bool
  written : Int
  deriving DecidableEq, Repr

/-- The function `weact_init`: the handle it leaves when it returns `true`, the error text
when it returns `false`. -/
def weact_init (env : init_env) : Except error_text weact_display_t :=
  if env.fd < 0 then Except.error error_text.open_failed
  else if env.tcgetattr_ret ≠ 0 then Except.error error_text.tcgetattr_failed
  else if env.tcsetattr_ret ≠ 0 then Except.error error_text.tcsetattr_failed
  else if !env.frame_alloc ∨ !env.back_alloc then Except.error error_text.alloc_failed
  else
    let display : weact_display_t :=
      { fd := env.fd
        is_connected := true
        orientation := WEACT_LANDSCAPE
        brightness := 255
        display_width := WEACT_DISPLAY_WIDTH
        display_height := WEACT_DISPLAY_HEIGHT
        frame_buffer := some (List.replicate WEACT_MAX_BUFFER_SIZE 0)
        back_buffer := some (List.replicate WEACT_MAX_BUFFER_SIZE 0)
        last_error := error_text.empty }
    Except.ok (weact_set_orientation display WEACT_LANDSCAPE env.written).display

/-- The function `weact_close`. -/
def weact_close (display : weact_display_t) : weact_display_t :=
  let d1 :=
    if display.is_connected ∧ display.fd ≥ 0 then
      { display with fd := -1, is_connected := false }
    else display
  { d1 with frame_buffer := none, back_buffer := none }

/-- A connected 160x80 handle with both buffers zeroed, as `weact_init` leaves it. -/
def fresh_display : weact_display_t :=
  { fd := 3
    is_connected := true
    orientation := WEACT_LANDSCAPE
    brightness := 255
    display_width := 160
    display_height := 80
    frame_buffer := some (List.replicate WEACT_MAX_BUFFER_SIZE 0)
    back_buffer := some (List.replicate WEACT_MAX_BUFFER_SIZE 0)
    last_error := error_text.empty }

/-- The two bytes the back buffer holds for pixel `(x, y)`. -/
def back_pixel (d : weact_display_t) (x y : Int) : Option (Nat × Nat) :=
  match d.back_buffer with
  | none => none
  | some buf =>
    match buf[((y * d.display_width + x) * 2).toNat]?,
      buf[((y * d.display_width + x) * 2).toNat + 1]? with
    | some hi, some lo => some (hi, lo)
    | _, _ => none

/-- The byte pair `weact_draw_pixel` stores for a colour. -/
def color_bytes (c : Nat) : Nat × Nat := ((c >>> 8) % 256, (c &&& 0xFF) % 256)

/-- The point lies inside the current display dimensions. -/
def in_range (d : weact_display_t) (x y : Int) : Prop :=
  0 ≤ x ∧ x < d.display_width ∧ 0 ≤ y ∧ y < d.display_height

instance (d : weact_display_t) (x y : Int) : Decidable (in_range d x y) := by
  unfold in_range; infer_instance

/-- The back buffer is allocated and holds the `width * height` pixels of the current
dimensions, and the byte count fits an `int`. -/
def geometry_ok (d : weact_display_t) : Prop :=
  0 < d.display_width ∧ 0 < d.display_height ∧
    d.display_width * d.display_height * 2 < 2147483648 ∧
    ∃ buf, d.back_buffer = some buf ∧
      d.display_width * d.display_height * 2 ≤ (buf.length : Int)

/-- A sequence of `weact_draw_pixel` calls with one colour. -/
def draw_points (d : weact_display_t) (pts : List (Int × Int)) (c : Nat) : weact_display_t :=
  pts.foldl (fun d p => weact_draw_pixel d p.1 p.2 c) d

/-- The points a call `weact_draw_line(x1, y1, x2, y2)` hands to `weact_draw_pixel`, in call
order. -/
def line_points (fuel : Nat) (x1 y1 x2 y2 : Int) : Option (List (Int × Int)) :=
  let dx := c_abs (wrap32 (x2 - x1))
  let dy := c_abs (wrap32 (y2 - y1))
  let sx : Int := if x1 < x2 then 1 else -1
  let sy : Int := if y1 < y2 then 1 else -1
  let err := wrap32 (dx - dy)
  draw_line_points dx dy sx sy x2 y2 fuel x1 y1 err

/-- The points the outline branch of `weact_draw_rect` hands to `weact_draw_pixel`, in call
order. -/
def rect_outline_points (x y width height : Int) : List (Int × Int) :=
  (int_range x (wrap32 (x + width))).flatMap
      (fun xx => [(xx, y), (xx, wrap32 (wrap32 (y + height) - 1))]) ++
    (int_range y (wrap32 (y + height))).flatMap
      (fun yy => [(x, yy), (wrap32 (wrap32 (x + width) - 1), yy)])

/-- The pixel `(px, py)` lies on one of the four border runs of the rectangle. -/
def on_border (x y w h px py : Int) : Prop :=
  x ≤ px ∧ px < x + w ∧ y ≤ py ∧ py < y + h ∧
    (px = x ∨ px = x + w - 1 ∨ py = y ∨ py = y + h - 1)

instance (x y w h px py : Int) : Decidable (on_border x y w h px py) := by
  unfold on_border; infer_instance

/-- The effect the outline rectangle is specified to have: each pixel of the display on a
border run holds the colour, every other pixel is unchanged, and nothing but the back buffer
is touched. -/
def outline_drawn (d d' : weact_display_t) (x y w h : Int) (c : Nat) : Prop :=
  (∀ px py, in_range d px py →
    back_pixel d' px py
      = if on_border x y w h px py then some (color_bytes c) else back_pixel d px py) ∧
  d' = { d with back_buffer := d'.back_buffer }

def SCROLLBACK_LINES : Int := 100

def FONT_SMALL : Int := 8

def FONT_MEDIUM : Int := 10

def FONT_LARGE : Int := 12

def FONT_MONO : Nat := 0

/-- The fields of the global `term_state` that the screen model, the key handling and the
renderer use.  A `char` is a byte value `0 .. 255`; `screen_buffer` is the array of
`SCROLLBACK_LINES` rows of 81 bytes; the display handle, the text context, the PTY
descriptors and the text fields are not modelled. -/
structure terminal_state_t where
  screen_buffer : List (List Nat)
  current_line : Int
  total_lines : Int
  scroll_offset : Int
  cursor_x : Int
  cursor_y : Int
  scroll_mode : Bool
  view_offset : Int
  font_size : Int
  font_type : Nat
  term_cols : Int
  term_rows : Int
  char_width : Int
  char_height : Int
  running : Bool
  deriving DecidableEq, Repr

/-- The function `calculate_terminal_dimensions` (`DISPLAY_WIDTH` 160, `DISPLAY_HEIGHT` 80). -/
def calculate_terminal_dimensions (ts : terminal_state_t) : terminal_state_t :=
  let cw_ch : Int × Int :=
    if ts.font_type = FONT_MONO then
      if ts.font_size = FONT_SMALL then (5, 10)
      else if ts.font_size = FONT_MEDIUM then (6, 12)
      else if ts.font_size = FONT_LARGE then (7, 14)
      else (6, 12)
    else
      if ts.font_size = FONT_SMALL then (5, 9)
      else if ts.font_size = FONT_MEDIUM then (6, 11)
      else if ts.font_size = FONT_LARGE then (7, 13)
      else (6, 11)
  let cols0 : Int := Int.tdiv (160 - 4) cw_ch.1
  let rows0 : Int := Int.tdiv (80 - 4) cw_ch.2
  let cols1 := if cols0 < 10 then 10 else cols0
  let cols2 := if cols1 > 80 then 80 else cols1
  let rows1 := if rows0 < 4 then 4 else rows0
  let rows2 := if rows1 > 20 then 20 else rows1
  { ts with char_width := cw_ch.1, char_height := cw_ch.2, term_cols := cols2,
            term_rows := rows2 }

/-- A row of 81 NUL bytes, what `memset(row, 0, 81)` leaves. -/
def zero_row : List Nat := List.replicate 81 0

/-- The function `init_screen_buffer`. -/
def init_screen_buffer (ts : terminal_state_t) : terminal_state_t :=
  { ts with
    screen_buffer := List.replicate 100 zero_row
    current_line := 0
    total_lines := 1
    scroll_offset := 0
    cursor_x := 0
    cursor_y := 0 }

/-- The call `memmove(screen_buffer[0], screen_buffer[1], (SCROLLBACK_LINES - 1) * 81)`:
rows `1 .. 99` are copied onto rows `0 .. 98`, row 99 keeps its bytes. -/
def shift_up (buf : List (List Nat)) : List (List Nat) :=
  (buf.drop 1).take 99 ++ buf.drop 99

/-- The call `memset(screen_buffer[y], 0, 81)`. -/
def clear_row (buf : List (List Nat)) (y : Int) : List (List Nat) :=
  if 0 ≤ y then buf.set y.toNat zero_row else buf

/-- The assignment `screen_buffer[y][x] = v`. -/
def set_cell (buf : List (List Nat)) (y x : Int) (v : Nat) : List (List Nat) :=
  if 0 ≤ y ∧ 0 ≤ x then
    match buf[y.toNat]? with
    | some row => buf.set y.toNat (row.set x.toNat v)
    | none => buf
  else buf

/-- The function `add_char_to_buffer`. -/
def add_char_to_buffer (ts : terminal_state_t) (c : Nat) : terminal_state_t :=
  if c = 10 ∨ c = 13 then
    let cy := wrap32 (ts.cursor_y + 1)
    if cy ≥ SCROLLBACK_LINES then
      { ts with
        cursor_x := 0
        cursor_y := SCROLLBACK_LINES - 1
        screen_buffer := clear_row (shift_up ts.screen_buffer) (SCROLLBACK_LINES - 1) }
    else
      { ts with
        cursor_x := 0
        cursor_y := cy
        screen_buffer := clear_row ts.screen_buffer cy }
  else if c = 8 ∨ c = 127 then
    if ts.cursor_x > 0 then
      let cx := wrap32 (ts.cursor_x - 1)
      { ts with
        cursor_x := cx
        screen_buffer := set_cell ts.screen_buffer ts.cursor_y cx 32 }
    else ts
  else if c ≥ 32 ∧ c < 127 then
    if ts.cursor_x < ts.term_cols ∧ ts.cursor_x < 80 then
      let buf := set_cell ts.screen_buffer ts.cursor_y ts.cursor_x c
      let cx := wrap32 (ts.cursor_x + 1)
      if cx ≥ ts.term_cols then
        let cy := wrap32 (ts.cursor_y + 1)
        if cy ≥ SCROLLBACK_LINES then
          { ts with
            cursor_x := 0
            cursor_y := SCROLLBACK_LINES - 1
            screen_buffer := clear_row (shift_up buf) (SCROLLBACK_LINES - 1) }
        else
          { ts with cursor_x := 0, cursor_y := cy, screen_buffer := buf }
      else
        { ts with cursor_x := cx, screen_buffer := buf }
    else ts
  else ts

/-- The static variables of `process_pty_output`. -/
structure escape_state where
  escape_buffer : List Nat
  escape_len : Int
  in_escape : Bool
  deriving DecidableEq, Repr

/-- The static variables of `process_pty_output` at program start. -/
def escape_state_init : escape_state :=
  { escape_buffer := List.replicate 64 0, escape_len := 0, in_escape := false }

/-- One round of the loop of `process_pty_output`, for the byte `c` (`process_ansi_sequence`
has an empty body). -/
def process_pty_byte (s : terminal_state_t × escape_state) (c : Nat) :
    terminal_state_t × escape_state :=
  if s.2.in_escape then
    let buf := store s.2.escape_buffer s.2.escape_len c
    let len := wrap32 (s.2.escape_len + 1)
    if (c ≥ 65 ∧ c ≤ 90) ∨ (c ≥ 97 ∧ c ≤ 122) ∨ len ≥ 63 then
      (s.1, { escape_buffer := buf, escape_len := 0, in_escape := false })
    else
      (s.1, { escape_buffer := buf, escape_len := len, in_escape := true })
  else if c = 27 then
    (s.1, { escape_buffer := store s.2.escape_buffer 0 c, escape_len := 1, in_escape := true })
  else
    (add_char_to_buffer s.1 c, s.2)

/-- The function `process_pty_output` on the bytes `data[0 .. len - 1]`. -/
def process_pty_output (s : terminal_state_t × escape_state) (data : List Nat) :
    terminal_state_t × escape_state :=
  data.foldl process_pty_byte s

/-- The value `display_start_line` computed by `render_screen`. -/
def display_start_line (ts : terminal_state_t) : Int :=
  if ts.scroll_mode then
    let s := wrap32 (wrap32 (wrap32 (ts.cursor_y - ts.term_rows) + 1) - ts.view_offset)
    if s < 0 then 0 else s
  else if ts.cursor_y < ts.term_rows then 0
  else wrap32 (wrap32 (ts.cursor_y - ts.term_rows) + 1)

/-- The rows the loop of `render_screen` selects: for screen row `row`, counted from 0, the
pair of the buffer row `line_idx` and the pixel position `y`, kept when `line_idx` passes the
test `line_idx >= 0 && line_idx <= cursor_y && line_idx < SCROLLBACK_LINES`. -/
def window_rows_from (ts : terminal_state_t) (start : Int) : List Int → Int → List (Int × Int)
  | [], _ => []
  | row :: rest, y =>
    let line_idx := wrap32 (start + row)
    let here :=
      if line_idx ≥ 0 ∧ line_idx ≤ ts.cursor_y ∧ line_idx < SCROLLBACK_LINES then [(line_idx, y)]
      else []
    here ++ window_rows_from ts start rest (wrap32 (y + ts.char_height))

/-- The buffer rows shown by `render_screen`, each with its pixel position. -/
def window_rows (ts : terminal_state_t) : List (Int × Int) :=
  window_rows_from ts (display_start_line ts) (int_range 0 ts.term_rows) 2

/-- The text of a row up to its first NUL byte. -/
def c_string (row : List Nat) : List Nat := row.takeWhile (fun b => b ≠ 0)

/-- A call that `render_screen` issues on the display library or the text service. -/
inductive render_call
  | clear_buffer (color : Nat)
  | text_draw (x y : Int) (text : List Nat)
  | draw_rect (x y width height : Int) (color : Nat) (filled : Bool)
  | update_display
  deriving DecidableEq, Repr

/-- The cursor or scroll-indicator rectangle drawn at the end of `render_screen`. -/
def render_marker (ts : terminal_state_t) : List render_call :=
  if !ts.scroll_mode then
    let cursor_screen_row :=
      if ts.cursor_y < ts.term_rows then ts.cursor_y else wrap32 (ts.term_rows - 1)
    if cursor_screen_row ≥ 0 ∧ cursor_screen_row < ts.term_rows then
      [render_call.draw_rect (wrap32 (2 + wrap32 (ts.cursor_x * ts.char_width)))
        (wrap32 (2 + wrap32 (cursor_screen_row * ts.char_height)))
        ts.char_width ts.char_height 0x001F true]
    else []
  else [render_call.draw_rect (160 - 10) 2 8 6 0x07FF true]

/-- The function `render_screen`, as the calls it issues in order: a selected row is handed
to `ft_text_draw` when its first byte is not NUL. -/
def render_screen (ts : terminal_state_t) : List render_call :=
  [render_call.clear_buffer 0x0000] ++
    (window_rows ts).filterMap (fun p =>
      match ts.screen_buffer[p.1.toNat]? with
      | some line =>
        if line.head? ≠ some 0 then some (render_call.text_draw 2 p.2 (c_string line)) else none
      | none => none) ++
    render_marker ts ++ [render_call.update_display]

/-- What one keyboard read of `terminal_loop` yields: the state, the frames rendered and the
blocks written to the child channel. -/
structure kbd_result where
  state : terminal_state_t
  frames : List (List render_call)
  to_child : List (List Nat)
  deriving DecidableEq, Repr

/-- The key dispatch of `terminal_loop` up to the flag `handled`, for a read of `n > 0` bytes
whose first byte is not Ctrl-C. -/
def keyboard_dispatch (ts : terminal_state_t) (kbd : List Nat) :
    terminal_state_t × Bool × List (List render_call) :=
  let n := kbd.length
  if n ≥ 3 ∧ kbd[0]? = some 27 ∧ kbd[1]? = some 91 then
    if n ≥ 4 ∧ kbd[2]? = some 53 ∧ kbd[3]? = some 126 then
      let ts1 := if !ts.scroll_mode then { ts with scroll_mode := true, view_offset := 0 } else ts
      let vo := wrap32 (ts1.view_offset + ts1.term_rows)
      let ts2 := { ts1 with view_offset := if vo > ts1.cursor_y then ts1.cursor_y else vo }
      (ts2, true, [render_screen ts2])
    else if n ≥ 4 ∧ kbd[2]? = some 54 ∧ kbd[3]? = some 126 then
      if ts.scroll_mode then
        let vo := wrap32 (ts.view_offset - ts.term_rows)
        let ts1 :=
          if vo < 0 then { ts with view_offset := 0, scroll_mode := false }
          else { ts with view_offset := vo }
        (ts1, true, [render_screen ts1])
      else (ts, false, [])
    else (ts, false, [])
  else if kbd[0]? = some 113 ∧ ts.scroll_mode then
    let ts1 := { ts with scroll_mode := false, view_offset := 0 }
    (ts1, true, [render_screen ts1])
  else (ts, false, [])

/-- The keyboard branch of one round of `terminal_loop`, for the bytes returned by `read`. -/
def terminal_loop_keyboard (ts : terminal_state_t) (kbd : List Nat) : kbd_result :=
  if kbd.length > 0 then
    if kbd[0]? = some 3 then ⟨{ ts with running := false }, [], []⟩
    else
      let r := keyboard_dispatch ts kbd
      if !r.2.1 ∧ !r.1.scroll_mode then ⟨r.1, r.2.2, [kbd]⟩
      else ⟨r.1, r.2.2, []⟩
  else ⟨ts, [], []⟩

/-- The PTY branch of one round of `terminal_loop`, for `n > 0` bytes read from the child. -/
def terminal_loop_pty (s : terminal_state_t × escape_state) (data : List Nat) :
    (terminal_state_t × escape_state) × List (List render_call) :=
  if data.length > 0 then
    let s1 := process_pty_output s data
    (s1, [render_screen s1.1])
  else (s, [])

/-- The Page-Up key sequence `ESC [ 5 ~`. -/
def page_up_keys : List Nat := [27, 91, 53, 126]

/-- The Page-Down key sequence `ESC [ 6 ~`. -/
def page_down_keys : List Nat := [27, 91, 54, 126]

/-- The byte is an ASCII letter `A .. Z` or `a .. z`. -/
def is_letter (c : Nat) : Prop := (c ≥ 65 ∧ c ≤ 90) ∨ (c ≥ 97 ∧ c ≤ 122)

instance (c : Nat) : Decidable (is_letter c) := by
  unfold is_letter; infer_instance

/-- A terminal state as `main` sets it up before `init_screen_buffer`: the default
monospace 10pt font with the dimensions `calculate_terminal_dimensions` derives. -/
def sample_terminal : terminal_state_t :=
  calculate_terminal_dimensions
    { screen_buffer := List.replicate 100 zero_row
      current_line := 0
      total_lines := 0
      scroll_offset := 0
      cursor_x := 0
      cursor_y := 0
      scroll_mode := false
      view_offset := 0
      font_size := FONT_MEDIUM
      font_type := FONT_MONO
      term_cols := 0
      term_rows := 0
      char_width := 0
      char_height := 0
      running := false }

/-- The state after `k` keyboard reads that each return the bytes `keys`. -/
def press_keys (keys : List Nat) : Nat → terminal_state_t → terminal_state_t
  | 0, ts => ts
  | k + 1, ts => press_keys keys k (terminal_loop_keyboard ts keys).state

/-- The scenario of the spec: 8pt monospace font (7 rows of 31 columns), cursor on buffer
row 50, live mode. -/
def scenario_terminal : terminal_state_t :=
  { init_screen_buffer (calculate_terminal_dimensions { sample_terminal with font_size := FONT_SMALL })
    with cursor_y := 50 }

/-- The row of 81 bytes that holds the text `l` followed by NUL bytes. -/
def pad (l : List Nat) : List Nat := l ++ List.replicate (81 - l.length) 0

/-- A row of the screen buffer: 81 bytes, the last one NUL, non-NUL bytes followed only by
NUL bytes, and at most `cols` characters of text. -/
def row_inv (cols : Int) (row : List Nat) : Prop :=
  row.length = 81 ∧ row[80]? = some 0 ∧ row = pad (c_string row) ∧
    ((c_string row).length : Int) ≤ cols

/-- The invariant of the screen model: 100 rows, the cursor inside the buffer and left of
the column limit, every row well formed, every row after the cursor row entirely NUL, and
the cursor column inside or right after the text of the cursor row. -/
def screen_inv (ts : terminal_state_t) : Prop :=
  ts.screen_buffer.length = 100 ∧
  (0 ≤ ts.cursor_y ∧ ts.cursor_y ≤ 99) ∧
  (0 ≤ ts.cursor_x ∧ ts.cursor_x < ts.term_cols) ∧
  (∀ (i : Nat) (row : List Nat), ts.screen_buffer[i]? = some row → row_inv ts.term_cols row) ∧
  (∀ i : Nat, ts.cursor_y < i → i < 100 → ts.screen_buffer[i]? = some zero_row) ∧
  (∀ row : List Nat, ts.screen_buffer[ts.cursor_y.toNat]? = some row →
    ts.cursor_x ≤ (c_string row).length)

/-- The bytes of the lines `L 0 .. L n`, line `k` and line `k + 1` separated by the single
byte `sep k`. -/
def lines_stream (L : Nat → List Nat) (sep : Nat → Nat) : Nat → List Nat
  | 0 => L 0
  | n + 1 => lines_stream L sep n ++ sep n :: L (n + 1)

/-- The byte is printable ASCII, `32 .. 126`. -/
def printable (c : Nat) : Prop := 32 ≤ c ∧ c ≤ 126

instance (c : Nat) : Decidable (printable c) := by
  unfold printable; infer_instance

/-- The sample line number `k`: the letter `L` followed by the three decimal digits of `k`. -/
def sample_line (k : Nat) : List Nat := [76, 48 + k / 100, 48 + k / 10 % 10, 48 + k % 10]

/-- An empty terminal as `main` leaves it after `init_screen_buffer`. -/
def blank_terminal : terminal_state_t := init_screen_buffer sample_terminal

/-- The handles differ at most in `last_error`. -/
def same_but_error (d d' : weact_display_t) : Prop :=
  d' = { d with last_error := d'.last_error }

/-- The byte count `weact_flush_buffer` passes to the image `write`. -/
def flush_byte_count (d : weact_display_t) : Nat :=
  to_size_t (wrap32 (wrap32 (d.display_width * d.display_height) * 2))

/-- A call of the display API after `weact_init`, with the values `write` returns during
it. -/
inductive display_call
  | draw_pixel (x y : Int) (color : Nat)
  | draw_line (x1 y1 x2 y2 : Int) (color : Nat)
  | draw_rect (x y width height : Int) (color : Nat) (filled : Bool)
  | draw_circle (cx cy radius : Int) (color : Nat) (filled : Bool)
  | clear_buffer (color : Nat)
  | swap_buffers
  | flush_buffer (written1 written2 : Int)
  | update_display (written1 written2 : Int)
  | set_orientation (orientation : Nat) (written : Int)
  | set_brightness (brightness time_ms : Nat) (written : Int)
  | fill_screen (color : Nat) (written : Int)
  | system_reset (written : Int)
  deriving DecidableEq, Repr

/-- The handle after one API call; `none` when a drawing loop does not end within `fuel`
rounds. -/
def run_call (fuel : Nat) (d : weact_display_t) : display_call → Option weact_display_t
  | display_call.draw_pixel x y c => some (weact_draw_pixel d x y c)
  | display_call.draw_line x1 y1 x2 y2 c => weact_draw_line fuel d x1 y1 x2 y2 c
  | display_call.draw_rect x y w h c f => some (weact_draw_rect d x y w h c f)
  | display_call.draw_circle cx cy r c f => weact_draw_circle fuel d cx cy r c f
  | display_call.clear_buffer c => some (weact_clear_buffer d c)
  | display_call.swap_buffers => some (weact_swap_buffers d)
  | display_call.flush_buffer w1 w2 => some (weact_flush_buffer d w1 w2).display
  | display_call.update_display w1 w2 => some (weact_update_display d w1 w2).display
  | display_call.set_orientation m w => some (weact_set_orientation d m w).display
  | display_call.set_brightness l t w => some (weact_set_brightness d l t w).display
  | display_call.fill_screen c w => some (weact_fill_screen d c w).display
  | display_call.system_reset w => some (weact_system_reset d w).display

/-- The handles a program can hold: what a successful `weact_init` leaves, and what any
completed API call makes of such a handle. -/
inductive reachable : weact_display_t → Prop
  | init (env : init_env) (d : weact_display_t) (h : weact_init env = Except.ok d) :
      reachable d
  | step (fuel : Nat) (c : display_call) (d d' : weact_display_t) (h : reachable d)
      (hr : run_call fuel d c = some d') : reachable d'

/-- The handle after `weact_init` on a port that accepts every write, a switch to portrait
and one pixel drawn in the far corner. -/
def portrait_display : weact_display_t :=
  weact_draw_pixel
    (weact_set_orientation (weact_set_orientation fresh_display 2 3).display 0 3).display
    79 159 0xFFFF

/-- Width, height and the allocation sizes of the two buffers. -/
def shape (d : weact_display_t) : Int × Int × Option Nat × Option Nat :=
  (d.display_width, d.display_height, d.frame_buffer.map List.length,
    d.back_buffer.map List.length)

/-- Both buffers are allocated with `WEACT_MAX_BUFFER_SIZE` bytes and the dimensions are one
of the two profiles. -/
def buffers_sized (d : weact_display_t) : Prop :=
  ((d.display_width = 160 ∧ d.display_height = 80) ∨
    (d.display_width = 80 ∧ d.display_height = 160)) ∧
  d.frame_buffer.map List.length = some WEACT_MAX_BUFFER_SIZE ∧
  d.back_buffer.map List.length = some WEACT_MAX_BUFFER_SIZE

/-- Coordinate `v` is `a` unit steps of sign `s` away from the target `t`. -/
def heads_to (s v t a : Int) : Prop := (s = 1 ∧ t = v + a) ∨ (s = -1 ∧ t = v - a)

/-- The points one row of the filled circle hands to `weact_draw_pixel`, the column counter
running through `xs`. -/
def circle_row_points (cx cy radius y : Int) (xs : List Int) : List (Int × Int) :=
  (xs.filter (fun x => in_disc radius x y)).map (fun x => (wrap32 (cx + x), wrap32 (cy + y)))

/-- The points the filled circle hands to `weact_draw_pixel`, in call order, the row counter
running through the last argument and the column counter through `xs`. -/
def circle_points_from (cx cy radius : Int) (xs : List Int) : List Int → List (Int × Int)
  | [] => []
  | y :: ys => circle_row_points cx cy radius y xs ++ circle_points_from cx cy radius xs ys

/-- The points `weact_draw_circle(cx, cy, radius, filled = true)` hands to
`weact_draw_pixel`, in call order. -/
def circle_points (cx cy radius : Int) : List (Int × Int) :=
  circle_points_from cx cy radius (int_range (-radius) (radius + 1))
    (int_range (-radius) (radius + 1))

/-- The filled circle of centre `(cx, cy)` and radius `r` has been drawn in colour `c` on
`d`, giving `d1`: inside the square `[-r, r] x [-r, r]` around the centre an in-range pixel
holds `c` if it lies in the disc and is unchanged otherwise, and every pixel outside the
square is unchanged. -/
def disc_drawn (d d1 : weact_display_t) (cx cy r : Int) (c : Nat) : Prop :=
  (∀ dx dy : Int, -r ≤ dx ∧ dx ≤ r → -r ≤ dy ∧ dy ≤ r → in_range d (cx + dx) (cy + dy) →
    back_pixel d1 (cx + dx) (cy + dy)
      = if dx * dx + dy * dy ≤ r * r then some (color_bytes c)
        else back_pixel d (cx + dx) (cy + dy)) ∧
  (∀ px py : Int, in_range d px py →
    ¬ (cx - r ≤ px ∧ px ≤ cx + r ∧ cy - r ≤ py ∧ py ≤ cy + r) →
    back_pixel d1 px py = back_pixel d px py)

/-- The colour `WEACT_RED` of `weact_display.h`. -/
def WEACT_RED : Nat := 0x07C0

/-- The colour `WEACT_GREEN` of `weact_display.h`. -/
def WEACT_GREEN : Nat := 0x001F

/-- The colour `WEACT_BLUE` of `weact_display.h`. -/
def WEACT_BLUE : Nat := 0xF800

/-- The colour `WEACT_WHITE` of `weact_display.h`. -/
def WEACT_WHITE : Nat := 0xFFFF

/-- The colour `WEACT_BLACK` of `weact_display.h`. -/
def WEACT_BLACK : Nat := 0x0000

/-- The colour `WEACT_YELLOW` of `weact_display.h`. -/
def WEACT_YELLOW : Nat := 0x07FF

/-- The colour `WEACT_CYAN` of `weact_display.h`. -/
def WEACT_CYAN : Nat := 0xF81F

/-- The colour `WEACT_MAGENTA` of `weact_display.h`. -/
def WEACT_MAGENTA : Nat := 0xFFE0

/-- Library `tolower` on a byte of the C locale. -/
def c_tolower (c : Nat) : Nat := if 65 ≤ c ∧ c ≤ 90 then c + 32 else c

/-- The test `strcasecmp(a, b) == 0` on two strings given without their terminators. -/
def strcasecmp_eq (a b : List Nat) : Bool := decide (a.map c_tolower = b.map c_tolower)

/-- The function `parse_color` of `weactcli.c`; `none` is the NULL pointer.  The names are
`red`, `green`, `blue`, `white`, `black`, `yellow`, `cyan`, `magenta` in ASCII. -/
def parse_color (color_name : Option (List Nat)) : Nat :=
  match color_name with
  | none => WEACT_WHITE
  | some name =>
    if strcasecmp_eq name [114, 101, 100] then WEACT_RED
    else if strcasecmp_eq name [103, 114, 101, 101, 110] then WEACT_GREEN
    else if strcasecmp_eq name [98, 108, 117, 101] then WEACT_BLUE
    else if strcasecmp_eq name [119, 104, 105, 116, 101] then WEACT_WHITE
    else if strcasecmp_eq name [98, 108, 97, 99, 107] then WEACT_BLACK
    else if strcasecmp_eq name [121, 101, 108, 108, 111, 119] then WEACT_YELLOW
    else if strcasecmp_eq name [99, 121, 97, 110] then WEACT_CYAN
    else if strcasecmp_eq name [109, 97, 103, 101, 110, 116, 97] then WEACT_MAGENTA
    else WEACT_WHITE

/-- The 16-bit word with the 5-bit field `b` in bits 15..11, the 5-bit field `r` in bits
10..6 and the 6-bit field `g` in bits 5..0. -/
def brg565 (b r g : Nat) : Nat := b * 2048 + r * 64 + g

/-- The function `utf8_decode` of `text_freetype.c` on the bytes at the read position: the
code point it returns and the bytes left after the position it stores back.  A read past
the end of the list yields 0, the terminator of the C string.  For byte operands no shift
or `|` leaves the `uint32_t` range. -/
def utf8_decode (str : List Nat) : Nat × List Nat :=
  let c := str.headD 0
  let s := str.tail
  if c < 0x80 then (c, s)
  else if c &&& 0xE0 = 0xC0 then
    let c2 := s.headD 0
    let s := s.tail
    (((c &&& 0x1F) <<< 6) ||| (c2 &&& 0x3F), s)
  else if c &&& 0xF0 = 0xE0 then
    let c2 := s.headD 0
    let s := s.tail
    let c3 := s.headD 0
    let s := s.tail
    ((((c &&& 0x0F) <<< 12) ||| ((c2 &&& 0x3F) <<< 6)) ||| (c3 &&& 0x3F), s)
  else if c &&& 0xF8 = 0xF0 then
    let c2 := s.headD 0
    let s := s.tail
    let c3 := s.headD 0
    let s := s.tail
    let c4 := s.headD 0
    let s := s.tail
    (((((c &&& 0x07) <<< 18) ||| ((c2 &&& 0x3F) <<< 12)) ||| ((c3 &&& 0x3F) <<< 6))
      ||| (c4 &&& 0x3F), s)
  else (0xFFFD, s)

/-- The standard UTF-8 encoding of a code point, as RFC 3629 defines it: one byte below
`0x80`, two below `0x800`, three below `0x10000`, four up to `0x10FFFF`. -/
def utf8_encode (cp : Nat) : List Nat :=
  if cp < 0x80 then [cp]
  else if cp < 0x800 then [0xC0 + cp / 64, 0x80 + cp % 64]
  else if cp < 0x10000 then [0xE0 + cp / 4096, 0x80 + cp / 64 % 64, 0x80 + cp % 64]
  else [0xF0 + cp / 262144, 0x80 + cp / 4096 % 64, 0x80 + cp / 64 % 64, 0x80 + cp % 64]

/-- What one `read` of `terminal_loop` returns: bytes from the keyboard or bytes from the
child process. -/
inductive loop_event
  | keyboard (chunk : List Nat)
  | child_output (chunk : List Nat)
  deriving DecidableEq, Repr

/-- The effect of one `read` of `terminal_loop` on the terminal state and the static
variables of `process_pty_output`. -/
def loop_step (s : terminal_state_t × escape_state) (e : loop_event) :
    terminal_state_t × escape_state :=
  if s.1.running then
    match e with
    | loop_event.keyboard chunk => ((terminal_loop_keyboard s.1 chunk).state, s.2)
    | loop_event.child_output chunk => (terminal_loop_pty s chunk).1
  else s

/-- The state after a sequence of reads, in the order the loop serves them. -/
def loop_run (s : terminal_state_t × escape_state) (events : List loop_event) :
    terminal_state_t × escape_state :=
  events.foldl loop_step s

/-- The zero-initialised `term_state` with the font chosen on the command line and the
defaults `main` sets (`scroll_mode = false`, `view_offset = 0`). -/
def term_state_defaults (font_type : Nat) (font_size : Int) : terminal_state_t :=
  { screen_buffer := List.replicate 100 zero_row
    current_line := 0
    total_lines := 0
    scroll_offset := 0
    cursor_x := 0
    cursor_y := 0
    scroll_mode := false
    view_offset := 0
    font_size := font_size
    font_type := font_type
    term_cols := 0
    term_rows := 0
    char_width := 0
    char_height := 0
    running := false }

/-- The state in which `main` enters the loop of `terminal_loop`: `term_state` after
`calculate_terminal_dimensions` and `init_screen_buffer`, with `running` set. -/
def startup_terminal (font_type : Nat) (font_size : Int) : terminal_state_t :=
  { init_screen_buffer (calculate_terminal_dimensions (term_state_defaults font_type font_size))
    with running := true }

/-- The terminal state is one the event loop can be in: it results from the startup state,
for some font selection, by a sequence of reads. -/
def term_reachable (ts : terminal_state_t) : Prop :=
  ∃ (font_type : Nat) (font_size : Int) (events : List loop_event),
    (loop_run (startup_terminal font_type font_size, escape_state_init) events).1 = ts

/-- A state of the 8pt monospace terminal after the child has written three short lines and
a Page-Up sequence has been read. -/
def paged_terminal : terminal_state_t :=
  (loop_run (startup_terminal FONT_MONO FONT_SMALL, escape_state_init)
    [loop_event.child_output [65, 10, 66, 10, 67], loop_event.keyboard page_up_keys]).1

/-- The invariant of the event loop: the screen model is well formed, the page size is
between 4 and 20 rows, the view offset lies between 0 and the cursor row and is 0 in live
mode. -/
def view_inv (ts : terminal_state_t) : Prop :=
  screen_inv ts ∧ (4 ≤ ts.term_rows ∧ ts.term_rows ≤ 20) ∧
    (0 ≤ ts.view_offset ∧ ts.view_offset ≤ ts.cursor_y) ∧
    (ts.scroll_mode = false → ts.view_offset = 0)

/-- The points the loop of `weact_draw_line` hands to `weact_draw_pixel` in its first `fuel`
rounds, in call order, whether or not the loop has ended by then. -/
def draw_line_trace (dx dy sx sy x2 y2 : Int) : Nat → Int → Int → Int → List (Int × Int)
  | 0, _, _, _ => []
  | fuel + 1, x1, y1, err =>
    if x1 = x2 ∧ y1 = y2 then [(x1, y1)]
    else
      let e2 := wrap32 (err * 2)
      let err1 := if e2 > wrap32 (-dy) then wrap32 (err - dy) else err
      let nx := if e2 > wrap32 (-dy) then wrap32 (x1 + sx) else x1
      let err2 := if e2 < dx then wrap32 (err1 + dx) else err1
      let ny := if e2 < dx then wrap32 (y1 + sy) else y1
      (x1, y1) :: draw_line_trace dx dy sx sy x2 y2 fuel nx ny err2

/-- The points a call `weact_draw_line(x1, y1, x2, y2)` hands to `weact_draw_pixel` in the
first `fuel` rounds of its loop. -/
def line_trace (fuel : Nat) (x1 y1 x2 y2 : Int) : List (Int × Int) :=
  let dx := c_abs (wrap32 (x2 - x1))
  let dy := c_abs (wrap32 (y2 - y1))
  let sx : Int := if x1 < x2 then 1 else -1
  let sy : Int := if y1 < y2 then 1 else -1
  let err := wrap32 (dx - dy)
  draw_line_trace dx dy sx sy x2 y2 fuel x1 y1 err

/-- The loop of `weact_draw_line` over unbounded integers, in the coordinates of the first
quadrant: `a` and `b` are the distances still to go in x and y, and the points are the
offsets `(dx - a, dy - b)` already covered.  It serves to compare the lines into the eight
octants. -/
def line_offsets (dx dy : Int) : Nat → Int → Int → Int → Option (List (Int × Int))
  | 0, _, _, _ => none
  | fuel + 1, a, b, err =>
    if a = 0 ∧ b = 0 then some [(dx - a, dy - b)]
    else
      let e2 := err * 2
      let err1 := if e2 > -dy then err - dy else err
      let na := if e2 > -dy then a - 1 else a
      let err2 := if e2 < dx then err1 + dx else err1
      let nb := if e2 < dx then b - 1 else b
      (line_offsets dx dy fuel na nb err2).map (fun ps => (dx - a, dy - b) :: ps)

/-- The state of the line from `(1, 0)` to `(1, INT_MAX)` under wrap-around arithmetic:
either `k <= 2^30 - 1` steps to the left have been made and none upwards, or the column
`2 - 2^30` has been reached and the error term is stuck at `2^30`. -/
def vertical_wrap_state (x y err : Int) : Prop :=
  (-2147483648 ≤ y ∧ y < 2147483648) ∧
  ((∃ k : Int, 0 ≤ k ∧ k ≤ 1073741823 ∧ x = 1 - k ∧ y = 0 ∧
      ((k % 2 = 0 ∧ err = -2147483647 + k) ∨ (k % 2 = 1 ∧ err = k + 1))) ∨
    (x = -1073741822 ∧ err = 1073741824))

/-- The scenario of the spec with text in the buffer: the rows 0 .. 50 hold the texts `L00`
.. `L50`, the rows behind the cursor row are empty. -/
def scenario_text_terminal : terminal_state_t :=
  { scenario_terminal with
    screen_buffer := (List.range 100).map (fun i =>
      if i ≤ 50 then pad [76, 48 + i / 10, 48 + i % 10] else zero_row) }

/-- The scenario with text after one Page-Up read. -/
def scrolled_text_scenario : terminal_state_t :=
  press_keys page_up_keys 1 scenario_text_terminal

/-- What the text functions read of the FreeType face of a text context: for a code point
the horizontal advance of its glyph in 26.6 fixed point (`none` when `FT_Load_Glyph` fails),
and the ascender and descender of the size metrics. -/
structure ft_face where
  advance_x : Nat → Option Int
  ascender : Int
  descender : Int

/-- The number of bytes `utf8_decode` reads for the lead byte `c`. -/
def utf8_sequence_length (c : Nat) : Nat :=
  if c < 0x80 then 1
  else if c &&& 0xE0 = 0xC0 then 2
  else if c &&& 0xF0 = 0xE0 then 3
  else if c &&& 0xF8 = 0xF0 then 4
  else 1

/-- The loop of `ft_text_get_width`: `p` is the read position in the string, `width` the sum
so far.  When fewer bytes than `utf8_decode` reads are left before the NUL, the decoder
steps over the terminator and the loop goes on in the bytes behind the string; the result
then depends on memory that is not part of the text and is `none`.  Each round reads at
least one byte, so `fuel` above the length of `p` is never used up. -/
def get_width_loop (face : ft_face) : Nat → List Nat → Int → Option Int
  | 0, _, _ => none
  | fuel + 1, p, width =>
    if p.headD 0 = 0 then some width
    else if (c_string p).length < utf8_sequence_length (p.headD 0) then none
    else
      let r := utf8_decode p
      if r.1 = 10 then get_width_loop face fuel r.2 width
      else
        match face.advance_x r.1 with
        | none => get_width_loop face fuel r.2 width
        | some a => get_width_loop face fuel r.2 (wrap32 (width + a / 64))

/-- The function `ft_text_get_width` for a context with a face, on the bytes of `text`;
`none` when the text ends inside a multi-byte sequence. -/
def ft_text_get_width (face : ft_face) (text : List Nat) : Option Int :=
  get_width_loop face (text.length + 1) text 0

/-- The value `line_height` of `ft_text_draw_wrapped`: `ascent + descent + 2`. -/
def text_line_height (face : ft_face) : Int :=
  let ascent := wrap32 (face.ascender / 64)
  let descent := wrap32 (-(face.descender / 64))
  wrap32 (wrap32 (ascent + descent) + 2)

/-- The test of the word scan of `ft_text_draw_wrapped`:
`*p && *p != ' ' && *p != '\n' && *p != '\t'`. -/
def is_word_byte (c : Nat) : Bool := c ≠ 0 && c ≠ 32 && c ≠ 10 && c ≠ 9

/-- The test of the blank skip of `ft_text_draw_wrapped`: `*p == ' ' || *p == '\t'`. -/
def is_blank_byte (c : Nat) : Bool := c = 32 || c = 9

/-- The variables of `ft_text_draw_wrapped` between two rounds of its loop: the bytes
`line_buffer[0 .. line_pos - 1]`, `current_y`, and the calls `ft_text_draw(ctx, x, y, text)`
made so far, each as `(x, y, text)`. -/
structure wrap_state where
  line : List Nat
  current_y : Int
  drawn : List (Int × Int × List Nat)
  deriving DecidableEq, Repr

/-- How the width test of one round ends: the loop goes on, the loop is left by `break`,
`line_pos` is set beyond the 512 bytes of `line_buffer`, or the width of `test_line` is not
determined by its bytes. -/
inductive word_outcome
  | continues (s : wrap_state)
  | stops (s : wrap_state)
  | overrun
  | unmeasured
  deriving DecidableEq, Repr

/-- The result of `ft_text_draw_wrapped`: the calls of `ft_text_draw` it made, or a write
past the end of `line_buffer`, or a width measured behind the terminator of `test_line`;
`out_of_fuel` is the model running out of rounds. -/
inductive wrap_result
  | drawn (calls : List (Int × Int × List Nat))
  | overrun
  | unmeasured
  | out_of_fuel
  deriving DecidableEq, Repr

/-- The width test of one round of `ft_text_draw_wrapped` for the word just scanned:
`test_line` is what `snprintf` leaves in 512 bytes and `measure` its width; the `else`
branch appends the blank and the word to `line_buffer` while `line_pos < 511`. -/
def place_word (measure : List Nat → Option Int)
    (line_height x y max_width max_height : Int) (s : wrap_state) (word : List Nat) :
    word_outcome :=
  let test_line := (s.line ++ (if s.line.length > 0 then [32] else []) ++ word).take 511
  match measure test_line with
  | none => word_outcome.unmeasured
  | some test_width =>
    if test_width > max_width ∧ s.line.length > 0 then
      let drawn := s.drawn ++ [(x, s.current_y, s.line)]
      let current_y := wrap32 (s.current_y + line_height)
      if wrap32 (current_y + line_height) > wrap32 (y + max_height) then
        word_outcome.stops { line := s.line, current_y := current_y, drawn := drawn }
      else if word.length > 511 then word_outcome.overrun
      else word_outcome.continues { line := word, current_y := current_y, drawn := drawn }
    else
      word_outcome.continues
        { s with
          line := (s.line ++ (if s.line.length > 0 then [32] else []) ++ word).take 511 }

/-- The newline handling of one round: a non-empty line is drawn, `current_y` advances and
the line is emptied; with `line_pos = 0` nothing happens. -/
def newline_break (line_height x : Int) (s : wrap_state) : wrap_state :=
  if s.line.length > 0 then
    { line := []
      current_y := wrap32 (s.current_y + line_height)
      drawn := s.drawn ++ [(x, s.current_y, s.line)] }
  else s

/-- The statement after the loop: the last line is drawn when `line_pos > 0`. -/
def draw_last_line (x : Int) (s : wrap_state) : List (Int × Int × List Nat) :=
  if s.line.length > 0 then s.drawn ++ [(x, s.current_y, s.line)] else s.drawn

/-- The read position after one round that began at `p`: past the word, then past the
newline if one follows (`p++`), otherwise past the blanks and tabs. -/
def next_word_start (p : List Nat) : List Nat :=
  let rest := p.dropWhile is_word_byte
  if rest.headD 0 = 10 then rest.tail else rest.dropWhile is_blank_byte

/-- The end of one round that began at `p`: the newline handling when the word is followed
by `'\n'`. -/
def end_of_round (line_height x : Int) (p : List Nat) (s : wrap_state) : wrap_state :=
  if (p.dropWhile is_word_byte).headD 0 = 10 then newline_break line_height x s else s

/-- The loop of `ft_text_draw_wrapped` from the read position `p = word_start`. -/
def wrap_loop (measure : List Nat → Option Int)
    (line_height x y max_width max_height : Int) :
    Nat → List Nat → wrap_state → wrap_result
  | 0, _, _ => wrap_result.out_of_fuel
  | fuel + 1, p, s =>
    if p.headD 0 = 0 then wrap_result.drawn (draw_last_line x s)
    else
      match place_word measure line_height x y max_width max_height s
          (p.takeWhile is_word_byte) with
      | word_outcome.overrun => wrap_result.overrun
      | word_outcome.unmeasured => wrap_result.unmeasured
      | word_outcome.stops s1 => wrap_result.drawn (draw_last_line x s1)
      | word_outcome.continues s1 =>
        wrap_loop measure line_height x y max_width max_height fuel (next_word_start p)
          (end_of_round line_height x p s1)

/-- The current line, unless empty, and every line drawn so far satisfy `Q`, and every call
made so far is at column `x`. -/
def lines_satisfy (Q : List Nat → Prop) (x : Int) (s : wrap_state) : Prop :=
  (s.line = [] ∨ Q s.line) ∧ ∀ d ∈ s.drawn, d.1 = x ∧ Q d.2.2

/-- The body of `ft_text_draw_wrapped` with the width of every line given by the function
`measure`, for the bytes of `text` up to its NUL. -/
def draw_wrapped_with (measure : List Nat → Int) (line_height x y max_width max_height : Int)
    (text : List Nat) : wrap_result :=
  wrap_loop (fun l => some (measure l)) line_height x y max_width max_height
    (text.length + 1) text { line := [], current_y := y, drawn := [] }

/-- The function `ft_text_draw_wrapped`; `none` is a NULL `ctx` or `text`. -/
def ft_text_draw_wrapped (ctx : Option ft_face) (x y max_width max_height : Int)
    (text : Option (List Nat)) : wrap_result :=
  match ctx, text with
  | some face, some t =>
    wrap_loop (ft_text_get_width face) (text_line_height face) x y max_width max_height
      (t.length + 1) t { line := [], current_y := y, drawn := [] }
  | _, _ => wrap_result.drawn []

/-- Every word of the text, a longest run of bytes other than NUL, blank, newline and tab,
has at most 511 bytes, so that it fits `line_buffer`. -/
def words_fit (text : List Nat) : Prop :=
  ∀ q ∈ text.tails, (q.takeWhile is_word_byte).length ≤ 511

instance (text : List Nat) : Decidable (words_fit text) := by
  unfold words_fit
  infer_instance

/-- A width measure of 8 pixels for every byte of the line. -/
def byte_count_width (l : List Nat) : Int := 8 * (l.length : Int)

/-- A face whose glyphs all advance 8 pixels, with ascent 10 and descent 2, so that the line
height is 14. -/
def sample_face : ft_face :=
  { advance_x := fun _ => some 512, ascender := 640, descender := -128 }

/-! ## Arithmetic lemmas -/

theorem wrap32_eq_self {v : Int} (h1 : -2147483648 ≤ v) (h2 : v < 2147483648) :
    wrap32 v = v := by
  unfold wrap32
  omega

theorem wrap32_range (v : Int) : -2147483648 ≤ wrap32 v ∧ wrap32 v < 2147483648 := by
  unfold wrap32
  omega

theorem and_31_eq_mod (x : Nat) : x &&& 31 = x % 32 := Nat.and_pow_two_sub_one_eq_mod x 5

theorem and_63_eq_mod (x : Nat) : x &&& 63 = x % 64 := Nat.and_pow_two_sub_one_eq_mod x 6

theorem and_255_eq_mod (x : Nat) : x &&& 255 = x % 256 := Nat.and_pow_two_sub_one_eq_mod x 8

theorem shiftRight_3_eq_div (x : Nat) : x >>> 3 = x / 8 := Nat.shiftRight_eq_div_pow x 3

theorem shiftRight_2_eq_div (x : Nat) : x >>> 2 = x / 4 := Nat.shiftRight_eq_div_pow x 2

theorem shiftRight_8_eq_div (x : Nat) : x >>> 8 = x / 256 := Nat.shiftRight_eq_div_pow x 8

theorem pack_565 (b5 r5 g6 : Nat) (hr : r5 < 32) (hg : g6 < 64) :
    ((b5 <<< 11) ||| (r5 <<< 6)) ||| g6 = b5 * 2048 + r5 * 64 + g6 := by
  have h1 : 2 ^ 11 * b5 + 2 ^ 6 * r5 = 2 ^ 11 * b5 ||| 2 ^ 6 * r5 :=
    Nat.mul_add_lt_is_or (by omega) b5
  have h2 : 2 ^ 6 * (32 * b5 + r5) + g6 = 2 ^ 6 * (32 * b5 + r5) ||| g6 :=
    Nat.mul_add_lt_is_or (by omega) _
  have h3 : 2 ^ 11 * b5 + 2 ^ 6 * r5 = 2 ^ 6 * (32 * b5 + r5) := by omega
  have h4 : ((b5 <<< 11) ||| (r5 <<< 6)) ||| g6 = 2 ^ 6 * (32 * b5 + r5) + g6 := by
    rw [Nat.shiftLeft_eq, Nat.shiftLeft_eq, Nat.mul_comm b5, Nat.mul_comm r5, ← h1, h3, ← h2]
  omega

theorem shiftLeft_and_small (a b i : Nat) (h : b < 2 ^ i) : (a <<< i) &&& b = 0 := by
  apply Nat.eq_of_testBit_eq
  intro j
  simp only [Nat.testBit_and, Nat.zero_testBit, Nat.testBit_shiftLeft]
  by_cases hj : i ≤ j
  · have hbit : b.testBit j = false :=
      Nat.testBit_lt_two_pow (lt_of_lt_of_le h (Nat.pow_le_pow_right (by omega) hj))
    simp [hbit]
  · simp [hj]

/-! ## Pixel writes and colour packing -/

/-- C1: a call of `weact_draw_pixel` whose coordinates lie outside
`[0, display_width) x [0, display_height)` returns the handle as it was: back buffer, front
buffer and every other field are unchanged. -/
theorem draw_pixel_out_of_range (d : weact_display_t) (x y : Int) (c : Nat)
    (h : x < 0 ∨ x ≥ d.display_width ∨ y < 0 ∨ y ≥ d.display_height) :
    weact_draw_pixel d x y c = d := by
  unfold weact_draw_pixel
  cases hb : d.back_buffer with
  | none => rfl
  | some buf => simp only [if_pos h]

theorem draw_pixel_out_of_range_witness :
    ((160 : Int) < 0 ∨ (160 : Int) ≥ fresh_display.display_width ∨ (5 : Int) < 0 ∨
        (5 : Int) ≥ fresh_display.display_height) ∧
      weact_draw_pixel fresh_display 160 5 0xF800 = fresh_display :=
  ⟨by simp [fresh_display], draw_pixel_out_of_range fresh_display 160 5 0xF800
    (by simp [fresh_display])⟩

/-- C8: for 8-bit `r`, `g`, `b` the value of `weact_rgb_to_brg565` is a 16-bit word with blue
in bits 15..11, red in bits 10..6 and green in bits 5..0: it equals
`(b >> 3) * 2048 + (r >> 3) * 64 + (g >> 2)`, the three shifted fields share no bit, and the
fields read back as `b >> 3`, `r >> 3` and `g >> 2`. -/
theorem rgb_to_brg565_layout (r g b : Nat) (hr : r < 256) (hg : g < 256) (hb : b < 256) :
    weact_rgb_to_brg565 r g b = (b >>> 3) * 2048 + (r >>> 3) * 64 + (g >>> 2) ∧
    weact_rgb_to_brg565 r g b < 65536 ∧
    ((b >>> 3) <<< 11) &&& ((r >>> 3) <<< 6) = 0 ∧
    ((b >>> 3) <<< 11) &&& (g >>> 2) = 0 ∧
    ((r >>> 3) <<< 6) &&& (g >>> 2) = 0 ∧
    (weact_rgb_to_brg565 r g b >>> 11) &&& 31 = b >>> 3 ∧
    (weact_rgb_to_brg565 r g b >>> 6) &&& 31 = r >>> 3 ∧
    weact_rgb_to_brg565 r g b &&& 63 = g >>> 2 := by
  have hr5 : r >>> 3 < 32 := by rw [shiftRight_3_eq_div]; omega
  have hg6 : g >>> 2 < 64 := by rw [shiftRight_2_eq_div]; omega
  have hb5 : b >>> 3 < 32 := by rw [shiftRight_3_eq_div]; omega
  have hval : weact_rgb_to_brg565 r g b = (b >>> 3) * 2048 + (r >>> 3) * 64 + (g >>> 2) := by
    have e1 : ((r >>> 3) &&& 0x1F) % 256 = r >>> 3 := by
      rw [and_31_eq_mod]; omega
    have e2 : ((g >>> 2) &&& 0x3F) % 256 = g >>> 2 := by
      rw [and_63_eq_mod]; omega
    have e3 : ((b >>> 3) &&& 0x1F) % 256 = b >>> 3 := by
      rw [and_31_eq_mod]; omega
    unfold weact_rgb_to_brg565
    simp only [e1, e2, e3]
    rw [pack_565 _ _ _ hr5 hg6]
    omega
  have hsl : (r >>> 3) <<< 6 < 2 ^ 11 := by
    rw [Nat.shiftLeft_eq]; omega
  refine ⟨hval, ?_, shiftLeft_and_small _ _ 11 hsl,
    shiftLeft_and_small _ _ 11 (by omega), shiftLeft_and_small _ _ 6 (by omega), ?_, ?_, ?_⟩
  · rw [hval]; omega
  · rw [hval, Nat.shiftRight_eq_div_pow, and_31_eq_mod]; omega
  · rw [hval, Nat.shiftRight_eq_div_pow, and_31_eq_mod]; omega
  · rw [hval, and_63_eq_mod]; omega

theorem rgb_to_brg565_layout_witness :
    ((255 : Nat) < 256 ∧ (128 : Nat) < 256 ∧ (8 : Nat) < 256) ∧
      (weact_rgb_to_brg565 255 128 8 = (8 >>> 3) * 2048 + (255 >>> 3) * 64 + (128 >>> 2) ∧
      weact_rgb_to_brg565 255 128 8 < 65536 ∧
      ((8 >>> 3) <<< 11) &&& ((255 >>> 3) <<< 6) = 0 ∧
      ((8 >>> 3) <<< 11) &&& (128 >>> 2) = 0 ∧
      ((255 >>> 3) <<< 6) &&& (128 >>> 2) = 0 ∧
      (weact_rgb_to_brg565 255 128 8 >>> 11) &&& 31 = 8 >>> 3 ∧
      (weact_rgb_to_brg565 255 128 8 >>> 6) &&& 31 = 255 >>> 3 ∧
      weact_rgb_to_brg565 255 128 8 &&& 63 = 128 >>> 2) :=
  ⟨by decide, rgb_to_brg565_layout 255 128 8 (by decide) (by decide) (by decide)⟩

theorem store_length (buf : List Nat) (off : Int) (v : Nat) :
    (store buf off v).length = buf.length := by
  unfold store
  split <;> simp

theorem store_get (buf : List Nat) (off : Int) (v j : Nat) :
    (store buf off v)[j]? =
      if 0 ≤ off ∧ off.toNat = j ∧ j < buf.length then some (v % 256) else buf[j]? := by
  unfold store
  by_cases h0 : 0 ≤ off
  · rw [if_pos h0, List.getElem?_set]
    by_cases h1 : off.toNat = j
    · subst h1
      by_cases h2 : off.toNat < buf.length
      · simp [h0, h2]
      · simp [h2, List.getElem?_eq_none (Nat.le_of_not_lt h2)]
    · simp [h1]
  · simp [h0]

theorem pixel_index_bound {w h x y : Int} (hx0 : 0 ≤ x) (hx : x < w) (hy0 : 0 ≤ y)
    (hy : y < h) : 0 ≤ y * w + x ∧ y * w + x < w * h := by
  have hw : 0 < w := by omega
  have h1 : 0 ≤ y * w := Int.mul_nonneg hy0 (le_of_lt hw)
  have h2 : (y + 1) * w ≤ h * w := Int.mul_le_mul_of_nonneg_right (by omega) (le_of_lt hw)
  have h3 : (y + 1) * w = y * w + w := by ring
  have h4 : h * w = w * h := by ring
  constructor <;> omega

theorem pixel_index_inj {w x y px py : Int} (hx0 : 0 ≤ x) (hx : x < w) (hpx0 : 0 ≤ px)
    (hpx : px < w) (h : y * w + x = py * w + px) : x = px ∧ y = py := by
  have hy : y = py := by
    by_contra hne
    rcases lt_or_gt_of_ne hne with hlt | hgt
    · have h1 : (y + 1) * w ≤ py * w :=
        Int.mul_le_mul_of_nonneg_right (by omega) (by omega)
      have h2 : (y + 1) * w = y * w + w := by ring
      omega
    · have h1 : (py + 1) * w ≤ y * w :=
        Int.mul_le_mul_of_nonneg_right (by omega) (by omega)
      have h2 : (py + 1) * w = py * w + w := by ring
      omega
  subst hy
  exact ⟨by omega, rfl⟩

/-- Byte offset arithmetic of `weact_draw_pixel` without wrap-around, inside the display. -/
theorem draw_pixel_offset {d : weact_display_t} (hg : geometry_ok d) {x y : Int}
    (hr : in_range d x y) :
    wrap32 (wrap32 (wrap32 (y * d.display_width) + x) * 2) = (y * d.display_width + x) * 2 ∧
    wrap32 ((y * d.display_width + x) * 2 + 1) = (y * d.display_width + x) * 2 + 1 ∧
    0 ≤ y * d.display_width + x ∧
    y * d.display_width + x < d.display_width * d.display_height := by
  obtain ⟨hw, hh, hsz, _⟩ := hg
  obtain ⟨hx0, hx, hy0, hy⟩ := hr
  have hb := pixel_index_bound hx0 hx hy0 hy
  have h1 : 0 ≤ y * d.display_width := Int.mul_nonneg hy0 (le_of_lt hw)
  have e1 : wrap32 (y * d.display_width) = y * d.display_width :=
    wrap32_eq_self (by omega) (by omega)
  have e2 : wrap32 (y * d.display_width + x) = y * d.display_width + x :=
    wrap32_eq_self (by omega) (by omega)
  have e3 : wrap32 ((y * d.display_width + x) * 2) = (y * d.display_width + x) * 2 :=
    wrap32_eq_self (by omega) (by omega)
  have e4 : wrap32 ((y * d.display_width + x) * 2 + 1) = (y * d.display_width + x) * 2 + 1 :=
    wrap32_eq_self (by omega) (by omega)
  rw [e1, e2, e3]
  exact ⟨rfl, e4, hb.1, hb.2⟩

theorem draw_pixel_width (d : weact_display_t) (x y : Int) (c : Nat) :
    (weact_draw_pixel d x y c).display_width = d.display_width := by
  unfold weact_draw_pixel
  split
  · rfl
  · split <;> rfl

theorem draw_pixel_height (d : weact_display_t) (x y : Int) (c : Nat) :
    (weact_draw_pixel d x y c).display_height = d.display_height := by
  unfold weact_draw_pixel
  split
  · rfl
  · split <;> rfl

theorem draw_pixel_frame (d : weact_display_t) (x y : Int) (c : Nat) :
    (weact_draw_pixel d x y c).frame_buffer = d.frame_buffer := by
  unfold weact_draw_pixel
  split
  · rfl
  · split <;> rfl

/-- Outside the back buffer `weact_draw_pixel` changes no field. -/
theorem draw_pixel_only_back (d : weact_display_t) (x y : Int) (c : Nat) :
    weact_draw_pixel d x y c
      = { d with back_buffer := (weact_draw_pixel d x y c).back_buffer } := by
  unfold weact_draw_pixel
  split
  · next h => cases d; simp_all
  · split
    · next h _ => cases d; simp_all
    · rfl

theorem draw_pixel_back_length (d : weact_display_t) (x y : Int) (c : Nat) :
    (weact_draw_pixel d x y c).back_buffer.map List.length
      = d.back_buffer.map List.length := by
  unfold weact_draw_pixel
  split
  · rfl
  · next buf hb =>
    split
    · rfl
    · simp [hb, store_length]

theorem draw_pixel_geometry {d : weact_display_t} (hg : geometry_ok d) (x y : Int) (c : Nat) :
    geometry_ok (weact_draw_pixel d x y c) := by
  obtain ⟨hw, hh, hsz, buf, hb, hlen⟩ := hg
  have hl := draw_pixel_back_length d x y c
  rw [hb] at hl
  unfold geometry_ok
  rw [draw_pixel_width, draw_pixel_height]
  refine ⟨hw, hh, hsz, ?_⟩
  cases hb2 : (weact_draw_pixel d x y c).back_buffer with
  | none => rw [hb2] at hl; simp at hl
  | some b2 =>
    rw [hb2] at hl
    simp only [Option.map_some'] at hl
    refine ⟨b2, rfl, ?_⟩
    have : b2.length = buf.length := by simpa using hl
    omega

theorem in_range_draw_pixel (d : weact_display_t) (x y : Int) (c : Nat) (px py : Int) :
    in_range (weact_draw_pixel d x y c) px py ↔ in_range d px py := by
  unfold in_range
  rw [draw_pixel_width, draw_pixel_height]

theorem store_pair_get (buf : List Nat) (k : Nat) (hi lo : Nat) (hk : 2 * k + 1 < buf.length)
    (j : Nat) :
    (store (store buf ((k : Int) * 2) hi) ((k : Int) * 2 + 1) lo)[j]? =
      if j = 2 * k then some (hi % 256)
      else if j = 2 * k + 1 then some (lo % 256) else buf[j]? := by
  have t1 : ((k : Int) * 2).toNat = 2 * k := by omega
  have t2 : ((k : Int) * 2 + 1).toNat = 2 * k + 1 := by omega
  simp only [store_get, store_length, t1, t2]
  by_cases h1 : j = 2 * k
  · rw [if_pos h1, if_neg (by omega), if_pos (by omega)]
  · rw [if_neg h1]
    by_cases h2 : j = 2 * k + 1
    · rw [if_pos h2, if_pos (by omega)]
    · rw [if_neg h2, if_neg (by omega), if_neg (by omega)]

/-- Reading a pixel back after `weact_draw_pixel`. -/
theorem back_pixel_draw_pixel {d : weact_display_t} (hg : geometry_ok d) (x y : Int) (c : Nat)
    {px py : Int} (hp : in_range d px py) :
    back_pixel (weact_draw_pixel d x y c) px py
      = if px = x ∧ py = y then some (color_bytes c) else back_pixel d px py := by
  obtain ⟨buf, hb, hlen⟩ := hg.2.2.2
  by_cases hr : in_range d x y
  · obtain ⟨o1, o2, k0, k1⟩ := draw_pixel_offset hg hr
    obtain ⟨_, _, q0, q1⟩ := draw_pixel_offset hg hp
    have hcond : ¬ (x < 0 ∨ x ≥ d.display_width ∨ y < 0 ∨ y ≥ d.display_height) := by
      unfold in_range at hr; omega
    have hdp : (weact_draw_pixel d x y c).back_buffer = some
        (store (store buf ((y * d.display_width + x) * 2) (c >>> 8))
          ((y * d.display_width + x) * 2 + 1) (c &&& 0xFF)) := by
      unfold weact_draw_pixel
      rw [hb]
      simp only [if_neg hcond, o1, o2]
    have hne : ¬ (px = x ∧ py = y) → py * d.display_width + px ≠ y * d.display_width + x := by
      intro heq he
      exact heq (pixel_index_inj hp.1 hp.2.1 hr.1 hr.2.1 he)
    obtain ⟨kn, hkn⟩ := Int.eq_ofNat_of_zero_le k0
    obtain ⟨kq, hkq⟩ := Int.eq_ofNat_of_zero_le q0
    unfold back_pixel
    rw [hdp, draw_pixel_width, hb]
    rw [hkn] at hdp hne k1
    rw [hkq] at hne q1
    rw [hkn, hkq]
    have t1 : ((kq : Int) * 2).toNat = 2 * kq := by omega
    simp only [store_pair_get buf kn _ _ (by omega), t1]
    by_cases heq : px = x ∧ py = y
    · have hk : kq = kn := by
        obtain ⟨rfl, rfl⟩ := heq
        omega
      rw [if_pos heq, if_pos (by omega), if_neg (by omega), if_pos (by omega)]
      rfl
    · have hk := hne heq
      rw [if_neg heq, if_neg (by omega), if_neg (by omega), if_neg (by omega),
        if_neg (by omega)]
  · have hid : weact_draw_pixel d x y c = d := by
      unfold weact_draw_pixel
      rw [hb]
      have hcond : x < 0 ∨ x ≥ d.display_width ∨ y < 0 ∨ y ≥ d.display_height := by
        unfold in_range at hr; omega
      simp only [if_pos hcond]
    rw [hid, if_neg]
    rintro ⟨rfl, rfl⟩
    exact hr hp

/-! ## Sequences of pixel writes -/

theorem draw_points_nil (d : weact_display_t) (c : Nat) : draw_points d [] c = d := rfl

theorem draw_points_cons (d : weact_display_t) (p : Int × Int) (ps : List (Int × Int))
    (c : Nat) :
    draw_points d (p :: ps) c = draw_points (weact_draw_pixel d p.1 p.2 c) ps c := rfl

theorem draw_points_append (d : weact_display_t) (ps qs : List (Int × Int)) (c : Nat) :
    draw_points d (ps ++ qs) c = draw_points (draw_points d ps c) qs c := by
  unfold draw_points
  rw [List.foldl_append]

theorem draw_points_width (d : weact_display_t) (ps : List (Int × Int)) (c : Nat) :
    (draw_points d ps c).display_width = d.display_width := by
  induction ps generalizing d with
  | nil => rfl
  | cons p ps ih => rw [draw_points_cons, ih, draw_pixel_width]

theorem draw_points_height (d : weact_display_t) (ps : List (Int × Int)) (c : Nat) :
    (draw_points d ps c).display_height = d.display_height := by
  induction ps generalizing d with
  | nil => rfl
  | cons p ps ih => rw [draw_points_cons, ih, draw_pixel_height]

theorem draw_points_only_back (d : weact_display_t) (ps : List (Int × Int)) (c : Nat) :
    draw_points d ps c = { d with back_buffer := (draw_points d ps c).back_buffer } := by
  induction ps generalizing d with
  | nil => rfl
  | cons p ps ih =>
    rw [draw_points_cons]
    have h1 := ih (weact_draw_pixel d p.1 p.2 c)
    have h2 := draw_pixel_only_back d p.1 p.2 c
    rw [h1, h2]

theorem draw_points_back_length (d : weact_display_t) (ps : List (Int × Int)) (c : Nat) :
    (draw_points d ps c).back_buffer.map List.length = d.back_buffer.map List.length := by
  induction ps generalizing d with
  | nil => rfl
  | cons p ps ih => rw [draw_points_cons, ih, draw_pixel_back_length]

theorem draw_points_geometry {d : weact_display_t} (hg : geometry_ok d)
    (ps : List (Int × Int)) (c : Nat) : geometry_ok (draw_points d ps c) := by
  induction ps generalizing d with
  | nil => exact hg
  | cons p ps ih =>
    rw [draw_points_cons]
    exact ih (draw_pixel_geometry hg p.1 p.2 c)

theorem in_range_draw_points (d : weact_display_t) (ps : List (Int × Int)) (c : Nat)
    (px py : Int) : in_range (draw_points d ps c) px py ↔ in_range d px py := by
  unfold in_range
  rw [draw_points_width, draw_points_height]

/-- After a sequence of writes with one colour, a pixel of the display holds that colour if
it is among the points written and is unchanged otherwise. -/
theorem back_pixel_draw_points {d : weact_display_t} (hg : geometry_ok d)
    (ps : List (Int × Int)) (c : Nat) {px py : Int} (hp : in_range d px py) :
    back_pixel (draw_points d ps c) px py
      = if (px, py) ∈ ps then some (color_bytes c) else back_pixel d px py := by
  induction ps generalizing d with
  | nil => simp [draw_points_nil]
  | cons p ps ih =>
    rw [draw_points_cons,
      ih (draw_pixel_geometry hg p.1 p.2 c) ((in_range_draw_pixel d p.1 p.2 c px py).mpr hp),
      back_pixel_draw_pixel hg p.1 p.2 c hp]
    by_cases h1 : (px, py) ∈ ps
    · rw [if_pos h1, if_pos (List.mem_cons_of_mem _ h1)]
    · rw [if_neg h1]
      by_cases h2 : px = p.1 ∧ py = p.2
      · have h3 : (px, py) ∈ p :: ps := by
          have : (px, py) = p := by
            obtain ⟨a, b⟩ := p
            simp only at h2
            rw [h2.1, h2.2]
          rw [this]
          exact List.mem_cons_self _ _
        rw [if_pos h2, if_pos h3]
      · have h3 : (px, py) ∉ p :: ps := by
          intro hm
          rcases List.mem_cons.mp hm with he | hm2
          · apply h2
            rw [← he]
            exact ⟨rfl, rfl⟩
          · exact h1 hm2
        rw [if_neg h2, if_neg h3]

theorem mem_int_range (lo hi v : Int) : v ∈ int_range lo hi ↔ lo ≤ v ∧ v < hi := by
  unfold int_range
  simp only [List.mem_map, List.mem_range]
  constructor
  · rintro ⟨i, hi1, rfl⟩
    omega
  · rintro ⟨h1, h2⟩
    exact ⟨(v - lo).toNat, by omega, by omega⟩

/-! ## Lines -/

/-- The loop of `weact_draw_line` performs the writes listed by `draw_line_points`. -/
theorem draw_line_loop_eq (dx dy sx sy x2 y2 : Int) (c : Nat) (fuel : Nat)
    (d : weact_display_t) (x1 y1 err : Int) :
    draw_line_loop dx dy sx sy x2 y2 c fuel d x1 y1 err
      = (draw_line_points dx dy sx sy x2 y2 fuel x1 y1 err).map
          (fun ps => draw_points d ps c) := by
  induction fuel generalizing d x1 y1 err with
  | zero => rfl
  | succ n ih =>
    unfold draw_line_loop draw_line_points
    by_cases h : x1 = x2 ∧ y1 = y2
    · simp only [if_pos h]
      rfl
    · simp only [if_neg h]
      rw [ih]
      simp only [Option.map_map]
      rfl

theorem draw_line_eq_points (fuel : Nat) (d : weact_display_t) (x1 y1 x2 y2 : Int) (c : Nat) :
    weact_draw_line fuel d x1 y1 x2 y2 c
      = (line_points fuel x1 y1 x2 y2).map (fun ps => draw_points d ps c) := by
  unfold weact_draw_line line_points
  exact draw_line_loop_eq _ _ _ _ _ _ _ _ _ _ _ _

theorem fresh_display_geometry : geometry_ok fresh_display := by
  refine ⟨by decide, by decide, by decide, List.replicate WEACT_MAX_BUFFER_SIZE 0, rfl, ?_⟩
  rw [List.length_replicate]
  decide

theorem line_points_same (fuel : Nat) (x y : Int) :
    line_points (fuel + 1) x y x y = some [(x, y)] := by
  unfold line_points draw_line_points
  simp

/-- C11: a line whose endpoints coincide at an in-range point `(x, y)` terminates after one
write: the call hands exactly the point `(x, y)` to `weact_draw_pixel`, pixel `(x, y)` then
holds the colour, every other pixel of the display and the front buffer are unchanged. -/
theorem draw_line_single_point (d : weact_display_t) (x y : Int) (c : Nat) (fuel : Nat)
    (hg : geometry_ok d) (hr : in_range d x y) :
    line_points (fuel + 1) x y x y = some [(x, y)] ∧
    ∃ d', weact_draw_line (fuel + 1) d x y x y c = some d' ∧
      back_pixel d' x y = some (color_bytes c) ∧
      (∀ px py, in_range d px py → ¬ (px = x ∧ py = y) →
        back_pixel d' px py = back_pixel d px py) ∧
      d' = { d with back_buffer := d'.back_buffer } := by
  refine ⟨line_points_same fuel x y, weact_draw_pixel d x y c, ?_, ?_, ?_, ?_⟩
  · rw [draw_line_eq_points, line_points_same]
    rfl
  · rw [back_pixel_draw_pixel hg x y c hr, if_pos ⟨rfl, rfl⟩]
  · intro px py hp hne
    rw [back_pixel_draw_pixel hg x y c hp, if_neg hne]
  · exact draw_pixel_only_back d x y c

theorem draw_line_single_point_witness :
    (geometry_ok fresh_display ∧ in_range fresh_display 0 0) ∧
    (line_points (0 + 1) 0 0 0 0 = some [(0, 0)] ∧
    ∃ d', weact_draw_line (0 + 1) fresh_display 0 0 0 0 0xF800 = some d' ∧
      back_pixel d' 0 0 = some (color_bytes 0xF800) ∧
      (∀ px py, in_range fresh_display px py → ¬ (px = 0 ∧ py = 0) →
        back_pixel d' px py = back_pixel fresh_display px py) ∧
      d' = { fresh_display with back_buffer := d'.back_buffer }) :=
  ⟨⟨fresh_display_geometry, by decide⟩,
    draw_line_single_point fresh_display 0 0 0xF800 0 fresh_display_geometry (by decide)⟩

/-! ## Rectangles -/

theorem foldl_draw_two (l : List Int) (f g : Int → Int × Int) (d : weact_display_t) (c : Nat) :
    l.foldl (fun d v =>
        weact_draw_pixel (weact_draw_pixel d (f v).1 (f v).2 c) (g v).1 (g v).2 c) d
      = draw_points d (l.flatMap (fun v => [f v, g v])) c := by
  induction l generalizing d with
  | nil => rfl
  | cons a t ih =>
    rw [List.foldl_cons, ih, List.flatMap_cons, draw_points_append]
    rfl

theorem draw_rect_outline_eq (d : weact_display_t) (x y w h : Int) (c : Nat) :
    weact_draw_rect d x y w h c false = draw_points d (rect_outline_points x y w h) c := by
  unfold weact_draw_rect draw_rect_outline rect_outline_points
  simp only [Bool.false_eq_true, if_false]
  rw [draw_points_append]
  rw [← foldl_draw_two (int_range x (wrap32 (x + w))) (fun xx => (xx, y))
    (fun xx => (xx, wrap32 (wrap32 (y + h) - 1))) d c]
  rw [← foldl_draw_two (int_range y (wrap32 (y + h))) (fun yy => (x, yy))
    (fun yy => (wrap32 (wrap32 (x + w) - 1), yy)) _ c]

theorem mem_rect_outline_points (x y w h px py : Int) :
    (px, py) ∈ rect_outline_points x y w h ↔
      ((x ≤ px ∧ px < wrap32 (x + w)) ∧ (py = y ∨ py = wrap32 (wrap32 (y + h) - 1))) ∨
      ((y ≤ py ∧ py < wrap32 (y + h)) ∧ (px = x ∨ px = wrap32 (wrap32 (x + w) - 1))) := by
  unfold rect_outline_points
  simp only [List.mem_append, List.mem_flatMap, mem_int_range, List.mem_cons, Prod.mk.injEq,
    List.mem_singleton, List.not_mem_nil, or_false]
  constructor
  · rintro (⟨v, hv, h1 | h1⟩ | ⟨v, hv, h1 | h1⟩)
    · obtain ⟨rfl, rfl⟩ := h1; exact Or.inl ⟨hv, Or.inl rfl⟩
    · obtain ⟨rfl, rfl⟩ := h1; exact Or.inl ⟨hv, Or.inr rfl⟩
    · obtain ⟨rfl, rfl⟩ := h1; exact Or.inr ⟨hv, Or.inl rfl⟩
    · obtain ⟨rfl, rfl⟩ := h1; exact Or.inr ⟨hv, Or.inr rfl⟩
  · rintro (⟨hv, h1 | h1⟩ | ⟨hv, h1 | h1⟩)
    · exact Or.inl ⟨px, hv, Or.inl ⟨rfl, h1⟩⟩
    · exact Or.inl ⟨px, hv, Or.inr ⟨rfl, h1⟩⟩
    · exact Or.inr ⟨py, hv, Or.inl ⟨h1, rfl⟩⟩
    · exact Or.inr ⟨py, hv, Or.inr ⟨h1, rfl⟩⟩

theorem back_pixel_replicate {d : weact_display_t} {n v : Nat}
    (hb : d.back_buffer = some (List.replicate n v)) (hg : geometry_ok d) {x y : Int}
    (hr : in_range d x y) : back_pixel d x y = some (v, v) := by
  obtain ⟨_, _, k0, k1⟩ := draw_pixel_offset hg hr
  obtain ⟨buf, hb2, hlen⟩ := hg.2.2.2
  rw [hb] at hb2
  have hbuf : buf = List.replicate n v := (Option.some.inj hb2).symm
  rw [hbuf, List.length_replicate] at hlen
  obtain ⟨k, hk⟩ := Int.eq_ofNat_of_zero_le k0
  unfold back_pixel
  rw [hb]
  rw [hk] at k1 ⊢
  have t1 : ((k : Int) * 2).toNat = 2 * k := by omega
  simp only [List.getElem?_replicate, t1]
  rw [if_pos (by omega), if_pos (by omega)]

theorem back_pixel_fresh {x y : Int} (hr : in_range fresh_display x y) :
    back_pixel fresh_display x y = some (0, 0) :=
  back_pixel_replicate rfl fresh_display_geometry hr

/-- C12 (as stated, for all `int` arguments): with `x = 1` and `w = INT_MAX` the sum
`x + width` wraps, the top and bottom runs are skipped, and the border pixel `(2, 0)` keeps
its old value. -/
theorem draw_rect_outline_wraps :
    ¬ outline_drawn fresh_display
        (weact_draw_rect fresh_display 1 0 2147483647 1 0xFFFF false) 1 0 2147483647 1 0xFFFF := by
  intro hc
  have hr : in_range fresh_display 2 0 := by decide
  have h1 := hc.1 2 0 hr
  rw [if_pos (by decide), draw_rect_outline_eq,
    back_pixel_draw_points fresh_display_geometry _ _ hr, if_neg (by decide),
    back_pixel_fresh hr] at h1
  revert h1
  decide

/-- C12 (amended): for `w >= 1`, `h >= 1` and a rectangle whose corner sums `x + w` and
`y + h` stay inside the `int` range, the outline branch of `weact_draw_rect` writes exactly
the four border runs: a pixel of the display holds the colour afterwards if it lies on the
border, and is unchanged otherwise; nothing but the back buffer is touched. -/
theorem draw_rect_outline_border (d : weact_display_t) (x y w h : Int) (c : Nat)
    (hg : geometry_ok d) (hw : 1 ≤ w) (hh : 1 ≤ h)
    (hx : -2147483648 ≤ x) (hxw : x + w ≤ 2147483647)
    (hy : -2147483648 ≤ y) (hyh : y + h ≤ 2147483647) :
    outline_drawn d (weact_draw_rect d x y w h c false) x y w h c := by
  have e1 : wrap32 (x + w) = x + w := wrap32_eq_self (by omega) (by omega)
  have e2 : wrap32 (y + h) = y + h := wrap32_eq_self (by omega) (by omega)
  have e3 : wrap32 (x + w - 1) = x + w - 1 := wrap32_eq_self (by omega) (by omega)
  have e4 : wrap32 (y + h - 1) = y + h - 1 := wrap32_eq_self (by omega) (by omega)
  constructor
  · intro px py hp
    rw [draw_rect_outline_eq, back_pixel_draw_points hg _ _ hp]
    have hiff : (px, py) ∈ rect_outline_points x y w h ↔ on_border x y w h px py := by
      rw [mem_rect_outline_points, e1, e2, e3, e4]
      unfold on_border
      omega
    by_cases hb : on_border x y w h px py
    · rw [if_pos (hiff.mpr hb), if_pos hb]
    · rw [if_neg (fun hm => hb (hiff.mp hm)), if_neg hb]
  · rw [draw_rect_outline_eq]
    exact draw_points_only_back d _ c

theorem draw_rect_outline_border_witness :
    (geometry_ok fresh_display ∧ (1 : Int) ≤ 5 ∧ (1 : Int) ≤ 4 ∧
      (-2147483648 : Int) ≤ 10 ∧ (10 : Int) + 5 ≤ 2147483647 ∧
      (-2147483648 : Int) ≤ 20 ∧ (20 : Int) + 4 ≤ 2147483647) ∧
    outline_drawn fresh_display (weact_draw_rect fresh_display 10 20 5 4 0x07C0 false)
      10 20 5 4 0x07C0 :=
  ⟨⟨fresh_display_geometry, by decide, by decide, by decide, by decide, by decide, by decide⟩,
    draw_rect_outline_border fresh_display 10 20 5 4 0x07C0 fresh_display_geometry
      (by decide) (by decide) (by decide) (by decide) (by decide) (by decide)⟩

theorem foldl_const_id {α β : Type} (f : α → β → α) (l : List β) (a : α)
    (h : ∀ a b, f a b = a) : l.foldl f a = a := by
  induction l generalizing a with
  | nil => rfl
  | cons b t ih => rw [List.foldl_cons, h, ih]

theorem int_range_empty (lo hi : Int) (h : hi ≤ lo) : int_range lo hi = [] := by
  unfold int_range
  have : (hi - lo).toNat = 0 := by omega
  rw [this]
  rfl

/-- The filled branch of `weact_draw_rect` writes nothing when the width or the height is
zero (corner coordinates inside the `int` range). -/
theorem draw_rect_filled_zero (d : weact_display_t) (x y w h : Int) (c : Nat)
    (hx : -2147483648 ≤ x ∧ x < 2147483648) (hy : -2147483648 ≤ y ∧ y < 2147483648)
    (hz : w = 0 ∨ h = 0) : weact_draw_rect d x y w h c true = d := by
  unfold weact_draw_rect draw_rect_filled
  simp only [if_true]
  rcases hz with rfl | rfl
  · have e : wrap32 (x + 0) = x := by rw [add_zero]; exact wrap32_eq_self hx.1 hx.2
    rw [e, int_range_empty x x (le_refl x)]
    apply foldl_const_id
    intro a b
    simp
  · have e : wrap32 (y + 0) = y := by rw [add_zero]; exact wrap32_eq_self hy.1 hy.2
    rw [e, int_range_empty y y (le_refl y)]
    rfl

theorem back_pixel_congr {d1 d2 : weact_display_t} (hb : d1.back_buffer = d2.back_buffer)
    (hw : d1.display_width = d2.display_width) (x y : Int) :
    back_pixel d1 x y = back_pixel d2 x y := by
  unfold back_pixel
  rw [hb, hw]

/-- C13 (failing input): on a zeroed 160x80 display the outline call
`weact_draw_rect(5, 5, 0, 3, 0xFFFF, false)` of width zero is not a no-op: it hands six
points in the columns `x` and `x - 1` to `weact_draw_pixel`, so the pixels `(5, 5)` and
`(4, 5)`, zero before, hold the colour afterwards and the back buffer has changed; the filled
call with the same arguments leaves the handle as it was. -/
theorem draw_rect_outline_zero_width :
    rect_outline_points 5 5 0 3 = [(5, 5), (4, 5), (5, 6), (4, 6), (5, 7), (4, 7)] ∧
    back_pixel fresh_display 5 5 = some (0, 0) ∧
    back_pixel fresh_display 4 5 = some (0, 0) ∧
    back_pixel (weact_draw_rect fresh_display 5 5 0 3 0xFFFF false) 5 5 = some (255, 255) ∧
    back_pixel (weact_draw_rect fresh_display 5 5 0 3 0xFFFF false) 4 5 = some (255, 255) ∧
    (weact_draw_rect fresh_display 5 5 0 3 0xFFFF false).back_buffer
      ≠ fresh_display.back_buffer ∧
    weact_draw_rect fresh_display 5 5 0 3 0xFFFF true = fresh_display := by
  have hp1 : in_range fresh_display 5 5 := by decide
  have hp2 : in_range fresh_display 4 5 := by decide
  have h1 : back_pixel (weact_draw_rect fresh_display 5 5 0 3 0xFFFF false) 5 5
      = some (255, 255) := by
    rw [draw_rect_outline_eq, back_pixel_draw_points fresh_display_geometry _ _ hp1,
      if_pos (by decide)]
    decide
  have h2 : back_pixel (weact_draw_rect fresh_display 5 5 0 3 0xFFFF false) 4 5
      = some (255, 255) := by
    rw [draw_rect_outline_eq, back_pixel_draw_points fresh_display_geometry _ _ hp2,
      if_pos (by decide)]
    decide
  refine ⟨by decide, back_pixel_fresh hp1, back_pixel_fresh hp2, h1, h2, ?_,
    draw_rect_filled_zero _ _ _ _ _ _ (by decide) (by decide) (Or.inl rfl)⟩
  intro heq
  have h3 := back_pixel_fresh hp1
  have h4 : back_pixel (weact_draw_rect fresh_display 5 5 0 3 0xFFFF false) 5 5
      = back_pixel fresh_display 5 5 :=
    back_pixel_congr heq (by rw [draw_rect_outline_eq, draw_points_width]) 5 5
  rw [h1, h3] at h4
  revert h4
  decide

/-! ## Terminal emulator (`weactterm.c`): screen model -/

/-! ## Terminal emulator: renderer and key handling -/

/-! ## Escape sequences in the child output -/

theorem process_pty_output_nil (s : terminal_state_t × escape_state) :
    process_pty_output s [] = s := rfl

theorem process_pty_output_cons (s : terminal_state_t × escape_state) (c : Nat)
    (cs : List Nat) :
    process_pty_output s (c :: cs) = process_pty_output (process_pty_byte s c) cs := rfl

theorem process_pty_output_append (s : terminal_state_t × escape_state) (as bs : List Nat) :
    process_pty_output s (as ++ bs) = process_pty_output (process_pty_output s as) bs := by
  unfold process_pty_output
  rw [List.foldl_append]

/-- Inside an escape sequence, bytes that are not letters are swallowed while fewer than 63
bytes have accumulated. -/
theorem escape_body_swallowed (ts : terminal_state_t) (body : List Nat) :
    ∀ es : escape_state, es.in_escape = true → 1 ≤ es.escape_len →
      es.escape_len + body.length < 63 → (∀ b ∈ body, ¬ is_letter b) →
      ∃ es', process_pty_output (ts, es) body = (ts, es') ∧ es'.in_escape = true ∧
        es'.escape_len = es.escape_len + body.length := by
  induction body with
  | nil =>
    intro es h1 _ _ _
    exact ⟨es, rfl, h1, by simp⟩
  | cons b bs ih =>
    intro es h1 h2 h3 h4
    have hb : ¬ is_letter b := h4 b (List.mem_cons_self _ _)
    have hlen : (↑(b :: bs).length : Int) = (bs.length : Int) + 1 := by simp
    rw [hlen] at h3
    have hw : wrap32 (es.escape_len + 1) = es.escape_len + 1 :=
      wrap32_eq_self (by omega) (by omega)
    have hstep : process_pty_byte (ts, es) b
        = (ts, { escape_buffer := store es.escape_buffer es.escape_len b,
                 escape_len := es.escape_len + 1, in_escape := true }) := by
      unfold process_pty_byte
      unfold is_letter at hb
      simp only [h1, if_true, hw]
      rw [if_neg (by omega)]
    rw [process_pty_output_cons, hstep]
    obtain ⟨es', e1, e2, e3⟩ := ih
      { escape_buffer := store es.escape_buffer es.escape_len b,
        escape_len := es.escape_len + 1, in_escape := true }
      rfl (by show 1 ≤ es.escape_len + 1; omega)
      (by show es.escape_len + 1 + (bs.length : Int) < 63; omega)
      (fun x hx => h4 x (List.mem_cons_of_mem _ hx))
    refine ⟨es', e1, e2, ?_⟩
    rw [e3, hlen]
    show es.escape_len + 1 + (bs.length : Int) = es.escape_len + ((bs.length : Int) + 1)
    omega

/-- C17: from the NORMAL parser state, the byte ESC followed by `body` (no letters, at most 61
bytes) and a closing byte `t` that is a letter, or is the 63rd byte of the sequence, is
swallowed whole: the terminal state (screen buffer, cursor and every other field) is what it
was, the bytes before `t` leave the parser inside the sequence, after `t` the parser is back
in NORMAL with an empty sequence, output that follows is processed from there, and a next
byte other than ESC goes to `add_char_to_buffer`. -/
theorem escape_sequence_discarded (ts : terminal_state_t) (es : escape_state)
    (body : List Nat) (t : Nat) (rest : List Nat)
    (hn : es.in_escape = false) (hlen : body.length ≤ 61)
    (hbody : ∀ b ∈ body, ¬ is_letter b) (ht : is_letter t ∨ body.length = 61) :
    (∃ es1, process_pty_output (ts, es) (27 :: body) = (ts, es1) ∧ es1.in_escape = true) ∧
    ∃ es', process_pty_output (ts, es) (27 :: body ++ [t]) = (ts, es') ∧
      es'.in_escape = false ∧ es'.escape_len = 0 ∧
      process_pty_output (ts, es) (27 :: body ++ [t] ++ rest)
        = process_pty_output (ts, es') rest ∧
      ∀ b, b ≠ 27 → process_pty_byte (ts, es') b = (add_char_to_buffer ts b, es') := by
  have hesc : process_pty_byte (ts, es) 27
      = (ts, { escape_buffer := store es.escape_buffer 0 27, escape_len := 1,
               in_escape := true }) := by
    unfold process_pty_byte
    simp [hn]
  obtain ⟨es1, r1, r2, r3⟩ := escape_body_swallowed ts body
    { escape_buffer := store es.escape_buffer 0 27, escape_len := 1, in_escape := true }
    rfl (le_refl 1) (by simp; omega) hbody
  simp only at r3
  have hw : wrap32 (es1.escape_len + 1) = es1.escape_len + 1 :=
    wrap32_eq_self (by omega) (by omega)
  have hclose : process_pty_byte (ts, es1) t
      = (ts, { escape_buffer := store es1.escape_buffer es1.escape_len t,
               escape_len := 0, in_escape := false }) := by
    unfold process_pty_byte
    simp only [r2, if_true, hw]
    rw [if_pos]
    rcases ht with h | h
    · unfold is_letter at h
      omega
    · right; right
      omega
  have hfirst : process_pty_output (ts, es) (27 :: body) = (ts, es1) := by
    rw [process_pty_output_cons, hesc, r1]
  have hall : process_pty_output (ts, es) (27 :: body ++ [t])
      = (ts, { escape_buffer := store es1.escape_buffer es1.escape_len t,
               escape_len := 0, in_escape := false }) := by
    rw [process_pty_output_append, hfirst, process_pty_output_cons, hclose,
      process_pty_output_nil]
  refine ⟨⟨es1, hfirst, r2⟩, _, hall, rfl, rfl, ?_, ?_⟩
  · rw [process_pty_output_append, hall]
  · intro b hb
    unfold process_pty_byte
    simp [hb]

theorem escape_sequence_discarded_witness :
    (escape_state_init.in_escape = false ∧ [91, 51, 49].length ≤ 61 ∧
      (∀ b ∈ [91, 51, 49], ¬ is_letter b) ∧ (is_letter 109 ∨ [91, 51, 49].length = 61)) ∧
    ((∃ es1, process_pty_output (init_screen_buffer sample_terminal, escape_state_init)
          (27 :: [91, 51, 49])
        = (init_screen_buffer sample_terminal, es1) ∧ es1.in_escape = true) ∧
    ∃ es', process_pty_output (init_screen_buffer sample_terminal, escape_state_init)
          (27 :: [91, 51, 49] ++ [109])
        = (init_screen_buffer sample_terminal, es') ∧
      es'.in_escape = false ∧ es'.escape_len = 0 ∧
      process_pty_output (init_screen_buffer sample_terminal, escape_state_init)
          (27 :: [91, 51, 49] ++ [109] ++ [72, 105])
        = process_pty_output (init_screen_buffer sample_terminal, es') [72, 105] ∧
      ∀ b, b ≠ 27 → process_pty_byte (init_screen_buffer sample_terminal, es') b
        = (add_char_to_buffer (init_screen_buffer sample_terminal) b, es')) :=
  ⟨⟨rfl, by decide, by decide, Or.inl (by decide)⟩,
    escape_sequence_discarded (init_screen_buffer sample_terminal) escape_state_init
      [91, 51, 49] 109 [72, 105] rfl (by decide) (by decide) (Or.inl (by decide))⟩

/-! ## Paging through the scrollback -/

/-- The state a Page-Up read leaves. -/
theorem page_up_state (ts : terminal_state_t) :
    (terminal_loop_keyboard ts page_up_keys).state
      = { ts with
          scroll_mode := true
          view_offset :=
            if wrap32 ((if ts.scroll_mode then ts.view_offset else 0) + ts.term_rows)
                > ts.cursor_y then ts.cursor_y
            else wrap32 ((if ts.scroll_mode then ts.view_offset else 0) + ts.term_rows) } := by
  unfold terminal_loop_keyboard keyboard_dispatch page_up_keys
  cases hm : ts.scroll_mode <;> simp [hm]

/-- The state a Page-Down read leaves. -/
theorem page_down_state (ts : terminal_state_t) :
    (terminal_loop_keyboard ts page_down_keys).state
      = if ts.scroll_mode then
          (if wrap32 (ts.view_offset - ts.term_rows) < 0 then
            { ts with view_offset := 0, scroll_mode := false }
          else { ts with view_offset := wrap32 (ts.view_offset - ts.term_rows) })
        else ts := by
  unfold terminal_loop_keyboard keyboard_dispatch page_down_keys
  cases hm : ts.scroll_mode
  · simp [hm]
  · by_cases h : wrap32 (ts.view_offset - ts.term_rows) < 0 <;> simp [hm, h]

theorem page_up_result (ts : terminal_state_t) :
    (terminal_loop_keyboard ts page_up_keys).frames
        = [render_screen (terminal_loop_keyboard ts page_up_keys).state] ∧
      (terminal_loop_keyboard ts page_up_keys).to_child = [] := by
  unfold terminal_loop_keyboard keyboard_dispatch page_up_keys
  cases hm : ts.scroll_mode <;> simp [hm]

theorem window_rows_fst_scenario (ts : terminal_state_t) (hn : ts.term_rows = 7)
    (hc : ts.cursor_y = 50) (hm : ts.scroll_mode = true) (hv : ts.view_offset = 7) :
    (window_rows ts).map Prod.fst = [37, 38, 39, 40, 41, 42, 43] := by
  have hr : int_range 0 7 = [0, 1, 2, 3, 4, 5, 6] := by decide
  have hs : display_start_line ts = 37 := by
    unfold display_start_line
    rw [hm, hc, hn, hv]
    decide
  unfold window_rows
  rw [hs, hn, hr]
  simp only [window_rows_from, hc, SCROLLBACK_LINES]
  have e0 : wrap32 (37 + 0) = 37 := by decide
  have e1 : wrap32 (37 + 1) = 38 := by decide
  have e2 : wrap32 (37 + 2) = 39 := by decide
  have e3 : wrap32 (37 + 3) = 40 := by decide
  have e4 : wrap32 (37 + 4) = 41 := by decide
  have e5 : wrap32 (37 + 5) = 42 := by decide
  have e6 : wrap32 (37 + 6) = 43 := by decide
  rw [e0, e1, e2, e3, e4, e5, e6]
  simp

theorem press_keys_succ (keys : List Nat) (k : Nat) (ts : terminal_state_t) :
    press_keys keys (k + 1) ts = press_keys keys k (terminal_loop_keyboard ts keys).state :=
  rfl

/-- Page-Up reads in SCROLLBACK add whole pages up to the cursor row. -/
theorem press_page_up_scrollback (k : Nat) :
    ∀ ts : terminal_state_t, ts.scroll_mode = true → 1 ≤ ts.term_rows → 0 ≤ ts.view_offset →
      ts.view_offset ≤ ts.cursor_y → ts.cursor_y + ts.term_rows ≤ 2147483647 →
      press_keys page_up_keys k ts
        = { ts with view_offset := min (ts.view_offset + k * ts.term_rows) ts.cursor_y } := by
  induction k with
  | zero =>
    intro ts _ _ _ h4 _
    have : min (ts.view_offset + ((0 : Nat) : Int) * ts.term_rows) ts.cursor_y
        = ts.view_offset := by
      simp only [Nat.cast_zero, zero_mul, add_zero]
      omega
    rw [this]
    rfl
  | succ j ih =>
    intro ts h1 h2 h3 h4 h5
    have hw : wrap32 (ts.view_offset + ts.term_rows) = ts.view_offset + ts.term_rows :=
      wrap32_eq_self (by omega) (by omega)
    have hjn : (0 : Int) ≤ (j : Int) * ts.term_rows :=
      Int.mul_nonneg (Int.ofNat_nonneg j) (by omega)
    have hcast : ((j + 1 : Nat) : Int) * ts.term_rows = (j : Int) * ts.term_rows + ts.term_rows := by
      push_cast; ring
    rw [press_keys_succ, page_up_state]
    simp only [h1, if_true, hw]
    rw [ih _ rfl (by simpa using h2) (by simp only; split_ifs <;> omega)
      (by simp only; split_ifs <;> omega) (by simpa using h5)]
    simp only [hcast]
    congr 1
    split_ifs <;> omega

/-- Page-Down reads in RUNNING leave the state as it is. -/
theorem press_page_down_running (k : Nat) :
    ∀ ts : terminal_state_t, ts.scroll_mode = false → press_keys page_down_keys k ts = ts := by
  induction k with
  | zero => intro ts _; rfl
  | succ j ih =>
    intro ts h
    rw [press_keys_succ, page_down_state, h]
    simp only [Bool.false_eq_true, if_false]
    exact ih ts h

/-- Page-Down reads in SCROLLBACK subtract whole pages; the first one that would take the
offset below zero resets it and returns to RUNNING. -/
theorem press_page_down_scrollback (k : Nat) :
    ∀ ts : terminal_state_t, ts.scroll_mode = true → 1 ≤ ts.term_rows → 0 ≤ ts.view_offset →
      ts.view_offset ≤ 2147483647 → ts.term_rows ≤ 2147483647 →
      press_keys page_down_keys k ts
        = if ts.view_offset < k * ts.term_rows then
            { ts with view_offset := 0, scroll_mode := false }
          else { ts with view_offset := ts.view_offset - k * ts.term_rows } := by
  induction k with
  | zero =>
    intro ts _ _ h3 _ _
    simp only [Nat.cast_zero, zero_mul, sub_zero]
    rw [if_neg (by omega)]
    rfl
  | succ j ih =>
    intro ts h1 h2 h3 h4 h5
    have hw : wrap32 (ts.view_offset - ts.term_rows) = ts.view_offset - ts.term_rows :=
      wrap32_eq_self (by omega) (by omega)
    have hjn : (0 : Int) ≤ (j : Int) * ts.term_rows :=
      Int.mul_nonneg (Int.ofNat_nonneg j) (by omega)
    have hcast : ((j + 1 : Nat) : Int) * ts.term_rows = (j : Int) * ts.term_rows + ts.term_rows := by
      push_cast; ring
    rw [press_keys_succ, page_down_state]
    simp only [h1, if_true, hw, hcast]
    by_cases hneg : ts.view_offset - ts.term_rows < 0
    · rw [if_pos hneg, press_page_down_running j _ rfl, if_pos (by omega)]
    · rw [if_neg hneg,
        ih { ts with scroll_mode := true, view_offset := ts.view_offset - ts.term_rows }
          rfl h2 (by show 0 ≤ ts.view_offset - ts.term_rows; omega)
          (by show ts.view_offset - ts.term_rows ≤ 2147483647; omega) h5]
      simp only
      by_cases hlt : ts.view_offset - ts.term_rows < (j : Int) * ts.term_rows
      · rw [if_pos hlt, if_pos (by omega)]
      · rw [if_neg hlt, if_neg (by omega)]
        congr 1
        omega

theorem window_rows_from_congr (ts ts' : terminal_state_t) (hc : ts'.cursor_y = ts.cursor_y)
    (hh : ts'.char_height = ts.char_height) (start : Int) (rows : List Int) :
    ∀ y, window_rows_from ts' start rows y = window_rows_from ts start rows y := by
  induction rows with
  | nil => intro y; rfl
  | cons r rs ih =>
    intro y
    simp only [window_rows_from, hc, hh, ih]

/-- With `view_offset = 0` the scrollback window starts on the same row as the live one. -/
theorem display_start_line_scroll_zero (ts : terminal_state_t) (hv : ts.view_offset = 0)
    (hn : 1 ≤ ts.term_rows ∧ ts.term_rows ≤ 2147483647)
    (hc : 0 ≤ ts.cursor_y ∧ ts.cursor_y ≤ 2147483647) :
    display_start_line { ts with scroll_mode := true }
      = display_start_line { ts with scroll_mode := false } := by
  have e1 : wrap32 (ts.cursor_y - ts.term_rows) = ts.cursor_y - ts.term_rows :=
    wrap32_eq_self (by omega) (by omega)
  have e2 : wrap32 (ts.cursor_y - ts.term_rows + 1) = ts.cursor_y - ts.term_rows + 1 :=
    wrap32_eq_self (by omega) (by omega)
  unfold display_start_line
  simp only [if_true, Bool.false_eq_true, if_false, hv, sub_zero, e1, e2]
  split_ifs <;> omega

/-- C20 (as stated): in the scenario `term_rows = 7`, `cursor_y = 50`, one Page-Up followed
by one Page-Down brings `view_offset` back to 0 without ever taking it below zero, so the
engine is still in SCROLLBACK and not in RUNNING. -/
theorem scroll_round_trip_stays_scrollback :
    scenario_terminal.scroll_mode = false ∧ scenario_terminal.view_offset = 0 ∧
    (press_keys page_up_keys 1 scenario_terminal).view_offset = 7 ∧
    (press_keys page_down_keys 1 (press_keys page_up_keys 1 scenario_terminal)).view_offset
      = 0 ∧
    (press_keys page_down_keys 1 (press_keys page_up_keys 1 scenario_terminal)).scroll_mode
      = true := by
  decide

/-- C20 (amended): from RUNNING with `view_offset = 0`, `k >= 1` Page-Up reads followed by
`k` Page-Down reads leave every field but `scroll_mode` as it was, so `view_offset = 0` and
the rows of the rendered window are those rendered before the first Page-Up; the engine is
back in RUNNING exactly when `cursor_y < k * term_rows`, and then the whole frame is the one
rendered before; otherwise it is in SCROLLBACK with `view_offset = 0`. -/
theorem scroll_round_trip (ts : terminal_state_t) (k : Nat) (hk : 1 ≤ k)
    (hrun : ts.scroll_mode = false) (hvo : ts.view_offset = 0)
    (hn : 1 ≤ ts.term_rows) (hc : 0 ≤ ts.cursor_y)
    (hsum : ts.cursor_y + ts.term_rows ≤ 2147483647) :
    press_keys page_down_keys k (press_keys page_up_keys k ts)
      = { ts with scroll_mode := decide (¬ ts.cursor_y < k * ts.term_rows) } ∧
    (press_keys page_down_keys k (press_keys page_up_keys k ts)).view_offset = 0 ∧
    ((press_keys page_down_keys k (press_keys page_up_keys k ts)).scroll_mode = false
      ↔ ts.cursor_y < k * ts.term_rows) ∧
    window_rows (press_keys page_down_keys k (press_keys page_up_keys k ts))
      = window_rows ts ∧
    (ts.cursor_y < k * ts.term_rows →
      render_screen (press_keys page_down_keys k (press_keys page_up_keys k ts))
        = render_screen ts) := by
  obtain ⟨j, rfl⟩ : ∃ j, k = j + 1 := ⟨k - 1, by omega⟩
  have hw : wrap32 (0 + ts.term_rows) = ts.term_rows := by
    rw [zero_add]; exact wrap32_eq_self (by omega) (by omega)
  have hjn : (0 : Int) ≤ (j : Int) * ts.term_rows :=
    Int.mul_nonneg (Int.ofNat_nonneg j) (by omega)
  have hcast : ((j + 1 : Nat) : Int) * ts.term_rows = (j : Int) * ts.term_rows + ts.term_rows := by
    push_cast; ring
  have hups : press_keys page_up_keys (j + 1) ts
      = { ts with scroll_mode := true
                  view_offset := min (((j + 1 : Nat) : Int) * ts.term_rows) ts.cursor_y } := by
    rw [press_keys_succ, page_up_state]
    simp only [hrun, Bool.false_eq_true, if_false, hw]
    rw [press_page_up_scrollback j _ rfl (by simpa using hn)
      (by simp only; split_ifs <;> omega) (by simp only; split_ifs <;> omega)
      (by simpa using hsum)]
    simp only [hcast]
    congr 1
    split_ifs <;> omega
  have hall : press_keys page_down_keys (j + 1) (press_keys page_up_keys (j + 1) ts)
      = { ts with scroll_mode := decide (¬ ts.cursor_y < ((j + 1 : Nat) : Int) * ts.term_rows) } := by
    rw [hups, press_page_down_scrollback (j + 1) _ rfl (by simpa using hn)
      (by simp only; omega) (by simp only; omega) (by simp only; omega)]
    simp only
    by_cases hlt : ts.cursor_y < ((j + 1 : Nat) : Int) * ts.term_rows
    · rw [if_pos (by omega)]
      simp only [hlt, not_true_eq_false, decide_False, ← hvo]
    · rw [if_neg (by omega)]
      simp only [hlt, not_false_eq_true, decide_True]
      congr 1
      omega
  rw [hall]
  refine ⟨rfl, hvo, by simp, ?_, ?_⟩
  · unfold window_rows
    by_cases hlt : ts.cursor_y < ((j + 1 : Nat) : Int) * ts.term_rows
    · simp only [hlt, not_true_eq_false, decide_False, ← hrun]
    · simp only [hlt, not_false_eq_true, decide_True]
      rw [display_start_line_scroll_zero ts hvo ⟨hn, by omega⟩ ⟨hc, by omega⟩]
      have hts : { ts with scroll_mode := false } = ts := by rw [← hrun]
      rw [hts]
      exact window_rows_from_congr ts { ts with scroll_mode := true } rfl rfl _ _ _
  · intro hlt
    simp only [hlt, not_true_eq_false, decide_False, ← hrun]

theorem scroll_round_trip_witness :
    ((1 : Nat) ≤ 1 ∧ scenario_terminal.scroll_mode = false ∧
      scenario_terminal.view_offset = 0 ∧ 1 ≤ scenario_terminal.term_rows ∧
      0 ≤ scenario_terminal.cursor_y ∧
      scenario_terminal.cursor_y + scenario_terminal.term_rows ≤ 2147483647) ∧
    (press_keys page_down_keys 1 (press_keys page_up_keys 1 scenario_terminal)
      = { scenario_terminal with
          scroll_mode :=
            decide (¬ scenario_terminal.cursor_y < (1 : Nat) * scenario_terminal.term_rows) } ∧
    (press_keys page_down_keys 1 (press_keys page_up_keys 1 scenario_terminal)).view_offset
      = 0 ∧
    ((press_keys page_down_keys 1 (press_keys page_up_keys 1 scenario_terminal)).scroll_mode
        = false
      ↔ scenario_terminal.cursor_y < (1 : Nat) * scenario_terminal.term_rows) ∧
    window_rows (press_keys page_down_keys 1 (press_keys page_up_keys 1 scenario_terminal))
      = window_rows scenario_terminal ∧
    (scenario_terminal.cursor_y < (1 : Nat) * scenario_terminal.term_rows →
      render_screen (press_keys page_down_keys 1 (press_keys page_up_keys 1 scenario_terminal))
        = render_screen scenario_terminal)) :=
  ⟨⟨by decide, by decide, by decide, by decide, by decide, by decide⟩,
    scroll_round_trip scenario_terminal 1 (by decide) (by decide) (by decide) (by decide)
      (by decide) (by decide)⟩

/-! ## Rows of the screen buffer -/

theorem c_string_append_zero (pre rest : List Nat) (h : ∀ b ∈ pre, b ≠ 0) :
    c_string (pre ++ 0 :: rest) = pre := by
  unfold c_string
  induction pre with
  | nil => simp
  | cons a t ih =>
    have ha : a ≠ 0 := h a (List.mem_cons_self _ _)
    simp only [List.cons_append, List.takeWhile_cons, ha, ne_eq, not_false_eq_true,
      decide_True, if_true]
    rw [ih (fun b hb => h b (List.mem_cons_of_mem _ hb))]

theorem c_string_nonzero (row : List Nat) : ∀ b ∈ c_string row, b ≠ 0 := by
  intro b hb
  unfold c_string at hb
  have := List.mem_takeWhile_imp hb
  simpa using this

theorem pad_length (l : List Nat) (hl : l.length ≤ 80) : (pad l).length = 81 := by
  unfold pad
  rw [List.length_append, List.length_replicate]
  omega

theorem pad_eq_cons (l : List Nat) (hl : l.length ≤ 80) :
    pad l = l ++ 0 :: List.replicate (80 - l.length) 0 := by
  unfold pad
  have : 81 - l.length = (80 - l.length) + 1 := by omega
  rw [this, List.replicate_succ]

theorem c_string_pad (l : List Nat) (hl : l.length ≤ 80) (hnz : ∀ b ∈ l, b ≠ 0) :
    c_string (pad l) = l := by
  rw [pad_eq_cons l hl]
  exact c_string_append_zero l _ hnz

theorem pad_get_last (l : List Nat) (hl : l.length ≤ 80) : (pad l)[80]? = some 0 := by
  unfold pad
  rw [List.getElem?_append_right (by omega), List.getElem?_replicate, if_pos (by omega)]

theorem row_inv_pad (cols : Int) (l : List Nat) (hl : l.length ≤ 80)
    (hnz : ∀ b ∈ l, b ≠ 0) (hc : (l.length : Int) ≤ cols) : row_inv cols (pad l) := by
  refine ⟨pad_length l hl, pad_get_last l hl, ?_, ?_⟩
  · rw [c_string_pad l hl hnz]
  · rw [c_string_pad l hl hnz]; exact hc

theorem row_inv_text_le (cols : Int) (row : List Nat) (h : row_inv cols row) :
    (c_string row).length ≤ 80 := by
  obtain ⟨h1, h2, h3, _⟩ := h
  by_contra hgt
  have hlen : (pad (c_string row)).length = 81 := by rw [← h3]; exact h1
  unfold pad at hlen
  rw [List.length_append, List.length_replicate] at hlen
  have h81 : (c_string row).length = 81 := by omega
  have hrow : row = c_string row := by
    have e := h3
    unfold pad at e
    rw [h81] at e
    simpa using e
  have hmem : (0 : Nat) ∈ c_string row := by
    rw [← hrow]
    obtain ⟨hlt, he⟩ := List.getElem?_eq_some.mp h2
    rw [← he]
    exact List.getElem_mem hlt
  exact c_string_nonzero row 0 hmem rfl

theorem zero_row_eq_pad : zero_row = pad [] := rfl

theorem row_inv_zero (cols : Int) (hc : 0 ≤ cols) : row_inv cols zero_row := by
  rw [zero_row_eq_pad]
  exact row_inv_pad cols [] (by simp) (by simp) (by simpa using hc)

theorem c_string_zero_row : c_string zero_row = [] := by
  rw [zero_row_eq_pad]
  exact c_string_pad [] (by simp) (by simp)

theorem pad_set_lt (l : List Nat) (x v : Nat) (hx : x < l.length) :
    (pad l).set x v = pad (l.set x v) := by
  unfold pad
  rw [List.set_append_left _ _ hx, List.length_set]

theorem pad_set_eq (l : List Nat) (v : Nat) (hl : l.length < 80) :
    (pad l).set l.length v = pad (l ++ [v]) := by
  rw [pad_eq_cons l (by omega), pad_eq_cons (l ++ [v]) (by simp; omega)]
  rw [List.set_append_right _ _ (le_refl _)]
  simp only [Nat.sub_self, List.set_cons_zero, List.length_append, List.length_singleton,
    List.append_assoc, List.singleton_append]
  have : 80 - l.length = (80 - (l.length + 1)) + 1 := by omega
  rw [this, List.replicate_succ]

/-! ## The screen buffer as a whole -/

theorem shift_up_length (buf : List (List Nat)) (h : buf.length = 100) :
    (shift_up buf).length = 100 := by
  unfold shift_up
  simp only [List.length_append, List.length_take, List.length_drop]
  omega

theorem shift_up_get (buf : List (List Nat)) (h : buf.length = 100) (i : Nat) :
    (shift_up buf)[i]? = if i < 99 then buf[i + 1]? else buf[i]? := by
  unfold shift_up
  have hl : ((buf.drop 1).take 99).length = 99 := by
    simp only [List.length_take, List.length_drop]; omega
  by_cases hi : i < 99
  · rw [if_pos hi, List.getElem?_append_left (by omega), List.getElem?_take, if_pos hi,
      List.getElem?_drop, Nat.add_comm]
  · rw [if_neg hi, List.getElem?_append_right (by omega), hl, List.getElem?_drop]
    congr 1
    omega

theorem clear_row_length (buf : List (List Nat)) (y : Int) :
    (clear_row buf y).length = buf.length := by
  unfold clear_row
  split <;> simp

theorem clear_row_get (buf : List (List Nat)) (y : Int) (i : Nat) :
    (clear_row buf y)[i]? =
      if 0 ≤ y ∧ y.toNat = i ∧ i < buf.length then some zero_row else buf[i]? := by
  unfold clear_row
  by_cases h0 : 0 ≤ y
  · rw [if_pos h0, List.getElem?_set]
    by_cases h1 : y.toNat = i
    · subst h1
      by_cases h2 : y.toNat < buf.length
      · simp [h0, h2]
      · simp [h2, List.getElem?_eq_none (Nat.le_of_not_lt h2)]
    · simp [h1]
  · simp [h0]

theorem set_cell_length (buf : List (List Nat)) (y x : Int) (v : Nat) :
    (set_cell buf y x v).length = buf.length := by
  unfold set_cell
  split
  · split <;> simp
  · rfl

theorem set_cell_get (buf : List (List Nat)) (y x : Int) (v : Nat) (i : Nat) :
    (set_cell buf y x v)[i]? =
      if 0 ≤ y ∧ 0 ≤ x ∧ y.toNat = i then (buf[i]?).map (fun row => row.set x.toNat v)
      else buf[i]? := by
  unfold set_cell
  by_cases h0 : 0 ≤ y ∧ 0 ≤ x
  · rw [if_pos h0]
    by_cases h1 : y.toNat = i
    · subst h1
      rw [if_pos ⟨h0.1, h0.2, rfl⟩]
      cases hr : buf[y.toNat]? with
      | none => simp [hr]
      | some row =>
        have hlt : y.toNat < buf.length := (List.getElem?_eq_some.mp hr).1
        simp only [Option.map_some']
        rw [List.getElem?_set, if_pos rfl, if_pos hlt]
    · rw [if_neg (fun h => h1 h.2.2)]
      cases hr : buf[y.toNat]? with
      | none => rfl
      | some row => simp only []; rw [List.getElem?_set, if_neg h1]
  · rw [if_neg h0, if_neg (fun h => h0 ⟨h.1, h.2.1⟩)]

/-- Writing a non-NUL byte inside or right after the text of a row. -/
theorem row_set_text (cols : Int) (row : List Nat) (x v : Nat) (h : row_inv cols row)
    (hx : x ≤ (c_string row).length) (hx80 : x < 80) (hv : v ≠ 0) :
    row.set x v
        = pad (if x < (c_string row).length then (c_string row).set x v
               else c_string row ++ [v]) ∧
      c_string (row.set x v)
        = (if x < (c_string row).length then (c_string row).set x v
           else c_string row ++ [v]) := by
  have h80 := row_inv_text_le cols row h
  have hrow : row = pad (c_string row) := h.2.2.1
  have hnz := c_string_nonzero row
  by_cases hlt : x < (c_string row).length
  · simp only [if_pos hlt]
    have e : row.set x v = pad ((c_string row).set x v) := by
      conv_lhs => rw [hrow]
      exact pad_set_lt _ x v hlt
    refine ⟨e, ?_⟩
    rw [e]
    apply c_string_pad
    · rw [List.length_set]; exact h80
    · intro b hb
      rcases List.mem_or_eq_of_mem_set hb with hb1 | hb1
      · exact hnz b hb1
      · rw [hb1]; exact hv
  · simp only [if_neg hlt]
    have hxe : x = (c_string row).length := by omega
    have e : row.set x v = pad (c_string row ++ [v]) := by
      conv_lhs => rw [hrow, hxe]
      exact pad_set_eq _ v (by omega)
    refine ⟨e, ?_⟩
    rw [e]
    apply c_string_pad
    · rw [List.length_append, List.length_singleton]; omega
    · intro b hb
      rcases List.mem_append.mp hb with hb1 | hb1
      · exact hnz b hb1
      · rw [List.mem_singleton.mp hb1]; exact hv

theorem row_set_inv (cols : Int) (row : List Nat) (x v : Nat) (h : row_inv cols row)
    (hx : x ≤ (c_string row).length) (hx80 : x < 80) (hxc : (x : Int) < cols) (hv : v ≠ 0) :
    row_inv cols (row.set x v) ∧ x + 1 ≤ (c_string (row.set x v)).length := by
  have h80 := row_inv_text_le cols row h
  have hnz := c_string_nonzero row
  have hc := h.2.2.2
  obtain ⟨e1, e2⟩ := row_set_text cols row x v h hx hx80 hv
  have hlen : (c_string (row.set x v)).length
      = if x < (c_string row).length then (c_string row).length
        else (c_string row).length + 1 := by
    rw [e2]
    split_ifs
    · rw [List.length_set]
    · rw [List.length_append, List.length_singleton]
  have hl80 : (c_string (row.set x v)).length ≤ 80 := by
    rw [hlen]; split_ifs <;> omega
  refine ⟨?_, by rw [hlen]; split_ifs <;> omega⟩
  have hpad : row.set x v = pad (c_string (row.set x v)) := by
    rw [e2]; exact e1
  refine ⟨?_, ?_, hpad, ?_⟩
  · rw [List.length_set]; exact h.1
  · rw [hpad]; exact pad_get_last _ hl80
  · rw [hlen]; split_ifs <;> omega

theorem set_cell_row_inv (buf : List (List Nat)) (cols y x : Int) (v : Nat)
    (hrows : ∀ (i : Nat) (row : List Nat), buf[i]? = some row → row_inv cols row)
    (hy : 0 ≤ y) (hx0 : 0 ≤ x) (hx80 : x < 80) (hxc : x < cols) (hv : v ≠ 0)
    (hcur : ∀ row : List Nat, buf[y.toNat]? = some row → x ≤ (c_string row).length) :
    (∀ (i : Nat) (row : List Nat), (set_cell buf y x v)[i]? = some row → row_inv cols row) ∧
    (∀ row : List Nat, (set_cell buf y x v)[y.toNat]? = some row →
      x + 1 ≤ (c_string row).length) := by
  have key : ∀ row : List Nat, buf[y.toNat]? = some row →
      row_inv cols (row.set x.toNat v) ∧ x.toNat + 1 ≤ (c_string (row.set x.toNat v)).length := by
    intro row hr
    have h1 := hcur row hr
    exact row_set_inv cols row x.toNat v (hrows _ row hr) (by omega) (by omega) (by omega) hv
  constructor
  · intro i row hi
    rw [set_cell_get] at hi
    by_cases hc : 0 ≤ y ∧ 0 ≤ x ∧ y.toNat = i
    · rw [if_pos hc] at hi
      obtain ⟨_, _, rfl⟩ := hc
      cases hr : buf[y.toNat]? with
      | none => rw [hr] at hi; simp at hi
      | some r0 =>
        rw [hr] at hi
        simp only [Option.map_some', Option.some.injEq] at hi
        rw [← hi]
        exact (key r0 hr).1
    · rw [if_neg hc] at hi
      exact hrows i row hi
  · intro row hi
    rw [set_cell_get, if_pos ⟨hy, hx0, rfl⟩] at hi
    cases hr : buf[y.toNat]? with
    | none => rw [hr] at hi; simp at hi
    | some r0 =>
      rw [hr] at hi
      simp only [Option.map_some', Option.some.injEq] at hi
      rw [← hi]
      have := (key r0 hr).2
      omega

theorem set_cell_get_other (buf : List (List Nat)) (y x : Int) (v : Nat) (i : Nat)
    (h : y.toNat ≠ i) : (set_cell buf y x v)[i]? = buf[i]? := by
  rw [set_cell_get, if_neg (fun hc => h hc.2.2)]

/-- The cursor column is at most 80 in a state that satisfies the invariant. -/
theorem screen_inv_cursor_x_le (ts : terminal_state_t) (h : screen_inv ts) :
    ts.cursor_x ≤ 80 := by
  obtain ⟨hlen, hcy, hcx, hrows, hafter, hcur⟩ := h
  have hlt : ts.cursor_y.toNat < ts.screen_buffer.length := by omega
  have hr : ts.screen_buffer[ts.cursor_y.toNat]? = some (ts.screen_buffer[ts.cursor_y.toNat]) :=
    List.getElem?_eq_getElem hlt
  have h1 := hcur _ hr
  have h2 := row_inv_text_le _ _ (hrows _ _ hr)
  omega

/-- The function `add_char_to_buffer` preserves the screen invariant, whatever the byte. -/
theorem add_char_inv (ts : terminal_state_t) (c : Nat) (h : screen_inv ts) :
    screen_inv (add_char_to_buffer ts c) := by
  have hx80 := screen_inv_cursor_x_le ts h
  obtain ⟨hlen, hcy, hcx, hrows, hafter, hcur⟩ := h
  have hw1 : wrap32 (ts.cursor_y + 1) = ts.cursor_y + 1 := wrap32_eq_self (by omega) (by omega)
  have hw2 : wrap32 (ts.cursor_x + 1) = ts.cursor_x + 1 := wrap32_eq_self (by omega) (by omega)
  have hw3 : wrap32 (ts.cursor_x - 1) = ts.cursor_x - 1 := wrap32_eq_self (by omega) (by omega)
  have hcols : 0 ≤ ts.term_cols := by omega
  -- the two ways of moving to the next row
  have next_row : ∀ buf : List (List Nat), buf.length = 100 →
      (∀ (i : Nat) (row : List Nat), buf[i]? = some row → row_inv ts.term_cols row) →
      (∀ i : Nat, ts.cursor_y + 1 < i → i < 100 → buf[i]? = some zero_row) →
      (ts.cursor_y + 1 < 100 → buf[(ts.cursor_y + 1).toNat]? = some zero_row) →
      screen_inv (if ts.cursor_y + 1 ≥ 100 then
          { ts with cursor_x := 0, cursor_y := 100 - 1,
                    screen_buffer := clear_row (shift_up buf) (100 - 1) }
        else { ts with cursor_x := 0, cursor_y := ts.cursor_y + 1, screen_buffer := buf }) := by
    intro buf hbl hbr hba hbn
    by_cases hge : ts.cursor_y + 1 ≥ 100
    · rw [if_pos hge]
      refine ⟨?_, ⟨by simp, by simp⟩, ⟨le_refl 0, by simpa using (by omega : 0 < ts.term_cols)⟩,
        ?_, ?_, ?_⟩
      · simp only [clear_row_length]; exact shift_up_length buf hbl
      · intro i row hi
        simp only [clear_row_get, shift_up_get buf hbl] at hi
        split_ifs at hi with h1 h2
        · rw [← Option.some.inj hi]; exact row_inv_zero _ hcols
        · exact hbr _ row hi
        · exact hbr _ row hi
      · intro i h1 h2
        simp only at h1
        omega
      · intro row hi
        have hi' : (clear_row (shift_up buf) (100 - 1))[((100 : Int) - 1).toNat]? = some row := hi
        rw [clear_row_get,
          if_pos ⟨by decide, rfl, by rw [shift_up_length buf hbl]; decide⟩] at hi'
        rw [← Option.some.inj hi', c_string_zero_row]
        simp
    · rw [if_neg hge]
      refine ⟨hbl, ⟨by simp only; omega, by simp only; omega⟩,
        ⟨le_refl 0, by simpa using (by omega : 0 < ts.term_cols)⟩, hbr, ?_, ?_⟩
      · intro i h1 h2
        exact hba i h1 h2
      · intro row hi
        simp only at hi
        rw [hbn (by omega)] at hi
        rw [← Option.some.inj hi, c_string_zero_row]
        simp
  unfold add_char_to_buffer
  simp only [SCROLLBACK_LINES, hw1, hw2, hw3]
  by_cases hbrk : c = 10 ∨ c = 13
  · rw [if_pos hbrk]
    by_cases hge : ts.cursor_y + 1 ≥ 100
    · have := next_row ts.screen_buffer hlen hrows (fun i h1 h2 => hafter i (by omega) h2)
        (fun h1 => hafter _ (by omega) (by omega))
      rw [if_pos hge] at this
      rw [if_pos hge]
      exact this
    · have := next_row (clear_row ts.screen_buffer (ts.cursor_y + 1))
        (by rw [clear_row_length]; exact hlen)
        (by
          intro i row hi
          rw [clear_row_get] at hi
          split_ifs at hi
          · rw [← Option.some.inj hi]; exact row_inv_zero _ hcols
          · exact hrows i row hi)
        (by
          intro i h1 h2
          rw [clear_row_get, if_neg (by omega)]
          exact hafter i (by omega) h2)
        (by
          intro _
          rw [clear_row_get, if_pos ⟨by omega, rfl, by omega⟩])
      rw [if_neg hge] at this
      rw [if_neg hge]
      exact this
  · rw [if_neg hbrk]
    by_cases hbs : c = 8 ∨ c = 127
    · rw [if_pos hbs]
      by_cases hpos : ts.cursor_x > 0
      · rw [if_pos hpos]
        obtain ⟨r1, r2⟩ := set_cell_row_inv ts.screen_buffer ts.term_cols ts.cursor_y
          (ts.cursor_x - 1) 32 hrows hcy.1 (by omega) (by omega) (by omega) (by decide)
          (fun row hr => by have := hcur row hr; omega)
        refine ⟨by rw [set_cell_length]; exact hlen, hcy, ⟨by simp only; omega, by simp only; omega⟩,
          r1, ?_, ?_⟩
        · intro i h1 h2
          simp only at h1
          rw [set_cell_get_other _ _ _ _ _ (by omega)]
          exact hafter i h1 h2
        · intro row hi
          have := r2 row hi
          simp only
          omega
      · rw [if_neg hpos]
        exact ⟨hlen, hcy, hcx, hrows, hafter, hcur⟩
    · rw [if_neg hbs]
      by_cases hpr : c ≥ 32 ∧ c < 127
      · rw [if_pos hpr]
        by_cases hfit : ts.cursor_x < ts.term_cols ∧ ts.cursor_x < 80
        · rw [if_pos hfit]
          obtain ⟨r1, r2⟩ := set_cell_row_inv ts.screen_buffer ts.term_cols ts.cursor_y
            ts.cursor_x c hrows hcy.1 hcx.1 hfit.2 hfit.1 (by omega) hcur
          have hl1 : (set_cell ts.screen_buffer ts.cursor_y ts.cursor_x c).length = 100 := by
            rw [set_cell_length]; exact hlen
          by_cases hwrap : ts.cursor_x + 1 ≥ ts.term_cols
          · rw [if_pos hwrap]
            exact next_row _ hl1 r1
              (by
                intro i h1 h2
                rw [set_cell_get_other _ _ _ _ _ (by omega)]
                exact hafter i (by omega) h2)
              (by
                intro h1
                rw [set_cell_get_other _ _ _ _ _ (by omega)]
                exact hafter _ (by omega) (by omega))
          · rw [if_neg hwrap]
            refine ⟨hl1, hcy, ⟨by simp only; omega, by simp only; omega⟩, r1, ?_, ?_⟩
            · intro i h1 h2
              simp only at h1
              rw [set_cell_get_other _ _ _ _ _ (by omega)]
              exact hafter i h1 h2
            · intro row hi
              exact r2 row hi
        · rw [if_neg hfit]
          exact ⟨hlen, hcy, hcx, hrows, hafter, hcur⟩
      · rw [if_neg hpr]
        exact ⟨hlen, hcy, hcx, hrows, hafter, hcur⟩

/-! ## The screen invariant along the child output -/

theorem process_pty_byte_inv (s : terminal_state_t × escape_state) (c : Nat)
    (h : screen_inv s.1) : screen_inv (process_pty_byte s c).1 := by
  unfold process_pty_byte
  dsimp only
  split_ifs
  · exact h
  · exact h
  · exact h
  · exact add_char_inv s.1 c h

theorem process_pty_output_inv (data : List Nat) :
    ∀ s : terminal_state_t × escape_state, screen_inv s.1 →
      screen_inv (process_pty_output s data).1 := by
  induction data with
  | nil => intro s h; exact h
  | cons c cs ih =>
    intro s h
    rw [process_pty_output_cons]
    exact ih _ (process_pty_byte_inv s c h)

theorem add_char_term_cols (ts : terminal_state_t) (c : Nat) :
    (add_char_to_buffer ts c).term_cols = ts.term_cols := by
  unfold add_char_to_buffer
  dsimp only
  split_ifs <;> rfl

theorem add_char_total_lines (ts : terminal_state_t) (c : Nat) :
    (add_char_to_buffer ts c).total_lines = ts.total_lines := by
  unfold add_char_to_buffer
  dsimp only
  split_ifs <;> rfl

theorem process_pty_byte_total_lines (s : terminal_state_t × escape_state) (c : Nat) :
    (process_pty_byte s c).1.total_lines = s.1.total_lines := by
  unfold process_pty_byte
  dsimp only
  split_ifs
  · rfl
  · rfl
  · rfl
  · exact add_char_total_lines s.1 c

theorem process_pty_output_total_lines (data : List Nat) :
    ∀ s : terminal_state_t × escape_state,
      (process_pty_output s data).1.total_lines = s.1.total_lines := by
  induction data with
  | nil => intro s; rfl
  | cons c cs ih =>
    intro s
    rw [process_pty_output_cons, ih, process_pty_byte_total_lines]

theorem init_screen_buffer_inv (ts : terminal_state_t) (hcols : 1 ≤ ts.term_cols) :
    screen_inv (init_screen_buffer ts) := by
  unfold init_screen_buffer
  refine ⟨by simp, ⟨le_refl 0, by simp only; omega⟩, ⟨le_refl 0, by simp only; omega⟩,
    ?_, ?_, ?_⟩
  · intro i row hi
    simp only [List.getElem?_replicate] at hi
    split_ifs at hi
    rw [← Option.some.inj hi]
    exact row_inv_zero _ (by simp only; omega)
  · intro i _ h2
    simp only [List.getElem?_replicate]
    rw [if_pos h2]
  · intro row hi
    simp only [List.getElem?_replicate] at hi
    split_ifs at hi
    rw [← Option.some.inj hi, c_string_zero_row]
    simp

/-- C16: after `init_screen_buffer` with `term_cols >= 1` (in particular
`1 <= term_cols <= 80`), `process_pty_output` leaves the screen invariant in force whatever
bytes it consumes and from whatever parser state: the buffer has 100 rows,
`0 <= cursor_y <= 99`, `0 <= cursor_x < term_cols`, every row has 81 bytes with byte 80 NUL
and is its text (non-NUL bytes, at most `term_cols` of them) followed only by NUL bytes, and
every row after `cursor_y` is entirely NUL. -/
theorem screen_invariant (ts : terminal_state_t) (es : escape_state) (data : List Nat)
    (hcols : 1 ≤ ts.term_cols) :
    screen_inv (process_pty_output (init_screen_buffer ts, es) data).1 ∧
    (∀ (i : Nat) (row : List Nat),
      (process_pty_output (init_screen_buffer ts, es) data).1.screen_buffer[i]? = some row →
        ∀ b ∈ c_string row, b ≠ 0) :=
  ⟨process_pty_output_inv data _ (init_screen_buffer_inv ts hcols),
    fun _ row _ => c_string_nonzero row⟩

theorem screen_invariant_witness :
    1 ≤ sample_terminal.term_cols ∧
    (screen_inv (process_pty_output (init_screen_buffer sample_terminal, escape_state_init)
        [72, 105, 10, 27, 91, 109, 8, 33]).1 ∧
    (∀ (i : Nat) (row : List Nat),
      (process_pty_output (init_screen_buffer sample_terminal, escape_state_init)
        [72, 105, 10, 27, 91, 109, 8, 33]).1.screen_buffer[i]? = some row →
        ∀ b ∈ c_string row, b ≠ 0)) :=
  ⟨by decide, screen_invariant sample_terminal escape_state_init
    [72, 105, 10, 27, 91, 109, 8, 33] (by decide)⟩

/-! ## Printable bytes -/

/-- The three outcomes of `add_char_to_buffer` on a printable byte that fits the row. -/
theorem add_char_printable_eq (ts : terminal_state_t) (c : Nat) (hc : 32 ≤ c ∧ c ≤ 126)
    (hx : -2147483648 ≤ ts.cursor_x ∧ ts.cursor_x < ts.term_cols ∧ ts.cursor_x < 80)
    (hy : -2147483648 ≤ ts.cursor_y ∧ ts.cursor_y ≤ 99) :
    add_char_to_buffer ts c
      = if ts.cursor_x + 1 ≥ ts.term_cols then
          (if ts.cursor_y + 1 ≥ 100 then
            { ts with
              cursor_x := 0
              cursor_y := 99
              screen_buffer :=
                clear_row (shift_up (set_cell ts.screen_buffer ts.cursor_y ts.cursor_x c)) 99 }
          else
            { ts with
              cursor_x := 0
              cursor_y := ts.cursor_y + 1
              screen_buffer := set_cell ts.screen_buffer ts.cursor_y ts.cursor_x c })
        else
          { ts with
            cursor_x := ts.cursor_x + 1
            screen_buffer := set_cell ts.screen_buffer ts.cursor_y ts.cursor_x c } := by
  have hw1 : wrap32 (ts.cursor_y + 1) = ts.cursor_y + 1 := wrap32_eq_self (by omega) (by omega)
  have hw2 : wrap32 (ts.cursor_x + 1) = ts.cursor_x + 1 := wrap32_eq_self (by omega) (by omega)
  unfold add_char_to_buffer
  simp only [SCROLLBACK_LINES, hw1, hw2]
  rw [if_neg (by omega), if_neg (by omega), if_pos (by omega), if_pos ⟨hx.2.1, hx.2.2⟩]
  rfl

/-- C18: in a state that satisfies the screen invariant, with cursor `(x, y)` and
`1 <= term_cols <= 80`, a printable byte `c` (32 .. 126) is stored in cell `x` of row `y`;
the cursor then is `(x + 1, y)` when `x + 1 < term_cols`, else `(0, y + 1)` when `y < 99`,
else `(0, 99)` after the rows moved up by one (row 98 is the row just written, row 99 is
empty); the invariant still holds, so no row holds more than `term_cols` characters. -/
theorem add_printable (ts : terminal_state_t) (c : Nat) (hinv : screen_inv ts)
    (hcols : 1 ≤ ts.term_cols ∧ ts.term_cols ≤ 80) (hc : 32 ≤ c ∧ c ≤ 126) :
    (∃ row : List Nat, ts.screen_buffer[ts.cursor_y.toNat]? = some row ∧
      set_cell ts.screen_buffer ts.cursor_y ts.cursor_x c
        = ts.screen_buffer.set ts.cursor_y.toNat (row.set ts.cursor_x.toNat c) ∧
      (row.set ts.cursor_x.toNat c)[ts.cursor_x.toNat]? = some c ∧
      (ts.cursor_x + 1 ≥ ts.term_cols → ts.cursor_y = 99 →
        (add_char_to_buffer ts c).screen_buffer[98]? = some (row.set ts.cursor_x.toNat c) ∧
        (add_char_to_buffer ts c).screen_buffer[99]? = some zero_row ∧
        ∀ i : Nat, i < 98 →
          (add_char_to_buffer ts c).screen_buffer[i]? = ts.screen_buffer[i + 1]?)) ∧
    (ts.cursor_x + 1 < ts.term_cols →
      add_char_to_buffer ts c
        = { ts with
            cursor_x := ts.cursor_x + 1
            screen_buffer := set_cell ts.screen_buffer ts.cursor_y ts.cursor_x c }) ∧
    (ts.cursor_x + 1 ≥ ts.term_cols → ts.cursor_y < 99 →
      add_char_to_buffer ts c
        = { ts with
            cursor_x := 0
            cursor_y := ts.cursor_y + 1
            screen_buffer := set_cell ts.screen_buffer ts.cursor_y ts.cursor_x c }) ∧
    (ts.cursor_x + 1 ≥ ts.term_cols → ts.cursor_y = 99 →
      add_char_to_buffer ts c
        = { ts with
            cursor_x := 0
            cursor_y := 99
            screen_buffer :=
              clear_row (shift_up (set_cell ts.screen_buffer ts.cursor_y ts.cursor_x c)) 99 }) ∧
    screen_inv (add_char_to_buffer ts c) ∧
    (∀ (i : Nat) (row : List Nat), (add_char_to_buffer ts c).screen_buffer[i]? = some row →
      ((c_string row).length : Int) ≤ ts.term_cols) := by
  have hinv' := add_char_inv ts c hinv
  obtain ⟨hlen, hcy, hcx, hrows, hafter, hcur⟩ := hinv
  have heq := add_char_printable_eq ts c hc ⟨by omega, hcx.2, by omega⟩ ⟨by omega, hcy.2⟩
  have hlt : ts.cursor_y.toNat < ts.screen_buffer.length := by omega
  have hr : ts.screen_buffer[ts.cursor_y.toNat]?
      = some (ts.screen_buffer[ts.cursor_y.toNat]) := List.getElem?_eq_getElem hlt
  have hset : set_cell ts.screen_buffer ts.cursor_y ts.cursor_x c
      = ts.screen_buffer.set ts.cursor_y.toNat
          ((ts.screen_buffer[ts.cursor_y.toNat]).set ts.cursor_x.toNat c) := by
    unfold set_cell
    rw [if_pos ⟨hcy.1, hcx.1⟩, hr]
  have hrowlen : (ts.screen_buffer[ts.cursor_y.toNat]).length = 81 := (hrows _ _ hr).1
  refine ⟨⟨_, hr, hset, ?_, ?_⟩, ?_, ?_, ?_, hinv', ?_⟩
  · rw [List.getElem?_set, if_pos rfl, if_pos (by omega)]
  · intro hwrap h99
    rw [heq, if_pos hwrap, if_pos (by omega)]
    simp only
    have hl1 : (set_cell ts.screen_buffer ts.cursor_y ts.cursor_x c).length = 100 := by
      rw [set_cell_length]; exact hlen
    have h99n : ts.cursor_y.toNat = 99 := by omega
    refine ⟨?_, ?_, ?_⟩
    · rw [clear_row_get, if_neg (by simp), shift_up_get _ hl1, if_pos (by decide), hset,
        List.getElem?_set, if_pos (by omega), if_pos (by omega)]
    · rw [clear_row_get, if_pos ⟨by decide, by decide, by rw [shift_up_length _ hl1]; decide⟩]
    · intro i hi
      rw [clear_row_get, if_neg (by simp; omega), shift_up_get _ hl1, if_pos (by omega),
        set_cell_get_other _ _ _ _ _ (by omega)]
  · intro h
    rw [heq, if_neg (by omega)]
  · intro h1 h2
    rw [heq, if_pos h1, if_neg (by omega)]
  · intro h1 h2
    rw [heq, if_pos h1, if_pos (by omega)]
  · intro i row hi
    have := (hinv'.2.2.2.1 i row hi).2.2.2
    rw [add_char_term_cols] at this
    exact this

/-! ## Lines of text in the scrollback -/

theorem list_set_same {α : Type} (l : List α) (i : Nat) (a : α) (h : l[i]? = some a) :
    l.set i a = l := by
  apply List.ext_getElem?
  intro j
  rw [List.getElem?_set]
  by_cases hij : i = j
  · subst hij
    rw [if_pos rfl, if_pos (List.getElem?_eq_some.mp h).1, h]
  · rw [if_neg hij]

/-- The outcome of `add_char_to_buffer` on a line break. -/
theorem add_char_break_eq (ts : terminal_state_t) (c : Nat) (hc : c = 10 ∨ c = 13)
    (hy : -2147483648 ≤ ts.cursor_y ∧ ts.cursor_y ≤ 99) :
    add_char_to_buffer ts c
      = if ts.cursor_y + 1 ≥ 100 then
          { ts with
            cursor_x := 0
            cursor_y := 99
            screen_buffer := clear_row (shift_up ts.screen_buffer) 99 }
        else
          { ts with
            cursor_x := 0
            cursor_y := ts.cursor_y + 1
            screen_buffer := clear_row ts.screen_buffer (ts.cursor_y + 1) } := by
  have hw1 : wrap32 (ts.cursor_y + 1) = ts.cursor_y + 1 := wrap32_eq_self (by omega) (by omega)
  unfold add_char_to_buffer
  simp only [SCROLLBACK_LINES, hw1]
  rw [if_pos hc]
  rfl

theorem process_pty_byte_normal (ts : terminal_state_t) (es : escape_state) (c : Nat)
    (hn : es.in_escape = false) (hc : c ≠ 27) :
    process_pty_byte (ts, es) c = (add_char_to_buffer ts c, es) := by
  unfold process_pty_byte
  simp [hn, hc]

/-- Printable bytes that fit the cursor row are appended to its text. -/
theorem feed_text (l : List Nat) :
    ∀ (ts : terminal_state_t) (es : escape_state) (pre : List Nat),
      es.in_escape = false → ts.screen_buffer.length = 100 →
      0 ≤ ts.cursor_y ∧ ts.cursor_y ≤ 99 →
      ts.screen_buffer[ts.cursor_y.toNat]? = some (pad pre) →
      ts.cursor_x = (pre.length : Int) →
      ((pre.length + l.length : Nat) : Int) < ts.term_cols → ts.term_cols ≤ 80 →
      (∀ b ∈ l, printable b) →
      process_pty_output (ts, es) l
        = ({ ts with
             cursor_x := ((pre.length + l.length : Nat) : Int)
             screen_buffer := ts.screen_buffer.set ts.cursor_y.toNat (pad (pre ++ l)) }, es) := by
  induction l with
  | nil =>
    intro ts es pre _ _ _ hrow hcx _ _ _
    rw [process_pty_output_nil, List.append_nil, list_set_same _ _ _ hrow]
    simp only [List.length_nil, Nat.add_zero, ← hcx]
  | cons b l ih =>
    intro ts es pre hn hlen hcy hrow hcx hfit hcols hpr
    have hb : printable b := hpr b (List.mem_cons_self _ _)
    unfold printable at hb
    simp only [List.length_cons] at hfit
    have hstep : process_pty_byte (ts, es) b
        = ({ ts with
             cursor_x := ts.cursor_x + 1
             screen_buffer := ts.screen_buffer.set ts.cursor_y.toNat (pad (pre ++ [b])) }, es) := by
      rw [process_pty_byte_normal ts es b hn (by omega),
        add_char_printable_eq ts b hb ⟨by omega, by omega, by omega⟩ ⟨by omega, hcy.2⟩,
        if_neg (by omega)]
      congr 2
      unfold set_cell
      rw [if_pos ⟨hcy.1, by omega⟩, hrow]
      simp only
      have hx : ts.cursor_x.toNat = pre.length := by omega
      rw [hx, pad_set_eq pre b (by omega)]
    rw [process_pty_output_cons, hstep]
    rw [ih { ts with
             cursor_x := ts.cursor_x + 1
             screen_buffer := ts.screen_buffer.set ts.cursor_y.toNat (pad (pre ++ [b])) }
      es (pre ++ [b]) hn
      (by
        show (ts.screen_buffer.set ts.cursor_y.toNat (pad (pre ++ [b]))).length = 100
        rw [List.length_set]; exact hlen)
      hcy
      (by
        show (ts.screen_buffer.set ts.cursor_y.toNat (pad (pre ++ [b])))[ts.cursor_y.toNat]?
          = some (pad (pre ++ [b]))
        rw [List.getElem?_set, if_pos rfl, if_pos (by omega)])
      (by
        show ts.cursor_x + 1 = ((pre ++ [b]).length : Int)
        rw [List.length_append, List.length_singleton]; omega)
      (by
        show (((pre ++ [b]).length + l.length : Nat) : Int) < ts.term_cols
        rw [List.length_append, List.length_singleton]; omega)
      hcols
      (fun x hx => hpr x (List.mem_cons_of_mem _ hx))]
    have e1 : (pre ++ [b]) ++ l = pre ++ b :: l := by simp
    have e2 : (pre ++ [b]).length + l.length = pre.length + (b :: l).length := by
      simp only [List.length_append, List.length_cons, List.length_nil]; omega
    simp only [List.set_set, e1, e2]

/-- Feeding the lines `L 0 .. L n` (each shorter than `term_cols`, printable) with single
line breaks between them leaves the cursor behind the last line on row `min n 99`, and the
rows up to it hold the last `min n 99 + 1` lines, oldest first. -/
theorem feed_lines (ts0 : terminal_state_t) (es : escape_state) (L : Nat → List Nat)
    (sep : Nat → Nat) (hn : es.in_escape = false) (hcols : ts0.term_cols ≤ 80) (n : Nat) :
    (∀ k, k ≤ n → ((L k).length : Int) < ts0.term_cols ∧ ∀ b ∈ L k, printable b) →
    (∀ k, k < n → sep k = 10 ∨ sep k = 13) →
    ∃ B : List (List Nat),
      process_pty_output (init_screen_buffer ts0, es) (lines_stream L sep n)
        = ({ init_screen_buffer ts0 with
             cursor_x := ((L n).length : Int)
             cursor_y := ((min n 99 : Nat) : Int)
             screen_buffer := B }, es) ∧
      B.length = 100 ∧
      ∀ i : Nat, i < 100 →
        B[i]? = some (if i ≤ min n 99 then pad (L (n - min n 99 + i)) else zero_row) := by
  induction n with
  | zero =>
    intro hL _
    have h0 := hL 0 (le_refl 0)
    refine ⟨(List.replicate 100 zero_row).set 0 (pad (L 0)), ?_, by simp, ?_⟩
    · have := feed_text (L 0) (init_screen_buffer ts0) es [] hn
        (by simp [init_screen_buffer]) ⟨le_refl 0, by simp [init_screen_buffer]⟩
        (by simp [init_screen_buffer, zero_row_eq_pad]) (by simp [init_screen_buffer])
        (by simpa [init_screen_buffer] using h0.1) (by simpa [init_screen_buffer] using hcols)
        h0.2
      rw [lines_stream, this]
      simp [init_screen_buffer]
    · intro i hi
      rw [List.getElem?_set, List.getElem?_replicate]
      by_cases h : i = 0
      · subst h; simp
      · rw [if_neg (fun h' => h h'.symm), if_pos hi, if_neg (by simp; omega)]
  | succ n ih =>
    intro hL hsep
    obtain ⟨B, hB, hBlen, hBget⟩ := ih (fun k hk => hL k (by omega)) (fun k hk => hsep k (by omega))
    have hline := hL (n + 1) (le_refl _)
    have hs := hsep n (by omega)
    have hmin : ((min n 99 : Nat) : Int) = min (n : Int) 99 := by omega
    rw [lines_stream, process_pty_output_append, hB, process_pty_output_cons,
      process_pty_byte_normal _ es (sep n) hn (by omega),
      add_char_break_eq _ (sep n) hs ⟨by simp only; omega, by simp only; omega⟩]
    simp only
    by_cases hge : ((min n 99 : Nat) : Int) + 1 ≥ 100
    · have hn99 : 99 ≤ n := by omega
      rw [if_pos hge]
      have hl1 : (clear_row (shift_up B) 99).length = 100 := by
        rw [clear_row_length, shift_up_length B hBlen]
      refine ⟨(clear_row (shift_up B) 99).set 99 (pad (L (n + 1))), ?_, ?_, ?_⟩
      · have := feed_text (L (n + 1))
          { init_screen_buffer ts0 with
            cursor_x := 0
            cursor_y := 99
            screen_buffer := clear_row (shift_up B) 99 } es [] hn hl1
          ⟨by show (0 : Int) ≤ 99; decide, by show (99 : Int) ≤ 99; decide⟩
          (by
            show (clear_row (shift_up B) 99)[((99 : Int)).toNat]? = some (pad [])
            rw [clear_row_get, if_pos ⟨by decide, rfl, by rw [shift_up_length B hBlen]; decide⟩]
            rfl)
          rfl (by simpa [init_screen_buffer] using hline.1)
          (by simpa [init_screen_buffer] using hcols) hline.2
        rw [this]
        have hm : ((min (n + 1) 99 : Nat) : Int) = 99 := by omega
        simp only [List.nil_append, List.length_nil, Nat.zero_add, hm]
        rfl
      · rw [List.length_set, hl1]
      · intro i hi
        have hm : min (n + 1) 99 = 99 := by omega
        have hm' : min n 99 = 99 := by omega
        rw [hm, if_pos (by omega), List.getElem?_set]
        by_cases h : 99 = i
        · subst h
          rw [if_pos rfl, if_pos (by rw [hl1]; decide)]
          have e : n + 1 - 99 + 99 = n + 1 := by omega
          rw [e]
        · rw [if_neg h, clear_row_get, if_neg (by simp; omega), shift_up_get B hBlen,
            if_pos (by omega), hBget (i + 1) (by omega), hm', if_pos (by omega)]
          have e : n - 99 + (i + 1) = n + 1 - 99 + i := by omega
          rw [e]
    · have hn99 : n < 99 := by omega
      have hm' : min n 99 = n := by omega
      have hcy : ((min n 99 : Nat) : Int) + 1 = ((n + 1 : Nat) : Int) := by omega
      rw [if_neg hge, hcy]
      have hl1 : (clear_row B ((n + 1 : Nat) : Int)).length = 100 := by
        rw [clear_row_length, hBlen]
      have htn : (((n + 1 : Nat) : Int)).toNat = n + 1 := by omega
      refine ⟨(clear_row B ((n + 1 : Nat) : Int)).set (n + 1) (pad (L (n + 1))), ?_, ?_, ?_⟩
      · have := feed_text (L (n + 1))
          { init_screen_buffer ts0 with
            cursor_x := 0
            cursor_y := ((n + 1 : Nat) : Int)
            screen_buffer := clear_row B ((n + 1 : Nat) : Int) } es [] hn hl1
          ⟨by simp only; omega, by simp only; omega⟩
          (by
            show (clear_row B ((n + 1 : Nat) : Int))[(((n + 1 : Nat) : Int)).toNat]?
              = some (pad [])
            rw [clear_row_get, if_pos ⟨by omega, rfl, by omega⟩]
            rfl)
          rfl (by simpa [init_screen_buffer] using hline.1)
          (by simpa [init_screen_buffer] using hcols) hline.2
        rw [this]
        have hm : min (n + 1) 99 = n + 1 := by omega
        simp only [List.nil_append, List.length_nil, Nat.zero_add, hm, htn]
      · rw [List.length_set, hl1]
      · intro i hi
        have hm : min (n + 1) 99 = n + 1 := by omega
        rw [hm, List.getElem?_set]
        by_cases h : n + 1 = i
        · subst h
          rw [if_pos rfl, if_pos (by rw [hl1]; omega), if_pos (le_refl _)]
          have e : n + 1 - (n + 1) + (n + 1) = n + 1 := by omega
          rw [e]
        · rw [if_neg h, clear_row_get, if_neg (by omega), hBget i hi, hm']
          by_cases hle : i ≤ n
          · rw [if_pos hle, if_pos (by omega)]
            have e : n - n + i = n + 1 - (n + 1) + i := by omega
            rw [e]
          · rw [if_neg hle, if_neg (by omega)]

/-- C14: from `init_screen_buffer` (with `term_cols <= 80`, as
`calculate_terminal_dimensions` guarantees) and the parser in NORMAL, feeding the 150 lines
`L 0 .. L 149`, each a non-empty run of printable ASCII shorter than `term_cols`, with one
line break (`\n` or `\r`) between consecutive lines, leaves exactly `L 50 .. L 149` in the
buffer, oldest first: row `i` is the text `L (50 + i)` followed by NUL bytes, for
`i = 0 .. 99`, and the cursor is on row 99 behind `L 149`. -/
theorem scrollback_keeps_newest (ts0 : terminal_state_t) (es : escape_state)
    (L : Nat → List Nat) (sep : Nat → Nat) (hn : es.in_escape = false)
    (hcols : ts0.term_cols ≤ 80)
    (hL : ∀ k, k ≤ 149 →
      L k ≠ [] ∧ ((L k).length : Int) < ts0.term_cols ∧ ∀ b ∈ L k, printable b)
    (hsep : ∀ k, k < 149 → sep k = 10 ∨ sep k = 13) :
    (∀ i : Nat, i < 100 →
      (process_pty_output (init_screen_buffer ts0, es)
          (lines_stream L sep 149)).1.screen_buffer[i]? = some (pad (L (50 + i))) ∧
      c_string (pad (L (50 + i))) = L (50 + i)) ∧
    (process_pty_output (init_screen_buffer ts0, es)
        (lines_stream L sep 149)).1.screen_buffer.length = 100 ∧
    (process_pty_output (init_screen_buffer ts0, es) (lines_stream L sep 149)).1.cursor_y = 99 ∧
    (process_pty_output (init_screen_buffer ts0, es) (lines_stream L sep 149)).1.cursor_x
      = ((L 149).length : Int) := by
  obtain ⟨B, hB, hBlen, hBget⟩ := feed_lines ts0 es L sep hn hcols 149
    (fun k hk => (hL k hk).2) hsep
  rw [hB]
  refine ⟨?_, hBlen, rfl, rfl⟩
  intro i hi
  constructor
  · show B[i]? = some (pad (L (50 + i)))
    rw [hBget i hi, if_pos (by omega)]
    have e : 149 - min 149 99 + i = 50 + i := by omega
    rw [e]
  · have h1 := hL (50 + i) (by omega)
    apply c_string_pad
    · have := h1.2.1; omega
    · intro b hb
      have := h1.2.2 b hb
      unfold printable at this
      omega

theorem sample_line_ok (k : Nat) (hk : k ≤ 149) :
    sample_line k ≠ [] ∧ ((sample_line k).length : Int) < sample_terminal.term_cols ∧
      ∀ b ∈ sample_line k, printable b := by
  have hc : sample_terminal.term_cols = 26 := by decide
  refine ⟨by simp [sample_line], by rw [hc]; simp [sample_line], ?_⟩
  intro b hb
  simp only [sample_line, List.mem_cons, List.mem_singleton, List.not_mem_nil, or_false] at hb
  unfold printable
  omega

theorem scrollback_keeps_newest_witness :
    (escape_state_init.in_escape = false ∧ sample_terminal.term_cols ≤ 80 ∧
      (∀ k, k ≤ 149 →
        sample_line k ≠ [] ∧ ((sample_line k).length : Int) < sample_terminal.term_cols ∧
        ∀ b ∈ sample_line k, printable b) ∧
      (∀ k, k < 149 → (fun _ => 10) k = 10 ∨ (fun _ => 10) k = 13)) ∧
    ((∀ i : Nat, i < 100 →
      (process_pty_output (init_screen_buffer sample_terminal, escape_state_init)
          (lines_stream sample_line (fun _ => 10) 149)).1.screen_buffer[i]?
        = some (pad (sample_line (50 + i))) ∧
      c_string (pad (sample_line (50 + i))) = sample_line (50 + i)) ∧
    (process_pty_output (init_screen_buffer sample_terminal, escape_state_init)
        (lines_stream sample_line (fun _ => 10) 149)).1.screen_buffer.length = 100 ∧
    (process_pty_output (init_screen_buffer sample_terminal, escape_state_init)
        (lines_stream sample_line (fun _ => 10) 149)).1.cursor_y = 99 ∧
    (process_pty_output (init_screen_buffer sample_terminal, escape_state_init)
        (lines_stream sample_line (fun _ => 10) 149)).1.cursor_x
      = ((sample_line 149).length : Int)) :=
  ⟨⟨rfl, by decide, sample_line_ok, fun _ _ => Or.inl rfl⟩,
    scrollback_keeps_newest sample_terminal escape_state_init sample_line (fun _ => 10) rfl
      (by decide) sample_line_ok (fun _ _ => Or.inl rfl)⟩

/-- C15 (as stated): after the 150 sample lines the field `total_lines` still holds the 1
that `init_screen_buffer` stored, not 100, although 100 rows are in use. -/
theorem total_lines_not_updated :
    (process_pty_output (init_screen_buffer sample_terminal, escape_state_init)
        (lines_stream sample_line (fun _ => 10) 149)).1.total_lines = 1 ∧
    (process_pty_output (init_screen_buffer sample_terminal, escape_state_init)
        (lines_stream sample_line (fun _ => 10) 149)).1.total_lines ≠ 100 ∧
    (process_pty_output (init_screen_buffer sample_terminal, escape_state_init)
        (lines_stream sample_line (fun _ => 10) 149)).1.cursor_y + 1 = 100 := by
  have h1 := process_pty_output_total_lines (lines_stream sample_line (fun _ => 10) 149)
    (init_screen_buffer sample_terminal, escape_state_init)
  obtain ⟨B, hB, _, _⟩ := feed_lines sample_terminal escape_state_init sample_line
    (fun _ => 10) rfl (by decide) 149 (fun k hk => (sample_line_ok k hk).2)
    (fun _ _ => Or.inl rfl)
  rw [h1, hB]
  refine ⟨rfl, by decide, ?_⟩
  show ((min 149 99 : Nat) : Int) + 1 = 100
  decide

/-- C15 (amended): `init_screen_buffer` sets `total_lines` to 1 and no output changes it;
the number of lines stored is `cursor_y + 1`, which after appending the `n + 1` lines
`L 0 .. L n` to a fresh scrollback equals `min (n + 1) 100`. -/
theorem stored_lines_count (ts0 : terminal_state_t) (es : escape_state)
    (L : Nat → List Nat) (sep : Nat → Nat) (n : Nat) (hn : es.in_escape = false)
    (hcols : ts0.term_cols ≤ 80)
    (hL : ∀ k, k ≤ n → ((L k).length : Int) < ts0.term_cols ∧ ∀ b ∈ L k, printable b)
    (hsep : ∀ k, k < n → sep k = 10 ∨ sep k = 13) :
    (process_pty_output (init_screen_buffer ts0, es) (lines_stream L sep n)).1.total_lines
      = 1 ∧
    (process_pty_output (init_screen_buffer ts0, es) (lines_stream L sep n)).1.cursor_y + 1
      = ((min (n + 1) 100 : Nat) : Int) ∧
    (∀ data : List Nat,
      (process_pty_output (init_screen_buffer ts0, es) data).1.total_lines = 1) := by
  obtain ⟨B, hB, _, _⟩ := feed_lines ts0 es L sep hn hcols n hL hsep
  refine ⟨?_, ?_, ?_⟩
  · rw [process_pty_output_total_lines]; rfl
  · rw [hB]
    show ((min n 99 : Nat) : Int) + 1 = ((min (n + 1) 100 : Nat) : Int)
    omega
  · intro data
    rw [process_pty_output_total_lines]; rfl

theorem stored_lines_count_witness :
    (escape_state_init.in_escape = false ∧ sample_terminal.term_cols ≤ 80 ∧
      (∀ k, k ≤ 149 →
        ((sample_line k).length : Int) < sample_terminal.term_cols ∧
        ∀ b ∈ sample_line k, printable b) ∧
      (∀ k, k < 149 → (fun _ => 10) k = 10 ∨ (fun _ => 10) k = 13)) ∧
    ((process_pty_output (init_screen_buffer sample_terminal, escape_state_init)
        (lines_stream sample_line (fun _ => 10) 149)).1.total_lines = 1 ∧
    (process_pty_output (init_screen_buffer sample_terminal, escape_state_init)
        (lines_stream sample_line (fun _ => 10) 149)).1.cursor_y + 1
      = ((min (149 + 1) 100 : Nat) : Int) ∧
    (∀ data : List Nat,
      (process_pty_output (init_screen_buffer sample_terminal, escape_state_init) data).1.total_lines
        = 1)) :=
  ⟨⟨rfl, by decide, fun k hk => (sample_line_ok k hk).2, fun _ _ => Or.inl rfl⟩,
    stored_lines_count sample_terminal escape_state_init sample_line (fun _ => 10) 149 rfl
      (by decide) (fun k hk => (sample_line_ok k hk).2) (fun _ _ => Or.inl rfl)⟩

theorem add_printable_witness :
    (screen_inv blank_terminal ∧ (1 ≤ blank_terminal.term_cols ∧ blank_terminal.term_cols ≤ 80) ∧
      (32 ≤ 65 ∧ 65 ≤ 126)) ∧
    ((∃ row : List Nat, blank_terminal.screen_buffer[blank_terminal.cursor_y.toNat]? = some row ∧
      set_cell blank_terminal.screen_buffer blank_terminal.cursor_y blank_terminal.cursor_x 65
        = blank_terminal.screen_buffer.set blank_terminal.cursor_y.toNat (row.set blank_terminal.cursor_x.toNat 65) ∧
      (row.set blank_terminal.cursor_x.toNat 65)[blank_terminal.cursor_x.toNat]? = some 65 ∧
      (blank_terminal.cursor_x + 1 ≥ blank_terminal.term_cols → blank_terminal.cursor_y = 99 →
        (add_char_to_buffer blank_terminal 65).screen_buffer[98]? = some (row.set blank_terminal.cursor_x.toNat 65) ∧
        (add_char_to_buffer blank_terminal 65).screen_buffer[99]? = some zero_row ∧
        ∀ i : Nat, i < 98 →
          (add_char_to_buffer blank_terminal 65).screen_buffer[i]? = blank_terminal.screen_buffer[i + 1]?)) ∧
    (blank_terminal.cursor_x + 1 < blank_terminal.term_cols →
      add_char_to_buffer blank_terminal 65
        = { blank_terminal with
            cursor_x := blank_terminal.cursor_x + 1
            screen_buffer := set_cell blank_terminal.screen_buffer blank_terminal.cursor_y blank_terminal.cursor_x 65 }) ∧
    (blank_terminal.cursor_x + 1 ≥ blank_terminal.term_cols → blank_terminal.cursor_y < 99 →
      add_char_to_buffer blank_terminal 65
        = { blank_terminal with
            cursor_x := 0
            cursor_y := blank_terminal.cursor_y + 1
            screen_buffer := set_cell blank_terminal.screen_buffer blank_terminal.cursor_y blank_terminal.cursor_x 65 }) ∧
    (blank_terminal.cursor_x + 1 ≥ blank_terminal.term_cols → blank_terminal.cursor_y = 99 →
      add_char_to_buffer blank_terminal 65
        = { blank_terminal with
            cursor_x := 0
            cursor_y := 99
            screen_buffer :=
              clear_row (shift_up (set_cell blank_terminal.screen_buffer blank_terminal.cursor_y blank_terminal.cursor_x 65)) 99 }) ∧
    screen_inv (add_char_to_buffer blank_terminal 65) ∧
    (∀ (i : Nat) (row : List Nat), (add_char_to_buffer blank_terminal 65).screen_buffer[i]? = some row →
      ((c_string row).length : Int) ≤ blank_terminal.term_cols)) :=
  ⟨⟨init_screen_buffer_inv sample_terminal (by decide), by decide, by decide⟩,
    add_printable blank_terminal 65 (init_screen_buffer_inv sample_terminal (by decide))
      (by decide) (by decide)⟩

/-! ## Transport operations -/

/-- The helper `send_command` changes no field but `last_error`. -/
theorem send_command_display (d : weact_display_t) (data : List Nat) (len : Nat) (w : Int) :
    (send_command d data len w).display
      = { d with last_error := (send_command d data len w).display.last_error } := by
  unfold send_command
  split_ifs <;> rfl

theorem send_command_ok_display (d : weact_display_t) (data : List Nat) (len : Nat) (w : Int)
    (h : (send_command d data len w).ok = true) : (send_command d data len w).display = d := by
  unfold send_command at h ⊢
  split_ifs at h ⊢
  rfl

theorem send_command_ok_iff (d : weact_display_t) (data : List Nat) (len : Nat) (w : Int) :
    (send_command d data len w).ok = true
      ↔ d.is_connected = true ∧ 0 ≤ w ∧ to_size_t w = len := by
  unfold send_command
  split_ifs with h1 h2 h3
  · simp_all
  · simp only [Bool.false_eq_true, false_iff, not_and]
    intro _ h; omega
  · simp_all
  · simp only [true_iff]
    refine ⟨by simpa using h1, by omega, by simpa using h3⟩

theorem send_command_writes (d : weact_display_t) (data : List Nat) (len : Nat) (w : Int) :
    (send_command d data len w).writes = if d.is_connected then [data.take len] else [] := by
  unfold send_command
  split_ifs <;> simp_all

/-- The function `weact_flush_buffer` changes no field but `last_error`. -/
theorem flush_display (d : weact_display_t) (w1 w2 : Int) :
    (weact_flush_buffer d w1 w2).display
      = { d with last_error := (weact_flush_buffer d w1 w2).display.last_error } := by
  have hs := send_command_display d (flush_cmd d) 10 w1
  unfold weact_flush_buffer
  split
  · rfl
  · dsimp only
    split_ifs
    · rfl
    · exact hs
    · rw [hs]
    · rw [hs]
    · exact hs

theorem flush_ok_display (d : weact_display_t) (w1 w2 : Int)
    (h : (weact_flush_buffer d w1 w2).ok = true) : (weact_flush_buffer d w1 w2).display = d := by
  unfold weact_flush_buffer at h ⊢
  split at h
  · simp at h
  · next buf hb =>
    simp only [hb]
    dsimp only at h ⊢
    split_ifs at h ⊢ with h1 h2 h3 h4
    · exact send_command_ok_display d _ _ _ (by simpa using h2)

/-- C4: `weact_update_display` is the flush followed by the swap.  When it returns `true`
the flush succeeded, the front buffer holds the former back buffer, the back buffer holds
the former front buffer and nothing else changed, so a second successful update restores
both buffers; when the flush fails it returns `false`, the buffers are neither exchanged nor
modified and only `last_error` may differ. -/
theorem update_display_swaps (d : weact_display_t) (w1 w2 w3 w4 : Int) :
    (weact_update_display d w1 w2).ok = (weact_flush_buffer d w1 w2).ok ∧
    (weact_update_display d w1 w2).writes = (weact_flush_buffer d w1 w2).writes ∧
    ((weact_flush_buffer d w1 w2).ok = true →
      (weact_update_display d w1 w2).display
        = { d with frame_buffer := d.back_buffer, back_buffer := d.frame_buffer } ∧
      ((weact_update_display (weact_update_display d w1 w2).display w3 w4).ok = true →
        (weact_update_display (weact_update_display d w1 w2).display w3 w4).display = d)) ∧
    ((weact_flush_buffer d w1 w2).ok = false →
      (weact_update_display d w1 w2).ok = false ∧
      (weact_update_display d w1 w2).display
        = { d with last_error := (weact_update_display d w1 w2).display.last_error }) := by
  have key : ∀ (e : weact_display_t) (a b : Int), (weact_flush_buffer e a b).ok = true →
      (weact_update_display e a b).display
        = { e with frame_buffer := e.back_buffer, back_buffer := e.frame_buffer } := by
    intro e a b h
    unfold weact_update_display
    simp only [h, if_true]
    rw [flush_ok_display e a b h]
    rfl
  have hok : ∀ (e : weact_display_t) (a b : Int),
      (weact_update_display e a b).ok = (weact_flush_buffer e a b).ok := by
    intro e a b
    unfold weact_update_display
    cases h : (weact_flush_buffer e a b).ok <;> simp [h]
  refine ⟨hok d w1 w2, ?_, ?_, ?_⟩
  · unfold weact_update_display
    cases h : (weact_flush_buffer d w1 w2).ok <;> simp [h]
  · intro h
    refine ⟨key d w1 w2 h, ?_⟩
    intro h2
    rw [hok] at h2
    rw [key _ w3 w4 h2, key d w1 w2 h]
  · intro h
    refine ⟨by rw [hok]; exact h, ?_⟩
    have hd : (weact_update_display d w1 w2).display = (weact_flush_buffer d w1 w2).display := by
      unfold weact_update_display
      simp [h]
    rw [hd]
    exact flush_display d w1 w2

theorem rect_end_bytes (v : Int) (h1 : 1 ≤ v) (h2 : v ≤ 65536) :
    (wrap32 (v - 1) % 256).toNat = (v - 1).toNat &&& 0xFF ∧
    ((wrap32 (v - 1) / 256) % 256).toNat = (v - 1).toNat >>> 8 := by
  have e : wrap32 (v - 1) = v - 1 := wrap32_eq_self (by omega) (by omega)
  rw [e, and_255_eq_mod, shiftRight_8_eq_div]
  constructor <;> omega

/-- C3: the command frames a connected display hands to the transport.  The orientation
frame is `[0x02, m, 0x0A]`, the brightness frame `[0x03, l, lo, hi, 0x0A]` with
`lo + 256 * hi = min(t, 5000)`, the fill frame and the first block of a flush carry the
rectangle `(0, 0) - (w - 1, h - 1)` in little-endian byte pairs (the fill frame followed by
the colour, low byte first), the reset frame is `[0x40, 0x0A]`; every frame ends in `0x0A`
and has the length fixed by its opcode, whatever `write` returns. -/
theorem command_frames (d : weact_display_t) (m l t c : Nat) (w w2 : Int)
    (hconn : d.is_connected = true)
    (hm : m = 0 ∨ m = 1 ∨ m = 2 ∨ m = 3 ∨ m = 5) (ht : t < 65536)
    (hc : c < 65536)
    (hw : 1 ≤ d.display_width ∧ d.display_width ≤ 65536)
    (hh : 1 ≤ d.display_height ∧ d.display_height ≤ 65536)
    (hb : d.back_buffer ≠ none) :
    (weact_set_orientation d m w).writes = [[0x02, m, 0x0A]] ∧
    (∃ lo hi : Nat, (weact_set_brightness d l t w).writes = [[0x03, l, lo, hi, 0x0A]] ∧
      lo < 256 ∧ hi < 256 ∧ lo + 256 * hi = min t 5000) ∧
    (weact_fill_screen d c w).writes
      = [[0x04, 0, 0, 0, 0,
          (d.display_width - 1).toNat &&& 0xFF, (d.display_width - 1).toNat >>> 8,
          (d.display_height - 1).toNat &&& 0xFF, (d.display_height - 1).toNat >>> 8,
          c &&& 0xFF, c >>> 8, 0x0A]] ∧
    (weact_flush_buffer d w w2).writes.head?
      = some [0x05, 0, 0, 0, 0,
          (d.display_width - 1).toNat &&& 0xFF, (d.display_width - 1).toNat >>> 8,
          (d.display_height - 1).toNat &&& 0xFF, (d.display_height - 1).toNat >>> 8, 0x0A] ∧
    (weact_system_reset d w).writes = [[0x40, 0x0A]] := by
  obtain ⟨ew1, ew2⟩ := rect_end_bytes d.display_width hw.1 hw.2
  obtain ⟨eh1, eh2⟩ := rect_end_bytes d.display_height hh.1 hh.2
  refine ⟨?_, ?_, ?_, ?_, ?_⟩
  · have hmod : m % 256 = m := by omega
    unfold weact_set_orientation
    rw [if_neg (by omega)]
    have hdims : ∃ p, orientation_dims d m = some p := by
      unfold orientation_dims
      rcases hm with rfl | rfl | rfl | rfl | rfl <;> exact ⟨_, rfl⟩
    obtain ⟨⟨nw, nh⟩, hp⟩ := hdims
    rw [hp]
    dsimp only
    have hwr := send_command_writes d [0x02, m % 256, 0x0A] 3 w
    rw [hconn, if_pos rfl, hmod] at hwr
    rw [hmod]
    split_ifs
    · exact hwr
    · split <;> exact hwr
  · refine ⟨(min t 5000) % 256, (min t 5000) / 256, ?_, by omega, by omega, by omega⟩
    have ht5 : (if t > 5000 then 5000 else t) = min t 5000 := by
      split_ifs <;> omega
    have e1 : ((min t 5000) &&& 0xFF) % 256 = (min t 5000) % 256 := by
      rw [and_255_eq_mod]; omega
    have e2 : (((min t 5000) >>> 8) &&& 0xFF) % 256 = (min t 5000) / 256 := by
      rw [and_255_eq_mod, shiftRight_8_eq_div]; omega
    have hcmd : (brightness_cmd l t).take 5
        = [0x03, l, (min t 5000) % 256, (min t 5000) / 256, 0x0A] := by
      unfold brightness_cmd
      dsimp only
      rw [ht5, e1, e2]
      rfl
    have hwr := send_command_writes d (brightness_cmd l t) 5 w
    rw [hconn, if_pos rfl, hcmd] at hwr
    unfold weact_set_brightness
    dsimp only
    split_ifs <;> exact hwr
  · have e1 : (c &&& 0xFF) % 256 = c &&& 0xFF := by
      rw [and_255_eq_mod]; omega
    have e2 : ((c >>> 8) &&& 0xFF) % 256 = c >>> 8 := by
      rw [and_255_eq_mod, shiftRight_8_eq_div]; omega
    have hcmd : (fill_cmd d c).take 12 = [0x04, 0, 0, 0, 0,
        (d.display_width - 1).toNat &&& 0xFF, (d.display_width - 1).toNat >>> 8,
        (d.display_height - 1).toNat &&& 0xFF, (d.display_height - 1).toNat >>> 8,
        c &&& 0xFF, c >>> 8, 0x0A] := by
      unfold fill_cmd
      dsimp only
      rw [ew1, ew2, eh1, eh2, e1, e2]
      rfl
    have hwr := send_command_writes d (fill_cmd d c) 12 w
    rw [hconn, if_pos rfl, hcmd] at hwr
    unfold weact_fill_screen
    rw [if_neg (by simp [hconn])]
    dsimp only
    split_ifs <;> exact hwr
  · have hwr := send_command_writes d (flush_cmd d) 10 w
    rw [hconn, if_pos rfl] at hwr
    have hcmd : (flush_cmd d).take 10 = [0x05, 0, 0, 0, 0,
        (d.display_width - 1).toNat &&& 0xFF, (d.display_width - 1).toNat >>> 8,
        (d.display_height - 1).toNat &&& 0xFF, (d.display_height - 1).toNat >>> 8, 0x0A] := by
      unfold flush_cmd
      dsimp only
      rw [ew1, ew2, eh1, eh2]
      rfl
    rw [hcmd] at hwr
    unfold weact_flush_buffer
    cases hbb : d.back_buffer with
    | none => exact absurd hbb hb
    | some buf =>
      dsimp only
      rw [if_neg (by simp [hconn])]
      split_ifs <;> simp [hwr]
  · unfold weact_system_reset
    dsimp only
    have hwr := send_command_writes d [0x40, 0x0A] 2 w
    rw [hconn, if_pos rfl] at hwr
    split_ifs <;> exact hwr

theorem draw_pixel_out_of_range_aux (d : weact_display_t) (x y : Int) (c : Nat)
    (h : x < 0 ∨ x ≥ d.display_width ∨ y < 0 ∨ y ≥ d.display_height) :
    weact_draw_pixel d x y c = d := by
  unfold weact_draw_pixel
  cases hb : d.back_buffer with
  | none => rfl
  | some buf => simp only [if_pos h]

theorem memset_full (buf : List Nat) (n : Nat) (h : buf.length = n) :
    memset buf 0 n = List.replicate n 0 := by
  unfold memset
  rw [List.drop_of_length_le (by omega)]
  simp

/-- The handle a successful `weact_set_orientation` leaves, for new dimensions `nw`, `nh`. -/
theorem set_orientation_valid (d : weact_display_t) (m : Nat) (w : Int)
    (hm : m = 0 ∨ m = 1 ∨ m = 2 ∨ m = 3 ∨ m = 5) :
    ∃ nw nh : Int, orientation_dims d m = some (nw, nh) ∧
      weact_set_orientation d m w
        = if (send_command d [0x02, m % 256, 0x0A] 3 w).ok = true then
            ⟨true,
              (match d.frame_buffer, d.back_buffer with
              | some fb, some bb =>
                { d with
                  orientation := m
                  display_width := nw
                  display_height := nh
                  frame_buffer := some (memset fb 0 WEACT_MAX_BUFFER_SIZE)
                  back_buffer := some (memset bb 0 WEACT_MAX_BUFFER_SIZE) }
              | _, _ => { d with orientation := m, display_width := nw, display_height := nh }),
              (send_command d [0x02, m % 256, 0x0A] 3 w).writes⟩
          else
            ⟨false, (send_command d [0x02, m % 256, 0x0A] 3 w).display,
              (send_command d [0x02, m % 256, 0x0A] 3 w).writes⟩ := by
  have hdims : ∃ nw nh : Int, orientation_dims d m = some (nw, nh) := by
    unfold orientation_dims
    rcases hm with rfl | rfl | rfl | rfl | rfl <;> exact ⟨_, _, rfl⟩
  obtain ⟨nw, nh, hp⟩ := hdims
  refine ⟨nw, nh, hp, ?_⟩
  unfold weact_set_orientation
  rw [if_neg (by omega), hp]
  dsimp only
  by_cases hs : (send_command d [0x02, m % 256, 0x0A] 3 w).ok = true
  · have hd := send_command_ok_display d _ _ _ hs
    rw [if_pos hs]
    simp only [hs, hd, Bool.not_true, Bool.false_eq_true, if_false]
    cases d.frame_buffer <;> cases d.back_buffer <;> rfl
  · rw [if_neg hs]
    have hs' : (send_command d [0x02, m % 256, 0x0A] 3 w).ok = false := by
      simpa using hs
    simp only [hs', Bool.not_false, if_true]

theorem set_orientation_invalid (d : weact_display_t) (m : Nat) (w : Int)
    (hm : ¬ (m = 0 ∨ m = 1 ∨ m = 2 ∨ m = 3 ∨ m = 5)) :
    weact_set_orientation d m w
      = ⟨false, { d with last_error := error_text.invalid_orientation }, []⟩ := by
  unfold weact_set_orientation
  rw [if_pos (by omega)]

/-- C5: a successful `weact_set_orientation(m)` on a display whose two buffers are allocated
with `WEACT_MAX_BUFFER_SIZE` bytes happens on a connected display with `m` one of 0, 1, 2, 3,
5; it records `m`, sets the dimensions to 80x160 for `m` in {0, 1}, to 160x80 for `m` in
{2, 3} and keeps them for `m = 5`, and leaves every byte of both buffers zero; after a
switch to portrait `weact_draw_pixel(81, 0, c)` changes nothing. -/
theorem set_orientation_effect (d : weact_display_t) (m : Nat) (w : Int) (fb bb : List Nat)
    (hf : d.frame_buffer = some fb) (hb : d.back_buffer = some bb)
    (hfl : fb.length = WEACT_MAX_BUFFER_SIZE) (hbl : bb.length = WEACT_MAX_BUFFER_SIZE)
    (hok : (weact_set_orientation d m w).ok = true) :
    d.is_connected = true ∧ (m = 0 ∨ m = 1 ∨ m = 2 ∨ m = 3 ∨ m = 5) ∧
    (weact_set_orientation d m w).display.orientation = m ∧
    ((m = 0 ∨ m = 1) →
      (weact_set_orientation d m w).display.display_width = 80 ∧
      (weact_set_orientation d m w).display.display_height = 160) ∧
    ((m = 2 ∨ m = 3) →
      (weact_set_orientation d m w).display.display_width = 160 ∧
      (weact_set_orientation d m w).display.display_height = 80) ∧
    (m = 5 →
      (weact_set_orientation d m w).display.display_width = d.display_width ∧
      (weact_set_orientation d m w).display.display_height = d.display_height) ∧
    (weact_set_orientation d m w).display.frame_buffer
      = some (List.replicate WEACT_MAX_BUFFER_SIZE 0) ∧
    (weact_set_orientation d m w).display.back_buffer
      = some (List.replicate WEACT_MAX_BUFFER_SIZE 0) ∧
    ((m = 0 ∨ m = 1) → ∀ c : Nat,
      weact_draw_pixel (weact_set_orientation d m w).display 81 0 c
        = (weact_set_orientation d m w).display) := by
  have hm : m = 0 ∨ m = 1 ∨ m = 2 ∨ m = 3 ∨ m = 5 := by
    by_contra hne
    rw [set_orientation_invalid d m w hne] at hok
    simp at hok
  obtain ⟨nw, nh, hdims, heq⟩ := set_orientation_valid d m w hm
  have hs : (send_command d [0x02, m % 256, 0x0A] 3 w).ok = true := by
    by_contra hne
    rw [heq, if_neg hne] at hok
    simp at hok
  rw [if_pos hs, hf, hb] at heq
  simp only [memset_full fb _ hfl, memset_full bb _ hbl] at heq
  have hdisp : (weact_set_orientation d m w).display
      = { d with
          orientation := m
          display_width := nw
          display_height := nh
          frame_buffer := some (List.replicate WEACT_MAX_BUFFER_SIZE 0)
          back_buffer := some (List.replicate WEACT_MAX_BUFFER_SIZE 0) } := by
    rw [heq]
  have hconn : d.is_connected = true := ((send_command_ok_iff d _ _ _).mp hs).1
  have h01 : (m = 0 ∨ m = 1) → nw = 80 ∧ nh = 160 := by
    intro h
    unfold orientation_dims at hdims
    rcases h with rfl | rfl <;> simp at hdims <;> omega
  have h23 : (m = 2 ∨ m = 3) → nw = 160 ∧ nh = 80 := by
    intro h
    unfold orientation_dims at hdims
    rcases h with rfl | rfl <;> simp at hdims <;> omega
  have h5 : m = 5 → nw = d.display_width ∧ nh = d.display_height := by
    intro h
    unfold orientation_dims at hdims
    subst h
    simp at hdims
    exact ⟨hdims.1.symm, hdims.2.symm⟩
  rw [hdisp]
  refine ⟨hconn, hm, rfl, h01, h23, h5, rfl, rfl, ?_⟩
  intro h c
  apply draw_pixel_out_of_range_aux
  right; left
  show (81 : Int) ≥ nw
  rw [(h01 h).1]
  decide

theorem flush_ok_iff (d : weact_display_t) (w1 w2 : Int) :
    (weact_flush_buffer d w1 w2).ok = true
      ↔ d.back_buffer ≠ none ∧ d.is_connected = true ∧ (0 ≤ w1 ∧ to_size_t w1 = 10) ∧
          0 ≤ w2 ∧ to_size_t w2 = flush_byte_count d := by
  unfold weact_flush_buffer flush_byte_count
  cases hb : d.back_buffer with
  | none => simp
  | some buf =>
    dsimp only
    by_cases hc : d.is_connected = true
    · rw [if_neg (by simp [hc])]
      by_cases hs : (send_command d (flush_cmd d) 10 w1).ok = true
      · have h1 := (send_command_ok_iff d (flush_cmd d) 10 w1).mp hs
        rw [if_neg (by simp [hs])]
        split_ifs with h2 h3
        · simp only [Bool.false_eq_true, false_iff]
          intro h; omega
        · simp only [Bool.false_eq_true, false_iff]
          intro h; exact h3 h.2.2.2.2
        · simp only [true_iff]
          exact ⟨by simp, hc, ⟨h1.2.1, h1.2.2⟩, by omega, by simpa using h3⟩
      · have h1 := mt (send_command_ok_iff d (flush_cmd d) 10 w1).mpr hs
        rw [if_pos (by simpa using hs)]
        simp only [Bool.false_eq_true, false_iff]
        intro h
        exact h1 ⟨hc, h.2.2.1.1, h.2.2.1.2⟩
    · rw [if_pos (by simpa using hc)]
      simp only [Bool.false_eq_true, false_iff]
      intro h
      exact hc h.2.1

theorem flush_writes_disconnected (d : weact_display_t) (w1 w2 : Int)
    (h : d.is_connected = false) : (weact_flush_buffer d w1 w2).writes = [] := by
  unfold weact_flush_buffer
  split
  · rfl
  · dsimp only
    rw [if_pos (by simp [h])]

theorem update_ok_eq (d : weact_display_t) (w1 w2 : Int) :
    (weact_update_display d w1 w2).ok = (weact_flush_buffer d w1 w2).ok ∧
    (weact_update_display d w1 w2).writes = (weact_flush_buffer d w1 w2).writes ∧
    ((weact_flush_buffer d w1 w2).ok = false →
      (weact_update_display d w1 w2).display = (weact_flush_buffer d w1 w2).display) := by
  unfold weact_update_display
  cases h : (weact_flush_buffer d w1 w2).ok <;> simp [h]

theorem set_brightness_eq (d : weact_display_t) (l t : Nat) (w : Int) :
    (weact_set_brightness d l t w).ok = (send_command d (brightness_cmd l t) 5 w).ok ∧
    (weact_set_brightness d l t w).writes
      = (send_command d (brightness_cmd l t) 5 w).writes ∧
    ((send_command d (brightness_cmd l t) 5 w).ok = false →
      (weact_set_brightness d l t w).display
        = (send_command d (brightness_cmd l t) 5 w).display) := by
  unfold weact_set_brightness
  dsimp only
  cases h : (send_command d (brightness_cmd l t) 5 w).ok <;> simp [h]

theorem fill_screen_eq (d : weact_display_t) (c : Nat) (w : Int)
    (hc : d.is_connected = true) :
    (weact_fill_screen d c w).ok = (send_command d (fill_cmd d c) 12 w).ok ∧
    (weact_fill_screen d c w).writes = (send_command d (fill_cmd d c) 12 w).writes ∧
    (weact_fill_screen d c w).display = (send_command d (fill_cmd d c) 12 w).display := by
  unfold weact_fill_screen
  rw [if_neg (by simp [hc])]
  dsimp only
  cases h : (send_command d (fill_cmd d c) 12 w).ok <;> simp [h]

theorem system_reset_eq (d : weact_display_t) (w : Int) :
    (weact_system_reset d w).ok = (send_command d [0x40, 0x0A] 2 w).ok ∧
    (weact_system_reset d w).writes = (send_command d [0x40, 0x0A] 2 w).writes ∧
    (weact_system_reset d w).display = (send_command d [0x40, 0x0A] 2 w).display := by
  unfold weact_system_reset
  dsimp only
  cases h : (send_command d [0x40, 0x0A] 2 w).ok <;> simp [h]

theorem send_command_fails (d : weact_display_t) (data : List Nat) (len : Nat) (w : Int)
    (h : d.is_connected = false ∨ w < 0 ∨ to_size_t w ≠ len) :
    (send_command d data len w).ok = false := by
  cases hk : (send_command d data len w).ok with
  | false => rfl
  | true =>
    have := (send_command_ok_iff d data len w).mp hk
    rcases h with h | h | h
    · rw [this.1] at h; simp at h
    · omega
    · exact absurd this.2.2 h

theorem same_but_error_send (d : weact_display_t) (data : List Nat) (len : Nat) (w : Int) :
    same_but_error d (send_command d data len w).display :=
  send_command_display d data len w

/-- C7: failure leaves the display state alone.  On a display that is not connected each
of the six transport operations returns `false` and hands nothing to `write`; a failed or
short `write` makes the operation return `false`; whenever one of them returns `false` the
handle differs from the one before the call at most in `last_error` (width, height,
orientation, brightness and both buffers are unchanged and not exchanged); and
`weact_set_orientation` with a mode other than 0, 1, 2, 3, 5 returns `false`, sends nothing
and changes at most `last_error`. -/
theorem failure_is_atomic (d : weact_display_t) (m l t c : Nat) (w w2 : Int) :
    (d.is_connected = false →
      ((weact_flush_buffer d w w2).ok = false ∧ (weact_flush_buffer d w w2).writes = []) ∧
      ((weact_update_display d w w2).ok = false ∧ (weact_update_display d w w2).writes = []) ∧
      ((weact_set_orientation d m w).ok = false ∧ (weact_set_orientation d m w).writes = []) ∧
      ((weact_set_brightness d l t w).ok = false ∧
        (weact_set_brightness d l t w).writes = []) ∧
      ((weact_fill_screen d c w).ok = false ∧ (weact_fill_screen d c w).writes = []) ∧
      ((weact_system_reset d w).ok = false ∧ (weact_system_reset d w).writes = [])) ∧
    ((w < 0 ∨ to_size_t w ≠ 10 ∨ w2 < 0 ∨ to_size_t w2 ≠ flush_byte_count d) →
      (weact_flush_buffer d w w2).ok = false ∧ (weact_update_display d w w2).ok = false) ∧
    ((w < 0 ∨ to_size_t w ≠ 3) → (weact_set_orientation d m w).ok = false) ∧
    ((w < 0 ∨ to_size_t w ≠ 5) → (weact_set_brightness d l t w).ok = false) ∧
    ((w < 0 ∨ to_size_t w ≠ 12) → (weact_fill_screen d c w).ok = false) ∧
    ((w < 0 ∨ to_size_t w ≠ 2) → (weact_system_reset d w).ok = false) ∧
    ((weact_flush_buffer d w w2).ok = false →
      same_but_error d (weact_flush_buffer d w w2).display) ∧
    ((weact_update_display d w w2).ok = false →
      same_but_error d (weact_update_display d w w2).display) ∧
    ((weact_set_orientation d m w).ok = false →
      same_but_error d (weact_set_orientation d m w).display) ∧
    ((weact_set_brightness d l t w).ok = false →
      same_but_error d (weact_set_brightness d l t w).display) ∧
    ((weact_fill_screen d c w).ok = false →
      same_but_error d (weact_fill_screen d c w).display) ∧
    ((weact_system_reset d w).ok = false →
      same_but_error d (weact_system_reset d w).display) ∧
    (¬ (m = 0 ∨ m = 1 ∨ m = 2 ∨ m = 3 ∨ m = 5) →
      (weact_set_orientation d m w).ok = false ∧ (weact_set_orientation d m w).writes = [] ∧
      same_but_error d (weact_set_orientation d m w).display) := by
  have hfl_f : ∀ {b : Bool}, ¬ (b = true) → b = false := by
    intro b h; cases b <;> simp_all
  have hupd := update_ok_eq d w w2
  have hbr := set_brightness_eq d l t w
  have hrs := system_reset_eq d w
  -- orientation facts
  have hor_ok : (weact_set_orientation d m w).ok = true →
      (m = 0 ∨ m = 1 ∨ m = 2 ∨ m = 3 ∨ m = 5) ∧
        (send_command d [0x02, m % 256, 0x0A] 3 w).ok = true := by
    intro hok
    have hm : m = 0 ∨ m = 1 ∨ m = 2 ∨ m = 3 ∨ m = 5 := by
      by_contra hne
      rw [set_orientation_invalid d m w hne] at hok
      simp at hok
    obtain ⟨nw, nh, _, heq⟩ := set_orientation_valid d m w hm
    refine ⟨hm, ?_⟩
    by_contra hne
    rw [heq, if_neg hne] at hok
    simp at hok
  have hor_false : (weact_set_orientation d m w).ok = false →
      same_but_error d (weact_set_orientation d m w).display := by
    intro hok
    by_cases hm : m = 0 ∨ m = 1 ∨ m = 2 ∨ m = 3 ∨ m = 5
    · obtain ⟨nw, nh, _, heq⟩ := set_orientation_valid d m w hm
      by_cases hs : (send_command d [0x02, m % 256, 0x0A] 3 w).ok = true
      · rw [heq, if_pos hs] at hok
        simp at hok
      · rw [heq, if_neg hs]
        exact same_but_error_send d _ _ _
    · rw [set_orientation_invalid d m w hm]
      rfl
  have hor_writes : d.is_connected = false → (weact_set_orientation d m w).writes = [] := by
    intro hc
    by_cases hm : m = 0 ∨ m = 1 ∨ m = 2 ∨ m = 3 ∨ m = 5
    · obtain ⟨nw, nh, _, heq⟩ := set_orientation_valid d m w hm
      have hwr := send_command_writes d [0x02, m % 256, 0x0A] 3 w
      rw [hc] at hwr
      simp only [Bool.false_eq_true, if_false] at hwr
      rw [heq]
      split_ifs <;> exact hwr
    · rw [set_orientation_invalid d m w hm]
  have hor_fail : (d.is_connected = false ∨ w < 0 ∨ to_size_t w ≠ 3) →
      (weact_set_orientation d m w).ok = false := by
    intro h
    apply hfl_f
    intro hok
    have := (hor_ok hok).2
    rw [send_command_fails d _ 3 w h] at this
    simp at this
  -- fill screen facts
  have hfi_disc : d.is_connected = false →
      weact_fill_screen d c w
        = ⟨false, { d with last_error := error_text.not_connected }, []⟩ := by
    intro hc
    unfold weact_fill_screen
    rw [if_pos (by simp [hc])]
  have hfi_fail : (d.is_connected = false ∨ w < 0 ∨ to_size_t w ≠ 12) →
      (weact_fill_screen d c w).ok = false := by
    intro h
    by_cases hc : d.is_connected = true
    · rw [(fill_screen_eq d c w hc).1]
      exact send_command_fails d _ 12 w h
    · rw [hfi_disc (hfl_f hc)]
  have hfi_false : same_but_error d (weact_fill_screen d c w).display := by
    by_cases hc : d.is_connected = true
    · rw [(fill_screen_eq d c w hc).2.2]
      exact same_but_error_send d _ _ _
    · rw [hfi_disc (hfl_f hc)]
      rfl
  have hflush_fail : (d.is_connected = false ∨ w < 0 ∨ to_size_t w ≠ 10 ∨ w2 < 0 ∨
      to_size_t w2 ≠ flush_byte_count d) → (weact_flush_buffer d w w2).ok = false := by
    intro h
    apply hfl_f
    intro hok
    have hh := (flush_ok_iff d w w2).mp hok
    rcases h with h | h | h | h | h
    · rw [hh.2.1] at h; simp at h
    · omega
    · exact h hh.2.2.1.2
    · omega
    · exact h hh.2.2.2.2
  refine ⟨?_, ?_, ?_, ?_, ?_, ?_, ?_, ?_, hor_false, ?_, ?_, ?_, ?_⟩
  · intro hc
    refine ⟨⟨hflush_fail (Or.inl hc), flush_writes_disconnected d w w2 hc⟩, ⟨?_, ?_⟩,
      ⟨hor_fail (Or.inl hc), hor_writes hc⟩, ⟨?_, ?_⟩, ⟨hfi_fail (Or.inl hc), ?_⟩, ⟨?_, ?_⟩⟩
    · rw [hupd.1]; exact hflush_fail (Or.inl hc)
    · rw [hupd.2.1]; exact flush_writes_disconnected d w w2 hc
    · rw [hbr.1]; exact send_command_fails d _ 5 w (Or.inl hc)
    · rw [hbr.2.1, send_command_writes, hc]; rfl
    · rw [hfi_disc hc]
    · rw [hrs.1]; exact send_command_fails d _ 2 w (Or.inl hc)
    · rw [hrs.2.1, send_command_writes, hc]; rfl
  · intro h
    have := hflush_fail (Or.inr h)
    exact ⟨this, by rw [hupd.1]; exact this⟩
  · intro h
    exact hor_fail (Or.inr h)
  · intro h
    rw [hbr.1]; exact send_command_fails d _ 5 w (Or.inr h)
  · intro h
    exact hfi_fail (Or.inr h)
  · intro h
    rw [hrs.1]; exact send_command_fails d _ 2 w (Or.inr h)
  · intro _
    exact flush_display d w w2
  · intro h
    rw [hupd.1] at h
    rw [hupd.2.2 h]
    exact flush_display d w w2
  · intro h
    rw [hbr.1] at h
    rw [hbr.2.2 h]
    exact same_but_error_send d _ _ _
  · intro _
    exact hfi_false
  · intro _
    rw [hrs.2.2]
    exact same_but_error_send d _ _ _
  · intro hm
    rw [set_orientation_invalid d m w hm]
    exact ⟨rfl, rfl, rfl⟩

theorem command_frames_witness :
    ((fresh_display.is_connected = true) ∧
      (0 = 0 ∨ 0 = 1 ∨ 0 = 2 ∨ 0 = 3 ∨ 0 = 5) ∧
      (6000 < 65536) ∧
      (0x07C0 < 65536) ∧
      (1 ≤ fresh_display.display_width ∧ fresh_display.display_width ≤ 65536) ∧
      (1 ≤ fresh_display.display_height ∧ fresh_display.display_height ≤ 65536) ∧
      (fresh_display.back_buffer ≠ none)) ∧
    (
    (weact_set_orientation fresh_display 0 3).writes = [[0x02, 0, 0x0A]] ∧
    (∃ lo hi : Nat, (weact_set_brightness fresh_display 128 6000 3).writes = [[0x03, 128, lo, hi, 0x0A]] ∧
      lo < 256 ∧ hi < 256 ∧ lo + 256 * hi = min 6000 5000) ∧
    (weact_fill_screen fresh_display 0x07C0 3).writes
      = [[0x04, 0, 0, 0, 0,
          (fresh_display.display_width - 1).toNat &&& 0xFF, (fresh_display.display_width - 1).toNat >>> 8,
          (fresh_display.display_height - 1).toNat &&& 0xFF, (fresh_display.display_height - 1).toNat >>> 8,
          0x07C0 &&& 0xFF, 0x07C0 >>> 8, 0x0A]] ∧
    (weact_flush_buffer fresh_display 3 25600).writes.head?
      = some [0x05, 0, 0, 0, 0,
          (fresh_display.display_width - 1).toNat &&& 0xFF, (fresh_display.display_width - 1).toNat >>> 8,
          (fresh_display.display_height - 1).toNat &&& 0xFF, (fresh_display.display_height - 1).toNat >>> 8, 0x0A] ∧
    (weact_system_reset fresh_display 3).writes = [[0x40, 0x0A]]) :=
  ⟨⟨rfl, Or.inl rfl, by decide, by decide, by decide, by decide, by decide⟩,
    command_frames fresh_display 0 128 6000 0x07C0 3 25600 rfl (Or.inl rfl) (by decide)
      (by decide) (by decide) (by decide) (by decide)⟩

theorem update_display_swaps_witness :
    ((weact_flush_buffer fresh_display 10 25600).ok = true ∧
      (weact_update_display (weact_update_display fresh_display 10 25600).display 10 25600).ok
        = true) ∧
    (
    (weact_update_display fresh_display 10 25600).ok = (weact_flush_buffer fresh_display 10 25600).ok ∧
    (weact_update_display fresh_display 10 25600).writes = (weact_flush_buffer fresh_display 10 25600).writes ∧
    ((weact_flush_buffer fresh_display 10 25600).ok = true →
      (weact_update_display fresh_display 10 25600).display
        = { fresh_display with frame_buffer := fresh_display.back_buffer, back_buffer := fresh_display.frame_buffer } ∧
      ((weact_update_display (weact_update_display fresh_display 10 25600).display 10 25600).ok = true →
        (weact_update_display (weact_update_display fresh_display 10 25600).display 10 25600).display = fresh_display)) ∧
    ((weact_flush_buffer fresh_display 10 25600).ok = false →
      (weact_update_display fresh_display 10 25600).ok = false ∧
      (weact_update_display fresh_display 10 25600).display
        = { fresh_display with last_error := (weact_update_display fresh_display 10 25600).display.last_error })) :=
  ⟨⟨by decide, by decide⟩, update_display_swaps fresh_display 10 25600 10 25600⟩

theorem set_orientation_effect_witness :
    ((fresh_display.frame_buffer = some (List.replicate WEACT_MAX_BUFFER_SIZE 0)) ∧
      (fresh_display.back_buffer = some (List.replicate WEACT_MAX_BUFFER_SIZE 0)) ∧
      ((List.replicate WEACT_MAX_BUFFER_SIZE 0).length = WEACT_MAX_BUFFER_SIZE) ∧
      ((List.replicate WEACT_MAX_BUFFER_SIZE 0).length = WEACT_MAX_BUFFER_SIZE) ∧
      ((weact_set_orientation fresh_display 0 3).ok = true)) ∧
    (
    fresh_display.is_connected = true ∧ (0 = 0 ∨ 0 = 1 ∨ 0 = 2 ∨ 0 = 3 ∨ 0 = 5) ∧
    (weact_set_orientation fresh_display 0 3).display.orientation = 0 ∧
    ((0 = 0 ∨ 0 = 1) →
      (weact_set_orientation fresh_display 0 3).display.display_width = 80 ∧
      (weact_set_orientation fresh_display 0 3).display.display_height = 160) ∧
    ((0 = 2 ∨ 0 = 3) →
      (weact_set_orientation fresh_display 0 3).display.display_width = 160 ∧
      (weact_set_orientation fresh_display 0 3).display.display_height = 80) ∧
    (0 = 5 →
      (weact_set_orientation fresh_display 0 3).display.display_width = fresh_display.display_width ∧
      (weact_set_orientation fresh_display 0 3).display.display_height = fresh_display.display_height) ∧
    (weact_set_orientation fresh_display 0 3).display.frame_buffer
      = some (List.replicate WEACT_MAX_BUFFER_SIZE 0) ∧
    (weact_set_orientation fresh_display 0 3).display.back_buffer
      = some (List.replicate WEACT_MAX_BUFFER_SIZE 0) ∧
    ((0 = 0 ∨ 0 = 1) → ∀ c : Nat,
      weact_draw_pixel (weact_set_orientation fresh_display 0 3).display 81 0 c
        = (weact_set_orientation fresh_display 0 3).display)) :=
  ⟨⟨rfl, rfl, List.length_replicate _ _, List.length_replicate _ _, by decide⟩,
    set_orientation_effect fresh_display 0 3 (List.replicate WEACT_MAX_BUFFER_SIZE 0)
      (List.replicate WEACT_MAX_BUFFER_SIZE 0) rfl rfl (List.length_replicate _ _)
      (List.length_replicate _ _) (by decide)⟩

theorem failure_is_atomic_witness :
    ((weact_close fresh_display).is_connected = false ∧
      ¬ ((4 : Nat) = 0 ∨ (4 : Nat) = 1 ∨ (4 : Nat) = 2 ∨ (4 : Nat) = 3 ∨ (4 : Nat) = 5)) ∧
    (
    ((weact_close fresh_display).is_connected = false →
      ((weact_flush_buffer (weact_close fresh_display) 3 25600).ok = false ∧ (weact_flush_buffer (weact_close fresh_display) 3 25600).writes = []) ∧
      ((weact_update_display (weact_close fresh_display) 3 25600).ok = false ∧ (weact_update_display (weact_close fresh_display) 3 25600).writes = []) ∧
      ((weact_set_orientation (weact_close fresh_display) 4 3).ok = false ∧ (weact_set_orientation (weact_close fresh_display) 4 3).writes = []) ∧
      ((weact_set_brightness (weact_close fresh_display) 128 100 3).ok = false ∧
        (weact_set_brightness (weact_close fresh_display) 128 100 3).writes = []) ∧
      ((weact_fill_screen (weact_close fresh_display) 0 3).ok = false ∧ (weact_fill_screen (weact_close fresh_display) 0 3).writes = []) ∧
      ((weact_system_reset (weact_close fresh_display) 3).ok = false ∧ (weact_system_reset (weact_close fresh_display) 3).writes = [])) ∧
    (((3 : Int) < 0 ∨ to_size_t 3 ≠ 10 ∨ (25600 : Int) < 0 ∨ to_size_t 25600 ≠ flush_byte_count (weact_close fresh_display)) →
      (weact_flush_buffer (weact_close fresh_display) 3 25600).ok = false ∧ (weact_update_display (weact_close fresh_display) 3 25600).ok = false) ∧
    (((3 : Int) < 0 ∨ to_size_t 3 ≠ 3) → (weact_set_orientation (weact_close fresh_display) 4 3).ok = false) ∧
    (((3 : Int) < 0 ∨ to_size_t 3 ≠ 5) → (weact_set_brightness (weact_close fresh_display) 128 100 3).ok = false) ∧
    (((3 : Int) < 0 ∨ to_size_t 3 ≠ 12) → (weact_fill_screen (weact_close fresh_display) 0 3).ok = false) ∧
    (((3 : Int) < 0 ∨ to_size_t 3 ≠ 2) → (weact_system_reset (weact_close fresh_display) 3).ok = false) ∧
    ((weact_flush_buffer (weact_close fresh_display) 3 25600).ok = false →
      same_but_error (weact_close fresh_display) (weact_flush_buffer (weact_close fresh_display) 3 25600).display) ∧
    ((weact_update_display (weact_close fresh_display) 3 25600).ok = false →
      same_but_error (weact_close fresh_display) (weact_update_display (weact_close fresh_display) 3 25600).display) ∧
    ((weact_set_orientation (weact_close fresh_display) 4 3).ok = false →
      same_but_error (weact_close fresh_display) (weact_set_orientation (weact_close fresh_display) 4 3).display) ∧
    ((weact_set_brightness (weact_close fresh_display) 128 100 3).ok = false →
      same_but_error (weact_close fresh_display) (weact_set_brightness (weact_close fresh_display) 128 100 3).display) ∧
    ((weact_fill_screen (weact_close fresh_display) 0 3).ok = false →
      same_but_error (weact_close fresh_display) (weact_fill_screen (weact_close fresh_display) 0 3).display) ∧
    ((weact_system_reset (weact_close fresh_display) 3).ok = false →
      same_but_error (weact_close fresh_display) (weact_system_reset (weact_close fresh_display) 3).display) ∧
    (¬ (4 = 0 ∨ 4 = 1 ∨ 4 = 2 ∨ 4 = 3 ∨ 4 = 5) →
      (weact_set_orientation (weact_close fresh_display) 4 3).ok = false ∧ (weact_set_orientation (weact_close fresh_display) 4 3).writes = [] ∧
      same_but_error (weact_close fresh_display) (weact_set_orientation (weact_close fresh_display) 4 3).display)) :=
  ⟨⟨by decide, by decide⟩, failure_is_atomic (weact_close fresh_display) 4 128 100 0 3 25600⟩

theorem shape_draw_pixel (d : weact_display_t) (x y : Int) (c : Nat) :
    shape (weact_draw_pixel d x y c) = shape d := by
  unfold shape
  rw [draw_pixel_width, draw_pixel_height, draw_pixel_frame, draw_pixel_back_length]

theorem shape_foldl {α : Type} (f : weact_display_t → α → weact_display_t)
    (hf : ∀ d a, shape (f d a) = shape d) (l : List α) (d : weact_display_t) :
    shape (l.foldl f d) = shape d := by
  induction l generalizing d with
  | nil => rfl
  | cons a l ih => rw [List.foldl_cons, ih, hf]

theorem shape_draw_line_loop (dx dy sx sy x2 y2 : Int) (c : Nat) (fuel : Nat) :
    ∀ (d d' : weact_display_t) (x1 y1 err : Int),
      draw_line_loop dx dy sx sy x2 y2 c fuel d x1 y1 err = some d' → shape d' = shape d := by
  induction fuel with
  | zero => intro d d' x1 y1 err h; simp [draw_line_loop] at h
  | succ n ih =>
    intro d d' x1 y1 err h
    unfold draw_line_loop at h
    dsimp only at h
    by_cases h1 : x1 = x2 ∧ y1 = y2
    · rw [if_pos h1] at h
      simp only [Option.some.injEq] at h
      rw [← h, shape_draw_pixel]
    · rw [if_neg h1] at h
      rw [ih _ _ _ _ _ h, shape_draw_pixel]

theorem shape_draw_line (fuel : Nat) (d d' : weact_display_t) (x1 y1 x2 y2 : Int) (c : Nat)
    (h : weact_draw_line fuel d x1 y1 x2 y2 c = some d') : shape d' = shape d := by
  unfold weact_draw_line at h
  exact shape_draw_line_loop _ _ _ _ _ _ _ _ _ _ _ _ _ h

theorem shape_draw_rect (d : weact_display_t) (x y w h : Int) (c : Nat) (f : Bool) :
    shape (weact_draw_rect d x y w h c f) = shape d := by
  unfold weact_draw_rect
  split
  · unfold draw_rect_filled
    apply shape_foldl
    intro d yy
    split
    · apply shape_foldl
      intro d xx
      split
      · exact shape_draw_pixel _ _ _ _
      · rfl
    · rfl
  · unfold draw_rect_outline
    dsimp only
    rw [shape_foldl, shape_foldl]
    · intro d xx
      rw [shape_draw_pixel, shape_draw_pixel]
    · intro d yy
      rw [shape_draw_pixel, shape_draw_pixel]

theorem shape_circle_row (cx cy r : Int) (c : Nat) (y : Int) (fuel : Nat) :
    ∀ (d d' : weact_display_t) (x : Int),
      circle_row cx cy r c y fuel d x = some d' → shape d' = shape d := by
  induction fuel with
  | zero => intro d d' x h; simp [circle_row] at h
  | succ n ih =>
    intro d d' x h
    unfold circle_row at h
    dsimp only at h
    split_ifs at h with h1 h2
    · rw [ih _ _ _ h, shape_draw_pixel]
    · exact ih _ _ _ h
    · simp only [Option.some.injEq] at h
      rw [h]

theorem shape_circle_rows (cx cy r : Int) (c : Nat) (fuel : Nat) :
    ∀ (d d' : weact_display_t) (y : Int),
      circle_rows cx cy r c fuel d y = some d' → shape d' = shape d := by
  induction fuel with
  | zero => intro d d' y h; simp [circle_rows] at h
  | succ n ih =>
    intro d d' y h
    unfold circle_rows at h
    split_ifs at h with h1
    · cases hrow : circle_row cx cy r c y n d (wrap32 (-r)) with
      | none => rw [hrow] at h; simp at h
      | some d1 =>
        rw [hrow] at h
        rw [ih _ _ _ h, shape_circle_row _ _ _ _ _ _ _ _ _ hrow]
    · simp only [Option.some.injEq] at h
      rw [h]

theorem shape_circle_octants (d : weact_display_t) (cx cy x y : Int) (c : Nat) :
    shape (circle_octants d cx cy x y c) = shape d := by
  unfold circle_octants
  dsimp only
  simp only [shape_draw_pixel]

theorem shape_circle_outline (cx cy : Int) (c : Nat) (fuel : Nat) :
    ∀ (d d' : weact_display_t) (x y e : Int),
      circle_outline cx cy c fuel d x y e = some d' → shape d' = shape d := by
  induction fuel with
  | zero => intro d d' x y e h; simp [circle_outline] at h
  | succ n ih =>
    intro d d' x y e h
    unfold circle_outline at h
    dsimp only at h
    by_cases h1 : x ≤ y
    · rw [if_pos h1] at h
      rw [ih _ _ _ _ _ h, shape_circle_octants]
    · rw [if_neg h1] at h
      simp only [Option.some.injEq] at h
      rw [h]

theorem shape_draw_circle (fuel : Nat) (d d' : weact_display_t) (cx cy r : Int) (c : Nat)
    (f : Bool) (h : weact_draw_circle fuel d cx cy r c f = some d') : shape d' = shape d := by
  unfold weact_draw_circle at h
  split_ifs at h
  · exact shape_circle_rows _ _ _ _ _ _ _ _ h
  · exact shape_circle_outline _ _ _ _ _ _ _ _ _ h

theorem clear_step_length (cl ch : Nat) (buf : List Nat) (i : Int) :
    (clear_step cl ch buf i).length = buf.length := by
  unfold clear_step
  rw [store_length, store_length]

theorem clear_fold_length (cl ch : Nat) (l : List Int) (buf : List Nat) :
    (l.foldl (clear_step cl ch) buf).length = buf.length := by
  induction l generalizing buf with
  | nil => rfl
  | cons a l ih => rw [List.foldl_cons, ih, clear_step_length]

theorem shape_clear_buffer (d : weact_display_t) (c : Nat) :
    shape (weact_clear_buffer d c) = shape d := by
  unfold weact_clear_buffer
  cases hb : d.back_buffer with
  | none => simp only [shape, hb]
  | some buf =>
    simp only [shape, hb, Option.map_some', clear_fold_length]

theorem shape_same_but_error (d d' : weact_display_t) (h : same_but_error d d') :
    shape d' = shape d := by
  unfold same_but_error at h
  rw [h]
  rfl

theorem buffers_sized_of_shape {d d' : weact_display_t} (h : shape d' = shape d)
    (hs : buffers_sized d) : buffers_sized d' := by
  unfold shape at h
  simp only [Prod.mk.injEq] at h
  obtain ⟨h1, h2, h3, h4⟩ := h
  unfold buffers_sized at hs ⊢
  rw [h1, h2, h3, h4]
  exact hs

theorem buffers_sized_swap {d : weact_display_t} (hs : buffers_sized d) :
    buffers_sized (weact_swap_buffers d) := by
  obtain ⟨h1, h2, h3⟩ := hs
  exact ⟨h1, h3, h2⟩

theorem memset_length (buf : List Nat) (n : Nat) (h : buf.length = n) :
    (memset buf 0 n).length = n := by
  rw [memset_full buf n h, List.length_replicate]

theorem buffers_sized_set_orientation {d : weact_display_t} (hs : buffers_sized d) (m : Nat)
    (w : Int) : buffers_sized (weact_set_orientation d m w).display := by
  by_cases hm : m = 0 ∨ m = 1 ∨ m = 2 ∨ m = 3 ∨ m = 5
  · obtain ⟨nw, nh, hp, heq⟩ := set_orientation_valid d m w hm
    rw [heq]
    split_ifs with hok
    · obtain ⟨hd, hf, hb⟩ := hs
      cases hfb : d.frame_buffer with
      | none => rw [hfb] at hf; simp at hf
      | some fb =>
        cases hbb : d.back_buffer with
        | none => rw [hbb] at hb; simp at hb
        | some bb =>
          rw [hfb] at hf
          rw [hbb] at hb
          simp only [Option.map_some', Option.some.injEq] at hf hb
          have hdims : (nw = 160 ∧ nh = 80) ∨ (nw = 80 ∧ nh = 160) := by
            unfold orientation_dims at hp
            rcases hm with rfl | rfl | rfl | rfl | rfl <;>
              simp only [Option.some.injEq, Prod.mk.injEq] at hp <;> omega
          refine ⟨hdims, ?_, ?_⟩
          · show Option.map List.length (some (memset fb 0 WEACT_MAX_BUFFER_SIZE)) = _
            rw [Option.map_some', memset_length fb _ hf]
          · show Option.map List.length (some (memset bb 0 WEACT_MAX_BUFFER_SIZE)) = _
            rw [Option.map_some', memset_length bb _ hb]
    · exact buffers_sized_of_shape
        (shape_same_but_error _ _ (same_but_error_send d _ _ _)) hs
  · rw [set_orientation_invalid d m w hm]
    exact buffers_sized_of_shape rfl hs

theorem buffers_sized_init (env : init_env) (d : weact_display_t)
    (h : weact_init env = Except.ok d) : buffers_sized d := by
  unfold weact_init at h
  split_ifs at h
  simp only [Except.ok.injEq] at h
  rw [← h]
  apply buffers_sized_set_orientation
  refine ⟨Or.inl ⟨rfl, rfl⟩, ?_, ?_⟩ <;>
    · show Option.map List.length (some (List.replicate WEACT_MAX_BUFFER_SIZE 0)) = _
      rw [Option.map_some', List.length_replicate]

theorem buffers_sized_run_call (fuel : Nat) (c : display_call) (d d' : weact_display_t)
    (hs : buffers_sized d) (hr : run_call fuel d c = some d') : buffers_sized d' := by
  cases c with
  | draw_pixel x y c =>
    simp only [run_call, Option.some.injEq] at hr
    rw [← hr]
    exact buffers_sized_of_shape (shape_draw_pixel d x y c) hs
  | draw_line x1 y1 x2 y2 c =>
    simp only [run_call] at hr
    exact buffers_sized_of_shape (shape_draw_line _ _ _ _ _ _ _ _ hr) hs
  | draw_rect x y w h c f =>
    simp only [run_call, Option.some.injEq] at hr
    rw [← hr]
    exact buffers_sized_of_shape (shape_draw_rect d x y w h c f) hs
  | draw_circle cx cy r c f =>
    simp only [run_call] at hr
    exact buffers_sized_of_shape (shape_draw_circle _ _ _ _ _ _ _ _ hr) hs
  | clear_buffer c =>
    simp only [run_call, Option.some.injEq] at hr
    rw [← hr]
    exact buffers_sized_of_shape (shape_clear_buffer d c) hs
  | swap_buffers =>
    simp only [run_call, Option.some.injEq] at hr
    rw [← hr]
    exact buffers_sized_swap hs
  | flush_buffer w1 w2 =>
    simp only [run_call, Option.some.injEq] at hr
    rw [← hr]
    exact buffers_sized_of_shape (shape_same_but_error _ _ (flush_display d w1 w2)) hs
  | update_display w1 w2 =>
    simp only [run_call, Option.some.injEq] at hr
    rw [← hr]
    have hf : buffers_sized (weact_flush_buffer d w1 w2).display :=
      buffers_sized_of_shape (shape_same_but_error _ _ (flush_display d w1 w2)) hs
    unfold weact_update_display
    dsimp only
    split_ifs
    · exact buffers_sized_swap hf
    · exact hf
  | set_orientation m w =>
    simp only [run_call, Option.some.injEq] at hr
    rw [← hr]
    exact buffers_sized_set_orientation hs m w
  | set_brightness l t w =>
    simp only [run_call, Option.some.injEq] at hr
    rw [← hr]
    have hf : buffers_sized (send_command d (brightness_cmd l t) 5 w).display :=
      buffers_sized_of_shape (shape_same_but_error _ _ (same_but_error_send d _ _ _)) hs
    unfold weact_set_brightness
    dsimp only
    split_ifs
    · exact buffers_sized_of_shape rfl hf
    · exact hf
  | fill_screen c w =>
    simp only [run_call, Option.some.injEq] at hr
    rw [← hr]
    cases hc : d.is_connected with
    | false =>
      unfold weact_fill_screen
      rw [if_pos (by simp [hc])]
      exact buffers_sized_of_shape rfl hs
    | true =>
      rw [(fill_screen_eq d c w hc).2.2]
      exact buffers_sized_of_shape (shape_same_but_error _ _ (same_but_error_send d _ _ _)) hs
  | system_reset w =>
    simp only [run_call, Option.some.injEq] at hr
    rw [← hr]
    rw [(system_reset_eq d w).2.2]
    exact buffers_sized_of_shape (shape_same_but_error _ _ (same_but_error_send d _ _ _)) hs

theorem reachable_buffers_sized (d : weact_display_t) (h : reachable d) : buffers_sized d := by
  induction h with
  | init env d h => exact buffers_sized_init env d h
  | step fuel c d d' _ hr ih => exact buffers_sized_run_call fuel c d d' ih hr

/-- C6: in every state reachable from a successful `weact_init` by completed draw, clear,
swap, flush, update, set_orientation, set_brightness, fill_screen and reset calls (any
arguments, any `write` results), both buffers are allocated with exactly
`display_width * display_height * 2 = 25600` bytes, and for every in-range pixel `(x, y)`
the offset `weact_draw_pixel` computes is `(y * width + x) * 2` and it and its successor
lie inside the buffer. -/
theorem buffer_length_invariant (d : weact_display_t) (h : reachable d) :
    ∃ fb bb : List Nat, d.frame_buffer = some fb ∧ d.back_buffer = some bb ∧
      (fb.length : Int) = d.display_width * d.display_height * 2 ∧
      (bb.length : Int) = d.display_width * d.display_height * 2 ∧
      fb.length = 25600 ∧ bb.length = 25600 ∧
      ∀ x y : Int, in_range d x y →
        wrap32 (wrap32 (wrap32 (y * d.display_width) + x) * 2)
          = (y * d.display_width + x) * 2 ∧
        wrap32 ((y * d.display_width + x) * 2 + 1) = (y * d.display_width + x) * 2 + 1 ∧
        0 ≤ (y * d.display_width + x) * 2 ∧
        (y * d.display_width + x) * 2 + 1 < (bb.length : Int) := by
  obtain ⟨hd, hf, hb⟩ := reachable_buffers_sized d h
  cases hfb : d.frame_buffer with
  | none => rw [hfb] at hf; simp at hf
  | some fb =>
    cases hbb : d.back_buffer with
    | none => rw [hbb] at hb; simp at hb
    | some bb =>
      rw [hfb] at hf
      rw [hbb] at hb
      simp only [Option.map_some', Option.some.injEq] at hf hb
      have hN : WEACT_MAX_BUFFER_SIZE = 25600 := rfl
      rw [hN] at hf hb
      have hprod : d.display_width * d.display_height * 2 = 25600 := by
        rcases hd with ⟨h1, h2⟩ | ⟨h1, h2⟩ <;> rw [h1, h2] <;> rfl
      refine ⟨fb, bb, rfl, rfl, ?_, ?_, hf, hb, ?_⟩
      · rw [hprod, hf]; rfl
      · rw [hprod, hb]; rfl
      · intro x y hr
        have hg : geometry_ok d := by
          refine ⟨by omega, by omega, by omega, bb, hbb, ?_⟩
          rw [hprod, hb]; rfl
        obtain ⟨e1, e2, e3, e4⟩ := draw_pixel_offset hg hr
        refine ⟨e1, e2, by omega, ?_⟩
        rw [hb]
        push_cast
        omega

theorem buffer_length_invariant_witness :
    reachable portrait_display ∧
    (
    ∃ fb bb : List Nat, portrait_display.frame_buffer = some fb ∧ portrait_display.back_buffer = some bb ∧
      (fb.length : Int) = portrait_display.display_width * portrait_display.display_height * 2 ∧
      (bb.length : Int) = portrait_display.display_width * portrait_display.display_height * 2 ∧
      fb.length = 25600 ∧ bb.length = 25600 ∧
      ∀ x y : Int, in_range portrait_display x y →
        wrap32 (wrap32 (wrap32 (y * portrait_display.display_width) + x) * 2)
          = (y * portrait_display.display_width + x) * 2 ∧
        wrap32 ((y * portrait_display.display_width + x) * 2 + 1) = (y * portrait_display.display_width + x) * 2 + 1 ∧
        0 ≤ (y * portrait_display.display_width + x) * 2 ∧
        (y * portrait_display.display_width + x) * 2 + 1 < (bb.length : Int)) :=
  ⟨reachable.step 0 (display_call.draw_pixel 79 159 0xFFFF) _ _
      (reachable.step 0 (display_call.set_orientation 0 3) _ _
        (reachable.init ⟨3, 0, 0, true, true, 3⟩ _ rfl) rfl) rfl,
    buffer_length_invariant portrait_display
      (reachable.step 0 (display_call.draw_pixel 79 159 0xFFFF) _ _
        (reachable.step 0 (display_call.set_orientation 0 3) _ _
          (reachable.init ⟨3, 0, 0, true, true, 3⟩ _ rfl) rfl) rfl)⟩

theorem int_range_zero_succ (n : Nat) :
    int_range 0 ((n : Int) + 1) = int_range 0 (n : Int) ++ [0 + (n : Int)] := by
  unfold int_range
  have e1 : ((n : Int) + 1 - 0).toNat = n + 1 := by omega
  have e2 : ((n : Int) - 0).toNat = n := by omega
  rw [e1, e2, List.range_succ, List.map_append, List.map_singleton]

theorem clear_fold_get (cl ch : Nat) (n : Nat) (hn : 2 * n < 2147483648) (buf : List Nat)
    (h : 2 * n ≤ buf.length) (j : Nat) :
    ((int_range 0 (n : Int)).foldl (clear_step cl ch) buf)[j]?
      = if j < 2 * n then some (if j % 2 = 0 then cl % 256 else ch % 256) else buf[j]? := by
  induction n with
  | zero =>
    rw [int_range_empty 0 _ (by simp)]
    simp
  | succ n ih =>
    have ihn := ih (by omega) (by omega)
    have ecast : ((n + 1 : Nat) : Int) = (n : Int) + 1 := by push_cast; rfl
    rw [ecast, int_range_zero_succ, List.foldl_append, List.foldl_cons, List.foldl_nil]
    have ez : (0 : Int) + (n : Int) = (n : Int) := Int.zero_add _
    rw [ez]
    have w1 : wrap32 ((n : Int) * 2) = (n : Int) * 2 := wrap32_eq_self (by omega) (by omega)
    have w2 : wrap32 ((n : Int) * 2 + 1) = (n : Int) * 2 + 1 :=
      wrap32_eq_self (by omega) (by omega)
    have estep : ∀ b : List Nat, clear_step cl ch b (n : Int)
        = store (store b ((n : Int) * 2) cl) ((n : Int) * 2 + 1) ch := by
      intro b
      unfold clear_step
      rw [w1, w2]
    rw [estep]
    rw [store_pair_get _ n cl ch (by rw [clear_fold_length]; omega) j, ihn]
    by_cases h1 : j = 2 * n
    · rw [if_pos h1, if_pos (show j < 2 * (n + 1) by omega), if_pos (show j % 2 = 0 by omega)]
    · rw [if_neg h1]
      by_cases h2 : j = 2 * n + 1
      · rw [if_pos h2, if_pos (show j < 2 * (n + 1) by omega),
          if_neg (show ¬ j % 2 = 0 by omega)]
      · rw [if_neg h2]
        by_cases h3 : j < 2 * n
        · rw [if_pos h3, if_pos (show j < 2 * (n + 1) by omega)]
        · rw [if_neg h3, if_neg (show ¬ j < 2 * (n + 1) by omega)]

theorem pairs_eq_flatten (a b : Nat) (n : Nat) :
    ∀ l : List Nat, l.length = 2 * n →
      (∀ j : Nat, j < 2 * n → l[j]? = some (if j % 2 = 0 then a else b)) →
      l = (List.replicate n [a, b]).flatten := by
  induction n with
  | zero =>
    intro l hl _
    have : l = [] := List.eq_nil_of_length_eq_zero (by omega)
    rw [this]
    rfl
  | succ n ih =>
    intro l hl hget
    match l, hl, hget with
    | x :: y :: l', hl, hget =>
      have h0 := hget 0 (by omega)
      have h1 := hget 1 (by omega)
      simp only [List.getElem?_cons_zero, Option.some.injEq] at h0
      simp only [List.getElem?_cons_succ, List.getElem?_cons_zero, Option.some.injEq] at h1
      have hx : x = a := by simpa using h0
      have hy : y = b := by simpa using h1
      have hl' : l'.length = 2 * n := by
        simp only [List.length_cons] at hl
        omega
      have hrest := ih l' hl' (by
        intro j hj
        have := hget (j + 2) (by omega)
        simp only [List.getElem?_cons_succ] at this
        rw [this]
        have e : (j + 2) % 2 = j % 2 := by omega
        rw [e])
      rw [List.replicate_succ, List.flatten_cons, ← hrest, hx, hy]
      rfl

theorem flush_ok_writes (d : weact_display_t) (w1 w2 : Int) (buf : List Nat)
    (hb : d.back_buffer = some buf) (hok : (weact_flush_buffer d w1 w2).ok = true) :
    (weact_flush_buffer d w1 w2).writes = [flush_cmd d, buf.take (flush_byte_count d)] := by
  obtain ⟨_, hc, hw1, hw2, hw3⟩ := (flush_ok_iff d w1 w2).mp hok
  have hs : (send_command d (flush_cmd d) 10 w1).ok = true :=
    (send_command_ok_iff d _ _ _).mpr ⟨hc, hw1.1, hw1.2⟩
  have hwr := send_command_writes d (flush_cmd d) 10 w1
  rw [hc, if_pos rfl] at hwr
  have htake : (flush_cmd d).take 10 = flush_cmd d := rfl
  rw [htake] at hwr
  unfold flush_byte_count at hw3 ⊢
  unfold weact_flush_buffer
  rw [hb]
  dsimp only
  rw [if_neg (by simp [hc]), if_neg (by simp [hs]), if_neg (by omega), if_neg (by simpa using hw3),
    hwr]
  rfl

theorem color_bytes_small (c : Nat) (hc : c < 65536) :
    (c >>> 8) % 256 = c >>> 8 ∧ (c &&& 0xFF) % 256 = c &&& 0xFF := by
  rw [shiftRight_8_eq_div, and_255_eq_mod]
  omega

/-- C2: on a display whose back buffer holds the `w * h` pixels of the current dimensions,
`weact_clear_buffer(c)` followed by a successful `weact_flush_buffer` (which needs a
connected display) hands two blocks to `write`: the command frame and a payload of exactly
`2 * w * h` bytes in which byte `2 i` is `c >> 8` and byte `2 i + 1` is `c & 0xFF` for every
`i < w * h`, that is `w * h` repetitions of the pair; these are the two bytes
`weact_draw_pixel` stores for `c`; the flush changes neither buffer. -/
theorem clear_then_flush (d : weact_display_t) (c : Nat) (w1 w2 : Int) (hc : c < 65536)
    (hg : geometry_ok d)
    (hok : (weact_flush_buffer (weact_clear_buffer d c) w1 w2).ok = true) :
    d.is_connected = true ∧
    ∃ payload : List Nat,
      (weact_flush_buffer (weact_clear_buffer d c) w1 w2).writes = [flush_cmd d, payload] ∧
      (payload.length : Int) = 2 * d.display_width * d.display_height ∧
      (∀ i : Nat, (i : Int) < d.display_width * d.display_height →
        payload[2 * i]? = some (c >>> 8) ∧ payload[2 * i + 1]? = some (c &&& 0xFF)) ∧
      payload = (List.replicate (d.display_width * d.display_height).toNat
        [c >>> 8, c &&& 0xFF]).flatten ∧
      (∀ x y : Int, in_range d x y →
        back_pixel (weact_draw_pixel d x y c) x y = some (c >>> 8, c &&& 0xFF)) ∧
      (weact_flush_buffer (weact_clear_buffer d c) w1 w2).display.frame_buffer
        = (weact_clear_buffer d c).frame_buffer ∧
      (weact_flush_buffer (weact_clear_buffer d c) w1 w2).display.back_buffer
        = (weact_clear_buffer d c).back_buffer := by
  obtain ⟨hw, hh, hsz, buf, hb, hlen⟩ := hg
  obtain ⟨hc1, hc2⟩ := color_bytes_small c hc
  have hpos : 0 < d.display_width * d.display_height := Int.mul_pos hw hh
  obtain ⟨n, hn⟩ : ∃ n : Nat, d.display_width * d.display_height = (n : Int) :=
    ⟨(d.display_width * d.display_height).toNat, by omega⟩
  have hwrap : wrap32 (d.display_width * d.display_height) = (n : Int) := by
    rw [hn]; exact wrap32_eq_self (by omega) (by omega)
  obtain ⟨buf1, hbuf1⟩ : ∃ b : List Nat, b = (int_range 0 (n : Int)).foldl
      (clear_step ((c >>> 8) % 256) ((c &&& 0xFF) % 256)) buf := ⟨_, rfl⟩
  have hclr : weact_clear_buffer d c = { d with back_buffer := some buf1 } := by
    unfold weact_clear_buffer
    rw [hb]
    dsimp only
    rw [hwrap, hbuf1]
  have hcount : flush_byte_count (weact_clear_buffer d c) = 2 * n := by
    rw [hclr]
    unfold flush_byte_count
    dsimp only
    rw [hwrap]
    have e : wrap32 ((n : Int) * 2) = (n : Int) * 2 := wrap32_eq_self (by omega) (by omega)
    rw [e]
    unfold to_size_t
    omega
  have hwr := flush_ok_writes (weact_clear_buffer d c) w1 w2 _ (by rw [hclr]) hok
  rw [hcount] at hwr
  have hconn : d.is_connected = true := by
    have := ((flush_ok_iff _ w1 w2).mp hok).2.1
    rw [hclr] at this
    exact this
  have hfd := flush_display (weact_clear_buffer d c) w1 w2
  have hlen2 : 2 * n ≤ buf.length := by omega
  have hget : ∀ j : Nat, j < 2 * n →
      (buf1.take (2 * n))[j]? = some (if j % 2 = 0 then c >>> 8 else c &&& 0xFF) := by
    intro j hj
    rw [List.getElem?_take_of_lt hj, hbuf1, clear_fold_get _ _ n (by omega) buf hlen2 j, if_pos hj,
      Nat.mod_mod, Nat.mod_mod, hc1, hc2]
  have hplen : (buf1.take (2 * n)).length = 2 * n := by
    rw [List.length_take, hbuf1, clear_fold_length]
    omega
  refine ⟨hconn, buf1.take (2 * n), ?_, ?_, ?_, ?_, ?_, ?_, ?_⟩
  · rw [hwr]
    have e : flush_cmd (weact_clear_buffer d c) = flush_cmd d := by
      rw [hclr]
      rfl
    rw [e]
  · rw [hplen]
    push_cast
    rw [Int.mul_assoc, hn]
  · intro i hi
    rw [hn] at hi
    have hi' : i < n := by omega
    have h0 := hget (2 * i) (by omega)
    have h1 := hget (2 * i + 1) (by omega)
    rw [if_pos (by omega)] at h0
    rw [if_neg (by omega)] at h1
    exact ⟨h0, h1⟩
  · have e : (d.display_width * d.display_height).toNat = n := by omega
    rw [e]
    exact pairs_eq_flatten _ _ n _ hplen hget
  · intro x y hr
    rw [back_pixel_draw_pixel ⟨hw, hh, hsz, buf, hb, hlen⟩ x y c hr, if_pos ⟨rfl, rfl⟩]
    unfold color_bytes
    rw [hc1, hc2]
  · rw [hfd]
  · rw [hfd]

theorem clear_then_flush_witness :
    ((0xF800 < 65536) ∧
      (geometry_ok fresh_display) ∧
      ((weact_flush_buffer (weact_clear_buffer fresh_display 0xF800) 10 25600).ok = true)) ∧
    (
    fresh_display.is_connected = true ∧
    ∃ payload : List Nat,
      (weact_flush_buffer (weact_clear_buffer fresh_display 0xF800) 10 25600).writes = [flush_cmd fresh_display, payload] ∧
      (payload.length : Int) = 2 * fresh_display.display_width * fresh_display.display_height ∧
      (∀ i : Nat, (i : Int) < fresh_display.display_width * fresh_display.display_height →
        payload[2 * i]? = some (0xF800 >>> 8) ∧ payload[2 * i + 1]? = some (0xF800 &&& 0xFF)) ∧
      payload = (List.replicate (fresh_display.display_width * fresh_display.display_height).toNat
        [0xF800 >>> 8, 0xF800 &&& 0xFF]).flatten ∧
      (∀ x y : Int, in_range fresh_display x y →
        back_pixel (weact_draw_pixel fresh_display x y 0xF800) x y = some (0xF800 >>> 8, 0xF800 &&& 0xFF)) ∧
      (weact_flush_buffer (weact_clear_buffer fresh_display 0xF800) 10 25600).display.frame_buffer
        = (weact_clear_buffer fresh_display 0xF800).frame_buffer ∧
      (weact_flush_buffer (weact_clear_buffer fresh_display 0xF800) 10 25600).display.back_buffer
        = (weact_clear_buffer fresh_display 0xF800).back_buffer) :=
  ⟨⟨by decide, fresh_display_geometry, by decide⟩,
    clear_then_flush fresh_display 0xF800 10 25600 (by decide) fresh_display_geometry
      (by decide)⟩

theorem le_mul_of_one_le (a v : Int) (ha : 1 ≤ a) (hv : 0 ≤ v) : v ≤ a * v := by
  have h := Int.mul_le_mul_of_nonneg_right ha hv
  rw [Int.one_mul] at h
  exact h

theorem heads_to_end (s v t a : Int) (h : heads_to s v t a) : v = t ↔ a = 0 := by
  unfold heads_to at h
  rcases h with ⟨_, h⟩ | ⟨_, h⟩ <;> constructor <;> intro h1 <;> omega

theorem heads_to_step (s v t a : Int) (h : heads_to s v t a) (ha : 1 ≤ a)
    (hv : -2147483648 ≤ v ∧ v < 2147483648) (ht : -2147483648 ≤ t ∧ t < 2147483648) :
    wrap32 (v + s) = v + s ∧ heads_to s (v + s) t (a - 1) ∧
      (-2147483648 ≤ v + s ∧ v + s < 2147483648) := by
  unfold heads_to at h ⊢
  rcases h with ⟨h1, h2⟩ | ⟨h1, h2⟩
  · refine ⟨wrap32_eq_self (by omega) (by omega), Or.inl ⟨h1, by omega⟩, by omega, by omega⟩
  · refine ⟨wrap32_eq_self (by omega) (by omega), Or.inr ⟨h1, by omega⟩, by omega, by omega⟩

theorem line_x_needs (dx dy a b P Q err : Int) (hdx0 : 0 ≤ dx) (hdy0 : 0 ≤ dy) (ha0 : 0 ≤ a)
    (hP : P = a * dy) (hQ : Q = b * dx) (herr : err = dx - dy + P - Q)
    (hab : 1 ≤ a ∨ 1 ≤ b) (stx : err * 2 > -dy) : 1 ≤ a := by
  by_contra hc
  have h0 : a = 0 := by omega
  have hb : 1 ≤ b := by omega
  have hP0 : P = 0 := by rw [hP, h0]; ring
  have hQ1 : dx ≤ Q := by rw [hQ]; exact le_mul_of_one_le b dx hb hdx0
  clear hP hQ hab
  omega

theorem line_y_needs (dx dy a b P Q err : Int) (hdx0 : 0 ≤ dx) (hdy0 : 0 ≤ dy) (hb0 : 0 ≤ b)
    (hP : P = a * dy) (hQ : Q = b * dx) (herr : err = dx - dy + P - Q)
    (hab : 1 ≤ a ∨ 1 ≤ b) (sty : err * 2 < dx) : 1 ≤ b := by
  by_contra hc
  have h0 : b = 0 := by omega
  have ha : 1 ≤ a := by omega
  have hQ0 : Q = 0 := by rw [hQ, h0]; ring
  have hP1 : dy ≤ P := by rw [hP]; exact le_mul_of_one_le a dy ha hdy0
  clear hP hQ hab
  omega

theorem line_some_step (dx dy a b err : Int) (hdx0 : 0 ≤ dx) (hdy0 : 0 ≤ dy) (ha1 : a ≤ dx)
    (hb1 : b ≤ dy) (hab : 1 ≤ a ∨ 1 ≤ b) (stx : ¬ err * 2 > -dy) : err * 2 < dx := by
  rcases hab with h | h <;> omega

theorem cons_reaches (p q : Int × Int) (hne : q ≠ p) (init : List (Int × Int))
    (h2 : q ∉ init) : q ∉ p :: init := by
  intro hm
  rcases List.mem_cons.mp hm with h | h
  · exact hne h
  · exact h2 h

/-- The loop of `weact_draw_line` ends at the end point.  With `a` and `b` the remaining
distances in x and y, the error term is `dx - dy + a * dy - b * dx`; it stays between
`-3 dy / 2` and `3 dx / 2`, no sum wraps, and every round shortens `a + b`. -/
theorem draw_line_points_reaches (dx dy sx sy x2 y2 : Int)
    (hdx : 0 ≤ dx ∧ dx ≤ 715827882) (hdy : 0 ≤ dy ∧ dy ≤ 715827882)
    (hx2 : -2147483648 ≤ x2 ∧ x2 < 2147483648) (hy2 : -2147483648 ≤ y2 ∧ y2 < 2147483648) :
    ∀ (fuel : Nat) (x1 y1 err a b P Q : Int),
      0 ≤ a → a ≤ dx → 0 ≤ b → b ≤ dy →
      heads_to sx x1 x2 a → heads_to sy y1 y2 b →
      (-2147483648 ≤ x1 ∧ x1 < 2147483648) → (-2147483648 ≤ y1 ∧ y1 < 2147483648) →
      P = a * dy → Q = b * dx → err = dx - dy + P - Q →
      -3 * dy ≤ 2 * err → 2 * err ≤ 3 * dx →
      a + b < (fuel : Int) →
      ∃ init : List (Int × Int),
        draw_line_points dx dy sx sy x2 y2 fuel x1 y1 err = some (init ++ [(x2, y2)]) ∧
        (x2, y2) ∉ init ∧ (init ++ [(x2, y2)]).head? = some (x1, y1) ∧
        (init.length : Int) ≤ a + b := by
  obtain ⟨hdx0, hdxM⟩ := hdx
  obtain ⟨hdy0, hdyM⟩ := hdy
  intro fuel
  induction fuel with
  | zero =>
    intro x1 y1 err a b P Q ha0 _ hb0 _ _ _ _ _ _ _ _ _ _ hf
    exfalso
    simp only [Nat.cast_zero] at hf
    omega
  | succ n ih =>
    intro x1 y1 err a b P Q ha0 ha1 hb0 hb1 hxa hyb hx1 hy1 hP hQ herr hlo hhi hf
    have hf' : a + b < (n : Int) + 1 := by
      have : ((n + 1 : Nat) : Int) = (n : Int) + 1 := by push_cast; rfl
      omega
    clear hf
    have hxe := heads_to_end sx x1 x2 a hxa
    have hye := heads_to_end sy y1 y2 b hyb
    unfold draw_line_points
    by_cases hend : x1 = x2 ∧ y1 = y2
    · rw [if_pos hend]
      refine ⟨[], ?_, List.not_mem_nil _, ?_, ?_⟩
      · rw [hend.1, hend.2]; rfl
      · rw [hend.1, hend.2]; rfl
      · simp only [List.length_nil, Nat.cast_zero]; omega
    · rw [if_neg hend]
      dsimp only
      have hab : 1 ≤ a ∨ 1 ≤ b := by
        by_contra hc
        apply hend
        exact ⟨hxe.mpr (by omega), hye.mpr (by omega)⟩
      clear hxe hye
      have hPs : P - dy = (a - 1) * dy := by rw [hP]; ring
      have hQs : Q - dx = (b - 1) * dx := by rw [hQ]; ring
      have we2 : wrap32 (err * 2) = err * 2 := wrap32_eq_self (by omega) (by omega)
      have wdy : wrap32 (-dy) = -dy := wrap32_eq_self (by omega) (by omega)
      rw [we2, wdy]
      have hne : (x2, y2) ≠ (x1, y1) := by
        intro h
        simp only [Prod.mk.injEq] at h
        exact hend ⟨h.1.symm, h.2.symm⟩
      clear hend we2 wdy
      by_cases stx : err * 2 > -dy
      · have ha := line_x_needs dx dy a b P Q err hdx0 hdy0 ha0 hP hQ herr hab stx
        obtain ⟨wx, hxa', hx1'⟩ := heads_to_step sx x1 x2 a hxa ha hx1 hx2
        have we1 : wrap32 (err - dy) = err - dy := wrap32_eq_self (by omega) (by omega)
        rw [if_pos stx, if_pos stx, wx, we1]
        clear wx we1
        by_cases sty : err * 2 < dx
        · have hb := line_y_needs dx dy a b P Q err hdx0 hdy0 hb0 hP hQ herr hab sty
          obtain ⟨wy, hyb', hy1'⟩ := heads_to_step sy y1 y2 b hyb hb hy1 hy2
          have we3 : wrap32 (err - dy + dx) = err - dy + dx :=
            wrap32_eq_self (by omega) (by omega)
          rw [if_pos sty, if_pos sty, wy, we3]
          clear wy we3 hab
          obtain ⟨init, h1, h2, _, h4⟩ := ih (x1 + sx) (y1 + sy) (err - dy + dx) (a - 1) (b - 1)
            (P - dy) (Q - dx) (by omega) (by omega) (by omega) (by omega) hxa' hyb'
            hx1' hy1' hPs hQs (by omega) (by omega) (by omega) (by omega)
          refine ⟨(x1, y1) :: init, ?_, cons_reaches _ _ hne init h2, rfl, ?_⟩
          · rw [h1]; rfl
          · simp only [List.length_cons, Nat.cast_add, Nat.cast_one]; omega
        · rw [if_neg sty, if_neg sty]
          clear hab
          obtain ⟨init, h1, h2, _, h4⟩ := ih (x1 + sx) y1 (err - dy) (a - 1) b
            (P - dy) Q (by omega) (by omega) (by omega) (by omega) hxa' hyb
            hx1' hy1 hPs hQ (by omega) (by omega) (by omega) (by omega)
          refine ⟨(x1, y1) :: init, ?_, cons_reaches _ _ hne init h2, rfl, ?_⟩
          · rw [h1]; rfl
          · simp only [List.length_cons, Nat.cast_add, Nat.cast_one]; omega
      · rw [if_neg stx, if_neg stx]
        have sty := line_some_step dx dy a b err hdx0 hdy0 ha1 hb1 hab stx
        have hb := line_y_needs dx dy a b P Q err hdx0 hdy0 hb0 hP hQ herr hab sty
        obtain ⟨wy, hyb', hy1'⟩ := heads_to_step sy y1 y2 b hyb hb hy1 hy2
        have we3 : wrap32 (err + dx) = err + dx := wrap32_eq_self (by omega) (by omega)
        rw [if_pos sty, if_pos sty, wy, we3]
        clear wy we3 hab
        obtain ⟨init, h1, h2, _, h4⟩ := ih x1 (y1 + sy) (err + dx) a (b - 1)
          P (Q - dx) (by omega) (by omega) (by omega) (by omega) hxa hyb'
          hx1 hy1' hP hQs (by omega) (by omega) (by omega) (by omega)
        refine ⟨(x1, y1) :: init, ?_, cons_reaches _ _ hne init h2, rfl, ?_⟩
        · rw [h1]; rfl
        · simp only [List.length_cons, Nat.cast_add, Nat.cast_one]; omega

theorem c_abs_diff (u v : Int)
    (hd : -715827882 ≤ v - u ∧ v - u ≤ 715827882) :
    c_abs (wrap32 (v - u)) = ((v - u).natAbs : Int) ∧
      heads_to (if u < v then 1 else -1) u v ((v - u).natAbs : Int) := by
  have w1 : wrap32 (v - u) = v - u := wrap32_eq_self (by omega) (by omega)
  unfold c_abs heads_to
  rw [w1]
  by_cases h : v - u < 0
  · rw [if_pos h, if_neg (by omega)]
    exact ⟨by rw [wrap32_eq_self (by omega) (by omega)]; omega, Or.inr ⟨rfl, by omega⟩⟩
  · rw [if_neg h]
    refine ⟨by rw [wrap32_eq_self (by omega) (by omega)]; omega, ?_⟩
    by_cases h2 : u < v
    · rw [if_pos h2]; exact Or.inl ⟨rfl, by omega⟩
    · rw [if_neg h2]; exact Or.inr ⟨rfl, by omega⟩

/-- C10: for endpoints whose coordinates are `int` values and whose differences are at most
715827882 in magnitude (so that no `int` operation of the loop overflows),
`weact_draw_line` terminates: any round budget above `|x2 - x1| + |y2 - y1|` yields a
result.  The points handed to `weact_draw_pixel` start with `(x1, y1)` and end with
`(x2, y2)`, which occurs nowhere before the end, so the loop stops only after writing the
end point; afterwards each endpoint that lies inside the display holds the line colour. -/
theorem draw_line_terminates (d : weact_display_t) (x1 y1 x2 y2 : Int) (c : Nat) (fuel : Nat)
    (hx1 : -2147483648 ≤ x1 ∧ x1 < 2147483648) (hy1 : -2147483648 ≤ y1 ∧ y1 < 2147483648)
    (hx2 : -2147483648 ≤ x2 ∧ x2 < 2147483648) (hy2 : -2147483648 ≤ y2 ∧ y2 < 2147483648)
    (hdx : -715827882 ≤ x2 - x1 ∧ x2 - x1 ≤ 715827882)
    (hdy : -715827882 ≤ y2 - y1 ∧ y2 - y1 ≤ 715827882)
    (hg : geometry_ok d)
    (hfuel : (x2 - x1).natAbs + (y2 - y1).natAbs < fuel) :
    ∃ init : List (Int × Int),
      line_points fuel x1 y1 x2 y2 = some (init ++ [(x2, y2)]) ∧
      (x2, y2) ∉ init ∧
      (init ++ [(x2, y2)]).head? = some (x1, y1) ∧
      init.length ≤ (x2 - x1).natAbs + (y2 - y1).natAbs ∧
      weact_draw_line fuel d x1 y1 x2 y2 c = some (draw_points d (init ++ [(x2, y2)]) c) ∧
      (in_range d x1 y1 →
        back_pixel (draw_points d (init ++ [(x2, y2)]) c) x1 y1 = some (color_bytes c)) ∧
      (in_range d x2 y2 →
        back_pixel (draw_points d (init ++ [(x2, y2)]) c) x2 y2 = some (color_bytes c)) := by
  obtain ⟨ex, hsx⟩ := c_abs_diff x1 x2 hdx
  obtain ⟨ey, hsy⟩ := c_abs_diff y1 y2 hdy
  have hA : (0 : Int) ≤ ((x2 - x1).natAbs : Int) ∧ ((x2 - x1).natAbs : Int) ≤ 715827882 := by
    omega
  have hB : (0 : Int) ≤ ((y2 - y1).natAbs : Int) ∧ ((y2 - y1).natAbs : Int) ≤ 715827882 := by
    omega
  have hlp : line_points fuel x1 y1 x2 y2
      = draw_line_points ((x2 - x1).natAbs : Int) ((y2 - y1).natAbs : Int)
          (if x1 < x2 then 1 else -1) (if y1 < y2 then 1 else -1) x2 y2 fuel x1 y1
          (((x2 - x1).natAbs : Int) - ((y2 - y1).natAbs : Int)) := by
    unfold line_points
    dsimp only
    rw [ex, ey, wrap32_eq_self (by omega) (by omega)]
  obtain ⟨init, h1, h2, h3, h4⟩ := draw_line_points_reaches
    ((x2 - x1).natAbs : Int) ((y2 - y1).natAbs : Int)
    (if x1 < x2 then 1 else -1) (if y1 < y2 then 1 else -1) x2 y2 hA hB hx2 hy2 fuel x1 y1
    (((x2 - x1).natAbs : Int) - ((y2 - y1).natAbs : Int))
    ((x2 - x1).natAbs : Int) ((y2 - y1).natAbs : Int)
    (((x2 - x1).natAbs : Int) * ((y2 - y1).natAbs : Int))
    (((y2 - y1).natAbs : Int) * ((x2 - x1).natAbs : Int))
    hA.1 (le_refl _) hB.1 (le_refl _) hsx hsy hx1 hy1 rfl rfl (by ring) (by omega) (by omega)
    (by omega)
  rw [← hlp] at h1
  have hhead : (x1, y1) ∈ init ++ [(x2, y2)] := by
    cases hl : init ++ [(x2, y2)] with
    | nil => rw [hl] at h3; simp at h3
    | cons p ps =>
      rw [hl] at h3
      simp only [List.head?_cons, Option.some.injEq] at h3
      rw [h3]
      exact List.mem_cons_self _ _
  refine ⟨init, h1, h2, h3, by omega, ?_, ?_, ?_⟩
  · rw [draw_line_eq_points, h1]
    rfl
  · intro hr
    rw [back_pixel_draw_points hg _ c hr, if_pos hhead]
  · intro hr
    rw [back_pixel_draw_points hg _ c hr, if_pos (by simp)]

theorem draw_line_terminates_witness :
    ((-2147483648 ≤ (2 : Int) ∧ (2 : Int) < 2147483648) ∧
      (-2147483648 ≤ (1 : Int) ∧ (1 : Int) < 2147483648) ∧
      (-2147483648 ≤ (7 : Int) ∧ (7 : Int) < 2147483648) ∧
      (-2147483648 ≤ (4 : Int) ∧ (4 : Int) < 2147483648) ∧
      (-715827882 ≤ (7 : Int) - (2 : Int) ∧ (7 : Int) - (2 : Int) ≤ 715827882) ∧
      (-715827882 ≤ (4 : Int) - (1 : Int) ∧ (4 : Int) - (1 : Int) ≤ 715827882) ∧
      (geometry_ok fresh_display) ∧
      (((7 : Int) - (2 : Int)).natAbs + ((4 : Int) - (1 : Int)).natAbs < 9)) ∧
    (
    ∃ init : List (Int × Int),
      line_points 9 (2 : Int) (1 : Int) (7 : Int) (4 : Int) = some (init ++ [((7 : Int), (4 : Int))]) ∧
      ((7 : Int), (4 : Int)) ∉ init ∧
      (init ++ [((7 : Int), (4 : Int))]).head? = some ((2 : Int), (1 : Int)) ∧
      init.length ≤ ((7 : Int) - (2 : Int)).natAbs + ((4 : Int) - (1 : Int)).natAbs ∧
      weact_draw_line 9 fresh_display (2 : Int) (1 : Int) (7 : Int) (4 : Int) 0xFFFF = some (draw_points fresh_display (init ++ [((7 : Int), (4 : Int))]) 0xFFFF) ∧
      (in_range fresh_display (2 : Int) (1 : Int) →
        back_pixel (draw_points fresh_display (init ++ [((7 : Int), (4 : Int))]) 0xFFFF) (2 : Int) (1 : Int) = some (color_bytes 0xFFFF)) ∧
      (in_range fresh_display (7 : Int) (4 : Int) →
        back_pixel (draw_points fresh_display (init ++ [((7 : Int), (4 : Int))]) 0xFFFF) (7 : Int) (4 : Int) = some (color_bytes 0xFFFF))) :=
  ⟨⟨by decide, by decide, by decide, by decide, by decide, by decide, fresh_display_geometry,
      by decide⟩,
    draw_line_terminates fresh_display 2 1 7 4 0xFFFF 9 (by decide) (by decide) (by decide)
      (by decide) (by decide) (by decide) fresh_display_geometry (by decide)⟩

theorem int_range_cons (lo hi : Int) (h : lo < hi) :
    int_range lo hi = lo :: int_range (lo + 1) hi := by
  unfold int_range
  obtain ⟨n, hn⟩ : ∃ n : Nat, (hi - lo).toNat = n + 1 := ⟨(hi - lo).toNat - 1, by omega⟩
  have hn2 : (hi - (lo + 1)).toNat = n := by omega
  rw [hn, hn2, List.range_succ_eq_map, List.map_cons, List.map_map]
  congr 1
  · simp
  · apply List.map_congr_left
    intro i _
    show lo + ((i + 1 : Nat) : Int) = lo + 1 + (i : Int)
    push_cast
    ring

theorem circle_row_points_nil (cx cy r y : Int) : circle_row_points cx cy r y [] = [] := rfl

theorem circle_row_points_cons (cx cy r y x : Int) (xs : List Int) :
    circle_row_points cx cy r y (x :: xs)
      = if in_disc r x y = true then
          (wrap32 (cx + x), wrap32 (cy + y)) :: circle_row_points cx cy r y xs
        else circle_row_points cx cy r y xs := by
  unfold circle_row_points
  rw [List.filter_cons]
  split_ifs <;> rfl

theorem circle_row_eq (cx cy r : Int) (c : Nat) (y : Int) (hr : r ≤ 2147483646) (fuel : Nat) :
    ∀ (d : weact_display_t) (x : Int), -2147483648 ≤ x → x ≤ r + 1 →
      r + 1 - x < (fuel : Int) →
      circle_row cx cy r c y fuel d x
        = some (draw_points d (circle_row_points cx cy r y (int_range x (r + 1))) c) := by
  induction fuel with
  | zero =>
    intro d x _ hx1 hf
    simp only [Nat.cast_zero] at hf
    omega
  | succ n ih =>
    intro d x hx hx1 hf
    have hf' : r + 1 - x < (n : Int) + 1 := by
      have : ((n + 1 : Nat) : Int) = (n : Int) + 1 := by push_cast; rfl
      omega
    unfold circle_row
    by_cases hxr : x ≤ r
    · rw [if_pos hxr]
      dsimp only
      have wx : wrap32 (x + 1) = x + 1 := wrap32_eq_self (by omega) (by omega)
      rw [wx, ih _ (x + 1) (by omega) (by omega) (by omega),
        int_range_cons x (r + 1) (by omega), circle_row_points_cons]
      by_cases hd : in_disc r x y = true
      · rw [if_pos hd, if_pos hd, draw_points_cons]
      · rw [if_neg hd, if_neg hd]
    · rw [if_neg hxr, int_range_empty x (r + 1) (by omega), circle_row_points_nil,
        draw_points_nil]

theorem circle_rows_eq (cx cy r : Int) (c : Nat) (hr : 0 ≤ r ∧ r ≤ 2147483646) (fuel : Nat) :
    ∀ (d : weact_display_t) (y : Int), -2147483648 ≤ y → y ≤ r + 1 →
      3 * r + 3 - y < (fuel : Int) →
      circle_rows cx cy r c fuel d y
        = some (draw_points d
            (circle_points_from cx cy r (int_range (-r) (r + 1)) (int_range y (r + 1))) c) := by
  induction fuel with
  | zero =>
    intro d y _ hy1 hf
    simp only [Nat.cast_zero] at hf
    omega
  | succ n ih =>
    intro d y hy hy1 hf
    have hf' : 3 * r + 3 - y < (n : Int) + 1 := by
      have : ((n + 1 : Nat) : Int) = (n : Int) + 1 := by push_cast; rfl
      omega
    unfold circle_rows
    by_cases hyr : y ≤ r
    · rw [if_pos hyr]
      have wr : wrap32 (-r) = -r := wrap32_eq_self (by omega) (by omega)
      have wy : wrap32 (y + 1) = y + 1 := wrap32_eq_self (by omega) (by omega)
      rw [wr, circle_row_eq cx cy r c y hr.2 n d (-r) (by omega) (by omega) (by omega)]
      dsimp only
      rw [wy, ih _ (y + 1) (by omega) (by omega) (by omega),
        int_range_cons y (r + 1) (by omega)]
      show _ = some (draw_points d (_ ++ _) c)
      rw [draw_points_append]
    · rw [if_neg hyr, int_range_empty y (r + 1) (by omega)]
      rfl

/-- The filled branch of `weact_draw_circle` ends for every radius from 0 to `INT_MAX - 1`
and performs the writes listed by `circle_points`. -/
theorem draw_circle_filled_eq (fuel : Nat) (d : weact_display_t) (cx cy r : Int) (c : Nat)
    (hr : 0 ≤ r ∧ r ≤ 2147483646) (hf : 4 * r + 3 < (fuel : Int)) :
    weact_draw_circle fuel d cx cy r c true = some (draw_points d (circle_points cx cy r) c) := by
  unfold weact_draw_circle circle_points
  rw [if_pos rfl, wrap32_eq_self (by omega) (by omega)]
  exact circle_rows_eq cx cy r c hr fuel d (-r) (by omega) (by omega) (by omega)

theorem mem_circle_row_points (cx cy r y : Int) (xs : List Int) (p : Int × Int) :
    p ∈ circle_row_points cx cy r y xs
      ↔ ∃ x, x ∈ xs ∧ in_disc r x y = true ∧ p = (wrap32 (cx + x), wrap32 (cy + y)) := by
  unfold circle_row_points
  simp only [List.mem_map, List.mem_filter]
  constructor
  · rintro ⟨x, ⟨h1, h2⟩, h3⟩
    exact ⟨x, h1, h2, h3.symm⟩
  · rintro ⟨x, h1, h2, h3⟩
    exact ⟨x, ⟨h1, h2⟩, h3.symm⟩

theorem mem_circle_points_from (cx cy r : Int) (xs ys : List Int) (p : Int × Int) :
    p ∈ circle_points_from cx cy r xs ys
      ↔ ∃ y, y ∈ ys ∧ ∃ x, x ∈ xs ∧ in_disc r x y = true ∧
          p = (wrap32 (cx + x), wrap32 (cy + y)) := by
  induction ys with
  | nil => simp [circle_points_from]
  | cons y ys ih =>
    unfold circle_points_from
    rw [List.mem_append, ih, mem_circle_row_points]
    constructor
    · rintro (h | ⟨y', hy', h⟩)
      · exact ⟨y, List.mem_cons_self _ _, h⟩
      · exact ⟨y', List.mem_cons_of_mem _ hy', h⟩
    · rintro ⟨y', hy', h⟩
      rcases List.mem_cons.mp hy' with e | e
      · left; rw [← e]; exact h
      · right; exact ⟨y', e, h⟩

theorem mem_circle_points (cx cy r : Int) (p : Int × Int) :
    p ∈ circle_points cx cy r
      ↔ ∃ y, (-r ≤ y ∧ y ≤ r) ∧ ∃ x, (-r ≤ x ∧ x ≤ r) ∧ in_disc r x y = true ∧
          p = (wrap32 (cx + x), wrap32 (cy + y)) := by
  unfold circle_points
  rw [mem_circle_points_from]
  constructor
  · rintro ⟨y, hy, x, hx, h⟩
    rw [mem_int_range] at hy hx
    exact ⟨y, by omega, x, by omega, h⟩
  · rintro ⟨y, hy, x, hx, h⟩
    exact ⟨y, (mem_int_range _ _ _).mpr (by omega), x, (mem_int_range _ _ _).mpr (by omega), h⟩

theorem in_disc_small (r x y : Int) (hr : 0 ≤ r ∧ r ≤ 32767) (hx : -r ≤ x ∧ x ≤ r)
    (hy : -r ≤ y ∧ y ≤ r) : in_disc r x y = true ↔ x * x + y * y ≤ r * r := by
  have hxx0 : 0 ≤ x * x := mul_self_nonneg x
  have hyy0 : 0 ≤ y * y := mul_self_nonneg y
  have hrr0 : 0 ≤ r * r := mul_self_nonneg r
  have hxx : x * x ≤ 1073676289 := by nlinarith
  have hyy : y * y ≤ 1073676289 := by nlinarith
  have hrr : r * r ≤ 1073676289 := by nlinarith
  unfold in_disc
  rw [wrap32_eq_self (show -2147483648 ≤ x * x by omega) (by omega),
    wrap32_eq_self (show -2147483648 ≤ y * y by omega) (by omega),
    wrap32_eq_self (show -2147483648 ≤ r * r by omega) (by omega),
    wrap32_eq_self (show -2147483648 ≤ x * x + y * y by omega) (by omega)]
  exact decide_eq_true_iff

theorem geometry_dims_small {d : weact_display_t} (hg : geometry_ok d) :
    d.display_width < 1073741824 ∧ d.display_height < 1073741824 := by
  obtain ⟨hw, hh, hsz, _⟩ := hg
  have h1 := le_mul_of_one_le d.display_height d.display_width (by omega) (by omega)
  have h2 := le_mul_of_one_le d.display_width d.display_height (by omega) (by omega)
  have e : d.display_height * d.display_width = d.display_width * d.display_height :=
    Int.mul_comm _ _
  omega

theorem wrap32_hits (v p : Int) (hv : -2147516415 ≤ v ∧ v < 2147516415)
    (hp : 0 ≤ p ∧ p < 1073741824) : wrap32 v = p ↔ v = p := by
  unfold wrap32
  omega

/-- On a display of valid geometry the filled circle of radius at most 32767 sets exactly
the in-range pixels of the disc. -/
theorem mem_circle_points_small {d : weact_display_t} (hg : geometry_ok d) (cx cy r : Int)
    (hr : 0 ≤ r ∧ r ≤ 32767)
    (hcx : -2147483648 ≤ cx ∧ cx < 2147483648) (hcy : -2147483648 ≤ cy ∧ cy < 2147483648)
    (px py : Int) (hp : in_range d px py) :
    (px, py) ∈ circle_points cx cy r
      ↔ (-r ≤ px - cx ∧ px - cx ≤ r) ∧ (-r ≤ py - cy ∧ py - cy ≤ r) ∧
          (px - cx) * (px - cx) + (py - cy) * (py - cy) ≤ r * r := by
  obtain ⟨hw, hh⟩ := geometry_dims_small hg
  obtain ⟨hp1, hp2, hp3, hp4⟩ := hp
  rw [mem_circle_points]
  constructor
  · rintro ⟨y, hy, x, hx, hdisc, hpe⟩
    simp only [Prod.mk.injEq] at hpe
    have e1 := (wrap32_hits (cx + x) px (by omega) (by omega)).mp hpe.1.symm
    have e2 := (wrap32_hits (cy + y) py (by omega) (by omega)).mp hpe.2.symm
    have ex : px - cx = x := by omega
    have ey : py - cy = y := by omega
    rw [ex, ey]
    exact ⟨hx, hy, (in_disc_small r x y hr hx hy).mp hdisc⟩
  · rintro ⟨hx, hy, hdisc⟩
    refine ⟨py - cy, hy, px - cx, hx, (in_disc_small r _ _ hr hx hy).mpr hdisc, ?_⟩
    have e1 : cx + (px - cx) = px := by omega
    have e2 : cy + (py - cy) = py := by omega
    rw [e1, e2, wrap32_eq_self (by omega) (by omega), wrap32_eq_self (by omega) (by omega)]

theorem draw_points_frame (d : weact_display_t) (ps : List (Int × Int)) (c : Nat) :
    (draw_points d ps c).frame_buffer = d.frame_buffer := by
  rw [draw_points_only_back]

/-- C9 (as stated, for every radius): with radius 32768 and centre `(-32768, -32768)` the
call ends, and at `x = y = 32768` the sum `x * x + y * y = 2^31` wraps to `-2^31`, which
passes the test against `radius * radius = 2^30`; pixel `(0, 0)` is written although it
lies outside the disc. -/
theorem draw_circle_filled_wraps :
    ∃ d1 : weact_display_t,
      weact_draw_circle 200000 fresh_display (-32768) (-32768) 32768 0xFFFF true = some d1 ∧
      ¬ disc_drawn fresh_display d1 (-32768) (-32768) 32768 0xFFFF := by
  refine ⟨_, draw_circle_filled_eq 200000 fresh_display (-32768) (-32768) 32768 0xFFFF
    (by decide) (by decide), ?_⟩
  intro hc
  have hr : in_range fresh_display (-32768 + 32768) (-32768 + 32768) := by decide
  have h1 := hc.1 32768 32768 (by decide) (by decide) hr
  have hmem : ((-32768 : Int) + 32768, (-32768 : Int) + 32768)
      ∈ circle_points (-32768) (-32768) 32768 :=
    (mem_circle_points _ _ _ _).mpr
      ⟨32768, by decide, 32768, by decide, by decide, by decide⟩
  rw [if_neg (by decide), back_pixel_draw_points fresh_display_geometry _ _ hr, if_pos hmem,
    back_pixel_fresh hr] at h1
  revert h1
  decide

/-- C9 (amended): for a radius from 0 to 32767, where `x * x + y * y` and
`radius * radius` stay inside the `int` range, and a centre with `int` coordinates, the
filled branch of `weact_draw_circle` terminates (any round budget above `4 r + 3` yields a
result), and afterwards an in-range pixel `(cx + dx, cy + dy)` with `dx`, `dy` in
`[-r, r]` holds the colour if `dx * dx + dy * dy <= r * r` and is unchanged otherwise;
every pixel outside that square is unchanged, and the front buffer is not touched. -/
theorem draw_circle_filled_disc (d : weact_display_t) (cx cy r : Int) (c : Nat) (fuel : Nat)
    (hg : geometry_ok d) (hr : 0 ≤ r ∧ r ≤ 32767)
    (hcx : -2147483648 ≤ cx ∧ cx < 2147483648) (hcy : -2147483648 ≤ cy ∧ cy < 2147483648)
    (hfuel : 4 * r + 3 < (fuel : Int)) :
    ∃ d1 : weact_display_t,
      weact_draw_circle fuel d cx cy r c true = some d1 ∧
      disc_drawn d d1 cx cy r c ∧ d1.frame_buffer = d.frame_buffer := by
  refine ⟨_, draw_circle_filled_eq fuel d cx cy r c ⟨hr.1, by omega⟩ hfuel, ⟨?_, ?_⟩,
    draw_points_frame _ _ _⟩
  · intro dx dy hdx hdy hp
    rw [back_pixel_draw_points hg _ c hp]
    have hm := mem_circle_points_small hg cx cy r hr hcx hcy _ _ hp
    have ex : cx + dx - cx = dx := by omega
    have ey : cy + dy - cy = dy := by omega
    rw [ex, ey] at hm
    by_cases hd : dx * dx + dy * dy ≤ r * r
    · rw [if_pos hd, if_pos (hm.mpr ⟨hdx, hdy, hd⟩)]
    · rw [if_neg hd, if_neg (fun h => hd (hm.mp h).2.2)]
  · intro px py hp hout
    rw [back_pixel_draw_points hg _ c hp, if_neg]
    intro h
    have hm := (mem_circle_points_small hg cx cy r hr hcx hcy _ _ hp).mp h
    apply hout
    omega

theorem draw_circle_filled_disc_witness :
    ((geometry_ok fresh_display) ∧
      (0 ≤ (3 : Int) ∧ (3 : Int) ≤ 32767) ∧
      (-2147483648 ≤ (80 : Int) ∧ (80 : Int) < 2147483648) ∧
      (-2147483648 ≤ (40 : Int) ∧ (40 : Int) < 2147483648) ∧
      (4 * (3 : Int) + 3 < ((16 : Nat) : Int))) ∧
    (
    ∃ d1 : weact_display_t,
      weact_draw_circle (16 : Nat) fresh_display (80 : Int) (40 : Int) (3 : Int) 0xF800 true = some d1 ∧
      disc_drawn fresh_display d1 (80 : Int) (40 : Int) (3 : Int) 0xF800 ∧ d1.frame_buffer = fresh_display.frame_buffer) :=
  ⟨⟨fresh_display_geometry, by decide, by decide, by decide, by decide⟩,
    draw_circle_filled_disc fresh_display 80 40 3 0xF800 16 fresh_display_geometry (by decide)
      (by decide) (by decide) (by decide)⟩

/-- The name test of `parse_color` succeeds for `cyan` and for `magenta` in any letter case,
after all earlier tests have failed. -/
theorem parse_color_cyan_magenta (name : List Nat) :
    (name.map c_tolower = [99, 121, 97, 110] → parse_color (some name) = WEACT_CYAN) ∧
    (name.map c_tolower = [109, 97, 103, 101, 110, 116, 97] →
      parse_color (some name) = WEACT_MAGENTA) := by
  constructor
  · intro h
    unfold parse_color strcasecmp_eq
    simp only [h]
    decide
  · intro h
    unfold parse_color strcasecmp_eq
    simp only [h]
    decide

/-- C28: the values of `WEACT_CYAN` and `WEACT_MAGENTA` are not the bit patterns written
beside them in the header.  `0xF81F` is `11111 00000 011111`, green field 31, not
`11111 00000 111111`; `0xFFE0` is `11111 11111 100000`, green field 32, not
`11111 11111 000000`.  These are the values `parse_color` returns for the names `cyan` and
`magenta` in any letter case. -/
theorem color_patterns_differ :
    WEACT_CYAN ≠ 0b1111100000111111 ∧ WEACT_MAGENTA ≠ 0b1111111111000000 ∧
    WEACT_CYAN ≠ brg565 0b11111 0b00000 0b111111 ∧
    WEACT_MAGENTA ≠ brg565 0b11111 0b11111 0b000000 ∧
    WEACT_CYAN = brg565 0b11111 0b00000 0b011111 ∧
    WEACT_MAGENTA = brg565 0b11111 0b11111 0b100000 ∧
    (∀ name : List Nat, name.map c_tolower = [99, 121, 97, 110] →
      parse_color (some name) = brg565 0b11111 0b00000 0b011111 ∧
      parse_color (some name) ≠ brg565 0b11111 0b00000 0b111111) ∧
    (∀ name : List Nat, name.map c_tolower = [109, 97, 103, 101, 110, 116, 97] →
      parse_color (some name) = brg565 0b11111 0b11111 0b100000 ∧
      parse_color (some name) ≠ brg565 0b11111 0b11111 0b000000) := by
  refine ⟨by decide, by decide, by decide, by decide, by decide, by decide, ?_, ?_⟩
  · intro name h
    rw [(parse_color_cyan_magenta name).1 h]
    exact ⟨by decide, by decide⟩
  · intro name h
    rw [(parse_color_cyan_magenta name).2 h]
    exact ⟨by decide, by decide⟩

/-- The bit patterns of the eight colour constants, blue in bits 15..11, red in bits 10..6,
green in bits 5..0, and the values `parse_color` returns for the lower-case colour names, a
mixed-case name, NULL and an unknown name. -/
theorem color_constants :
    (WEACT_RED = 0b0000011111000000 ∧ WEACT_RED = brg565 0b00000 0b11111 0b000000) ∧
    (WEACT_GREEN = 0b0000000000011111 ∧ WEACT_GREEN = brg565 0b00000 0b00000 0b011111) ∧
    (WEACT_BLUE = 0b1111100000000000 ∧ WEACT_BLUE = brg565 0b11111 0b00000 0b000000) ∧
    (WEACT_WHITE = 0b1111111111111111 ∧ WEACT_WHITE = brg565 0b11111 0b11111 0b111111) ∧
    (WEACT_BLACK = 0b0000000000000000 ∧ WEACT_BLACK = brg565 0b00000 0b00000 0b000000) ∧
    (WEACT_YELLOW = 0b0000011111111111 ∧ WEACT_YELLOW = brg565 0b00000 0b11111 0b111111) ∧
    (WEACT_CYAN = 0b1111100000011111 ∧ WEACT_CYAN = brg565 0b11111 0b00000 0b011111) ∧
    (WEACT_MAGENTA = 0b1111111111100000 ∧
      WEACT_MAGENTA = brg565 0b11111 0b11111 0b100000) ∧
    parse_color (some [114, 101, 100]) = WEACT_RED ∧
    parse_color (some [103, 114, 101, 101, 110]) = WEACT_GREEN ∧
    parse_color (some [98, 108, 117, 101]) = WEACT_BLUE ∧
    parse_color (some [119, 104, 105, 116, 101]) = WEACT_WHITE ∧
    parse_color (some [98, 108, 97, 99, 107]) = WEACT_BLACK ∧
    parse_color (some [121, 101, 108, 108, 111, 119]) = WEACT_YELLOW ∧
    parse_color (some [99, 121, 97, 110]) = WEACT_CYAN ∧
    parse_color (some [109, 97, 103, 101, 110, 116, 97]) = WEACT_MAGENTA ∧
    parse_color (some [82, 101, 68]) = WEACT_RED ∧
    parse_color none = WEACT_WHITE ∧
    parse_color (some [112, 105, 110, 107]) = WEACT_WHITE := by
  decide

/-- For an in-range pixel `weact_draw_pixel` replaces the back buffer by the one with the
two bytes of the pixel stored. -/
theorem draw_pixel_in_range {d : weact_display_t} (hg : geometry_ok d) {buf : List Nat}
    (hb : d.back_buffer = some buf) {x y : Int} (hr : in_range d x y) (c : Nat) :
    weact_draw_pixel d x y c
      = { d with back_buffer := some (store (store buf ((y * d.display_width + x) * 2)
          (c >>> 8)) ((y * d.display_width + x) * 2 + 1) (c &&& 0xFF)) } := by
  obtain ⟨o1, o2, _, _⟩ := draw_pixel_offset hg hr
  have hcond : ¬ (x < 0 ∨ x ≥ d.display_width ∨ y < 0 ∨ y ≥ d.display_height) := by
    unfold in_range at hr; omega
  unfold weact_draw_pixel
  rw [hb]
  dsimp only
  rw [if_neg hcond, o1, o2]

theorem store_store_get (buf : List Nat) (o : Int) (ho : 0 ≤ o) (hi lo : Nat)
    (hlen : o + 1 < (buf.length : Int)) (j : Nat) :
    (store (store buf o hi) (o + 1) lo)[j]? =
      if j = o.toNat then some (hi % 256)
      else if j = o.toNat + 1 then some (lo % 256) else buf[j]? := by
  have t2 : (o + 1).toNat = o.toNat + 1 := by omega
  simp only [store_get, store_length, t2]
  by_cases h1 : j = o.toNat
  · rw [if_pos h1, if_neg (by omega), if_pos (by omega)]
  · rw [if_neg h1]
    by_cases h2 : j = o.toNat + 1
    · rw [if_pos h2, if_pos (by omega)]
    · rw [if_neg h2, if_neg (by omega), if_neg (by omega)]

/-- C30: on a display whose back buffer holds its `width * height` pixels, for an in-range
pixel `(x, y)` and a 16-bit colour `c`, `weact_draw_pixel` changes the back buffer only: the
bytes at offsets `(y * width + x) * 2` and `(y * width + x) * 2 + 1` become `c >> 8` and
`c & 0xFF`, every other byte and the length are unchanged, and so are the front buffer and
all other fields.  A different in-range pixel occupies a disjoint byte pair, and the writes
to two different pixels commute. -/
theorem draw_pixel_frame_effect (d : weact_display_t) (x y : Int) (c : Nat) (buf : List Nat)
    (hg : geometry_ok d) (hb : d.back_buffer = some buf) (hr : in_range d x y)
    (hc : c < 65536) :
    ∃ buf1 : List Nat,
      weact_draw_pixel d x y c = { d with back_buffer := some buf1 } ∧
      buf1.length = buf.length ∧
      0 ≤ (y * d.display_width + x) * 2 ∧
      (y * d.display_width + x) * 2 + 1 < (buf.length : Int) ∧
      buf1[((y * d.display_width + x) * 2).toNat]? = some (c >>> 8) ∧
      buf1[((y * d.display_width + x) * 2).toNat + 1]? = some (c &&& 0xFF) ∧
      (∀ j : Nat, j ≠ ((y * d.display_width + x) * 2).toNat →
        j ≠ ((y * d.display_width + x) * 2).toNat + 1 → buf1[j]? = buf[j]?) ∧
      (∀ (x2 y2 : Int) (c2 : Nat), in_range d x2 y2 → (x2, y2) ≠ (x, y) →
        (((y2 * d.display_width + x2) * 2).toNat ≠ ((y * d.display_width + x) * 2).toNat ∧
          ((y2 * d.display_width + x2) * 2).toNat ≠ ((y * d.display_width + x) * 2).toNat + 1 ∧
          ((y2 * d.display_width + x2) * 2).toNat + 1 ≠ ((y * d.display_width + x) * 2).toNat ∧
          ((y2 * d.display_width + x2) * 2).toNat + 1
            ≠ ((y * d.display_width + x) * 2).toNat + 1) ∧
        weact_draw_pixel (weact_draw_pixel d x y c) x2 y2 c2
          = weact_draw_pixel (weact_draw_pixel d x2 y2 c2) x y c) := by
  obtain ⟨hc1, hc2⟩ := color_bytes_small c hc
  obtain ⟨_, _, k0, k1⟩ := draw_pixel_offset hg hr
  have hlen : d.display_width * d.display_height * 2 ≤ (buf.length : Int) := by
    obtain ⟨_, _, _, b, hb2, hl⟩ := hg
    rw [hb] at hb2
    rw [Option.some.inj hb2]
    exact hl
  have ho0 : 0 ≤ (y * d.display_width + x) * 2 := by omega
  have ho1 : (y * d.display_width + x) * 2 + 1 < (buf.length : Int) := by omega
  have hget := store_store_get buf _ ho0 (c >>> 8) (c &&& 0xFF) ho1
  refine ⟨_, draw_pixel_in_range hg hb hr c, by rw [store_length, store_length], ho0, ho1,
    ?_, ?_, ?_, ?_⟩
  · rw [hget, if_pos rfl, hc1]
  · rw [hget, if_neg (by omega), if_pos rfl, hc2]
  · intro j h1 h2
    rw [hget, if_neg h1, if_neg h2]
  · intro x2 y2 c2 hr2 hne
    obtain ⟨_, _, q0, q1⟩ := draw_pixel_offset hg hr2
    have hidx : y2 * d.display_width + x2 ≠ y * d.display_width + x := by
      intro he
      apply hne
      obtain ⟨a1, a2, a3, a4⟩ := hr
      obtain ⟨b1, b2, b3, b4⟩ := hr2
      have := pixel_index_inj b1 b2 a1 a2 he
      rw [this.1, this.2]
    have ho0b : 0 ≤ (y2 * d.display_width + x2) * 2 := by omega
    have ho1b : (y2 * d.display_width + x2) * 2 + 1 < (buf.length : Int) := by omega
    refine ⟨⟨by omega, by omega, by omega, by omega⟩, ?_⟩
    have hg1 := draw_pixel_geometry hg x y c
    have hg2 := draw_pixel_geometry hg x2 y2 c2
    have e1 := draw_pixel_in_range hg hb hr c
    have e2 := draw_pixel_in_range hg hb hr2 c2
    have hr' : in_range (weact_draw_pixel d x y c) x2 y2 :=
      (in_range_draw_pixel d x y c x2 y2).mpr hr2
    have hr2' : in_range (weact_draw_pixel d x2 y2 c2) x y :=
      (in_range_draw_pixel d x2 y2 c2 x y).mpr hr
    rw [draw_pixel_in_range hg1 (by rw [e1]) hr' c2,
      draw_pixel_in_range hg2 (by rw [e2]) hr2' c]
    rw [draw_pixel_width, draw_pixel_width, e1, e2]
    have hbufs : store (store (store (store buf ((y * d.display_width + x) * 2) (c >>> 8))
          ((y * d.display_width + x) * 2 + 1) (c &&& 0xFF))
          ((y2 * d.display_width + x2) * 2) (c2 >>> 8))
          ((y2 * d.display_width + x2) * 2 + 1) (c2 &&& 0xFF)
        = store (store (store (store buf ((y2 * d.display_width + x2) * 2) (c2 >>> 8))
          ((y2 * d.display_width + x2) * 2 + 1) (c2 &&& 0xFF))
          ((y * d.display_width + x) * 2) (c >>> 8))
          ((y * d.display_width + x) * 2 + 1) (c &&& 0xFF) := by
      apply List.ext_getElem?
      intro j
      rw [store_store_get _ _ ho0b _ _ (by rw [store_length, store_length]; exact ho1b) j,
        store_store_get _ _ ho0 _ _ ho1 j,
        store_store_get _ _ ho0 _ _ (by rw [store_length, store_length]; exact ho1) j,
        store_store_get _ _ ho0b _ _ ho1b j]
      by_cases a1 : j = ((y2 * d.display_width + x2) * 2).toNat
      · rw [if_pos a1, if_neg (by omega), if_neg (by omega), if_pos a1]
      · rw [if_neg a1, if_neg a1]
        by_cases a2 : j = ((y2 * d.display_width + x2) * 2).toNat + 1
        · rw [if_pos a2, if_neg (by omega), if_neg (by omega), if_pos a2]
        · rw [if_neg a2, if_neg a2]
    simp only [hbufs]

theorem draw_pixel_frame_effect_witness :
    ((geometry_ok fresh_display) ∧
      (fresh_display.back_buffer = some (List.replicate WEACT_MAX_BUFFER_SIZE 0)) ∧
      (in_range fresh_display (5 : Int) (3 : Int)) ∧
      (0xF800 < 65536)) ∧
    (
    ∃ buf1 : List Nat,
      weact_draw_pixel fresh_display (5 : Int) (3 : Int) 0xF800 = { fresh_display with back_buffer := some buf1 } ∧
      buf1.length = (List.replicate WEACT_MAX_BUFFER_SIZE 0).length ∧
      0 ≤ ((3 : Int) * fresh_display.display_width + (5 : Int)) * 2 ∧
      ((3 : Int) * fresh_display.display_width + (5 : Int)) * 2 + 1 < ((List.replicate WEACT_MAX_BUFFER_SIZE 0).length : Int) ∧
      buf1[(((3 : Int) * fresh_display.display_width + (5 : Int)) * 2).toNat]? = some (0xF800 >>> 8) ∧
      buf1[(((3 : Int) * fresh_display.display_width + (5 : Int)) * 2).toNat + 1]? = some (0xF800 &&& 0xFF) ∧
      (∀ j : Nat, j ≠ (((3 : Int) * fresh_display.display_width + (5 : Int)) * 2).toNat →
        j ≠ (((3 : Int) * fresh_display.display_width + (5 : Int)) * 2).toNat + 1 → buf1[j]? = (List.replicate WEACT_MAX_BUFFER_SIZE 0)[j]?) ∧
      (∀ (x2 y2 : Int) (c2 : Nat), in_range fresh_display x2 y2 → (x2, y2) ≠ ((5 : Int), (3 : Int)) →
        (((y2 * fresh_display.display_width + x2) * 2).toNat ≠ (((3 : Int) * fresh_display.display_width + (5 : Int)) * 2).toNat ∧
          ((y2 * fresh_display.display_width + x2) * 2).toNat ≠ (((3 : Int) * fresh_display.display_width + (5 : Int)) * 2).toNat + 1 ∧
          ((y2 * fresh_display.display_width + x2) * 2).toNat + 1 ≠ (((3 : Int) * fresh_display.display_width + (5 : Int)) * 2).toNat ∧
          ((y2 * fresh_display.display_width + x2) * 2).toNat + 1
            ≠ (((3 : Int) * fresh_display.display_width + (5 : Int)) * 2).toNat + 1) ∧
        weact_draw_pixel (weact_draw_pixel fresh_display (5 : Int) (3 : Int) 0xF800) x2 y2 c2
          = weact_draw_pixel (weact_draw_pixel fresh_display x2 y2 c2) (5 : Int) (3 : Int) 0xF800)) :=
  ⟨⟨fresh_display_geometry, rfl, by decide, by decide⟩,
    draw_pixel_frame_effect fresh_display 5 3 0xF800 (List.replicate WEACT_MAX_BUFFER_SIZE 0)
      fresh_display_geometry rfl (by decide) (by decide)⟩

set_option maxRecDepth 100000 in
theorem lead_byte_classes :
    ∀ c : Nat, c < 256 →
      (c &&& 0xE0 = 0xC0 ↔ 192 ≤ c ∧ c < 224) ∧
      (c &&& 0xF0 = 0xE0 ↔ 224 ≤ c ∧ c < 240) ∧
      (c &&& 0xF8 = 0xF0 ↔ 240 ≤ c ∧ c < 248) := by
  decide

theorem and_15_eq_mod (x : Nat) : x &&& 15 = x % 16 := Nat.and_pow_two_sub_one_eq_mod x 4

theorem and_7_eq_mod (x : Nat) : x &&& 7 = x % 8 := Nat.and_pow_two_sub_one_eq_mod x 3

theorem shl6 (a : Nat) : a <<< 6 = a * 64 := Nat.shiftLeft_eq a 6

theorem shl12 (a : Nat) : a <<< 12 = a * 4096 := Nat.shiftLeft_eq a 12

theorem shl18 (a : Nat) : a <<< 18 = a * 262144 := Nat.shiftLeft_eq a 18

theorem mul_or6 (a b : Nat) (hb : b < 64) : a * 64 ||| b = a * 64 + b := by
  have h := Nat.mul_add_lt_is_or (show b < 2 ^ 6 from hb) a
  rw [show (2 : Nat) ^ 6 = 64 from rfl, Nat.mul_comm 64 a] at h
  exact h.symm

theorem mul_or12 (a b : Nat) (hb : b < 4096) : a * 4096 ||| b = a * 4096 + b := by
  have h := Nat.mul_add_lt_is_or (show b < 2 ^ 12 from hb) a
  rw [show (2 : Nat) ^ 12 = 4096 from rfl, Nat.mul_comm 4096 a] at h
  exact h.symm

theorem mul_or18 (a b : Nat) (hb : b < 262144) : a * 262144 ||| b = a * 262144 + b := by
  have h := Nat.mul_add_lt_is_or (show b < 2 ^ 18 from hb) a
  rw [show (2 : Nat) ^ 18 = 262144 from rfl, Nat.mul_comm 262144 a] at h
  exact h.symm

theorem utf8_decode_two (c c2 : Nat) (rest : List Nat) (hc : 192 ≤ c ∧ c < 224) :
    utf8_decode (c :: c2 :: rest) = (c % 32 * 64 + c2 % 64, rest) := by
  have hcl := lead_byte_classes c (by omega)
  unfold utf8_decode
  simp only [List.headD_cons, List.tail_cons]
  rw [if_neg (by omega), if_pos (hcl.1.mpr hc), and_31_eq_mod, and_63_eq_mod, shl6,
    mul_or6 _ _ (by omega)]

theorem utf8_decode_three (c c2 c3 : Nat) (rest : List Nat) (hc : 224 ≤ c ∧ c < 240) :
    utf8_decode (c :: c2 :: c3 :: rest)
      = (c % 16 * 4096 + c2 % 64 * 64 + c3 % 64, rest) := by
  have hcl := lead_byte_classes c (by omega)
  unfold utf8_decode
  simp only [List.headD_cons, List.tail_cons]
  rw [if_neg (by omega), if_neg (fun h => by have := hcl.1.mp h; omega),
    if_pos (hcl.2.1.mpr hc), and_15_eq_mod, and_63_eq_mod, and_63_eq_mod, shl12, shl6,
    mul_or12 _ _ (by omega)]
  have e : c % 16 * 4096 + c2 % 64 * 64 = (c % 16 * 64 + c2 % 64) * 64 := by omega
  rw [e, mul_or6 _ _ (by omega)]

theorem utf8_decode_four (c c2 c3 c4 : Nat) (rest : List Nat) (hc : 240 ≤ c ∧ c < 248) :
    utf8_decode (c :: c2 :: c3 :: c4 :: rest)
      = (c % 8 * 262144 + c2 % 64 * 4096 + c3 % 64 * 64 + c4 % 64, rest) := by
  have hcl := lead_byte_classes c (by omega)
  unfold utf8_decode
  simp only [List.headD_cons, List.tail_cons]
  rw [if_neg (by omega), if_neg (fun h => by have := hcl.1.mp h; omega),
    if_neg (fun h => by have := hcl.2.1.mp h; omega),
    if_pos (hcl.2.2.mpr hc), and_7_eq_mod, and_63_eq_mod, and_63_eq_mod, and_63_eq_mod,
    shl18, shl12, shl6, mul_or18 _ _ (by omega)]
  have e1 : c % 8 * 262144 + c2 % 64 * 4096 = (c % 8 * 64 + c2 % 64) * 4096 := by omega
  rw [e1, mul_or12 _ _ (by omega)]
  have e2 : (c % 8 * 64 + c2 % 64) * 4096 + c3 % 64 * 64
      = ((c % 8 * 64 + c2 % 64) * 64 + c3 % 64) * 64 := by omega
  rw [e2, mul_or6 _ _ (by omega)]

/-- C25: for every code point `cp` from 1 to `0x10FFFF`, `utf8_decode` applied to the
standard UTF-8 encoding of `cp` (followed by any bytes) returns `cp` and leaves the read
position right after the 1, 2, 3 or 4 bytes of that encoding; a first byte in `0x80..0xBF`
or `0xF8..0xFF` yields `0xFFFD` and the position moves by one byte. -/
theorem utf8_round_trip (cp : Nat) (rest : List Nat) (h1 : 1 ≤ cp) (h2 : cp ≤ 0x10FFFF) :
    utf8_decode (utf8_encode cp ++ rest) = (cp, rest) ∧
    (utf8_encode cp ++ rest).length = rest.length + (utf8_encode cp).length ∧
    (1 ≤ (utf8_encode cp).length ∧ (utf8_encode cp).length ≤ 4) ∧
    (∀ b : Nat, b ∈ utf8_encode cp → b < 256) ∧
    (∀ c : Nat, (0x80 ≤ c ∧ c ≤ 0xBF) ∨ (0xF8 ≤ c ∧ c ≤ 0xFF) →
      utf8_decode (c :: rest) = (0xFFFD, rest)) := by
  refine ⟨?_, ?_, ?_, ?_, ?_⟩
  · unfold utf8_encode
    by_cases a1 : cp < 0x80
    · rw [if_pos a1]
      unfold utf8_decode
      simp only [List.singleton_append, List.headD_cons, List.tail_cons]
      rw [if_pos a1]
    · rw [if_neg a1]
      by_cases a2 : cp < 0x800
      · rw [if_pos a2]
        show utf8_decode ((0xC0 + cp / 64) :: (0x80 + cp % 64) :: rest) = _
        rw [utf8_decode_two _ _ _ (by omega)]
        congr 1
        omega
      · rw [if_neg a2]
        by_cases a3 : cp < 0x10000
        · rw [if_pos a3]
          show utf8_decode ((0xE0 + cp / 4096) :: (0x80 + cp / 64 % 64) :: (0x80 + cp % 64)
            :: rest) = _
          rw [utf8_decode_three _ _ _ _ (by omega)]
          congr 1
          omega
        · rw [if_neg a3]
          show utf8_decode ((0xF0 + cp / 262144) :: (0x80 + cp / 4096 % 64)
            :: (0x80 + cp / 64 % 64) :: (0x80 + cp % 64) :: rest) = _
          rw [utf8_decode_four _ _ _ _ _ (by omega)]
          congr 1
          omega
  · rw [List.length_append]
    omega
  · unfold utf8_encode
    split_ifs <;> simp
  · intro b hb
    unfold utf8_encode at hb
    split_ifs at hb <;> simp only [List.mem_cons, List.mem_singleton, List.not_mem_nil,
      or_false] at hb <;> omega
  · intro c hc
    have hcl := lead_byte_classes c (by omega)
    unfold utf8_decode
    simp only [List.headD_cons, List.tail_cons]
    rw [if_neg (by omega), if_neg (fun h => by have := hcl.1.mp h; omega),
      if_neg (fun h => by have := hcl.2.1.mp h; omega),
      if_neg (fun h => by have := hcl.2.2.mp h; omega)]

theorem utf8_round_trip_witness :
    ((1 ≤ 0x20AC) ∧
      (0x20AC ≤ 0x10FFFF)) ∧
    (
    utf8_decode (utf8_encode 0x20AC ++ [65]) = (0x20AC, [65]) ∧
    (utf8_encode 0x20AC ++ [65]).length = [65].length + (utf8_encode 0x20AC).length ∧
    (1 ≤ (utf8_encode 0x20AC).length ∧ (utf8_encode 0x20AC).length ≤ 4) ∧
    (∀ b : Nat, b ∈ utf8_encode 0x20AC → b < 256) ∧
    (∀ c : Nat, (0x80 ≤ c ∧ c ≤ 0xBF) ∨ (0xF8 ≤ c ∧ c ≤ 0xFF) →
      utf8_decode (c :: [65]) = (0xFFFD, [65]))) :=
  ⟨⟨by decide, by decide⟩, utf8_round_trip 0x20AC [65] (by decide) (by decide)⟩

theorem calculate_dimensions_range (ts : terminal_state_t) :
    (10 ≤ (calculate_terminal_dimensions ts).term_cols ∧
      (calculate_terminal_dimensions ts).term_cols ≤ 80) ∧
    (4 ≤ (calculate_terminal_dimensions ts).term_rows ∧
      (calculate_terminal_dimensions ts).term_rows ≤ 20) := by
  unfold calculate_terminal_dimensions
  dsimp only
  constructor <;> constructor <;> split_ifs <;> omega

theorem calculate_dimensions_keeps (ts : terminal_state_t) :
    (calculate_terminal_dimensions ts).view_offset = ts.view_offset ∧
    (calculate_terminal_dimensions ts).scroll_mode = ts.scroll_mode := ⟨rfl, rfl⟩

theorem startup_view_inv (font_type : Nat) (font_size : Int) :
    view_inv (startup_terminal font_type font_size) := by
  obtain ⟨hc, hr⟩ := calculate_dimensions_range (term_state_defaults font_type font_size)
  have h := init_screen_buffer_inv
    (calculate_terminal_dimensions (term_state_defaults font_type font_size)) (by omega)
  exact ⟨h, hr, ⟨le_refl _, le_refl _⟩, fun _ => rfl⟩

theorem add_char_keeps (ts : terminal_state_t) (c : Nat) :
    (add_char_to_buffer ts c).view_offset = ts.view_offset ∧
    (add_char_to_buffer ts c).scroll_mode = ts.scroll_mode ∧
    (add_char_to_buffer ts c).term_rows = ts.term_rows ∧
    (add_char_to_buffer ts c).char_height = ts.char_height ∧
    (add_char_to_buffer ts c).char_width = ts.char_width ∧
    (add_char_to_buffer ts c).running = ts.running := by
  unfold add_char_to_buffer
  dsimp only
  split_ifs <;> exact ⟨rfl, rfl, rfl, rfl, rfl, rfl⟩

theorem add_char_cursor_y_mono (ts : terminal_state_t) (c : Nat)
    (hc : 0 ≤ ts.cursor_y ∧ ts.cursor_y ≤ 99) :
    ts.cursor_y ≤ (add_char_to_buffer ts c).cursor_y := by
  have hw1 : wrap32 (ts.cursor_y + 1) = ts.cursor_y + 1 := wrap32_eq_self (by omega) (by omega)
  unfold add_char_to_buffer
  dsimp only
  rw [hw1]
  unfold SCROLLBACK_LINES
  split_ifs <;> (try simp only) <;> omega

theorem process_pty_byte_view_inv (s : terminal_state_t × escape_state) (c : Nat)
    (h : view_inv s.1) : view_inv (process_pty_byte s c).1 := by
  have hs := process_pty_byte_inv s c h.1
  refine ⟨hs, ?_⟩
  obtain ⟨hscr, hr, hv, hm⟩ := h
  unfold process_pty_byte
  dsimp only
  split_ifs
  · exact ⟨hr, hv, hm⟩
  · exact ⟨hr, hv, hm⟩
  · exact ⟨hr, hv, hm⟩
  · obtain ⟨k1, k2, k3, _⟩ := add_char_keeps s.1 c
    have hmono := add_char_cursor_y_mono s.1 c hscr.2.1
    simp only
    rw [k1, k2, k3]
    exact ⟨hr, ⟨hv.1, by omega⟩, hm⟩

theorem process_pty_output_view_inv (data : List Nat) :
    ∀ s : terminal_state_t × escape_state, view_inv s.1 →
      view_inv (process_pty_output s data).1 := by
  induction data with
  | nil => intro s h; exact h
  | cons c cs ih =>
    intro s h
    rw [process_pty_output_cons]
    exact ih _ (process_pty_byte_view_inv s c h)

theorem view_inv_of_fields (ts ts' : terminal_state_t) (h : view_inv ts)
    (hb : ts'.screen_buffer = ts.screen_buffer) (hx : ts'.cursor_x = ts.cursor_x)
    (hy : ts'.cursor_y = ts.cursor_y) (hc : ts'.term_cols = ts.term_cols)
    (hr : ts'.term_rows = ts.term_rows)
    (hv : 0 ≤ ts'.view_offset ∧ ts'.view_offset ≤ ts.cursor_y)
    (hm : ts'.scroll_mode = false → ts'.view_offset = 0) : view_inv ts' := by
  obtain ⟨hs, hrows, _, _⟩ := h
  refine ⟨?_, ?_, ?_, hm⟩
  · unfold screen_inv at hs ⊢
    rw [hb, hx, hy, hc]
    exact hs
  · rw [hr]; exact hrows
  · rw [hy]; exact hv

theorem keyboard_dispatch_view_inv (ts : terminal_state_t) (kbd : List Nat)
    (h : view_inv ts) : view_inv (keyboard_dispatch ts kbd).1 := by
  have h0 := h
  obtain ⟨hs, hrows, hv, hm⟩ := h0
  have hy := hs.2.1
  unfold keyboard_dispatch
  dsimp only
  by_cases h1 : kbd.length ≥ 3 ∧ kbd[0]? = some 27 ∧ kbd[1]? = some 91
  · rw [if_pos h1]
    by_cases h2 : kbd.length ≥ 4 ∧ kbd[2]? = some 53 ∧ kbd[3]? = some 126
    · rw [if_pos h2]
      cases hmode : ts.scroll_mode
      · have hw : wrap32 ((0 : Int) + ts.term_rows) = 0 + ts.term_rows :=
          wrap32_eq_self (by omega) (by omega)
        refine view_inv_of_fields ts _ h rfl rfl rfl rfl rfl ?_ ?_
        · simp only [Bool.not_false, if_true]
          rw [hw]
          split_ifs <;> omega
        · intro hf
          simp at hf
      · have hw : wrap32 (ts.view_offset + ts.term_rows) = ts.view_offset + ts.term_rows :=
          wrap32_eq_self (by omega) (by omega)
        refine view_inv_of_fields ts _ h rfl rfl rfl rfl rfl ?_ ?_
        · simp only [Bool.not_true, Bool.false_eq_true, if_false]
          rw [hw]
          split_ifs <;> omega
        · intro hf
          simp only [Bool.not_true, Bool.false_eq_true, if_false] at hf
          rw [hmode] at hf
          exact absurd hf (by decide)
    · rw [if_neg h2]
      by_cases h3 : kbd.length ≥ 4 ∧ kbd[2]? = some 54 ∧ kbd[3]? = some 126
      · rw [if_pos h3]
        cases hmode : ts.scroll_mode
        · exact h
        · have hw : wrap32 (ts.view_offset - ts.term_rows) = ts.view_offset - ts.term_rows :=
            wrap32_eq_self (by omega) (by omega)
          simp only [if_true]
          rw [hw]
          by_cases h4 : ts.view_offset - ts.term_rows < 0
          · rw [if_pos h4]
            exact view_inv_of_fields ts _ h rfl rfl rfl rfl rfl ⟨le_refl _, hy.1⟩ (fun _ => rfl)
          · rw [if_neg h4]
            refine view_inv_of_fields ts _ h rfl rfl rfl rfl rfl ⟨by show 0 ≤ ts.view_offset - ts.term_rows; omega, by show ts.view_offset - ts.term_rows ≤ ts.cursor_y; omega⟩ ?_
            intro hf
            exact absurd (show true = false from hf) (by decide)
      · rw [if_neg h3]
        exact h
  · rw [if_neg h1]
    split_ifs
    · exact view_inv_of_fields ts _ h rfl rfl rfl rfl rfl ⟨le_refl _, hy.1⟩ (fun _ => rfl)
    · exact h

theorem keyboard_view_inv (ts : terminal_state_t) (kbd : List Nat) (h : view_inv ts) :
    view_inv (terminal_loop_keyboard ts kbd).state := by
  unfold terminal_loop_keyboard
  dsimp only
  split_ifs
  · exact view_inv_of_fields ts _ h rfl rfl rfl rfl rfl h.2.2.1 h.2.2.2
  · exact keyboard_dispatch_view_inv ts kbd h
  · exact keyboard_dispatch_view_inv ts kbd h
  · exact h

theorem loop_step_view_inv (s : terminal_state_t × escape_state) (e : loop_event)
    (h : view_inv s.1) : view_inv (loop_step s e).1 := by
  unfold loop_step
  split_ifs
  · cases e with
    | keyboard chunk => exact keyboard_view_inv s.1 chunk h
    | child_output chunk =>
      show view_inv (terminal_loop_pty s chunk).1.1
      unfold terminal_loop_pty
      split_ifs
      · exact process_pty_output_view_inv chunk s h
      · exact h
  · exact h

theorem loop_run_view_inv (events : List loop_event) :
    ∀ s : terminal_state_t × escape_state, view_inv s.1 → view_inv (loop_run s events).1 := by
  induction events with
  | nil => intro s h; exact h
  | cons e es ih =>
    intro s h
    exact ih _ (loop_step_view_inv s e h)

theorem term_reachable_view_inv (ts : terminal_state_t) (h : term_reachable ts) :
    view_inv ts := by
  obtain ⟨ft, fs, events, rfl⟩ := h
  exact loop_run_view_inv events _ (startup_view_inv ft fs)

theorem page_down_prefix_state (ts : terminal_state_t) (rest : List Nat)
    (hm : ts.scroll_mode = true) :
    (terminal_loop_keyboard ts (page_down_keys ++ rest)).state
      = if wrap32 (ts.view_offset - ts.term_rows) < 0 then
          { ts with view_offset := 0, scroll_mode := false }
        else { ts with view_offset := wrap32 (ts.view_offset - ts.term_rows) } := by
  unfold terminal_loop_keyboard keyboard_dispatch page_down_keys
  by_cases h : wrap32 (ts.view_offset - ts.term_rows) < 0 <;> simp [hm, h]

theorem quit_key_state (ts : terminal_state_t) (rest : List Nat)
    (hm : ts.scroll_mode = true) :
    (terminal_loop_keyboard ts (113 :: rest)).state
      = { ts with scroll_mode := false, view_offset := 0 } := by
  unfold terminal_loop_keyboard keyboard_dispatch
  simp [hm]

/-- C21: in every state the event loop reaches from startup by keyboard reads and
child-output reads in any order, `0 <= view_offset <= cursor_y`, and `view_offset = 0`
whenever `scroll_mode` is false; in scroll mode a read that starts with the Page-Down
sequence leaves scroll mode exactly when `view_offset - term_rows` is negative (the offset
then is 0, otherwise it is `view_offset - term_rows`), and a read whose first byte is `q`
ends scroll mode with `view_offset = 0`. -/
theorem view_offset_invariant (ts : terminal_state_t) (h : term_reachable ts) :
    (0 ≤ ts.view_offset ∧ ts.view_offset ≤ ts.cursor_y) ∧
    (ts.scroll_mode = false → ts.view_offset = 0) ∧
    (ts.scroll_mode = true → ∀ rest : List Nat,
      ((terminal_loop_keyboard ts (page_down_keys ++ rest)).state.scroll_mode = false
        ↔ ts.view_offset - ts.term_rows < 0) ∧
      (ts.view_offset - ts.term_rows < 0 →
        (terminal_loop_keyboard ts (page_down_keys ++ rest)).state.view_offset = 0) ∧
      (¬ ts.view_offset - ts.term_rows < 0 →
        (terminal_loop_keyboard ts (page_down_keys ++ rest)).state.view_offset
          = ts.view_offset - ts.term_rows) ∧
      (terminal_loop_keyboard ts (113 :: rest)).state.scroll_mode = false ∧
      (terminal_loop_keyboard ts (113 :: rest)).state.view_offset = 0) := by
  obtain ⟨hs, hrows, hv, hm⟩ := term_reachable_view_inv ts h
  have hy := hs.2.1
  refine ⟨hv, hm, ?_⟩
  intro hmode rest
  have hw : wrap32 (ts.view_offset - ts.term_rows) = ts.view_offset - ts.term_rows :=
    wrap32_eq_self (by omega) (by omega)
  rw [page_down_prefix_state ts rest hmode, quit_key_state ts rest hmode, hw]
  by_cases h4 : ts.view_offset - ts.term_rows < 0
  · rw [if_pos h4]
    exact ⟨⟨fun _ => h4, fun _ => rfl⟩, fun _ => rfl, fun hn => absurd h4 hn, rfl, rfl⟩
  · rw [if_neg h4]
    refine ⟨⟨fun hf => ?_, fun hn => absurd hn h4⟩, fun hn => absurd hn h4, fun _ => rfl,
      rfl, rfl⟩
    rw [show ({ ts with view_offset := ts.view_offset - ts.term_rows } : terminal_state_t).scroll_mode
      = ts.scroll_mode from rfl, hmode] at hf
    exact absurd hf (by decide)

theorem keyboard_dispatch_scroll (ts : terminal_state_t) (kbd : List Nat)
    (hm : ts.scroll_mode = true) :
    (keyboard_dispatch ts kbd).2.1 = true ∨ (keyboard_dispatch ts kbd).1.scroll_mode = true := by
  unfold keyboard_dispatch
  dsimp only
  split_ifs <;> first
    | exact Or.inl rfl
    | exact Or.inr hm

theorem starts_with_page_up (kbd : List Nat)
    (h : kbd.length ≥ 4 ∧ kbd[0]? = some 27 ∧ kbd[1]? = some 91 ∧ kbd[2]? = some 53 ∧
      kbd[3]? = some 126) : ∃ rest, kbd = page_up_keys ++ rest := by
  obtain ⟨_, h0, h1, h2, h3⟩ := h
  match kbd, h0, h1, h2, h3 with
  | a :: b :: c :: d :: rest, h0, h1, h2, h3 =>
    simp only [List.getElem?_cons_zero, List.getElem?_cons_succ, Option.some.injEq]
      at h0 h1 h2 h3
    subst h0 h1 h2 h3
    exact ⟨rest, rfl⟩

theorem keyboard_dispatch_live (ts : terminal_state_t) (kbd : List Nat)
    (hm : ts.scroll_mode = false) (hp : ¬ ∃ rest, kbd = page_up_keys ++ rest) :
    keyboard_dispatch ts kbd = (ts, false, []) := by
  unfold keyboard_dispatch
  dsimp only
  by_cases h1 : kbd.length ≥ 3 ∧ kbd[0]? = some 27 ∧ kbd[1]? = some 91
  · rw [if_pos h1]
    by_cases h2 : kbd.length ≥ 4 ∧ kbd[2]? = some 53 ∧ kbd[3]? = some 126
    · exact absurd (starts_with_page_up kbd ⟨h2.1, h1.2.1, h1.2.2, h2.2.1, h2.2.2⟩) hp
    · rw [if_neg h2]
      simp [hm]
  · rw [if_neg h1]
    simp [hm]

theorem view_offset_invariant_witness :
    term_reachable paged_terminal ∧
    ((0 ≤ paged_terminal.view_offset ∧ paged_terminal.view_offset ≤ paged_terminal.cursor_y) ∧
    (paged_terminal.scroll_mode = false → paged_terminal.view_offset = 0) ∧
    (paged_terminal.scroll_mode = true → ∀ rest : List Nat,
      ((terminal_loop_keyboard paged_terminal (page_down_keys ++ rest)).state.scroll_mode = false
        ↔ paged_terminal.view_offset - paged_terminal.term_rows < 0) ∧
      (paged_terminal.view_offset - paged_terminal.term_rows < 0 →
        (terminal_loop_keyboard paged_terminal (page_down_keys ++ rest)).state.view_offset = 0) ∧
      (¬ paged_terminal.view_offset - paged_terminal.term_rows < 0 →
        (terminal_loop_keyboard paged_terminal (page_down_keys ++ rest)).state.view_offset
          = paged_terminal.view_offset - paged_terminal.term_rows) ∧
      (terminal_loop_keyboard paged_terminal (113 :: rest)).state.scroll_mode = false ∧
      (terminal_loop_keyboard paged_terminal (113 :: rest)).state.view_offset = 0)) :=
  ⟨⟨FONT_MONO, FONT_SMALL, _, rfl⟩,
    view_offset_invariant paged_terminal ⟨FONT_MONO, FONT_SMALL, _, rfl⟩⟩

/-- C22: a keyboard read made in scroll mode writes nothing to the child channel, whatever
the bytes are; a non-empty keyboard read made in live mode whose first byte is not Ctrl-C
(3) and which does not start with the Page-Up sequence `ESC [ 5 ~` is written to the child
channel as one block, unchanged. -/
theorem scrollback_suppresses_pass_through (ts : terminal_state_t) (chunk : List Nat) :
    (ts.scroll_mode = true → (terminal_loop_keyboard ts chunk).to_child = []) ∧
    (ts.scroll_mode = false → chunk ≠ [] → chunk.head? ≠ some 3 →
      (¬ ∃ rest, chunk = page_up_keys ++ rest) →
      (terminal_loop_keyboard ts chunk).to_child = [chunk]) := by
  constructor
  · intro hm
    unfold terminal_loop_keyboard
    dsimp only
    split_ifs with h1 h2 h3
    · rfl
    · rcases keyboard_dispatch_scroll ts chunk hm with h | h
      · rw [h] at h3
        exact absurd h3.1 (by decide)
      · rw [h] at h3
        exact absurd h3.2 (by decide)
    · rfl
    · rfl
  · intro hm hne h3 hp
    have hlen : chunk.length > 0 := List.length_pos.mpr hne
    have h0 : ¬ chunk[0]? = some 3 := by
      cases chunk with
      | nil => exact absurd rfl hne
      | cons a l => simpa using h3
    unfold terminal_loop_keyboard
    rw [if_pos hlen, if_neg h0]
    dsimp only
    rw [keyboard_dispatch_live ts chunk hm hp, hm]
    rfl

theorem scrollback_suppresses_pass_through_witness :
    ((terminal_loop_keyboard blank_terminal page_up_keys).state.scroll_mode = true ∧
      (terminal_loop_keyboard (terminal_loop_keyboard blank_terminal page_up_keys).state
        [113]).to_child = []) ∧
    (blank_terminal.scroll_mode = false ∧ [108, 115, 10] ≠ [] ∧
      [108, 115, 10].head? ≠ some 3 ∧ (¬ ∃ rest, [108, 115, 10] = page_up_keys ++ rest) ∧
      (terminal_loop_keyboard blank_terminal [108, 115, 10]).to_child = [[108, 115, 10]]) :=
  ⟨⟨by rw [page_up_state],
      (scrollback_suppresses_pass_through
        (terminal_loop_keyboard blank_terminal page_up_keys).state [113]).1
        (by rw [page_up_state])⟩,
    rfl, by decide, by decide, by rintro ⟨rest, h⟩; simp [page_up_keys] at h,
    (scrollback_suppresses_pass_through blank_terminal [108, 115, 10]).2 rfl (by decide)
      (by decide) (by rintro ⟨rest, h⟩; simp [page_up_keys] at h)⟩

theorem wrap32_wrap32_add (a b : Int) : wrap32 (wrap32 a + b) = wrap32 (a + b) := by
  unfold wrap32
  omega

theorem filterMap_range_initial {α : Type} (p : Nat → Prop) [DecidablePred p] (g f : Nat → α) :
    ∀ k m : Nat, m ≤ k → (∀ j, j < k → (p j ↔ j < m)) → (∀ j, j < m → g j = f j) →
      (List.range k).filterMap (fun j => if p j then some (g j) else none)
        = (List.range m).map f := by
  intro k
  induction k with
  | zero =>
    intro m hm _ _
    have : m = 0 := by omega
    subst this
    rfl
  | succ k ih =>
    intro m hm hp hg
    rw [List.range_succ, List.filterMap_append]
    by_cases hk : m ≤ k
    · rw [ih m hk (fun j hj => hp j (by omega)) hg]
      have : ¬ p k := fun h => by have := (hp k (by omega)).mp h; omega
      simp [this]
    · have hmk : m = k + 1 := by omega
      subst hmk
      rw [ih k (le_refl k)
        (fun j hj => ⟨fun _ => hj, fun _ => (hp j (by omega)).mpr (by omega)⟩)
        (fun j hj => hg j (by omega))]
      have : p k := (hp k (by omega)).mpr (by omega)
      rw [List.range_succ, List.map_append]
      simp [this, hg k (by omega)]

/-- The rows selected by the loop of `render_screen` over the screen rows `a .. a + k - 1`,
starting at pixel row `y`. -/
theorem window_rows_from_range (ts : terminal_state_t) (start : Int) :
    ∀ (k : Nat) (a y : Int),
      window_rows_from ts start (int_range a (a + k)) y
        = (List.range k).filterMap (fun (j : Nat) =>
            if wrap32 (start + (a + j)) ≥ 0 ∧ wrap32 (start + (a + j)) ≤ ts.cursor_y ∧
                wrap32 (start + (a + j)) < SCROLLBACK_LINES then
              some (wrap32 (start + (a + j)),
                if j = 0 then y else wrap32 (y + j * ts.char_height))
            else none) := by
  intro k
  induction k with
  | zero =>
    intro a y
    rw [int_range_empty a (a + (0 : Nat)) (by simp)]
    rfl
  | succ k ih =>
    intro a y
    rw [int_range_cons a (a + ((k + 1 : Nat) : Int)) (by push_cast; omega)]
    have e : a + ((k + 1 : Nat) : Int) = (a + 1) + (k : Int) := by push_cast; omega
    rw [e]
    show (if wrap32 (start + a) ≥ 0 ∧ wrap32 (start + a) ≤ ts.cursor_y ∧
          wrap32 (start + a) < SCROLLBACK_LINES then [(wrap32 (start + a), y)] else [])
        ++ window_rows_from ts start (int_range (a + 1) (a + 1 + k)) (wrap32 (y + ts.char_height))
      = _
    rw [ih (a + 1) (wrap32 (y + ts.char_height)), List.range_succ_eq_map, List.filterMap_cons,
      List.filterMap_map]
    have h0 : start + (a + ((0 : Nat) : Int)) = start + a := by simp
    have hyy : ∀ j : Nat, (if j = 0 then wrap32 (y + ts.char_height)
          else wrap32 (wrap32 (y + ts.char_height) + j * ts.char_height))
        = wrap32 (y + ((j + 1 : Nat) : Int) * ts.char_height) := by
      intro j
      by_cases hj : j = 0
      · subst hj
        simp
      · rw [if_neg hj, wrap32_wrap32_add]
        congr 1
        push_cast
        ring
    have hfun : (fun j : Nat =>
          if wrap32 (start + (a + 1 + j)) ≥ 0 ∧ wrap32 (start + (a + 1 + j)) ≤ ts.cursor_y ∧
              wrap32 (start + (a + 1 + j)) < SCROLLBACK_LINES then
            some (wrap32 (start + (a + 1 + j)),
              if j = 0 then wrap32 (y + ts.char_height)
              else wrap32 (wrap32 (y + ts.char_height) + j * ts.char_height))
          else none)
        = ((fun j : Nat =>
          if wrap32 (start + (a + j)) ≥ 0 ∧ wrap32 (start + (a + j)) ≤ ts.cursor_y ∧
              wrap32 (start + (a + j)) < SCROLLBACK_LINES then
            some (wrap32 (start + (a + j)),
              if j = 0 then y else wrap32 (y + j * ts.char_height))
          else none) ∘ Nat.succ) := by
      funext j
      have e1 : start + (a + 1 + (j : Int)) = start + (a + ((j + 1 : Nat) : Int)) := by
        push_cast; omega
      show _ = (if wrap32 (start + (a + ((j + 1 : Nat) : Int))) ≥ 0 ∧
            wrap32 (start + (a + ((j + 1 : Nat) : Int))) ≤ ts.cursor_y ∧
            wrap32 (start + (a + ((j + 1 : Nat) : Int))) < SCROLLBACK_LINES then
          some (wrap32 (start + (a + ((j + 1 : Nat) : Int))),
            if j + 1 = 0 then y else wrap32 (y + ((j + 1 : Nat) : Int) * ts.char_height))
        else none)
      rw [e1, hyy j, if_neg (Nat.succ_ne_zero j)]
    rw [hfun, h0]
    by_cases hv : wrap32 (start + a) ≥ 0 ∧ wrap32 (start + a) ≤ ts.cursor_y ∧
        wrap32 (start + a) < SCROLLBACK_LINES
    · rw [if_pos hv, if_pos hv]
      rfl
    · rw [if_neg hv, if_neg hv]
      rfl

/-- The rows of the window when the start line is `s >= 0`: the buffer rows `s + j` for
`j < min term_rows (cursor_y + 1 - s)`, row `j` at the pixel row the loop has reached. -/
theorem window_rows_eq_wrapped (ts : terminal_state_t) (s : Int)
    (hs : display_start_line ts = s)
    (hs0 : 0 ≤ s ∧ s ≤ 2147483647) (hc : 0 ≤ ts.cursor_y ∧ ts.cursor_y ≤ 99)
    (hn : 0 ≤ ts.term_rows ∧ ts.term_rows ≤ 2147483647) :
    window_rows ts
      = (List.range (min ts.term_rows (ts.cursor_y + 1 - s)).toNat).map
          (fun (j : Nat) => (s + (j : Int),
            if j = 0 then (2 : Int) else wrap32 (2 + (j : Int) * ts.char_height))) := by
  have e : int_range 0 ts.term_rows = int_range 0 (0 + ((ts.term_rows.toNat : Nat) : Int)) := by
    congr 1
    omega
  unfold window_rows
  rw [hs, e, window_rows_from_range]
  refine filterMap_range_initial
    (fun (j : Nat) => wrap32 (s + (0 + (j : Int))) ≥ 0 ∧ wrap32 (s + (0 + (j : Int))) ≤ ts.cursor_y ∧
      wrap32 (s + (0 + (j : Int))) < SCROLLBACK_LINES)
    (fun (j : Nat) => (wrap32 (s + (0 + (j : Int))),
      if j = 0 then (2 : Int) else wrap32 (2 + (j : Int) * ts.char_height)))
    (fun (j : Nat) => (s + (j : Int),
      if j = 0 then (2 : Int) else wrap32 (2 + (j : Int) * ts.char_height)))
    ts.term_rows.toNat (min ts.term_rows (ts.cursor_y + 1 - s)).toNat (by omega) ?_ ?_
  · intro j hj
    show (wrap32 (s + (0 + (j : Int))) ≥ 0 ∧ wrap32 (s + (0 + (j : Int))) ≤ ts.cursor_y ∧
      wrap32 (s + (0 + (j : Int))) < SCROLLBACK_LINES) ↔ _
    unfold wrap32 SCROLLBACK_LINES
    omega
  · intro j hj
    have h1 : wrap32 (s + (0 + (j : Int))) = s + (j : Int) := by
      rw [zero_add]
      exact wrap32_eq_self (by omega) (by omega)
    show (wrap32 (s + (0 + (j : Int))),
      if j = 0 then (2 : Int) else wrap32 (2 + (j : Int) * ts.char_height)) = _
    rw [h1]

/-- The same with the pixel rows written out, for a character height that keeps
`2 + 99 * char_height` an `int`. -/
theorem window_rows_eq (ts : terminal_state_t) (s : Int) (hs : display_start_line ts = s)
    (hs0 : 0 ≤ s ∧ s ≤ 2147483647) (hc : 0 ≤ ts.cursor_y ∧ ts.cursor_y ≤ 99)
    (hn : 0 ≤ ts.term_rows ∧ ts.term_rows ≤ 2147483647)
    (hh : -21000000 ≤ ts.char_height ∧ ts.char_height ≤ 21000000) :
    window_rows ts
      = (List.range (min ts.term_rows (ts.cursor_y + 1 - s)).toNat).map
          (fun (j : Nat) => (s + (j : Int), 2 + (j : Int) * ts.char_height)) := by
  rw [window_rows_eq_wrapped ts s hs hs0 hc hn]
  apply List.map_congr_left
  intro j hj
  rw [List.mem_range] at hj
  have hj99 : (j : Int) ≤ 99 := by omega
  have hb : -2100000000 ≤ (j : Int) * ts.char_height ∧
      (j : Int) * ts.char_height ≤ 2100000000 := by
    constructor <;> nlinarith [hh.1, hh.2, hj99, Int.natCast_nonneg j]
  by_cases hj0 : j = 0
  · subst hj0
    simp
  · rw [if_neg hj0, wrap32_eq_self (by omega) (by omega)]

theorem window_rows_fst (ts : terminal_state_t) (s : Int) (hs : display_start_line ts = s)
    (hs0 : 0 ≤ s ∧ s ≤ 2147483647) (hc : 0 ≤ ts.cursor_y ∧ ts.cursor_y ≤ 99)
    (hn : 0 ≤ ts.term_rows ∧ ts.term_rows ≤ 2147483647) :
    (window_rows ts).map Prod.fst = int_range s (min (s + ts.term_rows) (ts.cursor_y + 1)) := by
  rw [window_rows_eq_wrapped ts s hs hs0 hc hn, List.map_map]
  unfold int_range
  have : (min (s + ts.term_rows) (ts.cursor_y + 1) - s).toNat
      = (min ts.term_rows (ts.cursor_y + 1 - s)).toNat := by omega
  rw [this]
  rfl

theorem map_fst_window (s ch : Int) (n : Nat) :
    ((List.range n).map (fun (j : Nat) => (s + (j : Int), 2 + (j : Int) * ch))).map Prod.fst
      = int_range s (s + n) := by
  unfold int_range
  rw [List.map_map]
  have : (s + (n : Int) - s).toNat = n := by omega
  rw [this]
  rfl

theorem int_range_getLast (lo hi : Int) (h : lo < hi) :
    (int_range lo hi).getLast? = some (hi - 1) := by
  unfold int_range
  obtain ⟨n, hn⟩ : ∃ n : Nat, (hi - lo).toNat = n + 1 := ⟨(hi - lo).toNat - 1, by omega⟩
  have hv : lo + ((n : Nat) : Int) = hi - 1 := by omega
  rw [hn, List.range_succ, List.map_append, List.map_singleton, hv]
  simp

theorem live_start_line (ts : terminal_state_t) (hm : ts.scroll_mode = false)
    (hc : 0 ≤ ts.cursor_y ∧ ts.cursor_y ≤ 99)
    (hn : 1 ≤ ts.term_rows ∧ ts.term_rows ≤ 2147483647) :
    display_start_line ts = max 0 (ts.cursor_y - ts.term_rows + 1) := by
  have e1 : wrap32 (ts.cursor_y - ts.term_rows) = ts.cursor_y - ts.term_rows :=
    wrap32_eq_self (by omega) (by omega)
  have e2 : wrap32 (ts.cursor_y - ts.term_rows + 1) = ts.cursor_y - ts.term_rows + 1 :=
    wrap32_eq_self (by omega) (by omega)
  unfold display_start_line
  rw [hm, e1, e2]
  simp only [Bool.false_eq_true, if_false]
  split_ifs <;> omega

theorem scroll_start_line (ts : terminal_state_t) (hm : ts.scroll_mode = true)
    (hc : 0 ≤ ts.cursor_y ∧ ts.cursor_y ≤ 99)
    (hn : 1 ≤ ts.term_rows ∧ ts.term_rows ≤ 2147483647)
    (hv : 0 ≤ ts.view_offset ∧ ts.view_offset ≤ ts.cursor_y) :
    display_start_line ts = max 0 (ts.cursor_y - ts.term_rows + 1 - ts.view_offset) := by
  have e1 : wrap32 (ts.cursor_y - ts.term_rows) = ts.cursor_y - ts.term_rows :=
    wrap32_eq_self (by omega) (by omega)
  have e2 : wrap32 (ts.cursor_y - ts.term_rows + 1) = ts.cursor_y - ts.term_rows + 1 :=
    wrap32_eq_self (by omega) (by omega)
  have e3 : wrap32 (ts.cursor_y - ts.term_rows + 1 - ts.view_offset)
      = ts.cursor_y - ts.term_rows + 1 - ts.view_offset :=
    wrap32_eq_self (by omega) (by omega)
  unfold display_start_line
  rw [hm, e1, e2, e3]
  simp only [if_true]
  split_ifs <;> omega

/-- C23: in live mode, with the cursor on buffer row `c` in `0 .. 99` and `N >= 1` terminal
rows, `render_screen` selects exactly the buffer rows `max(0, c - N + 1) .. c`, the `j`-th of
them at pixel row `2 + j * char_height`, hands those whose first byte is not NUL to the text
service, and then draws the cursor as a filled `char_width x char_height` rectangle at
`(2 + cursor_x * char_width, 2 + (c - max(0, c - N + 1)) * char_height)`, the screen row of
buffer row `c`. -/
theorem live_window (ts : terminal_state_t) (hm : ts.scroll_mode = false)
    (hc : 0 ≤ ts.cursor_y ∧ ts.cursor_y ≤ 99)
    (hn : 1 ≤ ts.term_rows ∧ ts.term_rows ≤ 2147483647)
    (hh : 0 ≤ ts.char_height ∧ ts.char_height ≤ 80)
    (hw : 0 ≤ ts.char_width ∧ ts.char_width ≤ 160)
    (hx : 0 ≤ ts.cursor_x ∧ ts.cursor_x ≤ 80) :
    window_rows ts
      = (List.range (min ts.term_rows (ts.cursor_y + 1)).toNat).map
          (fun (j : Nat) =>
            (max 0 (ts.cursor_y - ts.term_rows + 1) + (j : Int), 2 + (j : Int) * ts.char_height)) ∧
    (window_rows ts).map Prod.fst
      = int_range (max 0 (ts.cursor_y - ts.term_rows + 1)) (ts.cursor_y + 1) ∧
    render_marker ts
      = [render_call.draw_rect (2 + ts.cursor_x * ts.char_width)
          (2 + (ts.cursor_y - max 0 (ts.cursor_y - ts.term_rows + 1)) * ts.char_height)
          ts.char_width ts.char_height 0x001F true] ∧
    render_screen ts
      = [render_call.clear_buffer 0x0000] ++
        ((List.range (min ts.term_rows (ts.cursor_y + 1)).toNat).map
          (fun (j : Nat) =>
            (max 0 (ts.cursor_y - ts.term_rows + 1) + (j : Int),
              2 + (j : Int) * ts.char_height))).filterMap (fun p =>
            match ts.screen_buffer[p.1.toNat]? with
            | some line =>
              if line.head? ≠ some 0 then some (render_call.text_draw 2 p.2 (c_string line))
              else none
            | none => none) ++
        [render_call.draw_rect (2 + ts.cursor_x * ts.char_width)
          (2 + (ts.cursor_y - max 0 (ts.cursor_y - ts.term_rows + 1)) * ts.char_height)
          ts.char_width ts.char_height 0x001F true] ++
        [render_call.update_display] := by
  have hs := live_start_line ts hm hc hn
  have hrows := window_rows_eq ts _ hs (by omega) hc (by omega) (by omega)
  have hcount : min ts.term_rows (ts.cursor_y + 1 - max 0 (ts.cursor_y - ts.term_rows + 1))
      = min ts.term_rows (ts.cursor_y + 1) := by omega
  rw [hcount] at hrows
  have hfst := window_rows_fst ts _ hs (by omega) hc (by omega)
  have hend : min (max 0 (ts.cursor_y - ts.term_rows + 1) + ts.term_rows) (ts.cursor_y + 1)
      = ts.cursor_y + 1 := by omega
  rw [hend] at hfst
  have hmark : render_marker ts
      = [render_call.draw_rect (2 + ts.cursor_x * ts.char_width)
          (2 + (ts.cursor_y - max 0 (ts.cursor_y - ts.term_rows + 1)) * ts.char_height)
          ts.char_width ts.char_height 0x001F true] := by
    have hxw : 0 ≤ ts.cursor_x * ts.char_width ∧ ts.cursor_x * ts.char_width ≤ 12800 := by
      constructor <;> nlinarith [hw.1, hw.2, hx.1, hx.2]
    have e1 : wrap32 (ts.cursor_x * ts.char_width) = ts.cursor_x * ts.char_width :=
      wrap32_eq_self (by omega) (by omega)
    have e2 : wrap32 (2 + ts.cursor_x * ts.char_width) = 2 + ts.cursor_x * ts.char_width :=
      wrap32_eq_self (by omega) (by omega)
    have e3 : wrap32 (ts.term_rows - 1) = ts.term_rows - 1 :=
      wrap32_eq_self (by omega) (by omega)
    have hrow : (if ts.cursor_y < ts.term_rows then ts.cursor_y else ts.term_rows - 1)
        = ts.cursor_y - max 0 (ts.cursor_y - ts.term_rows + 1) := by
      split_ifs <;> omega
    have hr0 : 0 ≤ ts.cursor_y - max 0 (ts.cursor_y - ts.term_rows + 1) ∧
        ts.cursor_y - max 0 (ts.cursor_y - ts.term_rows + 1) ≤ 99 ∧
        ts.cursor_y - max 0 (ts.cursor_y - ts.term_rows + 1) < ts.term_rows := by omega
    obtain ⟨r, hr⟩ : ∃ r, r = ts.cursor_y - max 0 (ts.cursor_y - ts.term_rows + 1) := ⟨_, rfl⟩
    rw [← hr] at hrow hr0 ⊢
    have hrh : 0 ≤ r * ts.char_height ∧ r * ts.char_height ≤ 7920 := by
      constructor <;> nlinarith [hh.1, hh.2, hr0.1, hr0.2.1]
    have e4 : wrap32 (r * ts.char_height) = r * ts.char_height :=
      wrap32_eq_self (by omega) (by omega)
    have e5 : wrap32 (2 + r * ts.char_height) = 2 + r * ts.char_height :=
      wrap32_eq_self (by omega) (by omega)
    unfold render_marker
    rw [hm]
    simp only [Bool.not_false, if_true]
    rw [e3, hrow, if_pos ⟨by omega, hr0.2.2⟩, e1, e2, e4, e5]
  refine ⟨hrows, hfst, hmark, ?_⟩
  unfold render_screen
  rw [hrows, hmark]

theorem live_window_witness :
    (scenario_terminal.scroll_mode = false) ∧
    (0 ≤ scenario_terminal.cursor_y ∧ scenario_terminal.cursor_y ≤ 99) ∧
    (1 ≤ scenario_terminal.term_rows ∧ scenario_terminal.term_rows ≤ 2147483647) ∧
    (0 ≤ scenario_terminal.char_height ∧ scenario_terminal.char_height ≤ 80) ∧
    (0 ≤ scenario_terminal.char_width ∧ scenario_terminal.char_width ≤ 160) ∧
    (0 ≤ scenario_terminal.cursor_x ∧ scenario_terminal.cursor_x ≤ 80) ∧
    (window_rows scenario_terminal
      = (List.range (min scenario_terminal.term_rows (scenario_terminal.cursor_y + 1)).toNat).map
          (fun (j : Nat) =>
            (max 0 (scenario_terminal.cursor_y - scenario_terminal.term_rows + 1) + (j : Int), 2 + (j : Int) * scenario_terminal.char_height)) ∧
    (window_rows scenario_terminal).map Prod.fst
      = int_range (max 0 (scenario_terminal.cursor_y - scenario_terminal.term_rows + 1)) (scenario_terminal.cursor_y + 1) ∧
    render_marker scenario_terminal
      = [render_call.draw_rect (2 + scenario_terminal.cursor_x * scenario_terminal.char_width)
          (2 + (scenario_terminal.cursor_y - max 0 (scenario_terminal.cursor_y - scenario_terminal.term_rows + 1)) * scenario_terminal.char_height)
          scenario_terminal.char_width scenario_terminal.char_height 0x001F true] ∧
    render_screen scenario_terminal
      = [render_call.clear_buffer 0x0000] ++
        ((List.range (min scenario_terminal.term_rows (scenario_terminal.cursor_y + 1)).toNat).map
          (fun (j : Nat) =>
            (max 0 (scenario_terminal.cursor_y - scenario_terminal.term_rows + 1) + (j : Int),
              2 + (j : Int) * scenario_terminal.char_height))).filterMap (fun p =>
            match scenario_terminal.screen_buffer[p.1.toNat]? with
            | some line =>
              if line.head? ≠ some 0 then some (render_call.text_draw 2 p.2 (c_string line))
              else none
            | none => none) ++
        [render_call.draw_rect (2 + scenario_terminal.cursor_x * scenario_terminal.char_width)
          (2 + (scenario_terminal.cursor_y - max 0 (scenario_terminal.cursor_y - scenario_terminal.term_rows + 1)) * scenario_terminal.char_height)
          scenario_terminal.char_width scenario_terminal.char_height 0x001F true] ++
        [render_call.update_display]) :=
  ⟨rfl, by decide, by decide, by decide, by decide, by decide,
    live_window scenario_terminal rfl (by decide) (by decide) (by decide) (by decide) (by decide)⟩

/-- C24 (as stated): with `term_rows = 7` and the cursor on buffer row 50, eight Page-Up reads
give `view_offset = 50 <= cursor_y` in scroll mode; the window then shows the buffer rows
`0 .. 6`, so its last row is 6 and not `cursor_y - view_offset = 0`. -/
theorem scroll_window_clamped :
    (press_keys page_up_keys 8 scenario_terminal).scroll_mode = true ∧
    (press_keys page_up_keys 8 scenario_terminal).term_rows = 7 ∧
    (press_keys page_up_keys 8 scenario_terminal).cursor_y = 50 ∧
    (press_keys page_up_keys 8 scenario_terminal).view_offset = 50 ∧
    (window_rows (press_keys page_up_keys 8 scenario_terminal)).map Prod.fst
      = [0, 1, 2, 3, 4, 5, 6] ∧
    ((window_rows (press_keys page_up_keys 8 scenario_terminal)).map Prod.fst).getLast?
      ≠ some ((press_keys page_up_keys 8 scenario_terminal).cursor_y
          - (press_keys page_up_keys 8 scenario_terminal).view_offset) := by
  decide

/-- A completed call hands over exactly the points of its trace. -/
theorem draw_line_trace_of_points (dx dy sx sy x2 y2 : Int) :
    ∀ (fuel : Nat) (x1 y1 err : Int) (ps : List (Int × Int)),
      draw_line_points dx dy sx sy x2 y2 fuel x1 y1 err = some ps →
      draw_line_trace dx dy sx sy x2 y2 fuel x1 y1 err = ps := by
  intro fuel
  induction fuel with
  | zero =>
    intro x1 y1 err ps h
    exact absurd h (by simp [draw_line_points])
  | succ n ih =>
    intro x1 y1 err ps h
    unfold draw_line_points at h
    unfold draw_line_trace
    by_cases hend : x1 = x2 ∧ y1 = y2
    · rw [if_pos hend] at h ⊢
      exact Option.some.inj h
    · rw [if_neg hend] at h ⊢
      dsimp only at h ⊢
      rw [Option.map_eq_some'] at h
      obtain ⟨qs, hq, hps⟩ := h
      rw [ih _ _ _ qs hq]
      exact hps

theorem vertical_wrap_step (x y err : Int) (h : vertical_wrap_state x y err) :
    ¬ (x = 1 ∧ y = 2147483647) ∧ x ≤ 1 ∧
    vertical_wrap_state
      (if wrap32 (err * 2) > wrap32 (-2147483647) then wrap32 (x + -1) else x)
      (if wrap32 (err * 2) < 0 then wrap32 (y + 1) else y)
      (if wrap32 (err * 2) < 0 then
        wrap32 ((if wrap32 (err * 2) > wrap32 (-2147483647) then wrap32 (err - 2147483647)
          else err) + 0)
       else (if wrap32 (err * 2) > wrap32 (-2147483647) then wrap32 (err - 2147483647)
          else err)) := by
  unfold vertical_wrap_state at h ⊢
  obtain ⟨hy, h⟩ := h
  have hwy := wrap32_range (y + 1)
  have e3 : wrap32 (-2147483647) = -2147483647 := by decide
  rw [e3]
  rcases h with ⟨k, hk0, hk1, hx, hy0, hk⟩ | ⟨hx, he⟩
  · rcases hk with ⟨hpar, he⟩ | ⟨hpar, he⟩
    · have e2 : wrap32 (err * 2) = 2 + 2 * k := by unfold wrap32; omega
      have e4 : wrap32 (err - 2147483647) = k + 2 := by unfold wrap32; omega
      have e5 : wrap32 (x + -1) = 1 - (k + 1) := by unfold wrap32; omega
      have c1 : 2 + 2 * k > -2147483647 := by omega
      have c2 : ¬ 2 + 2 * k < 0 := by omega
      rw [e2, if_pos c1, if_neg c2, if_neg c2, if_pos c1, e4, e5]
      clear hwy
      exact ⟨by omega, by omega, hy,
        Or.inl ⟨k + 1, by omega, by omega, rfl, hy0, Or.inr ⟨by omega, by omega⟩⟩⟩
    · by_cases hlast : k = 1073741823
      · have e2 : wrap32 (err * 2) = -2147483648 := by unfold wrap32; omega
        have e4 : wrap32 (err + 0) = err := by unfold wrap32; omega
        have c1 : ¬ (-2147483648 : Int) > -2147483647 := by omega
        have c2 : (-2147483648 : Int) < 0 := by omega
        rw [e2, if_neg c1, if_pos c2, if_pos c2, if_neg c1, e4]
        exact ⟨by omega, by omega, hwy, Or.inr ⟨by omega, by omega⟩⟩
      · have e2 : wrap32 (err * 2) = 2 + 2 * k := by unfold wrap32; omega
        have e4 : wrap32 (err - 2147483647) = -2147483647 + (k + 1) := by
          unfold wrap32; omega
        have e5 : wrap32 (x + -1) = 1 - (k + 1) := by unfold wrap32; omega
        have c1 : 2 + 2 * k > -2147483647 := by omega
        have c2 : ¬ 2 + 2 * k < 0 := by omega
        rw [e2, if_pos c1, if_neg c2, if_neg c2, if_pos c1, e4, e5]
        clear hwy
        exact ⟨by omega, by omega, hy,
          Or.inl ⟨k + 1, by omega, by omega, rfl, hy0, Or.inl ⟨by omega, rfl⟩⟩⟩
  · have e2 : wrap32 (err * 2) = -2147483648 := by unfold wrap32; omega
    have e4 : wrap32 (err + 0) = err := by unfold wrap32; omega
    have c1 : ¬ (-2147483648 : Int) > -2147483647 := by omega
    have c2 : (-2147483648 : Int) < 0 := by omega
    rw [e2, if_neg c1, if_pos c2, if_pos c2, if_neg c1, e4]
    exact ⟨by omega, by omega, hwy, Or.inr ⟨hx, he⟩⟩

theorem vertical_wrap_never_ends :
    ∀ (fuel : Nat) (x y err : Int), vertical_wrap_state x y err →
      draw_line_points 0 2147483647 (-1) 1 1 2147483647 fuel x y err = none ∧
      ∀ p ∈ draw_line_trace 0 2147483647 (-1) 1 1 2147483647 fuel x y err, p.1 ≤ 1 := by
  intro fuel
  induction fuel with
  | zero =>
    intro x y err _
    exact ⟨rfl, fun p hp => by cases hp⟩
  | succ n ih =>
    intro x y err h
    obtain ⟨hend, hx, hnext⟩ := vertical_wrap_step x y err h
    obtain ⟨h1, h2⟩ := ih _ _ _ hnext
    constructor
    · unfold draw_line_points
      rw [if_neg hend]
      dsimp only
      rw [h1]
      rfl
    · unfold draw_line_trace
      rw [if_neg hend]
      dsimp only
      intro p hp
      rcases List.mem_cons.mp hp with hp | hp
      · rw [hp]
        exact hx
      · exact h2 p hp

theorem vertical_wrap_start : vertical_wrap_state 1 0 (-2147483647) := by
  unfold vertical_wrap_state
  exact ⟨by decide, Or.inl ⟨0, by decide, by decide, by decide, rfl, Or.inl ⟨by decide, by decide⟩⟩⟩

/-- C29 (as stated): for `dx = 0`, `dy = INT_MAX` and the start point `(1, 0)` the line and
its mirror image in x are the same call.  With wrap-around `int` arithmetic its second round
hands the pixel `(0, 0)`, offset `(-1, 0)`, to `weact_draw_pixel`, but no round ever hands
over `(2, 0)`, offset `(1, 0)`; the call never returns. -/
theorem draw_line_mirror_wraps :
    (0, 0) ∈ line_trace 2 1 0 1 2147483647 ∧
    (∀ fuel : Nat, (2, 0) ∉ line_trace fuel 1 0 1 2147483647) ∧
    (∀ fuel : Nat, line_points fuel 1 0 1 2147483647 = none) := by
  have hp : ∀ fuel : Nat, line_points fuel 1 0 1 2147483647
      = draw_line_points 0 2147483647 (-1) 1 1 2147483647 fuel 1 0 (-2147483647) := by
    intro fuel
    rfl
  have ht : ∀ fuel : Nat, line_trace fuel 1 0 1 2147483647
      = draw_line_trace 0 2147483647 (-1) 1 1 2147483647 fuel 1 0 (-2147483647) := by
    intro fuel
    rfl
  refine ⟨by decide, ?_, ?_⟩
  · intro fuel hmem
    rw [ht] at hmem
    have := (vertical_wrap_never_ends fuel 1 0 (-2147483647) vertical_wrap_start).2 _ hmem
    exact absurd this (by decide)
  · intro fuel
    rw [hp]
    exact (vertical_wrap_never_ends fuel 1 0 (-2147483647) vertical_wrap_start).1

theorem heads_to_eq (s v t a d : Int) (h : heads_to s v t a) :
    t - s * (d - (d - a)) = v := by
  unfold heads_to at h
  rcases h with ⟨h1, h2⟩ | ⟨h1, h2⟩
  · rw [h1, h2]; ring
  · rw [h1, h2]; ring

/-- Exchanging the roles of x and y negates the error term and exchanges the two steps. -/
theorem line_offsets_swap (dx dy : Int) :
    ∀ (fuel : Nat) (a b err : Int),
      line_offsets dy dx fuel b a (-err)
        = (line_offsets dx dy fuel a b err).map (List.map Prod.swap) := by
  intro fuel
  induction fuel with
  | zero => intro a b err; rfl
  | succ n ih =>
    intro a b err
    unfold line_offsets
    by_cases hend : a = 0 ∧ b = 0
    · rw [if_pos hend, if_pos ⟨hend.2, hend.1⟩]
      rfl
    · rw [if_neg hend, if_neg (fun h => hend ⟨h.2, h.1⟩)]
      dsimp only
      by_cases stx : err * 2 > -dy
      · have sty' : -err * 2 < dy := by omega
        by_cases sty : err * 2 < dx
        · have stx' : -err * 2 > -dx := by omega
          rw [if_pos stx, if_pos stx, if_pos sty, if_pos sty, if_pos stx', if_pos stx',
            if_pos sty', if_pos sty']
          have he : -err - dx + dy = -(err - dy + dx) := by ring
          rw [he, ih, Option.map_map, Option.map_map]
          rfl
        · have stx' : ¬ -err * 2 > -dx := by omega
          rw [if_pos stx, if_pos stx, if_neg sty, if_neg sty, if_neg stx', if_neg stx',
            if_pos sty', if_pos sty']
          have he : -err + dy = -(err - dy) := by ring
          rw [he, ih, Option.map_map, Option.map_map]
          rfl
      · have sty' : ¬ -err * 2 < dy := by omega
        by_cases sty : err * 2 < dx
        · have stx' : -err * 2 > -dx := by omega
          rw [if_neg stx, if_neg stx, if_pos sty, if_pos sty, if_pos stx', if_pos stx',
            if_neg sty', if_neg sty']
          have he : -err - dx = -(err + dx) := by ring
          rw [he, ih, Option.map_map, Option.map_map]
          rfl
        · have stx' : ¬ -err * 2 > -dx := by omega
          rw [if_neg stx, if_neg stx, if_neg sty, if_neg sty, if_neg stx', if_neg stx',
            if_neg sty', if_neg sty']
          rw [ih, Option.map_map, Option.map_map]
          rfl

theorem offsets_cons_bounds (dx dy a b : Int) (offs : List (Int × Int))
    (ha : 0 ≤ a ∧ a ≤ dx) (hb : 0 ≤ b ∧ b ≤ dy)
    (h : ∀ p ∈ offs, (0 ≤ p.1 ∧ p.1 ≤ dx) ∧ (0 ≤ p.2 ∧ p.2 ≤ dy)) :
    ∀ p ∈ (dx - a, dy - b) :: offs, (0 ≤ p.1 ∧ p.1 ≤ dx) ∧ (0 ≤ p.2 ∧ p.2 ≤ dy) := by
  intro p hp
  rcases List.mem_cons.mp hp with hp | hp
  · rw [hp]
    exact ⟨⟨by show 0 ≤ dx - a; omega, by show dx - a ≤ dx; omega⟩,
      ⟨by show 0 ≤ dy - b; omega, by show dy - b ≤ dy; omega⟩⟩
  · exact h p hp

/-- In the range without overflow the loop of `weact_draw_line` follows the loop over
unbounded integers: its points are the offsets, laid off from the end point against the
step directions, and every offset lies in the rectangle `[0, dx] x [0, dy]`. -/
theorem draw_line_points_offsets (dx dy sx sy x2 y2 : Int)
    (hdx : 0 ≤ dx ∧ dx ≤ 715827882) (hdy : 0 ≤ dy ∧ dy ≤ 715827882)
    (hx2 : -2147483648 ≤ x2 ∧ x2 < 2147483648) (hy2 : -2147483648 ≤ y2 ∧ y2 < 2147483648) :
    ∀ (fuel : Nat) (x1 y1 err a b P Q : Int),
      0 ≤ a → a ≤ dx → 0 ≤ b → b ≤ dy →
      heads_to sx x1 x2 a → heads_to sy y1 y2 b →
      (-2147483648 ≤ x1 ∧ x1 < 2147483648) → (-2147483648 ≤ y1 ∧ y1 < 2147483648) →
      P = a * dy → Q = b * dx → err = dx - dy + P - Q →
      -3 * dy ≤ 2 * err → 2 * err ≤ 3 * dx →
      a + b < (fuel : Int) →
      ∃ offs : List (Int × Int),
        line_offsets dx dy fuel a b err = some offs ∧
        draw_line_points dx dy sx sy x2 y2 fuel x1 y1 err
          = some (offs.map (fun p => (x2 - sx * (dx - p.1), y2 - sy * (dy - p.2)))) ∧
        ∀ p ∈ offs, (0 ≤ p.1 ∧ p.1 ≤ dx) ∧ (0 ≤ p.2 ∧ p.2 ≤ dy) := by
  obtain ⟨hdx0, hdxM⟩ := hdx
  obtain ⟨hdy0, hdyM⟩ := hdy
  intro fuel
  induction fuel with
  | zero =>
    intro x1 y1 err a b P Q ha0 _ hb0 _ _ _ _ _ _ _ _ _ _ hf
    exfalso
    simp only [Nat.cast_zero] at hf
    omega
  | succ n ih =>
    intro x1 y1 err a b P Q ha0 ha1 hb0 hb1 hxa hyb hx1 hy1 hP hQ herr hlo hhi hf
    have hf' : a + b < (n : Int) + 1 := by
      have : ((n + 1 : Nat) : Int) = (n : Int) + 1 := by push_cast; rfl
      omega
    clear hf
    have hxe := heads_to_end sx x1 x2 a hxa
    have hye := heads_to_end sy y1 y2 b hyb
    have hpx := heads_to_eq sx x1 x2 a dx hxa
    have hpy := heads_to_eq sy y1 y2 b dy hyb
    have hhead : (x2 - sx * (dx - (dx - a, dy - b).1), y2 - sy * (dy - (dx - a, dy - b).2))
        = (x1, y1) := by
      show (x2 - sx * (dx - (dx - a)), y2 - sy * (dy - (dy - b))) = (x1, y1)
      rw [hpx, hpy]
    unfold draw_line_points line_offsets
    by_cases hend : x1 = x2 ∧ y1 = y2
    · have hab0 : a = 0 ∧ b = 0 := ⟨hxe.mp hend.1, hye.mp hend.2⟩
      rw [if_pos hend, if_pos hab0]
      refine ⟨_, rfl, ?_, offsets_cons_bounds dx dy a b [] ⟨ha0, ha1⟩ ⟨hb0, hb1⟩
        (fun p hp => by cases hp)⟩
      rw [List.map_singleton, hhead]
    · have hab0 : ¬ (a = 0 ∧ b = 0) := fun h => hend ⟨hxe.mpr h.1, hye.mpr h.2⟩
      rw [if_neg hend, if_neg hab0]
      dsimp only
      have hab : 1 ≤ a ∨ 1 ≤ b := by
        by_contra hc
        apply hab0
        constructor <;> omega
      clear hxe hye hpx hpy hab0 hend
      have hPs : P - dy = (a - 1) * dy := by rw [hP]; ring
      have hQs : Q - dx = (b - 1) * dx := by rw [hQ]; ring
      have we2 : wrap32 (err * 2) = err * 2 := wrap32_eq_self (by omega) (by omega)
      have wdy : wrap32 (-dy) = -dy := wrap32_eq_self (by omega) (by omega)
      rw [we2, wdy]
      clear we2 wdy
      by_cases stx : err * 2 > -dy
      · have ha := line_x_needs dx dy a b P Q err hdx0 hdy0 ha0 hP hQ herr hab stx
        obtain ⟨wx, hxa', hx1'⟩ := heads_to_step sx x1 x2 a hxa ha hx1 hx2
        have we1 : wrap32 (err - dy) = err - dy := wrap32_eq_self (by omega) (by omega)
        rw [if_pos stx, if_pos stx, if_pos stx, if_pos stx, wx, we1]
        clear wx we1
        by_cases sty : err * 2 < dx
        · have hb := line_y_needs dx dy a b P Q err hdx0 hdy0 hb0 hP hQ herr hab sty
          obtain ⟨wy, hyb', hy1'⟩ := heads_to_step sy y1 y2 b hyb hb hy1 hy2
          have we3 : wrap32 (err - dy + dx) = err - dy + dx :=
            wrap32_eq_self (by omega) (by omega)
          rw [if_pos sty, if_pos sty, if_pos sty, if_pos sty, wy, we3]
          clear wy we3 hab
          obtain ⟨offs, h1, h2, h3⟩ := ih (x1 + sx) (y1 + sy) (err - dy + dx) (a - 1) (b - 1)
            (P - dy) (Q - dx) (by omega) (by omega) (by omega) (by omega) hxa' hyb'
            hx1' hy1' hPs hQs (by omega) (by omega) (by omega) (by omega)
          refine ⟨(dx - a, dy - b) :: offs, ?_, ?_,
            offsets_cons_bounds dx dy a b offs ⟨ha0, ha1⟩ ⟨hb0, hb1⟩ h3⟩
          · rw [h1]; rfl
          · rw [h2, List.map_cons, hhead]; rfl
        · rw [if_neg sty, if_neg sty, if_neg sty, if_neg sty]
          clear hab
          obtain ⟨offs, h1, h2, h3⟩ := ih (x1 + sx) y1 (err - dy) (a - 1) b
            (P - dy) Q (by omega) (by omega) (by omega) (by omega) hxa' hyb
            hx1' hy1 hPs hQ (by omega) (by omega) (by omega) (by omega)
          refine ⟨(dx - a, dy - b) :: offs, ?_, ?_,
            offsets_cons_bounds dx dy a b offs ⟨ha0, ha1⟩ ⟨hb0, hb1⟩ h3⟩
          · rw [h1]; rfl
          · rw [h2, List.map_cons, hhead]; rfl
      · rw [if_neg stx, if_neg stx, if_neg stx, if_neg stx]
        have sty := line_some_step dx dy a b err hdx0 hdy0 ha1 hb1 hab stx
        have hb := line_y_needs dx dy a b P Q err hdx0 hdy0 hb0 hP hQ herr hab sty
        obtain ⟨wy, hyb', hy1'⟩ := heads_to_step sy y1 y2 b hyb hb hy1 hy2
        have we3 : wrap32 (err + dx) = err + dx := wrap32_eq_self (by omega) (by omega)
        rw [if_pos sty, if_pos sty, if_pos sty, if_pos sty, wy, we3]
        clear wy we3 hab
        obtain ⟨offs, h1, h2, h3⟩ := ih x1 (y1 + sy) (err + dx) a (b - 1)
          P (Q - dx) (by omega) (by omega) (by omega) (by omega) hxa hyb'
          hx1 hy1' hP hQs (by omega) (by omega) (by omega) (by omega)
        refine ⟨(dx - a, dy - b) :: offs, ?_, ?_,
          offsets_cons_bounds dx dy a b offs ⟨ha0, ha1⟩ ⟨hb0, hb1⟩ h3⟩
        · rw [h1]; rfl
        · rw [h2, List.map_cons, hhead]; rfl

/-- The points of the line from `(x1, y1)` to `(x1 + a, y1 + b)` in the range without
overflow: the offsets of the loop over unbounded integers for `|a|` and `|b|`, laid off
from the start in the directions of `a` and `b`. -/
theorem line_points_signed (fuel : Nat) (x1 y1 a b : Int)
    (hx1 : -2147483648 ≤ x1 ∧ x1 < 2147483648) (hy1 : -2147483648 ≤ y1 ∧ y1 < 2147483648)
    (hx2 : -2147483648 ≤ x1 + a ∧ x1 + a < 2147483648)
    (hy2 : -2147483648 ≤ y1 + b ∧ y1 + b < 2147483648)
    (ha : -715827882 ≤ a ∧ a ≤ 715827882) (hb : -715827882 ≤ b ∧ b ≤ 715827882)
    (hfuel : a.natAbs + b.natAbs < fuel) :
    ∃ offs : List (Int × Int),
      line_offsets (a.natAbs : Int) (b.natAbs : Int) fuel (a.natAbs : Int) (b.natAbs : Int)
          ((a.natAbs : Int) - (b.natAbs : Int)) = some offs ∧
      line_points fuel x1 y1 (x1 + a) (y1 + b)
        = some (offs.map (fun p =>
            (x1 + (if 0 < a then 1 else -1) * p.1, y1 + (if 0 < b then 1 else -1) * p.2))) ∧
      ∀ p ∈ offs, (0 ≤ p.1 ∧ p.1 ≤ (a.natAbs : Int)) ∧ (0 ≤ p.2 ∧ p.2 ≤ (b.natAbs : Int)) := by
  have eax : x1 + a - x1 = a := by ring
  have eby : y1 + b - y1 = b := by ring
  obtain ⟨ex, hsx⟩ := c_abs_diff x1 (x1 + a) (by rw [eax]; exact ha)
  obtain ⟨ey, hsy⟩ := c_abs_diff y1 (y1 + b) (by rw [eby]; exact hb)
  rw [eax] at ex hsx
  rw [eby] at ey hsy
  have hsxa : (if x1 < x1 + a then (1 : Int) else -1) = (if 0 < a then 1 else -1) := by
    by_cases h : 0 < a
    · rw [if_pos h, if_pos (by omega)]
    · rw [if_neg h, if_neg (by omega)]
  have hsyb : (if y1 < y1 + b then (1 : Int) else -1) = (if 0 < b then 1 else -1) := by
    by_cases h : 0 < b
    · rw [if_pos h, if_pos (by omega)]
    · rw [if_neg h, if_neg (by omega)]
  rw [hsxa] at hsx
  rw [hsyb] at hsy
  have hA : (0 : Int) ≤ (a.natAbs : Int) ∧ (a.natAbs : Int) ≤ 715827882 := by omega
  have hB : (0 : Int) ≤ (b.natAbs : Int) ∧ (b.natAbs : Int) ≤ 715827882 := by omega
  have hlp : line_points fuel x1 y1 (x1 + a) (y1 + b)
      = draw_line_points (a.natAbs : Int) (b.natAbs : Int)
          (if 0 < a then 1 else -1) (if 0 < b then 1 else -1) (x1 + a) (y1 + b) fuel x1 y1
          ((a.natAbs : Int) - (b.natAbs : Int)) := by
    unfold line_points
    dsimp only
    rw [eax, eby, ex, ey, hsxa, hsyb, wrap32_eq_self (by omega) (by omega)]
  obtain ⟨offs, h1, h2, h3⟩ := draw_line_points_offsets
    (a.natAbs : Int) (b.natAbs : Int)
    (if 0 < a then 1 else -1) (if 0 < b then 1 else -1) (x1 + a) (y1 + b) hA hB hx2 hy2 fuel
    x1 y1 ((a.natAbs : Int) - (b.natAbs : Int))
    (a.natAbs : Int) (b.natAbs : Int)
    ((a.natAbs : Int) * (b.natAbs : Int)) ((b.natAbs : Int) * (a.natAbs : Int))
    hA.1 (le_refl _) hB.1 (le_refl _) hsx hsy hx1 hy1 rfl rfl (by ring) (by omega) (by omega)
    (by omega)
  refine ⟨offs, h1, ?_, h3⟩
  rw [hlp, h2]
  congr 1
  apply List.map_congr_left
  intro p _
  have e1 : x1 + a - (if 0 < a then 1 else -1) * ((a.natAbs : Int) - p.1)
      = x1 + (if 0 < a then 1 else -1) * p.1 := by
    by_cases h : 0 < a
    · rw [if_pos h]; omega
    · rw [if_neg h]; omega
  have e2 : y1 + b - (if 0 < b then 1 else -1) * ((b.natAbs : Int) - p.2)
      = y1 + (if 0 < b then 1 else -1) * p.2 := by
    by_cases h : 0 < b
    · rw [if_pos h]; omega
    · rw [if_neg h]; omega
  rw [e1, e2]

theorem sign_mirror (a u v : Int) (hu : 0 ≤ u ∧ u ≤ (a.natAbs : Int)) :
    v + (if 0 < -a then 1 else -1) * u = v - (v + (if 0 < a then 1 else -1) * u - v) := by
  by_cases h1 : 0 < a
  · rw [if_pos h1, if_neg (by omega)]; omega
  · by_cases h2 : 0 < -a
    · rw [if_neg h1, if_pos h2]; omega
    · rw [if_neg h1, if_neg h2]; omega

/-- C29 (amended): for a start point `(x1, y1)` and offsets `a`, `b` of magnitude at most
715827882, with the end points `(x1 + a, y1 + b)`, `(x1 - a, y1 + b)`, `(x1 + a, y1 - b)` and
`(x1 + b, y1 + a)` all `int` points, `weact_draw_line` returns for each of the four lines,
and the points it hands to `weact_draw_pixel` for the line to `(a, b)` are carried, in call
order, onto those for the line to `(-a, b)` by negating the x offset, onto those for
`(a, -b)` by negating the y offset, and onto those for `(b, a)` by exchanging the offsets.
The frame then holds the points that lie inside the display. -/
theorem draw_line_symmetric (d : weact_display_t) (c : Nat) (fuel : Nat) (x1 y1 a b : Int)
    (hx1 : -2147483648 ≤ x1 ∧ x1 < 2147483648) (hy1 : -2147483648 ≤ y1 ∧ y1 < 2147483648)
    (ha : -715827882 ≤ a ∧ a ≤ 715827882) (hb : -715827882 ≤ b ∧ b ≤ 715827882)
    (hxa : -2147483648 ≤ x1 + a ∧ x1 + a < 2147483648)
    (hxm : -2147483648 ≤ x1 - a ∧ x1 - a < 2147483648)
    (hyb : -2147483648 ≤ y1 + b ∧ y1 + b < 2147483648)
    (hym : -2147483648 ≤ y1 - b ∧ y1 - b < 2147483648)
    (hxb : -2147483648 ≤ x1 + b ∧ x1 + b < 2147483648)
    (hya : -2147483648 ≤ y1 + a ∧ y1 + a < 2147483648)
    (hfuel : a.natAbs + b.natAbs < fuel) :
    ∃ ps : List (Int × Int),
      line_points fuel x1 y1 (x1 + a) (y1 + b) = some ps ∧
      line_points fuel x1 y1 (x1 - a) (y1 + b)
        = some (ps.map (fun p => (x1 - (p.1 - x1), p.2))) ∧
      line_points fuel x1 y1 (x1 + a) (y1 - b)
        = some (ps.map (fun p => (p.1, y1 - (p.2 - y1)))) ∧
      line_points fuel x1 y1 (x1 + b) (y1 + a)
        = some (ps.map (fun p => (x1 + (p.2 - y1), y1 + (p.1 - x1)))) ∧
      weact_draw_line fuel d x1 y1 (x1 + a) (y1 + b) c = some (draw_points d ps c) ∧
      weact_draw_line fuel d x1 y1 (x1 - a) (y1 + b) c
        = some (draw_points d (ps.map (fun p => (x1 - (p.1 - x1), p.2))) c) ∧
      weact_draw_line fuel d x1 y1 (x1 + a) (y1 - b) c
        = some (draw_points d (ps.map (fun p => (p.1, y1 - (p.2 - y1)))) c) ∧
      weact_draw_line fuel d x1 y1 (x1 + b) (y1 + a) c
        = some (draw_points d (ps.map (fun p => (x1 + (p.2 - y1), y1 + (p.1 - x1)))) c) := by
  obtain ⟨o0, h0a, h0b, h0c⟩ := line_points_signed fuel x1 y1 a b hx1 hy1 hxa hyb ha hb hfuel
  have hna : (-a).natAbs = a.natAbs := Int.natAbs_neg a
  have hnb : (-b).natAbs = b.natAbs := Int.natAbs_neg b
  obtain ⟨o1, h1a, h1b, _⟩ := line_points_signed fuel x1 y1 (-a) b hx1 hy1
    (by rw [← sub_eq_add_neg]; exact hxm) hyb (by omega) hb (by rw [hna]; exact hfuel)
  obtain ⟨o2, h2a, h2b, _⟩ := line_points_signed fuel x1 y1 a (-b) hx1 hy1 hxa
    (by rw [← sub_eq_add_neg]; exact hym) ha (by omega) (by rw [hnb]; exact hfuel)
  obtain ⟨o3, h3a, h3b, _⟩ := line_points_signed fuel x1 y1 b a hx1 hy1 hxb hya hb ha
    (by omega)
  rw [hna, h0a] at h1a
  rw [hnb, h0a] at h2a
  have hswap := line_offsets_swap (a.natAbs : Int) (b.natAbs : Int) fuel (a.natAbs : Int)
    (b.natAbs : Int) ((a.natAbs : Int) - (b.natAbs : Int))
  rw [neg_sub, h3a, h0a] at hswap
  have e1 : o1 = o0 := (Option.some.inj h1a).symm
  have e2 : o2 = o0 := (Option.some.inj h2a).symm
  have e3 : o3 = o0.map Prod.swap := Option.some.inj hswap
  rw [← sub_eq_add_neg, e1] at h1b
  rw [← sub_eq_add_neg, e2] at h2b
  rw [e3] at h3b
  have m1 : line_points fuel x1 y1 (x1 - a) (y1 + b)
      = some ((o0.map (fun p =>
          (x1 + (if 0 < a then 1 else -1) * p.1, y1 + (if 0 < b then 1 else -1) * p.2))).map
          (fun p => (x1 - (p.1 - x1), p.2))) := by
    rw [h1b, List.map_map]
    congr 1
    apply List.map_congr_left
    intro p hp
    show (x1 + (if 0 < -a then 1 else -1) * p.1, y1 + (if 0 < b then 1 else -1) * p.2)
      = (x1 - (x1 + (if 0 < a then 1 else -1) * p.1 - x1),
          y1 + (if 0 < b then 1 else -1) * p.2)
    rw [sign_mirror a p.1 x1 (h0c p hp).1]
  have m2 : line_points fuel x1 y1 (x1 + a) (y1 - b)
      = some ((o0.map (fun p =>
          (x1 + (if 0 < a then 1 else -1) * p.1, y1 + (if 0 < b then 1 else -1) * p.2))).map
          (fun p => (p.1, y1 - (p.2 - y1)))) := by
    rw [h2b, List.map_map]
    congr 1
    apply List.map_congr_left
    intro p hp
    show (x1 + (if 0 < a then 1 else -1) * p.1, y1 + (if 0 < -b then 1 else -1) * p.2)
      = (x1 + (if 0 < a then 1 else -1) * p.1,
          y1 - (y1 + (if 0 < b then 1 else -1) * p.2 - y1))
    rw [sign_mirror b p.2 y1 (h0c p hp).2]
  have m3 : line_points fuel x1 y1 (x1 + b) (y1 + a)
      = some ((o0.map (fun p =>
          (x1 + (if 0 < a then 1 else -1) * p.1, y1 + (if 0 < b then 1 else -1) * p.2))).map
          (fun p => (x1 + (p.2 - y1), y1 + (p.1 - x1)))) := by
    rw [h3b, List.map_map, List.map_map]
    congr 1
    apply List.map_congr_left
    intro p _
    show (x1 + (if 0 < b then 1 else -1) * p.2, y1 + (if 0 < a then 1 else -1) * p.1)
      = (x1 + (y1 + (if 0 < b then 1 else -1) * p.2 - y1),
          y1 + (x1 + (if 0 < a then 1 else -1) * p.1 - x1))
    congr 1 <;> ring
  refine ⟨_, h0b, m1, m2, m3, ?_, ?_, ?_, ?_⟩
  · rw [draw_line_eq_points, h0b]; rfl
  · rw [draw_line_eq_points, m1]; rfl
  · rw [draw_line_eq_points, m2]; rfl
  · rw [draw_line_eq_points, m3]; rfl

theorem draw_line_symmetric_witness :
    ((-2147483648 ≤ (20 : Int) ∧ (20 : Int) < 2147483648) ∧
      (-2147483648 ≤ (10 : Int) ∧ (10 : Int) < 2147483648) ∧
      (-715827882 ≤ (5 : Int) ∧ (5 : Int) ≤ 715827882) ∧
      (-715827882 ≤ (3 : Int) ∧ (3 : Int) ≤ 715827882) ∧
      (-2147483648 ≤ (20 : Int) + (5 : Int) ∧ (20 : Int) + (5 : Int) < 2147483648) ∧
      (-2147483648 ≤ (20 : Int) - (5 : Int) ∧ (20 : Int) - (5 : Int) < 2147483648) ∧
      (-2147483648 ≤ (10 : Int) + (3 : Int) ∧ (10 : Int) + (3 : Int) < 2147483648) ∧
      (-2147483648 ≤ (10 : Int) - (3 : Int) ∧ (10 : Int) - (3 : Int) < 2147483648) ∧
      (-2147483648 ≤ (20 : Int) + (3 : Int) ∧ (20 : Int) + (3 : Int) < 2147483648) ∧
      (-2147483648 ≤ (10 : Int) + (5 : Int) ∧ (10 : Int) + (5 : Int) < 2147483648) ∧
      ((5 : Int).natAbs + (3 : Int).natAbs < 9)) ∧
    (∃ ps : List (Int × Int),
      line_points 9 (20 : Int) (10 : Int) ((20 : Int) + (5 : Int)) ((10 : Int) + (3 : Int)) = some ps ∧
      line_points 9 (20 : Int) (10 : Int) ((20 : Int) - (5 : Int)) ((10 : Int) + (3 : Int))
        = some (ps.map (fun p => ((20 : Int) - (p.1 - (20 : Int)), p.2))) ∧
      line_points 9 (20 : Int) (10 : Int) ((20 : Int) + (5 : Int)) ((10 : Int) - (3 : Int))
        = some (ps.map (fun p => (p.1, (10 : Int) - (p.2 - (10 : Int))))) ∧
      line_points 9 (20 : Int) (10 : Int) ((20 : Int) + (3 : Int)) ((10 : Int) + (5 : Int))
        = some (ps.map (fun p => ((20 : Int) + (p.2 - (10 : Int)), (10 : Int) + (p.1 - (20 : Int))))) ∧
      weact_draw_line 9 fresh_display (20 : Int) (10 : Int) ((20 : Int) + (5 : Int)) ((10 : Int) + (3 : Int)) 0xFFFF = some (draw_points fresh_display ps 0xFFFF) ∧
      weact_draw_line 9 fresh_display (20 : Int) (10 : Int) ((20 : Int) - (5 : Int)) ((10 : Int) + (3 : Int)) 0xFFFF
        = some (draw_points fresh_display (ps.map (fun p => ((20 : Int) - (p.1 - (20 : Int)), p.2))) 0xFFFF) ∧
      weact_draw_line 9 fresh_display (20 : Int) (10 : Int) ((20 : Int) + (5 : Int)) ((10 : Int) - (3 : Int)) 0xFFFF
        = some (draw_points fresh_display (ps.map (fun p => (p.1, (10 : Int) - (p.2 - (10 : Int))))) 0xFFFF) ∧
      weact_draw_line 9 fresh_display (20 : Int) (10 : Int) ((20 : Int) + (3 : Int)) ((10 : Int) + (5 : Int)) 0xFFFF
        = some (draw_points fresh_display (ps.map (fun p => ((20 : Int) + (p.2 - (10 : Int)), (10 : Int) + (p.1 - (20 : Int))))) 0xFFFF)) :=
  ⟨⟨by decide, by decide, by decide, by decide, by decide, by decide, by decide, by decide, by decide, by decide, by decide⟩,
    draw_line_symmetric fresh_display 0xFFFF 9 20 10 5 3 (by decide) (by decide) (by decide) (by decide) (by decide) (by decide) (by decide) (by decide) (by decide) (by decide) (by decide)⟩

/-- The calls of `render_screen` in scroll mode: the buffer is cleared, the rows of the
window that do not start with NUL are drawn top down, the indicator rectangle is drawn and
the frame is sent. -/
theorem render_screen_scroll (ts : terminal_state_t) (hm : ts.scroll_mode = true)
    (hc : 0 ≤ ts.cursor_y ∧ ts.cursor_y ≤ 99)
    (hn : 1 ≤ ts.term_rows ∧ ts.term_rows ≤ 2147483647)
    (hv : 0 ≤ ts.view_offset ∧ ts.view_offset ≤ ts.cursor_y)
    (hh : 0 ≤ ts.char_height ∧ ts.char_height ≤ 80) :
    window_rows ts
      = (List.range (min ts.term_rows (ts.cursor_y + 1
            - max 0 (ts.cursor_y - ts.term_rows + 1 - ts.view_offset))).toNat).map
          (fun (j : Nat) =>
            (max 0 (ts.cursor_y - ts.term_rows + 1 - ts.view_offset) + (j : Int),
              2 + (j : Int) * ts.char_height)) ∧
    render_screen ts
      = [render_call.clear_buffer 0x0000] ++
        ((List.range (min ts.term_rows (ts.cursor_y + 1
            - max 0 (ts.cursor_y - ts.term_rows + 1 - ts.view_offset))).toNat).map
          (fun (j : Nat) =>
            (max 0 (ts.cursor_y - ts.term_rows + 1 - ts.view_offset) + (j : Int),
              2 + (j : Int) * ts.char_height))).filterMap (fun p =>
            match ts.screen_buffer[p.1.toNat]? with
            | some line =>
              if line.head? ≠ some 0 then some (render_call.text_draw 2 p.2 (c_string line))
              else none
            | none => none) ++
        [render_call.draw_rect (160 - 10) 2 8 6 0x07FF true] ++
        [render_call.update_display] := by
  have hs := scroll_start_line ts hm hc hn hv
  have hrows := window_rows_eq ts _ hs (by omega) hc (by omega) (by omega)
  have hmark : render_marker ts = [render_call.draw_rect (160 - 10) 2 8 6 0x07FF true] := by
    unfold render_marker
    rw [hm]
    rfl
  refine ⟨hrows, ?_⟩
  unfold render_screen
  rw [hrows, hmark]

/-- C19: a Page-Up read (`ESC [ 5 ~`) with cursor row `c >= 0` and `n >= 1` terminal rows
leaves the engine in SCROLLBACK, renders one frame and sends nothing to the child; received
in RUNNING it sets `view_offset = min(n, c)`, received in SCROLLBACK (with
`0 <= view_offset` and `view_offset + n` an `int`) it sets
`view_offset = min(view_offset + n, c)`; the window rendered afterwards starts at buffer row
`s = max(0, c - n + 1 - view_offset)`.  For `c <= 99` and a character height in `0 .. 80`
the frame rendered is: clear, then for the buffer rows `s + j`, `j < min(n, c + 1 - s)`,
that do not start with NUL the text of the row at `(2, 2 + j * char_height)`, then the
indicator rectangle, then the update.  With `n = 7`, `c = 50` one Page-Up from RUNNING gives
`view_offset = 7`, the window is the rows 37 .. 43, and exactly these rows are drawn. -/
theorem page_up_view_offset (ts : terminal_state_t)
    (hc : 0 ≤ ts.cursor_y ∧ ts.cursor_y ≤ 2147483647)
    (hn : 1 ≤ ts.term_rows ∧ ts.term_rows ≤ 2147483647)
    (hv : ts.scroll_mode = true →
      0 ≤ ts.view_offset ∧ ts.view_offset + ts.term_rows ≤ 2147483647) :
    (terminal_loop_keyboard ts page_up_keys).state.scroll_mode = true ∧
    (ts.scroll_mode = false →
      (terminal_loop_keyboard ts page_up_keys).state.view_offset
        = min ts.term_rows ts.cursor_y) ∧
    (ts.scroll_mode = true →
      (terminal_loop_keyboard ts page_up_keys).state.view_offset
        = min (ts.view_offset + ts.term_rows) ts.cursor_y) ∧
    display_start_line (terminal_loop_keyboard ts page_up_keys).state
      = max 0 (ts.cursor_y - ts.term_rows + 1
          - (terminal_loop_keyboard ts page_up_keys).state.view_offset) ∧
    (terminal_loop_keyboard ts page_up_keys).frames
      = [render_screen (terminal_loop_keyboard ts page_up_keys).state] ∧
    (terminal_loop_keyboard ts page_up_keys).to_child = [] ∧
    (ts.cursor_y ≤ 99 → 0 ≤ ts.char_height ∧ ts.char_height ≤ 80 →
      (terminal_loop_keyboard ts page_up_keys).frames
        = [[render_call.clear_buffer 0x0000] ++
            ((List.range (min ts.term_rows (ts.cursor_y + 1
                - max 0 (ts.cursor_y - ts.term_rows + 1
                  - (terminal_loop_keyboard ts page_up_keys).state.view_offset))).toNat).map
              (fun (j : Nat) =>
                (max 0 (ts.cursor_y - ts.term_rows + 1
                    - (terminal_loop_keyboard ts page_up_keys).state.view_offset) + (j : Int),
                  2 + (j : Int) * ts.char_height))).filterMap (fun p =>
                match ts.screen_buffer[p.1.toNat]? with
                | some line =>
                  if line.head? ≠ some 0 then
                    some (render_call.text_draw 2 p.2 (c_string line))
                  else none
                | none => none) ++
            [render_call.draw_rect (160 - 10) 2 8 6 0x07FF true] ++
            [render_call.update_display]]) ∧
    (ts.scroll_mode = false → ts.term_rows = 7 → ts.cursor_y = 50 →
      (terminal_loop_keyboard ts page_up_keys).state.view_offset = 7 ∧
      (window_rows (terminal_loop_keyboard ts page_up_keys).state).map Prod.fst
        = [37, 38, 39, 40, 41, 42, 43] ∧
      (0 ≤ ts.char_height ∧ ts.char_height ≤ 80 →
        (terminal_loop_keyboard ts page_up_keys).frames
          = [[render_call.clear_buffer 0x0000] ++
              ((List.range 7).map
                (fun (j : Nat) => (37 + (j : Int), 2 + (j : Int) * ts.char_height))).filterMap
                (fun p =>
                  match ts.screen_buffer[p.1.toNat]? with
                  | some line =>
                    if line.head? ≠ some 0 then
                      some (render_call.text_draw 2 p.2 (c_string line))
                    else none
                  | none => none) ++
              [render_call.draw_rect (160 - 10) 2 8 6 0x07FF true] ++
              [render_call.update_display]])) := by
  have hvo : (terminal_loop_keyboard ts page_up_keys).state.view_offset
      = min ((if ts.scroll_mode then ts.view_offset else 0) + ts.term_rows) ts.cursor_y := by
    rw [page_up_state]
    have hw : wrap32 ((if ts.scroll_mode then ts.view_offset else 0) + ts.term_rows)
        = (if ts.scroll_mode then ts.view_offset else 0) + ts.term_rows := by
      apply wrap32_eq_self
      · cases hm : ts.scroll_mode
        · simp; omega
        · have := hv hm; simp; omega
      · cases hm : ts.scroll_mode
        · simp; omega
        · have := hv hm; simp; omega
    simp only [hw]
    split_ifs <;> omega
  have hmode : (terminal_loop_keyboard ts page_up_keys).state.scroll_mode = true := by
    rw [page_up_state]
  have hcy : (terminal_loop_keyboard ts page_up_keys).state.cursor_y = ts.cursor_y := by
    rw [page_up_state]
  have hrows : (terminal_loop_keyboard ts page_up_keys).state.term_rows = ts.term_rows := by
    rw [page_up_state]
  have hrun : ts.scroll_mode = false →
      (terminal_loop_keyboard ts page_up_keys).state.view_offset
        = min ts.term_rows ts.cursor_y := by
    intro hm
    rw [hvo, hm]
    simp
  have hscr : ts.scroll_mode = true →
      (terminal_loop_keyboard ts page_up_keys).state.view_offset
        = min (ts.view_offset + ts.term_rows) ts.cursor_y := by
    intro hm
    rw [hvo, hm]
    simp
  have hbound : 0 ≤ (terminal_loop_keyboard ts page_up_keys).state.view_offset ∧
      (terminal_loop_keyboard ts page_up_keys).state.view_offset ≤ ts.cursor_y := by
    cases hm : ts.scroll_mode
    · rw [hrun hm]; omega
    · have := hv hm
      rw [hscr hm]; omega
  have hch : (terminal_loop_keyboard ts page_up_keys).state.char_height = ts.char_height := by
    rw [page_up_state]
  have hbuf : (terminal_loop_keyboard ts page_up_keys).state.screen_buffer
      = ts.screen_buffer := by
    rw [page_up_state]
  have hframe : ts.cursor_y ≤ 99 → 0 ≤ ts.char_height ∧ ts.char_height ≤ 80 →
      (terminal_loop_keyboard ts page_up_keys).frames
        = [[render_call.clear_buffer 0x0000] ++
            ((List.range (min ts.term_rows (ts.cursor_y + 1
                - max 0 (ts.cursor_y - ts.term_rows + 1
                  - (terminal_loop_keyboard ts page_up_keys).state.view_offset))).toNat).map
              (fun (j : Nat) =>
                (max 0 (ts.cursor_y - ts.term_rows + 1
                    - (terminal_loop_keyboard ts page_up_keys).state.view_offset) + (j : Int),
                  2 + (j : Int) * ts.char_height))).filterMap (fun p =>
                match ts.screen_buffer[p.1.toNat]? with
                | some line =>
                  if line.head? ≠ some 0 then
                    some (render_call.text_draw 2 p.2 (c_string line))
                  else none
                | none => none) ++
            [render_call.draw_rect (160 - 10) 2 8 6 0x07FF true] ++
            [render_call.update_display]] := by
    intro hc99 hh
    have h := (render_screen_scroll (terminal_loop_keyboard ts page_up_keys).state hmode
      (by rw [hcy]; exact ⟨hc.1, hc99⟩) (by rw [hrows]; exact hn)
      (by rw [hcy]; exact hbound) (by rw [hch]; exact hh)).2
    rw [hcy, hrows, hch, hbuf] at h
    rw [(page_up_result ts).1, h]
  refine ⟨hmode, hrun, hscr, ?_, (page_up_result ts).1, (page_up_result ts).2, hframe, ?_⟩
  · unfold display_start_line
    rw [hmode, hcy, hrows]
    simp only [if_true]
    have e1 : wrap32 (ts.cursor_y - ts.term_rows) = ts.cursor_y - ts.term_rows :=
      wrap32_eq_self (by omega) (by omega)
    have e2 : wrap32 (ts.cursor_y - ts.term_rows + 1) = ts.cursor_y - ts.term_rows + 1 :=
      wrap32_eq_self (by omega) (by omega)
    have e3 : wrap32 (ts.cursor_y - ts.term_rows + 1
          - (terminal_loop_keyboard ts page_up_keys).state.view_offset)
        = ts.cursor_y - ts.term_rows + 1
          - (terminal_loop_keyboard ts page_up_keys).state.view_offset :=
      wrap32_eq_self (by omega) (by omega)
    rw [e1, e2, e3]
    split_ifs <;> omega
  · intro hm h7 h50
    have h1 : (terminal_loop_keyboard ts page_up_keys).state.view_offset = 7 := by
      rw [hrun hm, h7, h50]; decide
    refine ⟨h1, window_rows_fst_scenario _ (by rw [hrows, h7]) (by rw [hcy, h50]) hmode h1, ?_⟩
    intro hh
    have h := hframe (by omega) hh
    rw [h1, h7, h50] at h
    have e1 : (min (7 : Int) (50 + 1 - max 0 (50 - 7 + 1 - 7))).toNat = 7 := by decide
    have e2 : max (0 : Int) (50 - 7 + 1 - 7) = 37 := by decide
    rw [e1, e2] at h
    exact h

theorem page_up_view_offset_witness :
    ((0 ≤ scenario_text_terminal.cursor_y ∧ scenario_text_terminal.cursor_y ≤ 2147483647) ∧
      (1 ≤ scenario_text_terminal.term_rows ∧ scenario_text_terminal.term_rows ≤ 2147483647) ∧
      (scenario_text_terminal.scroll_mode = true → 0 ≤ scenario_text_terminal.view_offset ∧ scenario_text_terminal.view_offset + scenario_text_terminal.term_rows ≤ 2147483647)) ∧
    ((terminal_loop_keyboard scenario_text_terminal page_up_keys).state.scroll_mode = true ∧
    (scenario_text_terminal.scroll_mode = false →
      (terminal_loop_keyboard scenario_text_terminal page_up_keys).state.view_offset
        = min scenario_text_terminal.term_rows scenario_text_terminal.cursor_y) ∧
    (scenario_text_terminal.scroll_mode = true →
      (terminal_loop_keyboard scenario_text_terminal page_up_keys).state.view_offset
        = min (scenario_text_terminal.view_offset + scenario_text_terminal.term_rows) scenario_text_terminal.cursor_y) ∧
    display_start_line (terminal_loop_keyboard scenario_text_terminal page_up_keys).state
      = max 0 (scenario_text_terminal.cursor_y - scenario_text_terminal.term_rows + 1
          - (terminal_loop_keyboard scenario_text_terminal page_up_keys).state.view_offset) ∧
    (terminal_loop_keyboard scenario_text_terminal page_up_keys).frames
      = [render_screen (terminal_loop_keyboard scenario_text_terminal page_up_keys).state] ∧
    (terminal_loop_keyboard scenario_text_terminal page_up_keys).to_child = [] ∧
    (scenario_text_terminal.cursor_y ≤ 99 → 0 ≤ scenario_text_terminal.char_height ∧ scenario_text_terminal.char_height ≤ 80 →
      (terminal_loop_keyboard scenario_text_terminal page_up_keys).frames
        = [[render_call.clear_buffer 0x0000] ++
            ((List.range (min scenario_text_terminal.term_rows (scenario_text_terminal.cursor_y + 1
                - max 0 (scenario_text_terminal.cursor_y - scenario_text_terminal.term_rows + 1
                  - (terminal_loop_keyboard scenario_text_terminal page_up_keys).state.view_offset))).toNat).map
              (fun (j : Nat) =>
                (max 0 (scenario_text_terminal.cursor_y - scenario_text_terminal.term_rows + 1
                    - (terminal_loop_keyboard scenario_text_terminal page_up_keys).state.view_offset) + (j : Int),
                  2 + (j : Int) * scenario_text_terminal.char_height))).filterMap (fun p =>
                match scenario_text_terminal.screen_buffer[p.1.toNat]? with
                | some line =>
                  if line.head? ≠ some 0 then
                    some (render_call.text_draw 2 p.2 (c_string line))
                  else none
                | none => none) ++
            [render_call.draw_rect (160 - 10) 2 8 6 0x07FF true] ++
            [render_call.update_display]]) ∧
    (scenario_text_terminal.scroll_mode = false → scenario_text_terminal.term_rows = 7 → scenario_text_terminal.cursor_y = 50 →
      (terminal_loop_keyboard scenario_text_terminal page_up_keys).state.view_offset = 7 ∧
      (window_rows (terminal_loop_keyboard scenario_text_terminal page_up_keys).state).map Prod.fst
        = [37, 38, 39, 40, 41, 42, 43] ∧
      (0 ≤ scenario_text_terminal.char_height ∧ scenario_text_terminal.char_height ≤ 80 →
        (terminal_loop_keyboard scenario_text_terminal page_up_keys).frames
          = [[render_call.clear_buffer 0x0000] ++
              ((List.range 7).map
                (fun (j : Nat) => (37 + (j : Int), 2 + (j : Int) * scenario_text_terminal.char_height))).filterMap
                (fun p =>
                  match scenario_text_terminal.screen_buffer[p.1.toNat]? with
                  | some line =>
                    if line.head? ≠ some 0 then
                      some (render_call.text_draw 2 p.2 (c_string line))
                    else none
                  | none => none) ++
              [render_call.draw_rect (160 - 10) 2 8 6 0x07FF true] ++
              [render_call.update_display]]))) :=
  ⟨⟨by decide, by decide, by decide⟩,
    page_up_view_offset scenario_text_terminal (by decide) (by decide) (by decide)⟩

/-- The frame the Page-Up read renders in the scenario with text: the rows 37 .. 43 are drawn
at the pixel rows 2, 12, .. 62, then the indicator. -/
theorem scenario_text_page_up_frame :
    (terminal_loop_keyboard scenario_text_terminal page_up_keys).frames
      = [[render_call.clear_buffer 0x0000,
          render_call.text_draw 2 2 [76, 51, 55], render_call.text_draw 2 12 [76, 51, 56],
          render_call.text_draw 2 22 [76, 51, 57], render_call.text_draw 2 32 [76, 52, 48],
          render_call.text_draw 2 42 [76, 52, 49], render_call.text_draw 2 52 [76, 52, 50],
          render_call.text_draw 2 62 [76, 52, 51],
          render_call.draw_rect 150 2 8 6 0x07FF true, render_call.update_display]] ∧
    render_screen scrolled_text_scenario
      = [render_call.clear_buffer 0x0000,
          render_call.text_draw 2 2 [76, 51, 55], render_call.text_draw 2 12 [76, 51, 56],
          render_call.text_draw 2 22 [76, 51, 57], render_call.text_draw 2 32 [76, 52, 48],
          render_call.text_draw 2 42 [76, 52, 49], render_call.text_draw 2 52 [76, 52, 50],
          render_call.text_draw 2 62 [76, 52, 51],
          render_call.draw_rect 150 2 8 6 0x07FF true, render_call.update_display] := by
  decide

/-- C24 (amended): in scroll mode, with the cursor on buffer row `c` in `0 .. 99`, `N >= 1`
terminal rows, `0 <= view_offset <= c` and a character height in `0 .. 80`, the frame of
`render_screen` is: clear, then for the buffer rows `s + j`, `j < min(N, c + 1 - s)`, with
`s = max(0, c - N + 1 - view_offset)`, that do not start with NUL the text of the row at
`(2, 2 + j * char_height)`, then a filled 8 x 6 rectangle at `(150, 2)` in place of the
cursor, then the update.  The window so shows the rows `s .. min(s + N - 1, c)`.  Its last
row is `c - view_offset` when `view_offset + N <= c + 1`; when `view_offset + N > c + 1` the
start is clamped to row 0 and the last row is `min(N - 1, c)`. -/
theorem scroll_window (ts : terminal_state_t) (hm : ts.scroll_mode = true)
    (hc : 0 ≤ ts.cursor_y ∧ ts.cursor_y ≤ 99)
    (hn : 1 ≤ ts.term_rows ∧ ts.term_rows ≤ 2147483647)
    (hv : 0 ≤ ts.view_offset ∧ ts.view_offset ≤ ts.cursor_y)
    (hh : 0 ≤ ts.char_height ∧ ts.char_height ≤ 80) :
    render_screen ts
      = [render_call.clear_buffer 0x0000] ++
        ((List.range (min ts.term_rows (ts.cursor_y + 1
            - max 0 (ts.cursor_y - ts.term_rows + 1 - ts.view_offset))).toNat).map
          (fun (j : Nat) =>
            (max 0 (ts.cursor_y - ts.term_rows + 1 - ts.view_offset) + (j : Int),
              2 + (j : Int) * ts.char_height))).filterMap (fun p =>
            match ts.screen_buffer[p.1.toNat]? with
            | some line =>
              if line.head? ≠ some 0 then some (render_call.text_draw 2 p.2 (c_string line))
              else none
            | none => none) ++
        [render_call.draw_rect (160 - 10) 2 8 6 0x07FF true] ++
        [render_call.update_display] ∧
    window_rows ts
      = (List.range (min ts.term_rows (ts.cursor_y + 1
            - max 0 (ts.cursor_y - ts.term_rows + 1 - ts.view_offset))).toNat).map
          (fun (j : Nat) =>
            (max 0 (ts.cursor_y - ts.term_rows + 1 - ts.view_offset) + (j : Int),
              2 + (j : Int) * ts.char_height)) ∧
    (window_rows ts).map Prod.fst
      = int_range (max 0 (ts.cursor_y - ts.term_rows + 1 - ts.view_offset))
          (min (max 0 (ts.cursor_y - ts.term_rows + 1 - ts.view_offset) + ts.term_rows)
            (ts.cursor_y + 1)) ∧
    ((window_rows ts).map Prod.fst).getLast?
      = some (min (max 0 (ts.cursor_y - ts.term_rows + 1 - ts.view_offset) + ts.term_rows - 1)
          ts.cursor_y) ∧
    (ts.view_offset + ts.term_rows ≤ ts.cursor_y + 1 →
      ((window_rows ts).map Prod.fst).getLast? = some (ts.cursor_y - ts.view_offset)) ∧
    (ts.cursor_y + 1 < ts.view_offset + ts.term_rows →
      ((window_rows ts).map Prod.fst).head? = some 0 ∧
      ((window_rows ts).map Prod.fst).getLast? = some (min (ts.term_rows - 1) ts.cursor_y)) ∧
    render_marker ts = [render_call.draw_rect (160 - 10) 2 8 6 0x07FF true] := by
  have hfull := render_screen_scroll ts hm hc hn hv hh
  refine ⟨hfull.2, hfull.1, ?_⟩
  clear hfull
  have hs := scroll_start_line ts hm hc hn hv
  have hfst := window_rows_fst ts _ hs (by omega) hc (by omega)
  obtain ⟨s, hsd⟩ : ∃ s, s = max 0 (ts.cursor_y - ts.term_rows + 1 - ts.view_offset) :=
    ⟨_, rfl⟩
  rw [← hsd] at hfst ⊢
  have hlt : s < min (s + ts.term_rows) (ts.cursor_y + 1) := by omega
  have hlast := int_range_getLast s (min (s + ts.term_rows) (ts.cursor_y + 1)) hlt
  have hhead : (int_range s (min (s + ts.term_rows) (ts.cursor_y + 1))).head? = some s := by
    rw [int_range_cons s _ hlt]
    rfl
  rw [hfst, hlast, hhead]
  refine ⟨rfl, ?_, ?_, ?_, ?_⟩
  · congr 1
    omega
  · intro h
    congr 1
    omega
  · intro h
    constructor
    · congr 1
      omega
    · congr 1
      omega
  · unfold render_marker
    rw [hm]
    rfl

theorem scroll_window_witness :
    ((scrolled_text_scenario.scroll_mode = true) ∧
      (0 ≤ scrolled_text_scenario.cursor_y ∧ scrolled_text_scenario.cursor_y ≤ 99) ∧
      (1 ≤ scrolled_text_scenario.term_rows ∧ scrolled_text_scenario.term_rows ≤ 2147483647) ∧
      (0 ≤ scrolled_text_scenario.view_offset ∧ scrolled_text_scenario.view_offset ≤ scrolled_text_scenario.cursor_y) ∧
      (0 ≤ scrolled_text_scenario.char_height ∧ scrolled_text_scenario.char_height ≤ 80)) ∧
    (render_screen scrolled_text_scenario
      = [render_call.clear_buffer 0x0000] ++
        ((List.range (min scrolled_text_scenario.term_rows (scrolled_text_scenario.cursor_y + 1
            - max 0 (scrolled_text_scenario.cursor_y - scrolled_text_scenario.term_rows + 1 - scrolled_text_scenario.view_offset))).toNat).map
          (fun (j : Nat) =>
            (max 0 (scrolled_text_scenario.cursor_y - scrolled_text_scenario.term_rows + 1 - scrolled_text_scenario.view_offset) + (j : Int),
              2 + (j : Int) * scrolled_text_scenario.char_height))).filterMap (fun p =>
            match scrolled_text_scenario.screen_buffer[p.1.toNat]? with
            | some line =>
              if line.head? ≠ some 0 then some (render_call.text_draw 2 p.2 (c_string line))
              else none
            | none => none) ++
        [render_call.draw_rect (160 - 10) 2 8 6 0x07FF true] ++
        [render_call.update_display] ∧
    window_rows scrolled_text_scenario
      = (List.range (min scrolled_text_scenario.term_rows (scrolled_text_scenario.cursor_y + 1
            - max 0 (scrolled_text_scenario.cursor_y - scrolled_text_scenario.term_rows + 1 - scrolled_text_scenario.view_offset))).toNat).map
          (fun (j : Nat) =>
            (max 0 (scrolled_text_scenario.cursor_y - scrolled_text_scenario.term_rows + 1 - scrolled_text_scenario.view_offset) + (j : Int),
              2 + (j : Int) * scrolled_text_scenario.char_height)) ∧
    (window_rows scrolled_text_scenario).map Prod.fst
      = int_range (max 0 (scrolled_text_scenario.cursor_y - scrolled_text_scenario.term_rows + 1 - scrolled_text_scenario.view_offset))
          (min (max 0 (scrolled_text_scenario.cursor_y - scrolled_text_scenario.term_rows + 1 - scrolled_text_scenario.view_offset) + scrolled_text_scenario.term_rows)
            (scrolled_text_scenario.cursor_y + 1)) ∧
    ((window_rows scrolled_text_scenario).map Prod.fst).getLast?
      = some (min (max 0 (scrolled_text_scenario.cursor_y - scrolled_text_scenario.term_rows + 1 - scrolled_text_scenario.view_offset) + scrolled_text_scenario.term_rows - 1)
          scrolled_text_scenario.cursor_y) ∧
    (scrolled_text_scenario.view_offset + scrolled_text_scenario.term_rows ≤ scrolled_text_scenario.cursor_y + 1 →
      ((window_rows scrolled_text_scenario).map Prod.fst).getLast? = some (scrolled_text_scenario.cursor_y - scrolled_text_scenario.view_offset)) ∧
    (scrolled_text_scenario.cursor_y + 1 < scrolled_text_scenario.view_offset + scrolled_text_scenario.term_rows →
      ((window_rows scrolled_text_scenario).map Prod.fst).head? = some 0 ∧
      ((window_rows scrolled_text_scenario).map Prod.fst).getLast? = some (min (scrolled_text_scenario.term_rows - 1) scrolled_text_scenario.cursor_y)) ∧
    render_marker scrolled_text_scenario = [render_call.draw_rect (160 - 10) 2 8 6 0x07FF true]) :=
  ⟨⟨by decide, by decide, by decide, by decide, by decide⟩,
    scroll_window scrolled_text_scenario (by decide) (by decide) (by decide) (by decide) (by decide)⟩

/-! ## Word wrap -/

theorem is_word_byte_iff (c : Nat) :
    is_word_byte c = true ↔ c ≠ 0 ∧ c ≠ 32 ∧ c ≠ 10 ∧ c ≠ 9 := by
  unfold is_word_byte
  simp [and_assoc]

theorem is_blank_byte_iff (c : Nat) : is_blank_byte c = true ↔ c = 32 ∨ c = 9 := by
  unfold is_blank_byte
  simp

theorem dropWhile_length_le (f : Nat → Bool) (p : List Nat) :
    (p.dropWhile f).length ≤ p.length := by
  induction p with
  | nil => exact le_refl _
  | cons c q ih =>
    rw [List.dropWhile_cons]
    split_ifs
    · exact le_trans ih (Nat.le_succ _)
    · exact le_refl _

theorem headD_dropWhile (f : Nat → Bool) (h0 : f 0 = false) (p : List Nat) :
    f ((p.dropWhile f).headD 0) = false := by
  induction p with
  | nil => exact h0
  | cons c q ih =>
    rw [List.dropWhile_cons]
    by_cases hc : f c = true
    · rw [if_pos hc]
      exact ih
    · rw [if_neg hc]
      simpa using hc

theorem takeWhile_word_bytes (p : List Nat) :
    ∀ c ∈ p.takeWhile is_word_byte, is_word_byte c = true :=
  fun _ hc => List.mem_takeWhile_imp hc

/-- Each round moves the read position forward. -/
theorem next_word_start_lt (p : List Nat) (hp : p.headD 0 ≠ 0) :
    (next_word_start p).length < p.length := by
  cases p with
  | nil => exact absurd rfl hp
  | cons c q =>
    have hc : c ≠ 0 := hp
    unfold next_word_start
    dsimp only
    by_cases hw : is_word_byte c = true
    · rw [List.dropWhile_cons, if_pos hw]
      have h1 := dropWhile_length_le is_word_byte q
      have h2 := dropWhile_length_le is_blank_byte (q.dropWhile is_word_byte)
      have h3 : (q.dropWhile is_word_byte).tail.length ≤ (q.dropWhile is_word_byte).length := by
        rw [List.length_tail]
        omega
      rw [List.length_cons]
      split_ifs <;> omega
    · rw [List.dropWhile_cons, if_neg hw]
      by_cases h10 : c = 10
      · rw [if_pos (by simpa using h10)]
        simp
      · rw [if_neg (by simpa using h10)]
        have hb : is_blank_byte c = true := by
          rw [is_blank_byte_iff]
          have := (is_word_byte_iff c).not.mp hw
          by_contra hcon
          push_neg at hcon
          exact this ⟨hc, hcon.1, h10, hcon.2⟩
        rw [List.dropWhile_cons, if_pos hb, List.length_cons]
        have := dropWhile_length_le is_blank_byte q
        omega

/-- More than `p.length` rounds are never needed. -/
theorem wrap_loop_fuel (measure : List Nat → Option Int)
    (line_height x y max_width max_height : Int) :
    ∀ (f1 f2 : Nat) (p : List Nat) (s : wrap_state), p.length < f1 → p.length < f2 →
      wrap_loop measure line_height x y max_width max_height f1 p s
        = wrap_loop measure line_height x y max_width max_height f2 p s := by
  intro f1
  induction f1 with
  | zero => intro f2 p s h1 _; omega
  | succ f1 ih =>
    intro f2 p s h1 h2
    cases f2 with
    | zero => omega
    | succ f2 =>
      unfold wrap_loop
      by_cases hp : p.headD 0 = 0
      · rw [if_pos hp, if_pos hp]
      · rw [if_neg hp, if_neg hp]
        have hlt := next_word_start_lt p hp
        cases place_word measure line_height x y max_width max_height s
            (p.takeWhile is_word_byte) with
        | overrun => rfl
        | unmeasured => rfl
        | stops s1 => rfl
        | continues s1 =>
          exact ih f2 _ _ (by omega) (by omega)

theorem lines_satisfy_draw (Q : List Nat → Prop) (x cy cy1 : Int) (s : wrap_state)
    (l : List Nat) (hs : lines_satisfy Q x s) (hne : s.line ≠ []) (hl : l = [] ∨ Q l) :
    lines_satisfy Q x
      { line := l, current_y := cy1, drawn := s.drawn ++ [(x, cy, s.line)] } := by
  refine ⟨hl, ?_⟩
  intro d hd
  rw [List.mem_append, List.mem_singleton] at hd
  rcases hd with hd | hd
  · exact hs.2 d hd
  · subst hd
    exact ⟨rfl, hs.1.resolve_left hne⟩

/-- The end of a round keeps the invariant of the loop. -/
theorem end_of_round_inv (Q : List Nat → Prop) (line_height x : Int) (p : List Nat)
    (s1 : wrap_state) (hs : lines_satisfy Q x s1) :
    lines_satisfy Q x (end_of_round line_height x p s1) := by
  unfold end_of_round
  by_cases h10 : (p.dropWhile is_word_byte).headD 0 = 10
  · rw [if_pos h10]
    unfold newline_break
    by_cases hl : s1.line.length > 0
    · rw [if_pos hl]
      exact lines_satisfy_draw Q x s1.current_y _ s1 [] hs (List.ne_nil_of_length_pos hl)
        (Or.inl rfl)
    · rw [if_neg hl]
      exact hs
  · rw [if_neg h10]
    exact hs

theorem take_word_bytes (w : List Nat) (n : Nat) (hw : ∀ c ∈ w, is_word_byte c = true) :
    ∀ c ∈ w.take n, is_word_byte c = true :=
  fun c hc => hw c (List.mem_of_mem_take hc)

theorem take_ne_nil (l : List Nat) (hl : l ≠ []) : l.take 511 ≠ [] := by
  cases l with
  | nil => exact absurd rfl hl
  | cons a l => simp

/-- One width test keeps the invariant of the loop, whether it stops or continues: the
line it leaves is a word, cut to 511 bytes, or a line whose width was measured and found
within `max_width`. -/
theorem place_word_inv (measure : List Nat → Option Int)
    (line_height x y max_width max_height : Int) (Q : List Nat → Prop)
    (hQ1 : ∀ w : List Nat, w ≠ [] → (∀ c ∈ w, is_word_byte c = true) → Q (w.take 511))
    (hQ2 : ∀ (l w : List Nat) (tw : Int), Q l → l ≠ [] → (∀ c ∈ w, is_word_byte c = true) →
      measure ((l ++ 32 :: w).take 511) = some tw → tw ≤ max_width →
      Q ((l ++ 32 :: w).take 511))
    (s : wrap_state) (word : List Nat) (hword : ∀ c ∈ word, is_word_byte c = true)
    (hs : lines_satisfy Q x s) (s1 : wrap_state)
    (h : place_word measure line_height x y max_width max_height s word
          = word_outcome.continues s1 ∨
        place_word measure line_height x y max_width max_height s word
          = word_outcome.stops s1) :
    lines_satisfy Q x s1 := by
  unfold place_word at h
  dsimp only at h
  cases hm : measure ((s.line ++ (if s.line.length > 0 then [32] else []) ++ word).take 511) with
  | none =>
    rw [hm] at h
    rcases h with h | h <;> exact absurd h (by simp)
  | some tw =>
    rw [hm] at h
    dsimp only at h
    have hwq : word = [] ∨ Q word → word.length ≤ 511 → word = [] ∨ Q word := fun a _ => a
    by_cases hl : s.line.length > 0
    · have hne : s.line ≠ [] := List.ne_nil_of_length_pos hl
      have hcat : s.line ++ (if s.line.length > 0 then [32] else []) ++ word
          = s.line ++ 32 :: word := by
        rw [if_pos hl, List.append_assoc, List.singleton_append]
      rw [hcat] at h hm
      by_cases hcond : tw > max_width ∧ s.line.length > 0
      · rw [if_pos hcond] at h
        by_cases hh : wrap32 (wrap32 (s.current_y + line_height) + line_height)
            > wrap32 (y + max_height)
        · rw [if_pos hh] at h
          rcases h with h | h
          · exact absurd h (by simp)
          · rw [← word_outcome.stops.inj h]
            exact lines_satisfy_draw Q x s.current_y _ s s.line hs hne hs.1
        · rw [if_neg hh] at h
          by_cases hov : word.length > 511
          · rw [if_pos hov] at h
            rcases h with h | h <;> exact absurd h (by simp)
          · rw [if_neg hov] at h
            rcases h with h | h
            · rw [← word_outcome.continues.inj h]
              refine lines_satisfy_draw Q x s.current_y _ s word hs hne ?_
              by_cases hw0 : word = []
              · exact Or.inl hw0
              · have := hQ1 word hw0 hword
                rw [List.take_of_length_le (by omega)] at this
                exact Or.inr this
            · exact absurd h (by simp)
      · rw [if_neg hcond] at h
        have htw : tw ≤ max_width := by
          by_contra hcon
          exact hcond ⟨by omega, hl⟩
        rcases h with h | h
        · rw [← word_outcome.continues.inj h]
          exact ⟨Or.inr (hQ2 s.line word tw (hs.1.resolve_left hne) hne hword hm htw), hs.2⟩
        · exact absurd h (by simp)
    · have hnil : s.line = [] := List.eq_nil_of_length_eq_zero (by omega)
      have hcat : s.line ++ (if s.line.length > 0 then [32] else []) ++ word = word := by
        rw [if_neg hl, hnil, List.nil_append, List.nil_append]
      rw [hcat, if_neg (fun hc => hl hc.2)] at h
      rcases h with h | h
      · rw [← word_outcome.continues.inj h]
        refine ⟨?_, hs.2⟩
        by_cases hw0 : word = []
        · left
          show word.take 511 = []
          rw [hw0]
          rfl
        · exact Or.inr (hQ1 word hw0 hword)
      · exact absurd h (by simp)

theorem draw_last_line_satisfy (Q : List Nat → Prop) (x : Int) (s : wrap_state)
    (hs : lines_satisfy Q x s) : ∀ d ∈ draw_last_line x s, d.1 = x ∧ Q d.2.2 := by
  unfold draw_last_line
  by_cases hl : s.line.length > 0
  · rw [if_pos hl]
    intro d hd
    rw [List.mem_append, List.mem_singleton] at hd
    rcases hd with hd | hd
    · exact hs.2 d hd
    · subst hd
      exact ⟨rfl, hs.1.resolve_left (List.ne_nil_of_length_pos hl)⟩
  · rw [if_neg hl]
    exact hs.2

/-- Every line the loop draws satisfies `Q`, for every text and every measure, whenever the
loop returns its calls. -/
theorem wrap_loop_inv (measure : List Nat → Option Int)
    (line_height x y max_width max_height : Int) (Q : List Nat → Prop)
    (hQ1 : ∀ w : List Nat, w ≠ [] → (∀ c ∈ w, is_word_byte c = true) → Q (w.take 511))
    (hQ2 : ∀ (l w : List Nat) (tw : Int), Q l → l ≠ [] → (∀ c ∈ w, is_word_byte c = true) →
      measure ((l ++ 32 :: w).take 511) = some tw → tw ≤ max_width →
      Q ((l ++ 32 :: w).take 511)) :
    ∀ (fuel : Nat) (p : List Nat) (s : wrap_state) (calls : List (Int × Int × List Nat)),
      lines_satisfy Q x s →
      wrap_loop measure line_height x y max_width max_height fuel p s
        = wrap_result.drawn calls →
      ∀ d ∈ calls, d.1 = x ∧ Q d.2.2 := by
  intro fuel
  induction fuel with
  | zero =>
    intro p s calls _ h
    exact absurd h (by simp [wrap_loop])
  | succ fuel ih =>
    intro p s calls hs h
    unfold wrap_loop at h
    by_cases hp : p.headD 0 = 0
    · rw [if_pos hp] at h
      rw [← wrap_result.drawn.inj h]
      exact draw_last_line_satisfy Q x s hs
    · rw [if_neg hp] at h
      have hinv := place_word_inv measure line_height x y max_width max_height Q hQ1 hQ2 s
        (p.takeWhile is_word_byte) (takeWhile_word_bytes p) hs
      cases hpw : place_word measure line_height x y max_width max_height s
          (p.takeWhile is_word_byte) with
      | overrun =>
        rw [hpw] at h
        exact absurd h (by simp)
      | unmeasured =>
        rw [hpw] at h
        exact absurd h (by simp)
      | stops s1 =>
        rw [hpw] at h
        rw [← wrap_result.drawn.inj h]
        exact draw_last_line_satisfy Q x s1 (hinv s1 (Or.inr hpw))
      | continues s1 =>
        rw [hpw] at h
        exact ih _ _ calls
          (end_of_round_inv Q line_height x p s1 (hinv s1 (Or.inl hpw))) h

theorem words_fit_head (p : List Nat) (h : words_fit p) :
    (p.takeWhile is_word_byte).length ≤ 511 :=
  h p ((List.mem_tails _ _).mpr (List.suffix_refl p))

theorem next_word_start_suffix (p : List Nat) : next_word_start p <:+ p := by
  unfold next_word_start
  dsimp only
  have h1 : p.dropWhile is_word_byte <:+ p := List.dropWhile_suffix _
  split_ifs
  · exact (List.tail_suffix _).trans h1
  · exact (List.dropWhile_suffix _).trans h1

theorem words_fit_next (p : List Nat) (h : words_fit p) : words_fit (next_word_start p) := by
  intro q hq
  exact h q ((List.mem_tails _ _).mpr
    (((List.mem_tails _ _).mp hq).trans (next_word_start_suffix p)))

theorem place_word_total (measure : List Nat → Option Int)
    (line_height x y max_width max_height : Int)
    (hm : ∀ l : List Nat, ∃ tw, measure l = some tw) (s : wrap_state) (word : List Nat)
    (hw : word.length ≤ 511) :
    place_word measure line_height x y max_width max_height s word ≠ word_outcome.overrun ∧
    place_word measure line_height x y max_width max_height s word
      ≠ word_outcome.unmeasured := by
  obtain ⟨tw, htw⟩ := hm ((s.line ++ (if s.line.length > 0 then [32] else []) ++ word).take 511)
  unfold place_word
  dsimp only
  rw [htw]
  dsimp only
  by_cases hcond : tw > max_width ∧ s.line.length > 0
  · rw [if_pos hcond]
    by_cases hh : wrap32 (wrap32 (s.current_y + line_height) + line_height)
        > wrap32 (y + max_height)
    · rw [if_pos hh]
      exact ⟨by simp, by simp⟩
    · rw [if_neg hh, if_neg (by omega)]
      exact ⟨by simp, by simp⟩
  · rw [if_neg hcond]
    exact ⟨by simp, by simp⟩

/-- When every width is determined and every word fits the line buffer, the loop returns
the list of its calls. -/
theorem wrap_loop_returns (measure : List Nat → Option Int)
    (line_height x y max_width max_height : Int)
    (hm : ∀ l : List Nat, ∃ tw, measure l = some tw) :
    ∀ (fuel : Nat) (p : List Nat) (s : wrap_state), p.length < fuel → words_fit p →
      ∃ calls, wrap_loop measure line_height x y max_width max_height fuel p s
        = wrap_result.drawn calls := by
  intro fuel
  induction fuel with
  | zero => intro p s h; omega
  | succ fuel ih =>
    intro p s hf hw
    unfold wrap_loop
    by_cases hp : p.headD 0 = 0
    · rw [if_pos hp]
      exact ⟨_, rfl⟩
    · rw [if_neg hp]
      have hlt := next_word_start_lt p hp
      have hnext := words_fit_next p hw
      have htot := place_word_total measure line_height x y max_width max_height hm s
        (p.takeWhile is_word_byte) (words_fit_head p hw)
      cases hpw : place_word measure line_height x y max_width max_height s
          (p.takeWhile is_word_byte) with
      | overrun => exact absurd hpw htot.1
      | unmeasured => exact absurd hpw htot.2
      | stops s1 => exact ⟨_, rfl⟩
      | continues s1 => exact ih _ _ (by omega) hnext

theorem utf8_decode_rest_le (p : List Nat) : (utf8_decode p).2.length ≤ p.tail.length := by
  have h1 : p.tail.tail.length ≤ p.tail.length := by
    rw [List.length_tail]
    omega
  have h2 : p.tail.tail.tail.length ≤ p.tail.tail.length := by
    rw [List.length_tail]
    omega
  have h3 : p.tail.tail.tail.tail.length ≤ p.tail.tail.tail.length := by
    rw [List.length_tail]
    omega
  unfold utf8_decode
  dsimp only
  split_ifs <;> dsimp only <;> omega

/-- More than `p.length` rounds are never needed to measure a text. -/
theorem get_width_loop_fuel (face : ft_face) :
    ∀ (f1 f2 : Nat) (p : List Nat) (width : Int), p.length < f1 → p.length < f2 →
      get_width_loop face f1 p width = get_width_loop face f2 p width := by
  intro f1
  induction f1 with
  | zero => intro f2 p width h1 _; omega
  | succ f1 ih =>
    intro f2 p width h1 h2
    cases f2 with
    | zero => omega
    | succ f2 =>
      unfold get_width_loop
      by_cases hp : p.headD 0 = 0
      · rw [if_pos hp, if_pos hp]
      · rw [if_neg hp, if_neg hp]
        by_cases hcut : (c_string p).length < utf8_sequence_length (p.headD 0)
        · rw [if_pos hcut, if_pos hcut]
        · rw [if_neg hcut, if_neg hcut]
          have hne : p ≠ [] := fun h => hp (by rw [h]; rfl)
          have hlt : (utf8_decode p).2.length < p.length := by
            have := utf8_decode_rest_le p
            have : p.tail.length < p.length := by
              rw [List.length_tail]
              have := List.length_pos.mpr hne
              omega
            omega
          dsimp only
          by_cases h10 : (utf8_decode p).1 = 10
          · rw [if_pos h10, if_pos h10]
            exact ih f2 _ _ (by omega) (by omega)
          · rw [if_neg h10, if_neg h10]
            cases face.advance_x (utf8_decode p).1 with
            | none => exact ih f2 _ _ (by omega) (by omega)
            | some a => exact ih f2 _ _ (by omega) (by omega)

theorem wrap_loop_succ (measure : List Nat → Option Int)
    (line_height x y max_width max_height : Int) (fuel : Nat) (p : List Nat) (s : wrap_state) :
    wrap_loop measure line_height x y max_width max_height (fuel + 1) p s
      = if p.headD 0 = 0 then wrap_result.drawn (draw_last_line x s)
        else
          match place_word measure line_height x y max_width max_height s
              (p.takeWhile is_word_byte) with
          | word_outcome.overrun => wrap_result.overrun
          | word_outcome.unmeasured => wrap_result.unmeasured
          | word_outcome.stops s1 => wrap_result.drawn (draw_last_line x s1)
          | word_outcome.continues s1 =>
            wrap_loop measure line_height x y max_width max_height fuel (next_word_start p)
              (end_of_round line_height x p s1) := rfl

theorem place_word_empty_line (measure : List Nat → Int)
    (line_height x y max_width max_height : Int) (s : wrap_state) (word : List Nat)
    (hs : s.line = []) (hw : word.length ≤ 511) :
    place_word (fun l => some (measure l)) line_height x y max_width max_height s word
      = word_outcome.continues { s with line := word } := by
  unfold place_word
  dsimp only
  have hl : ¬ s.line.length > 0 := by rw [hs]; decide
  have htake : (s.line ++ (if s.line.length > 0 then [32] else []) ++ word).take 511
      = word := by
    rw [if_neg hl, hs, List.nil_append, List.nil_append]
    exact List.take_of_length_le hw
  rw [htake, if_neg (fun h => hl h.2)]

theorem place_word_same_state (s : wrap_state) (hs : s.line = []) :
    ({ s with line := [] } : wrap_state) = s := by
  cases s
  simp only at hs
  subst hs
  rfl

theorem place_word_nonempty_line (measure : List Nat → Int)
    (line_height x y max_width max_height : Int) (s : wrap_state) (word : List Nat)
    (hs : s.line ≠ []) (hw : s.line.length + 1 + word.length ≤ 511) :
    place_word (fun l => some (measure l)) line_height x y max_width max_height s word
      = if measure (s.line ++ 32 :: word) > max_width then
          (if wrap32 (wrap32 (s.current_y + line_height) + line_height)
              > wrap32 (y + max_height) then
            word_outcome.stops
              { line := s.line, current_y := wrap32 (s.current_y + line_height),
                drawn := s.drawn ++ [(x, s.current_y, s.line)] }
          else
            word_outcome.continues
              { line := word, current_y := wrap32 (s.current_y + line_height),
                drawn := s.drawn ++ [(x, s.current_y, s.line)] })
        else word_outcome.continues { s with line := s.line ++ 32 :: word } := by
  unfold place_word
  dsimp only
  have hl : s.line.length > 0 := List.length_pos.mpr hs
  have htake : (s.line ++ (if s.line.length > 0 then [32] else []) ++ word).take 511
      = s.line ++ 32 :: word := by
    rw [if_pos hl, List.append_assoc, List.singleton_append]
    apply List.take_of_length_le
    rw [List.length_append, List.length_cons]
    omega
  rw [htake]
  by_cases hm : measure (s.line ++ 32 :: word) > max_width
  · rw [if_pos ⟨hm, hl⟩, if_pos hm, if_neg (show ¬ word.length > 511 by omega)]
  · rw [if_neg (fun h => hm h.1), if_neg hm]

theorem span_word_newline (A R : List Nat) (hA : ∀ c ∈ A, is_word_byte c = true) :
    (A ++ 10 :: R).takeWhile is_word_byte = A ∧
    (A ++ 10 :: R).dropWhile is_word_byte = 10 :: R := by
  induction A with
  | nil => exact ⟨rfl, rfl⟩
  | cons a A ih =>
    have ha : is_word_byte a = true := hA a (List.mem_cons_self a A)
    obtain ⟨h1, h2⟩ := ih (fun c hc => hA c (List.mem_cons_of_mem a hc))
    rw [List.cons_append, List.takeWhile_cons, List.dropWhile_cons, if_pos ha, if_pos ha, h1,
      h2]
    exact ⟨rfl, rfl⟩

/-- Newlines met while the line is empty change nothing. -/
theorem newlines_on_empty_line (measure : List Nat → Int)
    (line_height x y max_width max_height : Int) (fuel : Nat) (rest : List Nat) :
    ∀ (n : Nat) (s : wrap_state), s.line = [] →
      wrap_loop (fun l => some (measure l)) line_height x y max_width max_height (fuel + n)
          (List.replicate n 10 ++ rest) s
        = wrap_loop (fun l => some (measure l)) line_height x y max_width max_height fuel
            rest s := by
  intro n
  induction n with
  | zero => intro s _; rfl
  | succ n ih =>
    intro s hs
    have hspan := span_word_newline [] (List.replicate n 10 ++ rest)
      (fun c hc => by cases hc)
    rw [List.nil_append] at hspan
    rw [List.replicate_succ, List.cons_append, ← Nat.add_assoc, wrap_loop_succ,
      if_neg (show ¬ (10 :: (List.replicate n 10 ++ rest)).headD 0 = 0 from
        fun h => absurd (show (10 : Nat) = 0 from h) (by decide)),
      hspan.1, place_word_empty_line measure line_height x y max_width max_height s [] hs
        (by decide), place_word_same_state s hs]
    have hnext : next_word_start (10 :: (List.replicate n 10 ++ rest))
        = List.replicate n 10 ++ rest := by
      unfold next_word_start
      rw [hspan.2]
      rfl
    have hend : end_of_round line_height x (10 :: (List.replicate n 10 ++ rest)) s = s := by
      unfold end_of_round
      rw [hspan.2]
      unfold newline_break
      rw [hs]
      rfl
    show wrap_loop (fun l => some (measure l)) line_height x y max_width max_height (fuel + n)
      (next_word_start (10 :: (List.replicate n 10 ++ rest)))
      (end_of_round line_height x (10 :: (List.replicate n 10 ++ rest)) s) = _
    rw [hnext, hend]
    exact ih s hs

/-- The model of the loop never runs out of rounds. -/
theorem wrap_loop_ends (measure : List Nat → Option Int)
    (line_height x y max_width max_height : Int) :
    ∀ (fuel : Nat) (p : List Nat) (s : wrap_state), p.length < fuel →
      wrap_loop measure line_height x y max_width max_height fuel p s
        ≠ wrap_result.out_of_fuel := by
  intro fuel
  induction fuel with
  | zero => intro p s h; omega
  | succ fuel ih =>
    intro p s hf
    unfold wrap_loop
    by_cases hp : p.headD 0 = 0
    · rw [if_pos hp]
      simp
    · rw [if_neg hp]
      have hlt := next_word_start_lt p hp
      cases place_word measure line_height x y max_width max_height s
          (p.takeWhile is_word_byte) with
      | overrun => simp
      | unmeasured => simp
      | stops s1 => simp
      | continues s1 => exact ih _ _ (by omega)

end WeAct
